import Mathlib

/-!
# Mono1 particle system: a shallow embedding

The definitions below follow `src/Particle/ParticleSystem.cpp` function by function.

Conventions of the embedding:

* `float` values are rationals (`ℚ`): the finite values of the type. The float arithmetic of
  `UpdateEmitter` (lines 178-192), of `DefaultUpdater`, of the damping factor (line 141) and
  of the frame delta (`Engine.cpp` line 98) is binary32 arithmetic: every operation rounds to
  the nearest binary32 value, ties to even (`roundF32`), one operation at a time, and has no
  result (`none`) when the rounded value is not finite. A conversion of a `float` to
  `uint32_t` outside the range on which the language defines it has no result in
  `UpdateEmitter`; in `Engine::Run` the value that it leaves is an input of the pass.
* The other float operations (`life -= delta_s` at line 150, `float(delta_ms) / 1000.0f` at
  `Engine.cpp` line 123, the generators, and the operators of `Math/Vector.h`, whose bodies
  are not part of the sources at hand) are written without rounding; every concrete input
  used in an evaluation of them is chosen so that the outcome does not depend on rounding,
  and `float_delta_s` bounds the distance of the binary32 value of line 123 from the
  quotient written here.
* `uint32_t` values are natural numbers; where the source can wrap (`pool_size - 1`,
  `start_index + new_particles`) the arithmetic is written with an explicit `% 2 ^ 32`.
* `std::vector` is a `List`; an access outside the vector (undefined behaviour in the source)
  and a failed `assert` make the embedded function return `none`.
* A pointer to an emitter is the index of its slot in the emitter object pool.
-/

set_option autoImplicit false

namespace mono

/-! ## Data model -/

/-- The two-component vector of `Math/Vector.h`. -/
structure Vector where
  x : ℚ
  y : ℚ
deriving DecidableEq

/-- The value `math::ZeroVec`. -/
def ZeroVec : Vector := ⟨0, 0⟩

/-- The operator `Vector * float` declared in `Math/Vector.h`. -/
def Vector.scale (v : Vector) (value : ℚ) : Vector := ⟨v.x * value, v.y * value⟩

/-- The operator `Vector + Vector` declared in `Math/Vector.h`. -/
def Vector.add (left right : Vector) : Vector := ⟨left.x + right.x, left.y + right.y⟩

/-- Colour value `mono::Color::RGBA` (only forward-declared in `Rendering/RenderFwd.h`). -/
structure RGBA where
  red : ℚ
  green : ℚ
  blue : ℚ
  alpha : ℚ
deriving DecidableEq

/-- Colour gradient `mono::Color::Gradient<4>`: stop positions and the colour at each stop. -/
structure Gradient where
  stops : List ℚ
  color : List RGBA
deriving DecidableEq

/-- The references bundled by `ParticlePoolComponentView`, in the order of `MakeViewFromPool`. -/
structure ParticlePoolComponentView where
  position : Vector
  velocity : Vector
  rotation : ℚ
  angular_velocity : ℚ
  color : RGBA
  gradient : Gradient
  size : ℚ
  start_size : ℚ
  end_size : ℚ
  life : ℚ
  start_life : ℚ
deriving DecidableEq

/-- A `ParticleUpdater`: it receives the view of one particle and the step, and writes the
view. It has no result (`none`) when its float arithmetic leaves the finite values. -/
abbrev ParticleUpdater := ParticlePoolComponentView → ℚ → Option ParticlePoolComponentView

/-- A `ParticleGenerator`: it receives the spawn position and the view of one slot, and writes
the view. -/
abbrev ParticleGenerator := Vector → ParticlePoolComponentView → ParticlePoolComponentView

/-- The struct-of-arrays particle pool `ParticlePoolComponent`. -/
structure ParticlePoolComponent where
  position : List Vector
  velocity : List Vector
  rotation : List ℚ
  angular_velocity : List ℚ
  color : List RGBA
  gradient : List Gradient
  size : List ℚ
  start_size : List ℚ
  end_size : List ℚ
  life : List ℚ
  start_life : List ℚ
  pool_size : Nat
  count_alive : Nat
  particle_damping : ℚ
  update_function : ParticleUpdater

/-- The enumeration `mono::EmitterType`. -/
inductive EmitterType where
  | CONTINOUS
  | BURST
  | BURST_REMOVE_ON_FINISH
deriving DecidableEq

/-- The emitter state `ParticleEmitterComponent`. -/
structure ParticleEmitterComponent where
  position : Vector
  duration : ℚ
  elapsed_time : ℚ
  carry_over : ℚ
  emit_rate : ℚ
  burst_emitted : Bool
  type : EmitterType
  generator : ParticleGenerator

/-- An entry of `m_deferred_release_emitter`. -/
structure DeferredReleasEmitter where
  pool_id : Nat
  emitter : Nat
deriving DecidableEq

/-- The part of `mono::UpdateContext` written by the frame driver. -/
structure UpdateContext where
  frame_count : Nat
  delta_ms : Nat
  delta_s : ℚ
  timestamp : Nat
deriving DecidableEq

/-! ## Machine arithmetic -/

/-- The number of `uint32_t` values. -/
def U32 : Nat := 2 ^ 32

/-- Addition of two `uint32_t` values. -/
def addU32 (a b : Nat) : Nat := (a + b) % U32

/-- Subtraction of two `uint32_t` values. -/
def subU32 (a b : Nat) : Nat := (a + U32 - b % U32) % U32

/-! ## Binary32 arithmetic -/

/-- Rounding to the nearest integer, ties to the even one. -/
def roundHalfEven (x : ℚ) : ℤ :=
  if x - ⌊x⌋ < 1 / 2 then ⌊x⌋
  else if 1 / 2 < x - ⌊x⌋ then ⌊x⌋ + 1
  else if ⌊x⌋ % 2 = 0 then ⌊x⌋ else ⌊x⌋ + 1

/-- The power of two with exponent `k`. -/
def pow2 (k : ℤ) : ℚ :=
  if 0 ≤ k then ((2 ^ k.toNat : Nat) : ℚ) else ((2 ^ (-k).toNat : Nat) : ℚ)⁻¹

/-- The position of the leading binary digit of `n`, found by halving `n` at most `fuel`
times; `fuel = n` is always enough. -/
def log2Upto : Nat → Nat → Nat
  | 0, _ => 0
  | fuel + 1, n => if n < 2 then 0 else log2Upto fuel (n / 2) + 1

/-- The exponent `k` with `2 ^ k ≤ |x| < 2 ^ (k + 1)`, for `x ≠ 0`. -/
def binade (x : ℚ) : ℤ :=
  let k : ℤ := (log2Upto x.num.natAbs x.num.natAbs : ℤ) - (log2Upto x.den x.den : ℤ)
  if pow2 k ≤ |x| then k else k - 1

/-- The binary32 value of a real result: the nearest multiple of the spacing of the binary32
values around `x` (24 significant bits, exponents from -126 on, so that the spacing is never
below `2 ^ (-149)`), ties to the even multiple. There is no finite value (`none`) when the
rounded magnitude reaches `2 ^ 128`. -/
def roundF32 (x : ℚ) : Option ℚ :=
  if x = 0 then some 0
  else
    let spacing : ℚ := pow2 (max (binade x) (-126) - 23)
    let rounded : ℚ := (roundHalfEven (x / spacing) : ℚ) * spacing
    if |rounded| < pow2 128 then some rounded else none

/-- The `float` sum `left + right`. -/
def fadd (left right : ℚ) : Option ℚ := roundF32 (left + right)

/-- The `float` difference `left - right`. -/
def fsub (left right : ℚ) : Option ℚ := roundF32 (left - right)

/-- The `float` product `left * right`. -/
def fmul (left right : ℚ) : Option ℚ := roundF32 (left * right)

/-- The `float` quotient `left / right`; a division by zero has no finite value. -/
def fdiv (left right : ℚ) : Option ℚ := if right = 0 then none else roundF32 (left / right)

/-- Conversion of a `float` to `uint32_t`: the value is truncated toward zero. The conversion
is defined when the truncated value fits the type, that is for `-1 < x < 2 ^ 32`; outside
that interval the source has undefined behaviour (`none`). -/
def toUint32 (x : ℚ) : Option Nat :=
  if -1 < x ∧ x < (U32 : ℚ) then some ⌊x⌋.toNat else none

/-! ## Helpers of the anonymous namespace -/

/-- The effect of `std::swap(v[first], v[second])` on a vector. -/
def swapElems {α : Type} (v : List α) (first second : Nat) : Option (List α) :=
  match v[first]?, v[second]? with
  | some a, some b => some ((v.set first b).set second a)
  | _, _ => none

/-- `Swap` (ParticleSystem.cpp lines 16-27): nine `std::swap` calls, in source order. -/
def Swap (pool_component : ParticlePoolComponent) (first second : Nat) :
    Option ParticlePoolComponent := do
  let position ← swapElems pool_component.position first second
  let velocity ← swapElems pool_component.velocity first second
  let rotation ← swapElems pool_component.rotation first second
  let angular_velocity ← swapElems pool_component.angular_velocity first second
  let color ← swapElems pool_component.color first second
  let gradient ← swapElems pool_component.gradient first second
  let start_life ← swapElems pool_component.start_life first second
  let life ← swapElems pool_component.life first second
  let size ← swapElems pool_component.size first second
  pure { pool_component with
    position := position, velocity := velocity, rotation := rotation,
    angular_velocity := angular_velocity, color := color, gradient := gradient,
    start_life := start_life, life := life, size := size }

/-- `WakeParticle` (lines 29-36). -/
def WakeParticle (pool_component : ParticlePoolComponent) (index : Nat) :
    Option ParticlePoolComponent :=
  if pool_component.count_alive < pool_component.pool_size then do
    let swapped ← Swap pool_component index pool_component.count_alive
    pure { swapped with count_alive := swapped.count_alive + 1 }
  else
    some pool_component

/-- `IsDone` (lines 38-44). -/
def IsDone (emitter_component : ParticleEmitterComponent) : Bool :=
  if emitter_component.type = EmitterType.BURST
      ∨ emitter_component.type = EmitterType.BURST_REMOVE_ON_FINISH then
    emitter_component.burst_emitted
  else
    decide (emitter_component.duration > 0
      ∧ emitter_component.elapsed_time > emitter_component.duration)

/-- `MakeViewFromPool` (lines 46-65): the eleven entries of slot `index`. -/
def MakeViewFromPool (particle_pool : ParticlePoolComponent) (index : Nat) :
    Option ParticlePoolComponentView := do
  let position ← particle_pool.position[index]?
  let velocity ← particle_pool.velocity[index]?
  let rotation ← particle_pool.rotation[index]?
  let angular_velocity ← particle_pool.angular_velocity[index]?
  let color ← particle_pool.color[index]?
  let gradient ← particle_pool.gradient[index]?
  let size ← particle_pool.size[index]?
  let start_size ← particle_pool.start_size[index]?
  let end_size ← particle_pool.end_size[index]?
  let life ← particle_pool.life[index]?
  let start_life ← particle_pool.start_life[index]?
  pure { position := position, velocity := velocity, rotation := rotation,
         angular_velocity := angular_velocity, color := color, gradient := gradient,
         size := size, start_size := start_size, end_size := end_size,
         life := life, start_life := start_life }

/-- Writing through the references of a view: the eleven entries of slot `index` receive the
fields of `view`. -/
def storeView (particle_pool : ParticlePoolComponent) (index : Nat)
    (view : ParticlePoolComponentView) : ParticlePoolComponent :=
  { particle_pool with
    position := particle_pool.position.set index view.position
    velocity := particle_pool.velocity.set index view.velocity
    rotation := particle_pool.rotation.set index view.rotation
    angular_velocity := particle_pool.angular_velocity.set index view.angular_velocity
    color := particle_pool.color.set index view.color
    gradient := particle_pool.gradient.set index view.gradient
    size := particle_pool.size.set index view.size
    start_size := particle_pool.start_size.set index view.start_size
    end_size := particle_pool.end_size.set index view.end_size
    life := particle_pool.life.set index view.life
    start_life := particle_pool.start_life.set index view.start_life }

/-! ## Emitters -/

/-- What one `UpdateEmitter` call leaves behind: the deferred-release queue, the emitter it was
given and the particle pool it was given. -/
structure EmitterStep where
  deferred : List DeferredReleasEmitter
  emitter : ParticleEmitterComponent
  pool : ParticlePoolComponent

/-- The value of `new_particles` computed at lines 180-192: the `float` product of line 183,
or the `float` product of line 187 of the step and the `float` sum of rate and carry-over,
converted to `uint32_t`. -/
def newParticles (emitter : ParticleEmitterComponent) (update_context : UpdateContext) :
    Option Nat :=
  if emitter.type = EmitterType.BURST ∨ emitter.type = EmitterType.BURST_REMOVE_ON_FINISH then
    (fmul emitter.emit_rate emitter.duration).bind toUint32
  else
    ((fadd emitter.emit_rate emitter.carry_over).bind (fmul update_context.delta_s)).bind
      toUint32

/-- The value of `carry_over` after lines 180-192, when `new_particles` has been computed. -/
def nextCarryOver (emitter : ParticleEmitterComponent) (new_particles : Nat) : Option ℚ :=
  if emitter.type = EmitterType.BURST ∨ emitter.type = EmitterType.BURST_REMOVE_ON_FINISH then
    some emitter.carry_over
  else if new_particles = 0 then
    fadd emitter.carry_over emitter.emit_rate
  else
    some 0

/-- The value of `end_index` at line 195. -/
def endIndex (particle_pool : ParticlePoolComponent) (new_particles : Nat) : Nat :=
  min (addU32 particle_pool.count_alive new_particles) (subU32 particle_pool.pool_size 1)

/-- The slots visited by each of the two loops at lines 197-204. -/
def spawnRange (particle_pool : ParticlePoolComponent) (new_particles : Nat) : List Nat :=
  List.range' particle_pool.count_alive
    (endIndex particle_pool new_particles - particle_pool.count_alive)

/-- One iteration of the loop at lines 197-201. -/
def generateAt (generator : ParticleGenerator) (position : Vector)
    (particle_pool : ParticlePoolComponent) (index : Nat) : Option ParticlePoolComponent := do
  let view ← MakeViewFromPool particle_pool index
  pure (storeView particle_pool index (generator position view))

/-- The emitter as lines 178-192 and 206 leave it. -/
def emitterAfter (emitter : ParticleEmitterComponent) (update_context : UpdateContext) :
    Option ParticleEmitterComponent := do
  let elapsed_time ← fadd emitter.elapsed_time update_context.delta_s
  let new_particles ← newParticles emitter update_context
  let carry_over ← nextCarryOver emitter new_particles
  pure { emitter with
    elapsed_time := elapsed_time
    carry_over := carry_over
    burst_emitted := true }

/-- Lines 194-204 for a given value of `new_particles`: the generator writes the slots of the
spawn range, then `WakeParticle` is called for each of them. -/
def spawnParticles (generator : ParticleGenerator) (position : Vector)
    (particle_pool : ParticlePoolComponent) (new_particles : Nat) :
    Option ParticlePoolComponent := do
  let slots := spawnRange particle_pool new_particles
  let generated ← slots.foldlM (generateAt generator position) particle_pool
  slots.foldlM WakeParticle generated

/-- `ParticleSystem::UpdateEmitter` (lines 169-207), on the three objects it reads and writes:
the deferred-release queue, the emitter behind the pointer `handle` and the particle pool. -/
def UpdateEmitter (deferred : List DeferredReleasEmitter) (handle : Nat)
    (emitter : ParticleEmitterComponent) (particle_pool : ParticlePoolComponent)
    (pool_id : Nat) (update_context : UpdateContext) : Option EmitterStep :=
  if IsDone emitter then
    if emitter.type = EmitterType.BURST_REMOVE_ON_FINISH then
      some ⟨deferred ++ [⟨pool_id, handle⟩], emitter, particle_pool⟩
    else
      some ⟨deferred, emitter, particle_pool⟩
  else do
    let updated ← emitterAfter emitter update_context
    let new_particles ← newParticles emitter update_context
    let woken ← spawnParticles emitter.generator emitter.position particle_pool new_particles
    pure ⟨deferred, updated, woken⟩

/-! ## The per-pool passes of `Update` -/

/-- One iteration of the loop at lines 138-145. -/
def advanceAt (delta_s : ℚ) (pool_component : ParticlePoolComponent) (index : Nat) :
    Option ParticlePoolComponent := do
  let velocity ← pool_component.velocity[index]?
  let factor ← fsub 1 pool_component.particle_damping
  let damped := { pool_component with
    velocity := pool_component.velocity.set index (velocity.scale factor) }
  let view ← MakeViewFromPool damped index
  let updated ← damped.update_function view delta_s
  pure (storeView damped index updated)

/-- The loop at lines 138-145; the bound `count_alive` is not written inside it. -/
def advancePass (delta_s : ℚ) (pool_component : ParticlePoolComponent) :
    Option ParticlePoolComponent :=
  (List.range pool_component.count_alive).foldlM (advanceAt delta_s) pool_component

/-- The body of the loop at lines 147-157 at position `index`. -/
def reapAt (delta_s : ℚ) (pool_component : ParticlePoolComponent) (index : Nat) :
    Option ParticlePoolComponent := do
  let life ← pool_component.life[index]?
  let aged := { pool_component with life := pool_component.life.set index (life - delta_s) }
  if life - delta_s ≤ 0 ∧ aged.count_alive > 0 then
    Swap { aged with count_alive := aged.count_alive - 1 } index (aged.count_alive - 1)
  else
    pure aged

/-- The loop at lines 147-157 from position `index` on. The loop condition is evaluated before
every iteration; `fuel` bounds the number of iterations still to run. -/
def reapFrom (delta_s : ℚ) : Nat → Nat → ParticlePoolComponent → Option ParticlePoolComponent
  | 0, _, pool_component => some pool_component
  | fuel + 1, index, pool_component =>
    if index < pool_component.count_alive then
      (reapAt delta_s pool_component index).bind (reapFrom delta_s fuel (index + 1))
    else
      some pool_component

/-- The loop at lines 147-157. Each iteration increases `index` and never increases
`count_alive`, so `count_alive` iterations are enough (`reapFrom_fuel`). -/
def reapPass (delta_s : ℚ) (pool_component : ParticlePoolComponent) :
    Option ParticlePoolComponent :=
  reapFrom delta_s pool_component.count_alive 0 pool_component

/-! ## The particle system -/

/-- Modelled from the spec: the emitter object pool `ObjectPool<ParticleEmitterComponent>`
(`Util/ObjectPool.h` is not part of the sources at hand). The spec describes "a generic
fixed-capacity free-list allocator that hands out emitter-state slots and reclaims them":
`m_data` is the fixed storage and `m_free_indices` the free list. -/
structure ObjectPool where
  m_data : List ParticleEmitterComponent
  m_free_indices : List Nat

/-- Modelled from the spec: `ObjectPool::GetPoolData` hands out a free slot, or nothing when
the free list is empty. -/
def ObjectPool.GetPoolData (object_pool : ObjectPool) : Option (Nat × ObjectPool) :=
  match object_pool.m_free_indices with
  | [] => none
  | slot :: rest => some (slot, { object_pool with m_free_indices := rest })

/-- Modelled from the spec: `ObjectPool::ReleasePoolData` puts a slot back on the free list. -/
def ObjectPool.ReleasePoolData (object_pool : ObjectPool) (slot : Nat) : ObjectPool :=
  { object_pool with m_free_indices := slot :: object_pool.m_free_indices }

/-- Modelled from the spec: `ObjectPool::Used`, the number of slots handed out. -/
def ObjectPool.Used (object_pool : ObjectPool) : Nat :=
  object_pool.m_data.length - object_pool.m_free_indices.length

/-- Modelled from the spec: `mono::remove` of `Util/Algorithm.h` (not part of the sources at
hand) detaches an element from a vector. -/
def remove (collection : List Nat) (object : Nat) : List Nat :=
  collection.filter (fun item => item ≠ object)

/-- The enumeration `ParticleTransformSpace`. -/
inductive ParticleTransformSpace where
  | WORLD
  | LOCAL
deriving DecidableEq

/-- The draw state `ParticleDrawerComponent`; a texture is a handle and `none` is `nullptr`,
a blend mode is the number of its enumerator. -/
structure ParticleDrawerComponent where
  texture : Option Nat
  blend_mode : Nat
  transform_space : ParticleTransformSpace
deriving DecidableEq

/-- The data members of `ParticleSystem`. -/
structure ParticleSystem where
  m_particle_pools : List ParticlePoolComponent
  m_particle_drawers : List ParticleDrawerComponent
  m_active_pools : List Bool
  m_particle_emitters : ObjectPool
  m_particle_pools_emitters : List (List Nat)
  m_deferred_release_emitter : List DeferredReleasEmitter

/-- A value-initialised `ParticlePoolComponent`. -/
def emptyPool : ParticlePoolComponent :=
  { position := [], velocity := [], rotation := [], angular_velocity := [], color := [],
    gradient := [], size := [], start_size := [], end_size := [], life := [], start_life := [],
    pool_size := 0, count_alive := 0, particle_damping := 0,
    update_function := fun view _ => some view }

/-- A value-initialised `ParticleEmitterComponent`. -/
def emptyEmitter : ParticleEmitterComponent :=
  { position := ZeroVec, duration := 0, elapsed_time := 0, carry_over := 0, emit_rate := 0,
    burst_emitted := false, type := EmitterType.CONTINOUS, generator := fun _ view => view }

/-- The constructor `ParticleSystem(count, n_emitters)` (lines 103-109). -/
def ParticleSystem.create (count n_emitters : Nat) : ParticleSystem :=
  { m_particle_pools := List.replicate count emptyPool
    m_particle_drawers := List.replicate count ⟨none, 0, ParticleTransformSpace.WORLD⟩
    m_active_pools := List.replicate count false
    m_particle_emitters := ⟨List.replicate n_emitters emptyEmitter, List.range n_emitters⟩
    m_particle_pools_emitters := List.replicate count []
    m_deferred_release_emitter := [] }

/-- The effect of `std::vector::resize(n)`: the first `n` elements are kept and the vector is
filled up to length `n` with value-initialised elements. -/
def resize {α : Type} (v : List α) (n : Nat) (value : α) : List α :=
  v.take n ++ List.replicate (n - v.length) value

/-- The eleven `resize` calls and four assignments shared by `AllocatePool` (lines 220-235)
and `SetPoolData` (lines 263-278). -/
def resetPool (particle_pool : ParticlePoolComponent) (pool_size : Nat)
    (update_function : ParticleUpdater) (particle_damping : ℚ) : ParticlePoolComponent :=
  { position := resize particle_pool.position pool_size ZeroVec
    velocity := resize particle_pool.velocity pool_size ZeroVec
    rotation := resize particle_pool.rotation pool_size 0
    angular_velocity := resize particle_pool.angular_velocity pool_size 0
    color := resize particle_pool.color pool_size ⟨0, 0, 0, 0⟩
    gradient := resize particle_pool.gradient pool_size ⟨[], []⟩
    size := resize particle_pool.size pool_size 0
    start_size := resize particle_pool.start_size pool_size 0
    end_size := resize particle_pool.end_size pool_size 0
    start_life := resize particle_pool.start_life pool_size 0
    life := resize particle_pool.life pool_size 0
    pool_size := pool_size
    count_alive := 0
    update_function := update_function
    particle_damping := particle_damping }

/-- `ParticleSystem::AllocatePool(id, pool_size, update_function)` (lines 214-240). -/
def ParticleSystem.AllocatePool (system : ParticleSystem) (id pool_size : Nat)
    (update_function : ParticleUpdater) : Option ParticleSystem := do
  let is_active ← system.m_active_pools[id]?
  if is_active then
    none
  else
    let particle_pool ← system.m_particle_pools[id]?
    pure { system with
      m_particle_pools :=
        system.m_particle_pools.set id (resetPool particle_pool pool_size update_function 0)
      m_active_pools := system.m_active_pools.set id true }

/-- `ParticleSystem::ReleasePool` (lines 242-256). -/
def ParticleSystem.ReleasePool (system : ParticleSystem) (id : Nat) : Option ParticleSystem := do
  let is_active ← system.m_active_pools[id]?
  if is_active then
    let attached_emitters ← system.m_particle_pools_emitters[id]?
    let draw_component ← system.m_particle_drawers[id]?
    pure { system with
      m_particle_emitters :=
        attached_emitters.foldl ObjectPool.ReleasePoolData system.m_particle_emitters
      m_particle_pools_emitters := system.m_particle_pools_emitters.set id []
      m_particle_drawers :=
        system.m_particle_drawers.set id { draw_component with texture := none }
      m_active_pools := system.m_active_pools.set id false }
  else
    none

/-- `ParticleSystem::SetPoolDrawData` (lines 292-298). -/
def ParticleSystem.SetPoolDrawData (system : ParticleSystem) (pool_id : Nat)
    (texture : Option Nat) (blend_mode : Nat) (transform_space : ParticleTransformSpace) :
    Option ParticleSystem := do
  let _ ← system.m_particle_drawers[pool_id]?
  pure { system with
    m_particle_drawers :=
      system.m_particle_drawers.set pool_id ⟨texture, blend_mode, transform_space⟩ }

/-- `ParticleSystem::SetPoolData` (lines 258-282); `texture` is what the texture factory
returns for the file name. -/
def ParticleSystem.SetPoolData (system : ParticleSystem) (id pool_size : Nat)
    (texture : Option Nat) (blend_mode : Nat) (transform_space : ParticleTransformSpace)
    (particle_damping : ℚ) (update_function : ParticleUpdater) : Option ParticleSystem := do
  let particle_pool ← system.m_particle_pools[id]?
  let resized := { system with
    m_particle_pools := system.m_particle_pools.set id
      (resetPool particle_pool pool_size update_function particle_damping) }
  resized.SetPoolDrawData id texture blend_mode transform_space

/-- `ParticleSystem::GetPool` (lines 284-290). -/
def ParticleSystem.GetPool (system : ParticleSystem) (id : Nat) :
    Option ParticlePoolComponent := do
  let is_active ← system.m_active_pools[id]?
  if is_active then system.m_particle_pools[id]? else none

/-- `ParticleSystem::AttachEmitter` (lines 300-319). The outer `Option` is a fault, the inner
one the returned pointer (`none` is `nullptr`). -/
def ParticleSystem.AttachEmitter (system : ParticleSystem) (pool_id : Nat) (position : Vector)
    (duration emit_rate : ℚ) (emitter_type : EmitterType) (generator : ParticleGenerator) :
    Option (ParticleSystem × Option Nat) :=
  match system.m_particle_emitters.GetPoolData with
  | none => some (system, none)
  | some (emitter, object_pool) => do
    let _ ← object_pool.m_data[emitter]?
    let attached ← system.m_particle_pools_emitters[pool_id]?
    pure ({ system with
      m_particle_emitters := { object_pool with
        m_data := object_pool.m_data.set emitter
          { position := position, duration := duration, elapsed_time := 0, carry_over := 0,
            emit_rate := emit_rate, burst_emitted := false, type := emitter_type,
            generator := generator } }
      m_particle_pools_emitters :=
        system.m_particle_pools_emitters.set pool_id (attached ++ [emitter]) },
      some emitter)

/-- `ParticleSystem::ReleaseEmitter` (lines 329-333). -/
def ParticleSystem.ReleaseEmitter (system : ParticleSystem) (pool_id emitter : Nat) :
    Option ParticleSystem := do
  let attached ← system.m_particle_pools_emitters[pool_id]?
  pure { system with
    m_particle_emitters := system.m_particle_emitters.ReleasePoolData emitter
    m_particle_pools_emitters :=
      system.m_particle_pools_emitters.set pool_id (remove attached emitter) }

/-- `ParticleSystem::RestartEmitter` (lines 372-377), on the emitter it is given. -/
def RestartEmitter (emitter : ParticleEmitterComponent) : ParticleEmitterComponent :=
  { emitter with elapsed_time := 0, carry_over := 0, burst_emitted := false }

/-- `ParticleSystem::RestartEmitter` (lines 372-377), through the pointer `emitter`. -/
def ParticleSystem.RestartEmitter (system : ParticleSystem) (emitter : Nat) :
    Option ParticleSystem := do
  let component ← system.m_particle_emitters.m_data[emitter]?
  pure { system with
    m_particle_emitters := { system.m_particle_emitters with
      m_data := system.m_particle_emitters.m_data.set emitter
        (mono.RestartEmitter component) } }

/-- `ParticleSystem::GetAttachedEmitters` (lines 379-382). -/
def ParticleSystem.GetAttachedEmitters (system : ParticleSystem) (pool_id : Nat) :
    Option (List Nat) :=
  system.m_particle_pools_emitters[pool_id]?

/-- `ParticleSystem::Sync` (lines 161-167). -/
def ParticleSystem.Sync (system : ParticleSystem) : Option ParticleSystem := do
  let released ← system.m_deferred_release_emitter.foldlM
    (fun (current : ParticleSystem) (deferred_release : DeferredReleasEmitter) =>
      current.ReleaseEmitter deferred_release.pool_id deferred_release.emitter) system
  pure { released with m_deferred_release_emitter := [] }

/-- The call at line 136 for one attached emitter: `UpdateEmitter` on the emitter behind the
pointer, the pool of the current iteration and the deferred-release queue. -/
def ParticleSystem.updateAttached (pool_id : Nat) (update_context : UpdateContext)
    (state : ParticleSystem × ParticlePoolComponent) (emitter : Nat) :
    Option (ParticleSystem × ParticlePoolComponent) := do
  let component ← state.1.m_particle_emitters.m_data[emitter]?
  let step ← UpdateEmitter state.1.m_deferred_release_emitter emitter component state.2
    pool_id update_context
  pure ({ state.1 with
    m_particle_emitters := { state.1.m_particle_emitters with
      m_data := state.1.m_particle_emitters.m_data.set emitter step.emitter }
    m_deferred_release_emitter := step.deferred }, step.pool)

/-- One iteration of the loop over pools in `ParticleSystem::Update` (lines 126-158). -/
def ParticleSystem.updatePool (update_context : UpdateContext) (system : ParticleSystem)
    (active_pool_index : Nat) : Option ParticleSystem := do
  let is_active ← system.m_active_pools[active_pool_index]?
  if is_active then
    let pool_component ← system.m_particle_pools[active_pool_index]?
    let pool_emitters ← system.m_particle_pools_emitters[active_pool_index]?
    let emitted ← pool_emitters.foldlM
      (ParticleSystem.updateAttached active_pool_index update_context) (system, pool_component)
    let advanced ← advancePass update_context.delta_s emitted.2
    let reaped ← reapPass update_context.delta_s advanced
    pure { emitted.1 with
      m_particle_pools := emitted.1.m_particle_pools.set active_pool_index reaped }
  else
    pure system

/-- `ParticleSystem::Update` (lines 124-159). -/
def ParticleSystem.Update (system : ParticleSystem) (update_context : UpdateContext) :
    Option ParticleSystem :=
  (List.range system.m_active_pools.length).foldlM
    (ParticleSystem.updatePool update_context) system

/-! ## `DefaultUpdater` and the short `AllocatePool` -/

/-- `mono::DefaultUpdater` (lines 92-100), one `float` operation at a time. `ColorFromGradient`
of the colour utilities is not part of the sources at hand and is taken as the parameter
`color_from_gradient`. -/
def DefaultUpdater (color_from_gradient : Gradient → ℚ → RGBA) : ParticleUpdater :=
  fun component_view delta_s => do
    let ratio ← fdiv component_view.life component_view.start_life
    let t ← fsub 1 ratio
    let remaining ← fsub 1 t
    let from_start ← fmul remaining component_view.start_size
    let to_end ← fmul t component_view.end_size
    let size ← fadd from_start to_end
    let turned ← fmul component_view.angular_velocity delta_s
    let rotation ← fadd component_view.rotation turned
    pure { component_view with
      position := component_view.position.add (component_view.velocity.scale delta_s)
      color := color_from_gradient component_view.gradient t
      size := size
      rotation := rotation }

/-- `ParticleSystem::AllocatePool(id)` (lines 209-212). -/
def ParticleSystem.AllocatePoolDefault (color_from_gradient : Gradient → ℚ → RGBA)
    (system : ParticleSystem) (id : Nat) : Option ParticleSystem :=
  system.AllocatePool id 10 (DefaultUpdater color_from_gradient)

/-! ## Vocabulary of the statements -/

/-- All eleven attribute arrays of the pool have length `pool_size`, as `AllocatePool` and
`SetPoolData` leave them. -/
structure ParticlePoolComponent.WellFormed (pool : ParticlePoolComponent) : Prop where
  position : pool.position.length = pool.pool_size
  velocity : pool.velocity.length = pool.pool_size
  rotation : pool.rotation.length = pool.pool_size
  angular_velocity : pool.angular_velocity.length = pool.pool_size
  color : pool.color.length = pool.pool_size
  gradient : pool.gradient.length = pool.pool_size
  size : pool.size.length = pool.pool_size
  start_size : pool.start_size.length = pool.pool_size
  end_size : pool.end_size.length = pool.pool_size
  life : pool.life.length = pool.pool_size
  start_life : pool.start_life.length = pool.pool_size

/-- The four per-pool vectors have the same length, as the constructor leaves them. -/
structure ParticleSystem.Sized (system : ParticleSystem) : Prop where
  drawers : system.m_particle_drawers.length = system.m_particle_pools.length
  active : system.m_active_pools.length = system.m_particle_pools.length
  emitters : system.m_particle_pools_emitters.length = system.m_particle_pools.length

/-- The attribute tuples of the alive prefix `[0, count_alive)`, in slot order. -/
def aliveViews (pool : ParticlePoolComponent) : List (Option ParticlePoolComponentView) :=
  (List.range pool.count_alive).map (MakeViewFromPool pool)

/-- A call of the public interface of `ParticleSystem`. -/
inductive Call where
  | allocatePool (id pool_size : Nat) (update_function : ParticleUpdater)
  | setPoolData (id pool_size : Nat) (texture : Option Nat) (blend_mode : Nat)
      (transform_space : ParticleTransformSpace) (particle_damping : ℚ)
      (update_function : ParticleUpdater)
  | update (update_context : UpdateContext)
  | releasePool (id : Nat)
  | attachEmitter (pool_id : Nat) (position : Vector) (duration emit_rate : ℚ)
      (emitter_type : EmitterType) (generator : ParticleGenerator)
  | releaseEmitter (pool_id emitter : Nat)
  | sync

/-- The effect of one call on the system. -/
def ParticleSystem.call (system : ParticleSystem) : Call → Option ParticleSystem
  | .allocatePool id pool_size update_function =>
    system.AllocatePool id pool_size update_function
  | .setPoolData id pool_size texture blend_mode transform_space particle_damping
      update_function =>
    system.SetPoolData id pool_size texture blend_mode transform_space particle_damping
      update_function
  | .update update_context => system.Update update_context
  | .releasePool id => system.ReleasePool id
  | .attachEmitter pool_id position duration emit_rate emitter_type generator =>
    (system.AttachEmitter pool_id position duration emit_rate emitter_type generator).map
      Prod.fst
  | .releaseEmitter pool_id emitter => system.ReleaseEmitter pool_id emitter
  | .sync => system.Sync

/-- The effect of a sequence of calls. -/
def ParticleSystem.run (system : ParticleSystem) (calls : List Call) : Option ParticleSystem :=
  calls.foldlM ParticleSystem.call system

/-- Every pool of the system, active or not, has `count_alive ≤ pool_size`. -/
def ParticleSystem.AliveBounded (system : ParticleSystem) : Prop :=
  ∀ (id : Nat) (pool : ParticlePoolComponent),
    system.m_particle_pools[id]? = some pool → pool.count_alive ≤ pool.pool_size

/-- The sum of the `new_particles` values computed by `frames` consecutive `UpdateEmitter`
calls on one emitter; a call on a done emitter returns at line 175 and spawns nothing. -/
def totalSpawned (update_context : UpdateContext) :
    Nat → ParticleEmitterComponent → Option Nat
  | 0, _ => some 0
  | frames + 1, emitter =>
    if IsDone emitter then
      totalSpawned update_context frames emitter
    else do
      let new_particles ← newParticles emitter update_context
      let updated ← emitterAfter emitter update_context
      let later ← totalSpawned update_context frames updated
      pure (new_particles + later)

/-- The emitter after `frames` consecutive `UpdateEmitter` calls; a call on a done emitter
leaves it as it is. -/
def emitterAfterFrames (update_context : UpdateContext) :
    Nat → ParticleEmitterComponent → Option ParticleEmitterComponent
  | 0, emitter => some emitter
  | frames + 1, emitter =>
    if IsDone emitter then
      emitterAfterFrames update_context frames emitter
    else
      (emitterAfter emitter update_context).bind (emitterAfterFrames update_context frames)

/-- No `float` sum or product of lines 178-189 rounds during `frames` updates, with step
`delta_s`, of a Continuous emitter of rate `rate` that starts with `elapsed_time = 0` and
without carry-over: every multiple `k * delta_s` and `k * rate` with `k ≤ frames`, and the
product of `delta_s` and `k * rate`, is a binary32 value. -/
def ExactCarry (rate delta_s : ℚ) (frames : Nat) : Prop :=
  ∀ k : Nat, k ≤ frames →
    roundF32 ((k : ℚ) * delta_s) = some ((k : ℚ) * delta_s)
      ∧ roundF32 ((k : ℚ) * rate) = some ((k : ℚ) * rate)
      ∧ roundF32 (delta_s * ((k : ℚ) * rate)) = some (delta_s * ((k : ℚ) * rate))

/-- The slot whose entries `Swap(first, second)` brings to slot `index`. -/
def exchanged (first second index : Nat) : Nat :=
  if index = first then second else if index = second then first else index

/-- Slot `target` of `q` holds the position, velocity, rotation, angular velocity, colour,
gradient, size and start life that slot `source` of `p` holds. -/
def SameParticle (p : ParticlePoolComponent) (source : Nat) (q : ParticlePoolComponent)
    (target : Nat) : Prop :=
  q.position[target]? = p.position[source]?
    ∧ q.velocity[target]? = p.velocity[source]?
    ∧ q.rotation[target]? = p.rotation[source]?
    ∧ q.angular_velocity[target]? = p.angular_velocity[source]?
    ∧ q.color[target]? = p.color[source]?
    ∧ q.gradient[target]? = p.gradient[source]?
    ∧ q.size[target]? = p.size[source]?
    ∧ q.start_life[target]? = p.start_life[source]?

/-- The state of the reap loop on the pool `p` with step `delta_s`, when it has reached the
pool `q`: `origin` tells for every slot of `q` the slot of `p` its particle comes from and
`slot` where the particle of a slot of `p` is now; the slots that have left the alive prefix
hold particles whose life was at most `delta_s`. -/
structure ReapTracked (delta_s : ℚ) (p q : ParticlePoolComponent) (origin slot : Nat → Nat) :
    Prop where
  wellFormed : q.WellFormed
  pool_size : q.pool_size = p.pool_size
  count_alive : q.count_alive ≤ p.count_alive
  particle : ∀ j, SameParticle p (origin j) q j
  reaped : ∀ j, q.count_alive ≤ j → j < p.count_alive →
    ∃ life, p.life[origin j]? = some life ∧ life ≤ delta_s
  outside : ∀ j, p.count_alive ≤ j → origin j = j
  inverse : ∀ i, origin (slot i) = i

/-- Every handle is in at most one attached list, and there once; the free list of the emitter
object pool holds no slot twice and no attached handle. -/
structure ParticleSystem.HandlesDistinct (system : ParticleSystem) : Prop where
  nodup : ∀ (id : Nat) (attached : List Nat),
    system.m_particle_pools_emitters[id]? = some attached → attached.Nodup
  disjoint : ∀ (first second : Nat) (left right : List Nat), first ≠ second →
    system.m_particle_pools_emitters[first]? = some left →
    system.m_particle_pools_emitters[second]? = some right → ∀ e ∈ left, e ∉ right
  free_nodup : system.m_particle_emitters.m_free_indices.Nodup
  not_free : ∀ (id : Nat) (attached : List Nat),
    system.m_particle_pools_emitters[id]? = some attached →
    ∀ e ∈ attached, e ∉ system.m_particle_emitters.m_free_indices

/-- Every entry of `queue` names an emitter of the attached list of its pool id. -/
def ParticleSystem.QueuedAttached (system : ParticleSystem)
    (queue : List DeferredReleasEmitter) : Prop :=
  ∀ entry ∈ queue, ∃ attached,
    system.m_particle_pools_emitters[entry.pool_id]? = some attached
      ∧ entry.emitter ∈ attached

/-- The calls are `AllocatePool`, `AttachEmitter`, `Update` and `Sync` calls, and a `Sync` is
called between any two `Update` calls; `pending` tells whether an `Update` has been called
since the last `Sync`. -/
def syncedCalls : Bool → List Call → Bool
  | _, [] => true
  | pending, .allocatePool _ _ _ :: rest => syncedCalls pending rest
  | pending, .attachEmitter _ _ _ _ _ _ :: rest => syncedCalls pending rest
  | pending, .update _ :: rest => !pending && syncedCalls true rest
  | _, .sync :: rest => syncedCalls false rest
  | _, _ :: _ => false

/-! ## Concrete inputs used in the evaluations -/

/-- An update function that leaves the view as it is. -/
def keepView : ParticleUpdater := fun view _ => some view

/-- A generator that writes a fixed particle at the spawn position. -/
def fixedGenerator (life size start_size end_size : ℚ) : ParticleGenerator :=
  fun position view =>
    { view with
      position := position, velocity := ZeroVec, rotation := 0, angular_velocity := 0,
      size := size, start_size := start_size, end_size := end_size,
      life := life, start_life := life }

/-- An update context with step `delta_s`. -/
def contextOf (delta_s : ℚ) : UpdateContext :=
  { frame_count := 1, delta_ms := 0, delta_s := delta_s, timestamp := 0 }

/-- A pool of `lives.length` slots whose per-slot values are told apart by their slot:
slot `i` has size `10 + i`, start size `20 + i` and end size `30 + i`. -/
def poolOfLives (lives : List ℚ) (count_alive : Nat) : ParticlePoolComponent :=
  { position := (List.range lives.length).map (fun (i : Nat) => ⟨(i : ℚ), (i : ℚ)⟩)
    velocity := List.replicate lives.length ZeroVec
    rotation := List.replicate lives.length 0
    angular_velocity := List.replicate lives.length 0
    color := List.replicate lives.length ⟨0, 0, 0, 0⟩
    gradient := List.replicate lives.length ⟨[], []⟩
    size := (List.range lives.length).map (fun (i : Nat) => 10 + (i : ℚ))
    start_size := (List.range lives.length).map (fun (i : Nat) => 20 + (i : ℚ))
    end_size := (List.range lives.length).map (fun (i : Nat) => 30 + (i : ℚ))
    life := lives
    start_life := lives
    pool_size := lives.length
    count_alive := count_alive
    particle_damping := 0
    update_function := keepView }

/-- A system of one active pool and no emitter. -/
def systemOfPool (pool : ParticlePoolComponent) : ParticleSystem :=
  { ParticleSystem.create 1 0 with
    m_particle_pools := [pool]
    m_active_pools := [true] }

/-- The emitter that `AttachEmitter` writes for the given type, duration and rate. -/
def emitterOf (emitter_type : EmitterType) (duration emit_rate : ℚ) :
    ParticleEmitterComponent :=
  { position := ZeroVec, duration := duration, elapsed_time := 0, carry_over := 0,
    emit_rate := emit_rate, burst_emitted := false, type := emitter_type,
    generator := fixedGenerator 1 1 1 1 }

/-- What an observer sees of a pool: the alive count and the eleven arrays. -/
def observe (pool : ParticlePoolComponent) :
    Nat × List (Option ParticlePoolComponentView) :=
  (pool.count_alive, aliveViews pool)
/-- Three one-particle bursts with lives 3/8, 21/4 and 3/8 are admitted into a pool of four
slots and aged once by 1/4; the emitters are then released. -/
def threeParticleCalls : List Call :=
  [ .allocatePool 0 4 keepView,
    .attachEmitter 0 ZeroVec 1 1 .BURST (fixedGenerator (3 / 8) 1 1 1),
    .attachEmitter 0 ZeroVec 1 1 .BURST (fixedGenerator (21 / 4) 2 2 2),
    .attachEmitter 0 ZeroVec 1 1 .BURST (fixedGenerator (3 / 8) 3 3 3),
    .update (contextOf (1 / 4)),
    .releaseEmitter 0 0,
    .releaseEmitter 0 1,
    .releaseEmitter 0 2 ]

/-- Two one-particle bursts are admitted into a pool of four slots: particle A with life 3/8
and sizes 1, particle B with life 21/4 and sizes 2; two passes with step 1/4 follow. -/
def twoParticleCalls : List Call :=
  [ .allocatePool 0 4 keepView,
    .attachEmitter 0 ZeroVec 1 1 .BURST (fixedGenerator (3 / 8) 1 1 1),
    .attachEmitter 0 ZeroVec 1 1 .BURST (fixedGenerator (21 / 4) 2 2 2),
    .update (contextOf (1 / 4)),
    .update (contextOf (1 / 4)) ]

/-- The handle `emitter` occurs once in the attached list of `pool_id` and in no other
attached list. -/
def AttachedOnce (attached : List (List Nat)) (pool_id emitter : Nat) : Prop :=
  ∀ (id : Nat) (emitters : List Nat),
    attached[id]? = some emitters → emitters.count emitter = if id = pool_id then 1 else 0

/-- The slot `emitter` of the emitter object pool holds a BurstRemoveOnFinish emitter whose
`burst_emitted` flag is `flag`. -/
def HoldsBurstRemove (system : ParticleSystem) (emitter : Nat) (flag : Bool) : Prop :=
  ∃ component, system.m_particle_emitters.m_data[emitter]? = some component
    ∧ component.type = EmitterType.BURST_REMOVE_ON_FINISH ∧ component.burst_emitted = flag

/-- No entry of the deferred-release queue names `emitter`. -/
def NotQueued (system : ParticleSystem) (emitter : Nat) : Prop :=
  ∀ entry ∈ system.m_deferred_release_emitter, entry.emitter ≠ emitter

/-- The attached lists, the active flags and the free list of `current` are those of
`start`. -/
def SameShape (start current : ParticleSystem) : Prop :=
  current.m_particle_pools_emitters = start.m_particle_pools_emitters
    ∧ current.m_active_pools = start.m_active_pools
    ∧ current.m_particle_emitters.m_free_indices = start.m_particle_emitters.m_free_indices

/-- What the turn of one pool id leaves as it is: the pools of the inactive ids and the
emitters that are attached to no active pool. -/
def UntouchedBy (s t : ParticleSystem) : Prop :=
  SameShape s t
    ∧ (∀ (id : Nat), s.m_active_pools[id]? = some false →
        t.m_particle_pools[id]? = s.m_particle_pools[id]?)
    ∧ ∀ (e : Nat), (∀ (j : Nat) (emitters : List Nat), s.m_active_pools[j]? = some true →
          s.m_particle_pools_emitters[j]? = some emitters → e ∉ emitters) →
        t.m_particle_emitters.m_data[e]? = s.m_particle_emitters.m_data[e]?

/-- One active pool of sixteen slots with one attached emitter of the given type, duration 2
and rate 5, which occupies the only slot of the emitter object pool. -/
def systemOfEmitter (emitter_type : EmitterType) : ParticleSystem :=
  { m_particle_pools := [poolOfLives (List.replicate 16 0) 0]
    m_particle_drawers := [⟨none, 0, ParticleTransformSpace.WORLD⟩]
    m_active_pools := [true]
    m_particle_emitters := ⟨[emitterOf emitter_type 2 5], []⟩
    m_particle_pools_emitters := [[0]]
    m_deferred_release_emitter := [] }

/-- What an observer sees of the emitters: the attached lists, the free slots of the emitter
object pool and the deferred-release queue. -/
def observeEmitters (system : ParticleSystem) :
    List (List Nat) × List Nat × List DeferredReleasEmitter :=
  (system.m_particle_pools_emitters, system.m_particle_emitters.m_free_indices,
    system.m_deferred_release_emitter)

/-- A pool of sixteen slots is allocated and a BurstRemoveOnFinish emitter with duration 2 and
rate 5, whose particles live 8 seconds, is attached to it; the emitter object pool has one
slot. -/
def burstRemoveCalls : List Call :=
  [ .allocatePool 0 16 keepView,
    .attachEmitter 0 ZeroVec 2 5 .BURST_REMOVE_ON_FINISH (fixedGenerator 8 1 1 1) ]

/-- A pool of 32 slots, a Burst emitter with duration 2 and rate 5 whose particles live 8
seconds, and two passes: the burst is emitted in the first one. -/
def burstCalls : List Call :=
  [ .allocatePool 0 32 keepView,
    .attachEmitter 0 ZeroVec 2 5 .BURST (fixedGenerator 8 1 1 1),
    .update (contextOf 1),
    .update (contextOf 1) ]

/-- Two pools of four slots, each with one attached Burst emitter of duration 2 and rate 1
whose particles live 8 seconds; pool 0 is inactive and pool 1 is active. -/
def twoPoolSystem : ParticleSystem :=
  { m_particle_pools := [poolOfLives (List.replicate 4 0) 0, poolOfLives (List.replicate 4 0) 0]
    m_particle_drawers := List.replicate 2 ⟨none, 0, ParticleTransformSpace.WORLD⟩
    m_active_pools := [false, true]
    m_particle_emitters :=
      ⟨[{ emitterOf .BURST 2 1 with generator := fixedGenerator 8 1 1 1 },
        { emitterOf .BURST 2 1 with generator := fixedGenerator 8 1 1 1 }], []⟩
    m_particle_pools_emitters := [[0], [1]]
    m_deferred_release_emitter := [] }

/-! ## Area emitters (`AttachAreaEmitter`, `SetGeneratorProperties`, `DefaultGenerator`) -/

/-- The constant `math::PI()` of `Math/MathFunctions.h`. -/
def PI : ℚ := 3.14159265358979323846264338327950288

/-- `math::ToRadians` of `Math/MathFunctions.h`. -/
def ToRadians (degrees : ℚ) : ℚ := degrees * PI / 180

/-- The operator `Vector / float` declared in `Math/Vector.h`. -/
def Vector.divide (left : Vector) (value : ℚ) : Vector := ⟨left.x / value, left.y / value⟩

/-- An interval with the members `min` and `max` read by `SetGeneratorProperties`. -/
structure Interval where
  min : ℚ
  max : ℚ
deriving DecidableEq

/-- A value with a spread, with the members `value` and `spread` read by
`SetGeneratorProperties`. -/
structure ValueSpread where
  value : ℚ
  spread : Interval
deriving DecidableEq

/-- The members of `ParticleGeneratorProperties` read by `SetGeneratorProperties`. -/
structure ParticleGeneratorProperties where
  emit_area : Vector
  direction_degrees_interval : Interval
  magnitude_interval : Interval
  angular_velocity_interval : Interval
  color_gradient : Gradient
  start_size_spread : ValueSpread
  end_size_spread : ValueSpread
  life_interval : Interval
deriving DecidableEq

/-- What the generators use and the sources at hand do not define: `mono::Random` of
`Util/Random.h` (here a sampling function of the call site within the generator and of the
two bounds), `math::VectorFromAngle`, and the four colour constants of `DefaultGenerator`. -/
structure GeneratorLibrary where
  Random : Nat → ℚ → ℚ → ℚ
  VectorFromAngle : ℚ → Vector
  RED : RGBA
  GREEN : RGBA
  BLUE : RGBA
  WHITE : RGBA

/-- `mono::DefaultGenerator` (lines 68-90). -/
def DefaultGenerator (library : GeneratorLibrary) : ParticleGenerator :=
  fun position particle_view =>
    let x := library.Random 0 (-2) 2
    let y := library.Random 1 (1 / 2) 4
    let life := library.Random 2 0 (1 / 2)
    { particle_view with
      position := position
      velocity := ⟨x, y⟩
      rotation := 0
      angular_velocity := 0
      gradient := ⟨[0, 1 / 4, 1 / 2, 1],
        [library.RED, library.GREEN, library.BLUE, library.WHITE]⟩
      size := 32
      start_size := 32
      end_size := 24
      start_life := 1 + life
      life := 1 + life }

/-- The generator built by the lambda of `SetGeneratorProperties` (lines 342-367). The
gradient of the source has four colours, so `color[0]` exists; on a list without a first
element the embedding keeps the colour of the view. -/
def areaGenerator (library : GeneratorLibrary)
    (generator_properties : ParticleGeneratorProperties) : ParticleGenerator :=
  fun position component_view =>
    let half_area := generator_properties.emit_area.divide 2
    let offset : Vector :=
      ⟨library.Random 0 (-half_area.x) half_area.x, library.Random 1 (-half_area.y) half_area.y⟩
    let direction_variation := library.Random 2
      generator_properties.direction_degrees_interval.min
      generator_properties.direction_degrees_interval.max
    let magnitude_variation := library.Random 3
      generator_properties.magnitude_interval.min generator_properties.magnitude_interval.max
    let velocity :=
      (library.VectorFromAngle (ToRadians direction_variation)).scale magnitude_variation
    let start_size := generator_properties.start_size_spread.value
      + library.Random 5 generator_properties.start_size_spread.spread.min
          generator_properties.start_size_spread.spread.max
    let end_size := generator_properties.end_size_spread.value
      + library.Random 6 generator_properties.end_size_spread.spread.min
          generator_properties.end_size_spread.spread.max
    let life := library.Random 7 generator_properties.life_interval.min
      generator_properties.life_interval.max
    { position := position.add offset
      velocity := velocity
      rotation := 0
      angular_velocity := library.Random 4 generator_properties.angular_velocity_interval.min
        generator_properties.angular_velocity_interval.max
      color := (generator_properties.color_gradient.color[0]?).getD component_view.color
      gradient := generator_properties.color_gradient
      start_size := start_size
      end_size := end_size
      size := start_size
      life := life
      start_life := life }

/-- `ParticleSystem::SetGeneratorProperties` (lines 340-370). The pointer `emitter` is
dereferenced at line 369 without a test; `none` is the null pointer. -/
def ParticleSystem.SetGeneratorProperties (library : GeneratorLibrary)
    (system : ParticleSystem) (emitter : Option Nat)
    (generator_properties : ParticleGeneratorProperties) : Option ParticleSystem := do
  let handle ← emitter
  let component ← system.m_particle_emitters.m_data[handle]?
  pure { system with
    m_particle_emitters := { system.m_particle_emitters with
      m_data := system.m_particle_emitters.m_data.set handle
        { component with generator := areaGenerator library generator_properties } } }

/-- `ParticleSystem::AttachAreaEmitter` (lines 321-327). The outer `Option` is a fault, the
inner one the returned pointer. -/
def ParticleSystem.AttachAreaEmitter (library : GeneratorLibrary) (system : ParticleSystem)
    (pool_id : Nat) (duration_seconds emit_rate : ℚ) (emitter_type : EmitterType)
    (generator_properties : ParticleGeneratorProperties) :
    Option (ParticleSystem × Option Nat) := do
  let attached ← system.AttachEmitter pool_id ZeroVec duration_seconds emit_rate emitter_type
    (DefaultGenerator library)
  let configured ← attached.1.SetGeneratorProperties library attached.2 generator_properties
  pure (configured, attached.2)

/-- `ParticleSystem::SetEmitterPosition` (lines 335-338), on the emitter it is given. -/
def SetEmitterPosition (emitter : ParticleEmitterComponent) (position : Vector) :
    ParticleEmitterComponent :=
  { emitter with position := position }

/-! ## The frame driver (`Engine.cpp`)

`Engine::Run` talks to its collaborators (zone, window, camera, renderer, system context,
input, audio) through calls whose bodies are not part of the engine. The embedding records
every such call in a trace. A collaborator may dispatch events while it runs (the window of
`tests/EngineTest.cpp` dispatches a `QuitEvent` inside `SwapBuffers`); the events dispatched
during each call are an input of the run, and the engine's handlers are applied to them in
order when the call returns. -/

/-- The values of `event::ApplicationState` that `OnApplication` tells apart, and the rest. -/
inductive ApplicationState where
  | ENTER_BACKGROUND
  | ENTER_FOREGROUND
  | OTHER
deriving DecidableEq

/-- The events the engine listens to (constructor, lines 45-55). -/
inductive EngineEvent where
  | PauseEvent (pause : Bool)
  | QuitEvent
  | ApplicationEvent (state : ApplicationState)
  | ActivatedEvent (gain : Bool)
  | TimeScaleEvent (time_scale : ℚ)
deriving DecidableEq

/-- The data members of `Engine` written by its event handlers. -/
structure Engine where
  m_quit : Bool
  m_pause : Bool
  m_update_last_time : Bool
  m_time_scale : ℚ
deriving DecidableEq

/-- `Engine::OnPause` (lines 164-168). -/
def Engine.OnPause (engine : Engine) (pause : Bool) : Engine :=
  { engine with m_pause := pause }

/-- `Engine::OnQuit` (lines 170-174). -/
def Engine.OnQuit (engine : Engine) : Engine :=
  { engine with m_quit := true }

/-- `Engine::OnApplication` (lines 176-189). -/
def Engine.OnApplication (engine : Engine) (state : ApplicationState) : Engine :=
  if state = ApplicationState.ENTER_BACKGROUND then
    { engine with m_pause := true }
  else if state = ApplicationState.ENTER_FOREGROUND then
    { engine with m_pause := false, m_update_last_time := true }
  else
    engine

/-- `Engine::OnActivated` (lines 191-195). -/
def Engine.OnActivated (engine : Engine) (_gain : Bool) : Engine := engine

/-- `Engine::OnTimeScale` (lines 197-201). -/
def Engine.OnTimeScale (engine : Engine) (time_scale : ℚ) : Engine :=
  { engine with m_time_scale := time_scale }

/-- The listener registered for each event type (constructor, lines 45-55). -/
def Engine.handle (engine : Engine) : EngineEvent → Engine
  | .PauseEvent pause => engine.OnPause pause
  | .QuitEvent => engine.OnQuit
  | .ApplicationEvent state => engine.OnApplication state
  | .ActivatedEvent gain => engine.OnActivated gain
  | .TimeScaleEvent time_scale => engine.OnTimeScale time_scale

/-- The calls `Engine::Run` makes to its collaborators, in the order of lines 81-152. -/
inductive EngineCall where
  | ZoneOnLoad
  | WindowSize
  | CameraSetWindowSize
  | WindowDrawableSize
  | RendererSetWindowSize
  | RendererSetDrawableSize
  | CameraGetViewport
  | RendererSetViewport
  | ProcessSystemEvents
  | MixSounds
  | RendererSetDeltaAndTimestamp (delta_ms : Nat) (delta_s : ℚ) (timestamp : Nat)
  | WindowMakeCurrent
  | SystemContextUpdate (update_context : UpdateContext)
  | ZoneAcceptUpdater
  | UpdaterAddUpdatable
  | UpdaterUpdate (update_context : UpdateContext)
  | ZoneAcceptRenderer
  | RendererDrawFrame
  | WindowSwapBuffers
  | ZonePostUpdate
  | SystemContextSync
  | Sleep
  | ZoneOnUnload
deriving DecidableEq

/-- What one pass of the loop receives from outside: the two readings of
`System::GetMilliseconds` (line 93, taken only when `m_update_last_time` is set, and line 97),
the events dispatched during each collaborator call of the pass, and `undefined_delta`: the
`uint32_t` that the conversion of line 98 leaves in this pass when its operand is outside the
range on which the conversion is defined. The language does not say what that value is, so it
is an input, and the statements about the pass hold whatever it is. -/
structure FrameInput where
  restart_time : Nat
  before_time : Nat
  events : EngineCall → List EngineEvent
  undefined_delta : Nat

/-- The local state of `Engine::Run` together with the engine and the calls made so far. -/
structure RunState where
  engine : Engine
  update_context : UpdateContext
  last_time : Nat
  trace : List EngineCall

/-- A collaborator call: it is recorded, and the events dispatched during it reach the
engine's handlers in order. -/
def RunState.perform (state : RunState) (events : EngineCall → List EngineEvent)
    (call : EngineCall) : RunState :=
  { state with
    engine := (events call).foldl Engine.handle state.engine
    trace := state.trace ++ [call] }

/-- Collaborator calls made one after the other. -/
def RunState.performAll (state : RunState) (events : EngineCall → List EngineEvent)
    (calls : List EngineCall) : RunState :=
  calls.foldl (fun current call => current.perform events call) state

/-- The effect of `std::clamp(value, low, high)` on `uint32_t`. -/
def clampU32 (value low high : Nat) : Nat :=
  if value < low then low else if high < value then high else value

/-- The operand of `std::clamp` at line 98 where the language defines it: the difference
`before_time - last_time` is taken in `uint32_t`, converted to `float` for the product with
`m_time_scale`, and the `float` product is converted to `uint32_t`. -/
def scaledDelta (before_time last_time : Nat) (time_scale : ℚ) : Option Nat :=
  ((roundF32 ((subU32 before_time last_time : Nat) : ℚ)).bind
    (fun elapsed => fmul elapsed time_scale)).bind toUint32

/-- The value of `delta_ms` at line 98; `undefined_delta` stands for the operand of
`std::clamp` where the conversion is not defined. -/
def deltaMs (before_time last_time : Nat) (time_scale : ℚ) (undefined_delta : Nat) : Nat :=
  clampU32 ((scaledDelta before_time last_time time_scale).getD (undefined_delta % U32))
    1 (U32 - 1)

/-- Lines 91-95: a restart of the clock asked for by `OnApplication`. -/
def RunState.restart (state : RunState) (input : FrameInput) : RunState :=
  if state.engine.m_update_last_time then
    { state with
      last_time := input.restart_time
      engine := { state.engine with m_update_last_time := false } }
  else
    state

/-- The value of `delta_ms` computed at lines 97-98 of this pass. -/
def RunState.frameDelta (state : RunState) (input : FrameInput) : Nat :=
  deltaMs input.before_time (state.restart input).last_time
    (state.restart input).engine.m_time_scale input.undefined_delta

/-- The collaborator calls of lines 101-117, in order. -/
def preludeCalls : List EngineCall :=
  [ EngineCall.WindowSize, EngineCall.CameraSetWindowSize, EngineCall.WindowDrawableSize,
    EngineCall.RendererSetWindowSize, EngineCall.RendererSetDrawableSize,
    EngineCall.CameraGetViewport, EngineCall.RendererSetViewport,
    EngineCall.ProcessSystemEvents, EngineCall.MixSounds ]

/-- Lines 91-117 of one pass of the loop: the state in which `m_pause` is tested. -/
def RunState.checked (state : RunState) (input : FrameInput) : RunState :=
  let restarted := state.restart input
  let stamped : RunState :=
    { restarted with
      update_context := { restarted.update_context with
        timestamp := addU32 restarted.update_context.timestamp (state.frameDelta input) } }
  stamped.performAll input.events preludeCalls

/-- The update context after lines 121-123. -/
def RunState.frameContext (state : RunState) (delta_ms : Nat) : UpdateContext :=
  { state.update_context with
    frame_count := addU32 state.update_context.frame_count 1
    delta_ms := delta_ms
    delta_s := (delta_ms : ℚ) / 1000 }

/-- The collaborator calls of lines 125-142, in order. -/
def bodyCalls (update_context : UpdateContext) : List EngineCall :=
  [ EngineCall.RendererSetDeltaAndTimestamp update_context.delta_ms update_context.delta_s
      update_context.timestamp,
    EngineCall.WindowMakeCurrent, EngineCall.SystemContextUpdate update_context,
    EngineCall.ZoneAcceptUpdater, EngineCall.UpdaterAddUpdatable,
    EngineCall.UpdaterUpdate update_context, EngineCall.ZoneAcceptRenderer,
    EngineCall.RendererDrawFrame, EngineCall.WindowSwapBuffers, EngineCall.ZonePostUpdate,
    EngineCall.SystemContextSync ]

/-- Lines 121-142: the body guarded by `if(!m_pause)`; `delta_ms` is the value of line 98. -/
def RunState.body (state : RunState) (input : FrameInput) (delta_ms : Nat) : RunState :=
  ({ state with update_context := state.frameContext delta_ms } : RunState).performAll
    input.events (bodyCalls (state.frameContext delta_ms))

/-- One pass of the loop (lines 86-149). -/
def RunState.iteration (state : RunState) (input : FrameInput) : RunState :=
  let checked := state.checked input
  let done :=
    if checked.engine.m_pause then checked else checked.body input (state.frameDelta input)
  ({ done with last_time := input.before_time }).perform input.events EngineCall.Sleep

/-- The loop `while(!m_quit)` (lines 85-149) over the passes for which inputs are given; no
result when the inputs are used up while `m_quit` is still false. -/
def RunState.loop : List FrameInput → RunState → Option RunState
  | [], state => if state.engine.m_quit then some state else none
  | input :: rest, state =>
    if state.engine.m_quit then some state else RunState.loop rest (state.iteration input)

/-- What `Engine::Run` returns and leaves behind. -/
structure RunResult where
  exit_code : Int
  engine : Engine
  trace : List EngineCall

/-- The state in which the loop is entered (lines 78-83): `first_time` is the reading of
`GetMilliseconds` at line 83. -/
def Engine.enter (engine : Engine) (load_events : List EngineEvent) (first_time : Nat) :
    RunState :=
  ({ engine := engine
     update_context := { frame_count := 0, delta_ms := 0, delta_s := 0, timestamp := 0 }
     last_time := first_time
     trace := [] } : RunState).perform (fun _ => load_events) EngineCall.ZoneOnLoad

/-- `Engine::Run` (lines 67-162): `exit_code` is what `zone->OnUnload()` returns. -/
def Engine.Run (engine : Engine) (load_events : List EngineEvent) (first_time : Nat)
    (inputs : List FrameInput) (unload_events : List EngineEvent) (exit_code : Int) :
    Option RunResult := do
  let stopped ← RunState.loop inputs (engine.enter load_events first_time)
  let unloaded := stopped.perform (fun _ => unload_events) EngineCall.ZoneOnUnload
  pure { exit_code := exit_code
         engine := { m_quit := false, m_pause := false, m_update_last_time := false,
                     m_time_scale := 1 }
         trace := unloaded.trace }

/-! ## Concrete inputs for the area emitter and the frame driver -/

/-- A generator library whose `Random` returns the lower bound and whose `VectorFromAngle`
returns the unit vector along x. -/
def sampleLibrary : GeneratorLibrary :=
  { Random := fun _ low _ => low
    VectorFromAngle := fun _ => ⟨1, 0⟩
    RED := ⟨1, 0, 0, 1⟩
    GREEN := ⟨0, 1, 0, 1⟩
    BLUE := ⟨0, 0, 1, 1⟩
    WHITE := ⟨1, 1, 1, 1⟩ }

/-- Generator properties of a unit emit area. -/
def sampleProperties : ParticleGeneratorProperties :=
  { emit_area := ⟨1, 1⟩
    direction_degrees_interval := ⟨0, 90⟩
    magnitude_interval := ⟨1, 2⟩
    angular_velocity_interval := ⟨0, 1⟩
    color_gradient := ⟨[0, 1], [⟨1, 1, 1, 1⟩, ⟨0, 0, 0, 0⟩]⟩
    start_size_spread := ⟨8, ⟨0, 1⟩⟩
    end_size_spread := ⟨4, ⟨0, 1⟩⟩
    life_interval := ⟨1, 2⟩ }

/-- An engine that is running: not quitting, not paused, time scale 1. -/
def runningEngine : Engine :=
  { m_quit := false, m_pause := false, m_update_last_time := false, m_time_scale := 1 }

/-- A pass read at `before_time` during which the window dispatches a `QuitEvent` inside
`SwapBuffers`, as the window of `tests/EngineTest.cpp` does. -/
def quitOnSwap (before_time : Nat) : FrameInput :=
  { restart_time := before_time
    before_time := before_time
    events := fun call =>
      if call = EngineCall.WindowSwapBuffers then [EngineEvent.QuitEvent] else []
    undefined_delta := 0 }

/-- A pass read at `before_time` during which `ProcessSystemEvents` delivers the given
events. -/
def eventsOnProcess (before_time : Nat) (events : List EngineEvent) : FrameInput :=
  { restart_time := before_time
    before_time := before_time
    events := fun call => if call = EngineCall.ProcessSystemEvents then events else []
    undefined_delta := 0 }

/-! ## The transform system (`TransformSystem/TransformSystem.cpp`)

`math::Matrix` (`Math/Matrix.h`) is not part of the sources at hand. The transform system
uses three things of it: the default-constructed matrix of line 24 and `math::Identity` of
line 100, both the identity, and the product of line 29. They are taken as a parameter: the
matrices are the elements of a monoid `M`, the identity is `1` and the product is `*`. -/

/-- The constant `no_parent` (line 11): the largest `uint32_t`. -/
def no_parent : Nat := U32 - 1

/-- The value `math::Quad(x1, y1, x2, y2)`; `Math/Quad.h` is not part of the sources at
hand. -/
structure Quad where
  x1 : ℚ
  y1 : ℚ
  x2 : ℚ
  y2 : ℚ
deriving DecidableEq

/-- The enumeration `TransformState`, of which the source names the enumerator `NONE`; a state
is the number of its enumerator. -/
abbrev TransformState := Nat

/-- The enumerator `TransformState::NONE`. -/
def TransformState.NONE : TransformState := 0

/-- The struct `TransformSystem::Component`. -/
structure Component (M : Type) where
  transform : M
  bounding_box : Quad
  parent : Nat
  state : TransformState

/-- The data member of `TransformSystem`. -/
structure TransformSystem (M : Type) where
  m_transforms : List (Component M)

/-- The component that `ResetTransformComponent` (lines 96-104) writes. -/
def resetComponent (M : Type) [Monoid M] : Component M :=
  { transform := 1, bounding_box := ⟨-1 / 2, -1 / 2, 1 / 2, 1 / 2⟩, parent := no_parent,
    state := TransformState.NONE }

/-- The constructor `TransformSystem(n_components)` (lines 14-20). The counter of the loop at
line 18 is a `uint32_t`: with `2 ^ 32` components or more it wraps before it reaches the size,
and the loop does not end (`none`). -/
def TransformSystem.create (M : Type) [Monoid M] (n_components : Nat) :
    Option (TransformSystem M) :=
  if n_components < U32 then some ⟨List.replicate n_components (resetComponent M)⟩ else none

/-- The loop of `TransformSystem::GetWorld` (lines 26-31) from the component `id` on, with the
product `transform` accumulated so far; `fuel` bounds the number of iterations. The result is
`none` when the loop reads outside `m_transforms` or is not over after `fuel` iterations. -/
def TransformSystem.worldFrom {M : Type} [Monoid M] (system : TransformSystem M) :
    Nat → Nat → M → Option M
  | 0, id, transform => if id = no_parent then some transform else none
  | fuel + 1, id, transform =>
    if id = no_parent then
      some transform
    else
      match system.m_transforms[id]? with
      | none => none
      | some transform_component =>
        worldFrom system fuel transform_component.parent
          (transform_component.transform * transform)

/-- `TransformSystem::GetWorld` (lines 22-34). A walk that has passed through as many
components as the system has without reaching `no_parent` has passed through one of them
twice and repeats from there without end (`worldFrom_of_enough`): the loop is run for that
many iterations, and `none` is a read outside `m_transforms` or a loop that does not end. -/
def TransformSystem.GetWorld {M : Type} [Monoid M] (system : TransformSystem M) (id : Nat) :
    Option M :=
  system.worldFrom system.m_transforms.length id 1

/-- `TransformSystem::GetTransform` (lines 41-49). -/
def TransformSystem.GetTransform {M : Type} (system : TransformSystem M) (id : Nat) :
    Option M :=
  (system.m_transforms[id]?).map (fun transform_component => transform_component.transform)

/-- `TransformSystem::SetTransform` (lines 51-54). -/
def TransformSystem.SetTransform {M : Type} (system : TransformSystem M) (id : Nat)
    (new_transform : M) : Option (TransformSystem M) := do
  let transform_component ← system.m_transforms[id]?
  pure ⟨system.m_transforms.set id { transform_component with transform := new_transform }⟩

/-- `TransformSystem::GetParent` (lines 71-74). -/
def TransformSystem.GetParent {M : Type} (system : TransformSystem M) (id : Nat) :
    Option Nat :=
  (system.m_transforms[id]?).map (fun transform_component => transform_component.parent)

/-- `TransformSystem::ChildTransform` (lines 76-79). -/
def TransformSystem.ChildTransform {M : Type} (system : TransformSystem M)
    (id parent_id : Nat) : Option (TransformSystem M) := do
  let transform_component ← system.m_transforms[id]?
  pure ⟨system.m_transforms.set id { transform_component with parent := parent_id }⟩

/-- `TransformSystem::UnchildTransform` (lines 81-84). -/
def TransformSystem.UnchildTransform {M : Type} (system : TransformSystem M) (id : Nat) :
    Option (TransformSystem M) := do
  let transform_component ← system.m_transforms[id]?
  pure ⟨system.m_transforms.set id { transform_component with parent := no_parent }⟩

/-- `TransformSystem::ResetTransformComponent` (lines 96-104). -/
def TransformSystem.ResetTransformComponent {M : Type} [Monoid M]
    (system : TransformSystem M) (id : Nat) : Option (TransformSystem M) := do
  let _ ← system.m_transforms[id]?
  pure ⟨system.m_transforms.set id (resetComponent M)⟩

/-- `TransformSystem::Capacity` (lines 116-119): the size as a `uint32_t`. -/
def TransformSystem.Capacity {M : Type} (system : TransformSystem M) : Nat :=
  system.m_transforms.length % U32

/-- The components that the loop of `GetWorld` passes through from `id` on, in the order of
the walk; `none` when the loop reads outside `m_transforms` or is not over after `fuel`
iterations. -/
def TransformSystem.walk {M : Type} (system : TransformSystem M) : Nat → Nat → Option (List Nat)
  | 0, id => if id = no_parent then some [] else none
  | fuel + 1, id =>
    if id = no_parent then
      some []
    else
      match system.m_transforms[id]? with
      | none => none
      | some transform_component =>
        (walk system fuel transform_component.parent).map (fun path => id :: path)

/-- The walk of `GetWorld` from `id` passes through the components `path`, in this order, and
reaches `no_parent`. -/
inductive TransformSystem.Chain {M : Type} (system : TransformSystem M) :
    Nat → List Nat → Prop where
  | root : TransformSystem.Chain system no_parent []
  | step (id : Nat) (transform_component : Component M) (path : List Nat) :
      id ≠ no_parent → system.m_transforms[id]? = some transform_component →
      TransformSystem.Chain system transform_component.parent path →
      TransformSystem.Chain system id (id :: path)

/-- A call of `ChildTransform` or `UnchildTransform`. -/
inductive TransformCall where
  | child (id parent_id : Nat)
  | unchild (id : Nat)
deriving DecidableEq

/-- The effect of one call on the transform system. -/
def TransformSystem.call {M : Type} (system : TransformSystem M) :
    TransformCall → Option (TransformSystem M)
  | .child id parent_id => system.ChildTransform id parent_id
  | .unchild id => system.UnchildTransform id

/-- The effect of a sequence of calls. -/
def TransformSystem.run {M : Type} (system : TransformSystem M) (calls : List TransformCall) :
    Option (TransformSystem M) :=
  calls.foldlM TransformSystem.call system

/-- The ids of the call are below `Capacity()`, and a `ChildTransform(id, parent_id)` is not
called while the walk of `GetWorld` from `parent_id` passes through `id` or does not end. -/
def TransformSystem.admits {M : Type} (system : TransformSystem M) : TransformCall → Bool
  | .child id parent_id =>
    decide (id < system.Capacity) && decide (parent_id < system.Capacity)
      && match system.walk system.m_transforms.length parent_id with
         | none => false
         | some path => decide (id ∉ path)
  | .unchild id => decide (id < system.Capacity)

/-- Every call of the sequence is admitted by the system it is made on. -/
def TransformSystem.admitsAll {M : Type} (system : TransformSystem M) :
    List TransformCall → Bool
  | [] => true
  | call :: rest =>
    system.admits call
      && match system.call call with
         | none => false
         | some next => admitsAll next rest

/-- Three components in a row: component 2 is a child of component 1, which is a child of
component 0. The transforms are the generators 10, 11 and 12 of a free monoid, so that a
product shows its factors in their order. -/
def sampleTransforms : TransformSystem (FreeMonoid Nat) :=
  ⟨[ { resetComponent (FreeMonoid Nat) with transform := FreeMonoid.of 10 },
     { resetComponent (FreeMonoid Nat) with transform := FreeMonoid.of 11, parent := 0 },
     { resetComponent (FreeMonoid Nat) with transform := FreeMonoid.of 12, parent := 1 } ]⟩

/-- Two components, each the parent of the other: what `ChildTransform(0, 1)` and
`ChildTransform(1, 0)` leave of a system of two components. -/
def cyclicTransforms : TransformSystem ℤ :=
  ⟨[ { resetComponent ℤ with parent := 1 }, { resetComponent ℤ with parent := 0 } ]⟩

/-! ## Lemmas on lists and folds -/

theorem lt_of_getElem?_eq_some {α : Type} {l : List α} {i : Nat} {a : α}
    (h : l[i]? = some a) : i < l.length := by
  by_contra hge
  rw [List.getElem?_eq_none (Nat.le_of_not_lt hge)] at h
  exact absurd h (by simp)

theorem getElem?_isSome_of_lt {α : Type} {l : List α} {i : Nat} (h : i < l.length) :
    ∃ a, l[i]? = some a :=
  ⟨l[i], List.getElem?_eq_getElem h⟩

theorem set_getElem_same {α : Type} (v : List α) (i : Nat) (h : i < v.length) :
    v.set i v[i] = v := by
  apply List.ext_getElem?
  intro j
  rw [List.getElem?_set]
  split
  · rename_i hij
    subst hij
    simp [h, List.getElem?_eq_getElem]
  · rfl

theorem set_eq_self_of_getElem? {α : Type} {l : List α} {i : Nat} {a : α}
    (h : l[i]? = some a) : l.set i a = l := by
  have hlt := lt_of_getElem?_eq_some h
  rw [List.getElem?_eq_getElem hlt, Option.some.injEq] at h
  subst h
  exact set_getElem_same l i hlt

theorem getElem?_set_self_of_some {α : Type} {l : List α} {i : Nat} {a : α} (b : α)
    (h : l[i]? = some a) : (l.set i b)[i]? = some b := by
  have hlt : i < l.length := by
    by_contra hge
    rw [List.getElem?_eq_none (Nat.le_of_not_lt hge)] at h
    exact absurd h (by simp)
  rw [List.getElem?_set, if_pos rfl, if_pos hlt]

theorem getElem?_set_of_ne {α : Type} (l : List α) {i j : Nat} (b : α) (h : j ≠ i) :
    (l.set i b)[j]? = l[j]? := by
  rw [List.getElem?_set, if_neg (Ne.symm h)]

/-! ## Frame lemmas -/

theorem foldlM_preserves {α β : Type} (P : β → Prop) (f : β → α → Option β)
    (hf : ∀ b a b', P b → f b a = some b' → P b') :
    ∀ (l : List α) (b b' : β), P b → l.foldlM f b = some b' → P b' := by
  intro l
  induction l with
  | nil =>
    intro b b' hb h
    simp only [List.foldlM_nil, Option.pure_def, Option.some.injEq] at h
    exact h ▸ hb
  | cons a l ih =>
    intro b b' hb h
    simp only [List.foldlM_cons, Option.bind_eq_bind, Option.bind_eq_some] at h
    obtain ⟨c, hc, hrest⟩ := h
    exact ih c b' (hf b a c hb hc) hrest

theorem Swap_frame {p q : ParticlePoolComponent} {i j : Nat} (h : Swap p i j = some q) :
    q.count_alive = p.count_alive ∧ q.pool_size = p.pool_size
      ∧ q.start_size = p.start_size ∧ q.end_size = p.end_size
      ∧ q.update_function = p.update_function ∧ q.particle_damping = p.particle_damping := by
  simp only [Swap, bind, Option.bind_eq_some, pure, Option.some.injEq] at h
  obtain ⟨_, _, _, _, _, _, _, _, _, _, _, _, _, _, _, _, _, _, rfl⟩ := h
  simp

theorem WakeParticle_bound {p q : ParticlePoolComponent} {i : Nat}
    (h : WakeParticle p i = some q) :
    q.pool_size = p.pool_size ∧ p.count_alive ≤ q.count_alive
      ∧ (p.count_alive ≤ p.pool_size → q.count_alive ≤ q.pool_size) := by
  unfold WakeParticle at h
  split at h
  · rename_i hlt
    simp only [bind, Option.bind_eq_some, pure, Option.some.injEq] at h
    obtain ⟨r, hr, rfl⟩ := h
    obtain ⟨hc, hs, -⟩ := Swap_frame hr
    refine ⟨hs, ?_, fun _ => ?_⟩
    · show p.count_alive ≤ r.count_alive + 1
      omega
    · show r.count_alive + 1 ≤ r.pool_size
      omega
  · simp only [Option.some.injEq] at h
    subst h
    simp

theorem generateAt_frame {g : ParticleGenerator} {pos : Vector} {p q : ParticlePoolComponent}
    {i : Nat} (h : generateAt g pos p i = some q) :
    q.count_alive = p.count_alive ∧ q.pool_size = p.pool_size := by
  simp only [generateAt, bind, Option.bind_eq_some, pure, Option.some.injEq] at h
  obtain ⟨_, _, rfl⟩ := h
  simp [storeView]

theorem spawnParticles_bound {g : ParticleGenerator} {pos : Vector}
    {p q : ParticlePoolComponent} {n : Nat} (h : spawnParticles g pos p n = some q)
    (hp : p.count_alive ≤ p.pool_size) : q.count_alive ≤ q.pool_size := by
  simp only [spawnParticles, bind, Option.bind_eq_some] at h
  obtain ⟨generated, hgen, hwake⟩ := h
  have h1 : generated.count_alive ≤ generated.pool_size :=
    foldlM_preserves (fun r => r.count_alive ≤ r.pool_size) _
      (fun b a b' hb hba => by
        obtain ⟨hc, hs⟩ := generateAt_frame hba
        simpa only [hc, hs] using hb) _ _ _ hp hgen
  exact foldlM_preserves (fun r => r.count_alive ≤ r.pool_size) _
      (fun b a b' hb hba => (WakeParticle_bound hba).2.2 hb) _ _ _ h1 hwake

/-- What a completed `UpdateEmitter` call on an emitter that is not done has computed. -/
theorem UpdateEmitter_some {d : List DeferredReleasEmitter} {handle pool_id : Nat}
    {e : ParticleEmitterComponent} {p : ParticlePoolComponent} {ctx : UpdateContext}
    {step : EmitterStep} (hdone : IsDone e = false)
    (h : UpdateEmitter d handle e p pool_id ctx = some step) :
    ∃ n, emitterAfter e ctx = some step.emitter ∧ newParticles e ctx = some n
      ∧ spawnParticles e.generator e.position p n = some step.pool ∧ step.deferred = d := by
  simp only [UpdateEmitter, hdone, Bool.false_eq_true, if_false, bind, Option.bind_eq_some,
    pure, Option.some.injEq] at h
  obtain ⟨updated, hupdated, n, hn, woken, hwoken, rfl⟩ := h
  exact ⟨n, hupdated, hn, hwoken, rfl⟩

theorem UpdateEmitter_bound {d : List DeferredReleasEmitter} {handle pool_id : Nat}
    {e : ParticleEmitterComponent} {p : ParticlePoolComponent} {ctx : UpdateContext}
    {step : EmitterStep} (h : UpdateEmitter d handle e p pool_id ctx = some step)
    (hp : p.count_alive ≤ p.pool_size) : step.pool.count_alive ≤ step.pool.pool_size := by
  cases hdone : IsDone e with
  | true =>
    unfold UpdateEmitter at h
    rw [hdone] at h
    simp only [if_true] at h
    split at h <;> (simp only [Option.some.injEq] at h; subst h; exact hp)
  | false =>
    obtain ⟨n, -, -, hspawn, -⟩ := UpdateEmitter_some hdone h
    exact spawnParticles_bound hspawn hp

theorem advanceAt_frame {delta : ℚ} {p q : ParticlePoolComponent} {i : Nat}
    (h : advanceAt delta p i = some q) :
    q.count_alive = p.count_alive ∧ q.pool_size = p.pool_size := by
  simp only [advanceAt, bind, Option.bind_eq_some, pure, Option.some.injEq] at h
  obtain ⟨_, _, _, _, _, _, _, _, rfl⟩ := h
  simp [storeView]

theorem advancePass_frame {delta : ℚ} {p q : ParticlePoolComponent}
    (h : advancePass delta p = some q) :
    q.count_alive = p.count_alive ∧ q.pool_size = p.pool_size :=
  foldlM_preserves
    (fun r => r.count_alive = p.count_alive ∧ r.pool_size = p.pool_size) _
    (fun b a b' hb hba => by
      obtain ⟨hc, hs⟩ := advanceAt_frame hba
      exact ⟨hc.trans hb.1, hs.trans hb.2⟩) _ _ _ ⟨rfl, rfl⟩ h

theorem reapAt_frame {delta : ℚ} {p q : ParticlePoolComponent} {i : Nat}
    (h : reapAt delta p i = some q) :
    q.pool_size = p.pool_size ∧ q.count_alive ≤ p.count_alive
      ∧ p.count_alive ≤ q.count_alive + 1 := by
  simp only [reapAt, bind, Option.bind_eq_some, pure] at h
  obtain ⟨life, _, h⟩ := h
  split at h
  · obtain ⟨hc, hs, -⟩ := Swap_frame h
    simp only at hc hs
    omega
  · simp only [Option.some.injEq] at h
    subst h
    simp

theorem reapFrom_frame (delta : ℚ) :
    ∀ (fuel index : Nat) (p q : ParticlePoolComponent),
      reapFrom delta fuel index p = some q →
        q.pool_size = p.pool_size ∧ q.count_alive ≤ p.count_alive := by
  intro fuel
  induction fuel with
  | zero =>
    intro index p q h
    simp only [reapFrom, Option.some.injEq] at h
    subst h
    simp
  | succ fuel ih =>
    intro index p q h
    simp only [reapFrom] at h
    split at h
    · simp only [Option.bind_eq_some] at h
      obtain ⟨r, hr, hq⟩ := h
      obtain ⟨hs, hc, -⟩ := reapAt_frame hr
      obtain ⟨hs', hc'⟩ := ih _ _ _ hq
      exact ⟨hs'.trans hs, hc'.trans hc⟩
    · simp only [Option.some.injEq] at h
      subst h
      simp

theorem reapPass_frame {delta : ℚ} {p q : ParticlePoolComponent}
    (h : reapPass delta p = some q) :
    q.pool_size = p.pool_size ∧ q.count_alive ≤ p.count_alive :=
  reapFrom_frame delta _ _ _ _ h

/-- One more unit of fuel than `count_alive - index` does not change the result of the reap
loop: when the fuel of `reapPass` is used up, the loop condition is false. -/
theorem reapFrom_fuel (delta : ℚ) :
    ∀ (fuel index : Nat) (p : ParticlePoolComponent), p.count_alive - index ≤ fuel →
      reapFrom delta (fuel + 1) index p = reapFrom delta fuel index p := by
  intro fuel
  induction fuel with
  | zero =>
    intro index p h
    have hge : ¬ index < p.count_alive := by omega
    simp only [reapFrom, if_neg hge]
  | succ fuel ih =>
    intro index p h
    show (if index < p.count_alive then
          (reapAt delta p index).bind (reapFrom delta (fuel + 1) (index + 1))
        else some p)
      = (if index < p.count_alive then
          (reapAt delta p index).bind (reapFrom delta fuel (index + 1))
        else some p)
    split
    · cases hr : reapAt delta p index with
      | none => rfl
      | some r =>
        simp only [Option.some_bind]
        have := (reapAt_frame hr).2.1
        exact ih (index + 1) r (by omega)
    · rfl

/-! ## The alive count stays within the capacity -/

theorem updateAttached_frame {pool_id : Nat} {ctx : UpdateContext}
    {st st' : ParticleSystem × ParticlePoolComponent} {e : Nat}
    (h : ParticleSystem.updateAttached pool_id ctx st e = some st') :
    st'.1.m_active_pools = st.1.m_active_pools
      ∧ st'.1.m_particle_pools = st.1.m_particle_pools
      ∧ st'.1.m_particle_pools_emitters = st.1.m_particle_pools_emitters
      ∧ st'.1.m_particle_drawers = st.1.m_particle_drawers
      ∧ (st.2.count_alive ≤ st.2.pool_size → st'.2.count_alive ≤ st'.2.pool_size) := by
  simp only [ParticleSystem.updateAttached, bind, Option.bind_eq_some, pure,
    Option.some.injEq] at h
  obtain ⟨component, _, step, hstep, rfl⟩ := h
  exact ⟨rfl, rfl, rfl, rfl, fun hb => UpdateEmitter_bound hstep hb⟩

theorem updatePool_bounded {ctx : UpdateContext} {s s' : ParticleSystem} {i : Nat}
    (h : ParticleSystem.updatePool ctx s i = some s') (hs : s.AliveBounded) :
    s'.AliveBounded ∧ s'.m_active_pools = s.m_active_pools := by
  simp only [ParticleSystem.updatePool, bind, Option.bind_eq_some] at h
  obtain ⟨is_active, hact, h⟩ := h
  split at h
  · rename_i htrue
    subst htrue
    simp only [Option.bind_eq_some, pure, Option.some.injEq] at h
    obtain ⟨pool, hpool, emitters, _, emitted, hemit, advanced, hadv, reaped, hreap, rfl⟩ := h
    have hinv := foldlM_preserves
      (fun st : ParticleSystem × ParticlePoolComponent =>
        st.1.m_active_pools = s.m_active_pools ∧ st.1.m_particle_pools = s.m_particle_pools
          ∧ st.2.count_alive ≤ st.2.pool_size) _
      (fun b a b' hb hba => by
        obtain ⟨h1, h2, -, -, h5⟩ := updateAttached_frame hba
        exact ⟨h1.trans hb.1, h2.trans hb.2.1, h5 hb.2.2⟩)
      _ _ _ ⟨rfl, rfl, hs i pool hpool⟩ hemit
    obtain ⟨hA, hP, hB⟩ := hinv
    obtain ⟨hc1, hs1⟩ := advancePass_frame hadv
    obtain ⟨hs2, hc2⟩ := reapPass_frame hreap
    refine ⟨?_, hA⟩
    intro id p hid
    simp only [hP, List.getElem?_set] at hid
    split at hid
    · split at hid
      · simp only [Option.some.injEq] at hid
        subst hid
        omega
      · exact absurd hid (by simp)
    · exact hs id p hid
  · simp only [pure, Option.some.injEq] at h
    subst h
    exact ⟨hs, rfl⟩

theorem Update_bounded {ctx : UpdateContext} {s s' : ParticleSystem}
    (h : s.Update ctx = some s') (hs : s.AliveBounded) : s'.AliveBounded :=
  foldlM_preserves ParticleSystem.AliveBounded _
    (fun _ _ _ hb hba => (updatePool_bounded hba hb).1) _ _ _ hs h

theorem AllocatePool_bounded {s s' : ParticleSystem} {id n : Nat} {f : ParticleUpdater}
    (h : s.AllocatePool id n f = some s') (hs : s.AliveBounded) : s'.AliveBounded := by
  simp only [ParticleSystem.AllocatePool, bind, Option.bind_eq_some] at h
  obtain ⟨is_active, hact, h⟩ := h
  split at h
  · exact absurd h (by simp)
  · rename_i hfalse
    simp only [Option.bind_eq_some, pure, Option.some.injEq] at h
    obtain ⟨pool, hpool, rfl⟩ := h
    intro j p hj
    simp only [List.getElem?_set] at hj
    split at hj
    · split at hj
      · simp only [Option.some.injEq] at hj
        subst hj
        simp [resetPool]
      · exact absurd hj (by simp)
    · exact hs j p hj

theorem SetPoolData_bounded {s s' : ParticleSystem} {id n : Nat} {texture : Option Nat}
    {blend : Nat} {space : ParticleTransformSpace} {damping : ℚ} {f : ParticleUpdater}
    (h : s.SetPoolData id n texture blend space damping f = some s') (hs : s.AliveBounded) :
    s'.AliveBounded := by
  simp only [ParticleSystem.SetPoolData, ParticleSystem.SetPoolDrawData, bind,
    Option.bind_eq_some, pure, Option.some.injEq] at h
  obtain ⟨pool, hpool, _, _, rfl⟩ := h
  intro j p hj
  simp only [List.getElem?_set] at hj
  split at hj
  · split at hj
    · simp only [Option.some.injEq] at hj
      subst hj
      simp [resetPool]
    · exact absurd hj (by simp)
  · exact hs j p hj

theorem ReleasePool_bounded {s s' : ParticleSystem} {id : Nat}
    (h : s.ReleasePool id = some s') (hs : s.AliveBounded) : s'.AliveBounded := by
  simp only [ParticleSystem.ReleasePool, bind, Option.bind_eq_some] at h
  obtain ⟨is_active, hact, h⟩ := h
  split at h
  · simp only [Option.bind_eq_some, pure, Option.some.injEq] at h
    obtain ⟨_, _, _, _, rfl⟩ := h
    exact fun j p hj => hs j p hj
  · exact absurd h (by simp)

theorem AttachEmitter_frame {s s' : ParticleSystem} {pool_id : Nat} {position : Vector}
    {duration emit_rate : ℚ} {emitter_type : EmitterType} {generator : ParticleGenerator}
    {handle : Option Nat}
    (h : s.AttachEmitter pool_id position duration emit_rate emitter_type generator
      = some (s', handle)) :
    s'.m_active_pools = s.m_active_pools ∧ s'.m_particle_pools = s.m_particle_pools := by
  unfold ParticleSystem.AttachEmitter at h
  split at h
  · simp only [Option.some.injEq, Prod.mk.injEq] at h
    obtain ⟨rfl, -⟩ := h
    exact ⟨rfl, rfl⟩
  · simp only [bind, Option.bind_eq_some, pure, Option.some.injEq, Prod.mk.injEq] at h
    obtain ⟨_, _, _, _, rfl, -⟩ := h
    exact ⟨rfl, rfl⟩

theorem ReleaseEmitter_frame {s s' : ParticleSystem} {pool_id emitter : Nat}
    (h : s.ReleaseEmitter pool_id emitter = some s') :
    s'.m_active_pools = s.m_active_pools ∧ s'.m_particle_pools = s.m_particle_pools
      ∧ s'.m_deferred_release_emitter = s.m_deferred_release_emitter := by
  simp only [ParticleSystem.ReleaseEmitter, bind, Option.bind_eq_some, pure,
    Option.some.injEq] at h
  obtain ⟨_, _, rfl⟩ := h
  exact ⟨rfl, rfl, rfl⟩

theorem Sync_frame {s s' : ParticleSystem} (h : s.Sync = some s') :
    s'.m_active_pools = s.m_active_pools ∧ s'.m_particle_pools = s.m_particle_pools := by
  simp only [ParticleSystem.Sync, bind, Option.bind_eq_some, pure, Option.some.injEq] at h
  obtain ⟨released, hrel, rfl⟩ := h
  have hinv := foldlM_preserves
    (fun r : ParticleSystem =>
      r.m_active_pools = s.m_active_pools ∧ r.m_particle_pools = s.m_particle_pools) _
    (fun b a b' hb hba => by
      obtain ⟨h1, h2, -⟩ := ReleaseEmitter_frame hba
      exact ⟨h1.trans hb.1, h2.trans hb.2⟩) _ _ _ ⟨rfl, rfl⟩ hrel
  exact hinv

theorem AliveBounded_of_frame {s s' : ParticleSystem}
    (h : s'.m_active_pools = s.m_active_pools ∧ s'.m_particle_pools = s.m_particle_pools)
    (hs : s.AliveBounded) : s'.AliveBounded := by
  intro j p hj
  rw [h.2] at hj
  exact hs j p hj

theorem call_bounded {s s' : ParticleSystem} {c : Call}
    (h : s.call c = some s') (hs : s.AliveBounded) : s'.AliveBounded := by
  cases c with
  | allocatePool id n f => exact AllocatePool_bounded h hs
  | setPoolData id n texture blend space damping f => exact SetPoolData_bounded h hs
  | update ctx => exact Update_bounded h hs
  | releasePool id => exact ReleasePool_bounded h hs
  | attachEmitter pool_id position duration emit_rate emitter_type generator =>
    simp only [ParticleSystem.call, Option.map_eq_some', Prod.exists, exists_and_right,
      exists_eq_right] at h
    obtain ⟨handle, h⟩ := h
    exact AliveBounded_of_frame (AttachEmitter_frame h) hs
  | releaseEmitter pool_id emitter =>
    obtain ⟨h1, h2, -⟩ := ReleaseEmitter_frame h
    exact AliveBounded_of_frame ⟨h1, h2⟩ hs
  | sync => exact AliveBounded_of_frame (Sync_frame h) hs

theorem create_bounded (count n_emitters : Nat) :
    (ParticleSystem.create count n_emitters).AliveBounded := by
  intro j p hj
  simp only [ParticleSystem.create, List.getElem?_replicate] at hj
  split at hj
  · simp only [Option.some.injEq] at hj
    subst hj
    simp [emptyPool]
  · exact absurd hj (by simp)

/-! ## C1 -/

theorem run_bounded :
    ∀ (calls : List Call) (s s' : ParticleSystem),
      s.AliveBounded → s.run calls = some s' → s'.AliveBounded :=
  foldlM_preserves ParticleSystem.AliveBounded _ (fun _ _ _ hb hba => call_bounded hba hb)

/-- C1: from the constructed system, after every sequence of `AllocatePool`, `SetPoolData`,
`Update`, `ReleasePool` (and `AttachEmitter`, `ReleaseEmitter`, `Sync`) calls that the code
completes, the pool of every pool id, active or not, has `0 ≤ count_alive ≤ pool_size`. As
every prefix of a sequence of calls is a sequence of calls, this is the state after each
call. -/
theorem count_alive_le_pool_size (count n_emitters : Nat) (calls : List Call)
    (s : ParticleSystem)
    (h : (ParticleSystem.create count n_emitters).run calls = some s) :
    ∀ (id : Nat) (pool : ParticlePoolComponent),
      s.m_particle_pools[id]? = some pool →
        0 ≤ pool.count_alive ∧ pool.count_alive ≤ pool.pool_size :=
  fun id pool hpool =>
    ⟨Nat.zero_le _, run_bounded calls _ s (create_bounded count n_emitters) h id pool hpool⟩

theorem count_alive_le_pool_size_witness :
    ∃ s pool, (ParticleSystem.create 1 3).run threeParticleCalls = some s
      ∧ s.m_particle_pools[0]? = some pool
      ∧ pool.count_alive = 3 ∧ pool.pool_size = 4
      ∧ 0 ≤ pool.count_alive ∧ pool.count_alive ≤ pool.pool_size := by
  have hrun : (((ParticleSystem.create 1 3).run threeParticleCalls).bind
      (fun s => s.m_particle_pools[0]?.map
        (fun pool => (pool.count_alive, pool.pool_size))))
      = some (3, 4) := by decide!
  simp only [Option.bind_eq_some, Option.map_eq_some', Prod.mk.injEq] at hrun
  obtain ⟨s, hs, pool, hpool, hcount, hsize⟩ := hrun
  exact ⟨s, pool, hs, hpool, hcount, hsize,
    count_alive_le_pool_size 1 3 threeParticleCalls s hs 0 pool hpool⟩

/-! ## C2 -/

/-- C2: `Swap` exchanges nine of the eleven arrays and leaves `start_size` and `end_size` in
place. On two slots with distinct values, slot 0 afterwards holds position, size, life and
start life of the particle that was in slot 1 but still the start size 20 and end size 30 of
the particle that was in slot 0, so it is not the tuple that was in slot 1. -/
theorem Swap_keeps_start_size_end_size :
    (Swap (poolOfLives [1, 2] 2) 0 1).map
        (fun pool => (pool.size, pool.life, pool.start_life, pool.start_size, pool.end_size))
      = some ([11, 10], [2, 1], [2, 1], [20, 21], [30, 31])
    ∧ (Swap (poolOfLives [1, 2] 2) 0 1).bind (fun pool => MakeViewFromPool pool 0)
      = some { position := ⟨1, 1⟩, velocity := ZeroVec, rotation := 0, angular_velocity := 0,
               color := ⟨0, 0, 0, 0⟩, gradient := ⟨[], []⟩, size := 11, start_size := 20,
               end_size := 30, life := 2, start_life := 2 }
    ∧ MakeViewFromPool (poolOfLives [1, 2] 2) 1
      = some { position := ⟨1, 1⟩, velocity := ZeroVec, rotation := 0, angular_velocity := 0,
               color := ⟨0, 0, 0, 0⟩, gradient := ⟨[], []⟩, size := 11, start_size := 21,
               end_size := 31, life := 2, start_life := 2 } := by
  decide!

/-! ## C3 -/

/-- C3: on the lives 0.1, 5.0, 0.1 with step 0.2 and no emitter, `Update` leaves
`count_alive = 2`, not 1: reaping slot 0 moves the particle of slot 2 into slot 0, the loop
goes on to slot 1, and the moved particle is neither aged nor tested (its life is still
1/10). The same happens when the three particles are admitted and aged through the public
calls alone (lives 1/8, 5, 1/8 and step 1/4). -/
theorem Update_reap_leaves_two_alive :
    ((systemOfPool (poolOfLives [1 / 10, 5, 1 / 10] 3)).Update (contextOf (2 / 10))).map
        (fun s => s.m_particle_pools.map (fun pool => (pool.count_alive, pool.life)))
      = some [(2, [1 / 10, 24 / 5, -1 / 10])]
    ∧ ((ParticleSystem.create 1 3).run threeParticleCalls).map
        (fun s => (s.m_particle_pools_emitters,
          s.m_particle_pools.map (fun pool => (pool.count_alive, pool.life))))
      = some ([[]], [(3, [1 / 8, 5, 1 / 8, 0])])
    ∧ ((ParticleSystem.create 1 3).run (threeParticleCalls ++ [.update (contextOf (1 / 4))])).map
        (fun s => s.m_particle_pools.map (fun pool => (pool.count_alive, pool.life)))
      = some [(2, [1 / 8, 19 / 4, -1 / 8, 0])] := by
  decide!

/-! ## C4 -/

/-- C4: particles A (life 3/8, sizes 1) and B (life 21/4, sizes 2) are admitted and aged twice
by 1/4. A dies in the second pass and B is the only survivor, but the one alive tuple has
B's size 2 with A's start size 1 and end size 1, and B's life after one decrement (5), not
after two (19/4). -/
theorem Update_alive_tuple_is_mixed :
    ((ParticleSystem.create 1 2).run twoParticleCalls).map
        (fun s => s.m_particle_pools.map observe)
      = some [(1, [some { position := ZeroVec, velocity := ZeroVec, rotation := 0,
                          angular_velocity := 0, color := ⟨0, 0, 0, 0⟩,
                          gradient := ⟨[], []⟩, size := 2, start_size := 1, end_size := 1,
                          life := 5, start_life := 21 / 4 }])] := by
  decide!

/-! ## Well-formed pools: the loops of `UpdateEmitter` complete -/

theorem swapElems_self {α : Type} (v : List α) (i : Nat) (h : i < v.length) :
    swapElems v i i = some v := by
  simp [swapElems, List.getElem?_eq_getElem h, set_getElem_same v i h]

theorem ParticlePoolComponent.WellFormed.withCount {p : ParticlePoolComponent} (h : p.WellFormed) (n : Nat) :
    ({ p with count_alive := n } : ParticlePoolComponent).WellFormed :=
  ⟨h.position, h.velocity, h.rotation, h.angular_velocity, h.color, h.gradient, h.size,
    h.start_size, h.end_size, h.life, h.start_life⟩

theorem Swap_self {p : ParticlePoolComponent} (h : p.WellFormed) {i : Nat}
    (hi : i < p.pool_size) : Swap p i i = some p := by
  have h1 := swapElems_self p.position i (by rw [h.position]; exact hi)
  have h2 := swapElems_self p.velocity i (by rw [h.velocity]; exact hi)
  have h3 := swapElems_self p.rotation i (by rw [h.rotation]; exact hi)
  have h4 := swapElems_self p.angular_velocity i (by rw [h.angular_velocity]; exact hi)
  have h5 := swapElems_self p.color i (by rw [h.color]; exact hi)
  have h6 := swapElems_self p.gradient i (by rw [h.gradient]; exact hi)
  have h7 := swapElems_self p.start_life i (by rw [h.start_life]; exact hi)
  have h8 := swapElems_self p.life i (by rw [h.life]; exact hi)
  have h9 := swapElems_self p.size i (by rw [h.size]; exact hi)
  simp only [Swap, h1, h2, h3, h4, h5, h6, h7, h8, h9, bind, Option.bind, pure]

theorem wake_loop :
    ∀ (k : Nat) (p : ParticlePoolComponent), p.WellFormed →
      (k ≠ 0 → p.count_alive + k ≤ p.pool_size) →
      (List.range' p.count_alive k).foldlM WakeParticle p
        = some { p with count_alive := p.count_alive + k } := by
  intro k
  induction k with
  | zero => intro p _ _; rfl
  | succ k ih =>
    intro p hwf hk
    have hlt : p.count_alive < p.pool_size := by
      have := hk (Nat.succ_ne_zero k)
      omega
    have hwake : WakeParticle p p.count_alive
        = some { p with count_alive := p.count_alive + 1 } := by
      simp only [WakeParticle, if_pos hlt, Swap_self hwf hlt, bind, Option.bind, pure]
    simp only [List.range', List.foldlM_cons, hwake, Option.bind_eq_bind, Option.some_bind]
    have := ih { p with count_alive := p.count_alive + 1 } (hwf.withCount _)
      (fun _ => by
        have := hk (Nat.succ_ne_zero k)
        show p.count_alive + 1 + k ≤ p.pool_size
        omega)
    simp only at this
    rw [this]
    simp only [Nat.add_assoc, Nat.add_comm 1 k]

theorem MakeViewFromPool_isSome {p : ParticlePoolComponent} (h : p.WellFormed) {i : Nat}
    (hi : i < p.pool_size) : ∃ view, MakeViewFromPool p i = some view := by
  have h1 : i < p.position.length := by rw [h.position]; exact hi
  have h2 : i < p.velocity.length := by rw [h.velocity]; exact hi
  have h3 : i < p.rotation.length := by rw [h.rotation]; exact hi
  have h4 : i < p.angular_velocity.length := by rw [h.angular_velocity]; exact hi
  have h5 : i < p.color.length := by rw [h.color]; exact hi
  have h6 : i < p.gradient.length := by rw [h.gradient]; exact hi
  have h7 : i < p.size.length := by rw [h.size]; exact hi
  have h8 : i < p.start_size.length := by rw [h.start_size]; exact hi
  have h9 : i < p.end_size.length := by rw [h.end_size]; exact hi
  have h10 : i < p.life.length := by rw [h.life]; exact hi
  have h11 : i < p.start_life.length := by rw [h.start_life]; exact hi
  simp only [MakeViewFromPool, List.getElem?_eq_getElem, h1, h2, h3, h4, h5, h6, h7, h8, h9,
    h10, h11, bind, Option.bind, pure]
  exact ⟨_, rfl⟩

theorem storeView_wellFormed {p : ParticlePoolComponent} (h : p.WellFormed) (i : Nat)
    (view : ParticlePoolComponentView) : (storeView p i view).WellFormed := by
  constructor <;> simp only [storeView, List.length_set]
  exacts [h.position, h.velocity, h.rotation, h.angular_velocity, h.color, h.gradient, h.size,
    h.start_size, h.end_size, h.life, h.start_life]

theorem generate_loop (g : ParticleGenerator) (pos : Vector) :
    ∀ (l : List Nat) (p : ParticlePoolComponent), p.WellFormed →
      (∀ i ∈ l, i < p.pool_size) →
      ∃ q, l.foldlM (generateAt g pos) p = some q ∧ q.WellFormed
        ∧ q.count_alive = p.count_alive ∧ q.pool_size = p.pool_size := by
  intro l
  induction l with
  | nil => intro p hwf _; exact ⟨p, rfl, hwf, rfl, rfl⟩
  | cons a l ih =>
    intro p hwf hl
    obtain ⟨view, hview⟩ := MakeViewFromPool_isSome hwf (hl a (List.mem_cons_self a l))
    have hgen : generateAt g pos p a = some (storeView p a (g pos view)) := by
      simp only [generateAt, hview, bind, Option.bind, pure]
    obtain ⟨q, hq, hqwf, hqc, hqs⟩ := ih (storeView p a (g pos view))
      (storeView_wellFormed hwf _ _)
      (fun i hi => hl i (List.mem_cons_of_mem a hi))
    refine ⟨q, ?_, hqwf, hqc, hqs⟩
    simp only [List.foldlM_cons, hgen, Option.bind_eq_bind, Option.some_bind]
    exact hq

theorem subU32_one {n : Nat} (h1 : 1 ≤ n) (h2 : n < U32) : subU32 n 1 = n - 1 := by
  unfold subU32 U32 at *
  omega

theorem endIndex_le {p : ParticlePoolComponent} (h1 : 1 ≤ p.pool_size)
    (h2 : p.pool_size < U32) (n : Nat) : endIndex p n ≤ p.pool_size - 1 := by
  unfold endIndex
  rw [subU32_one h1 h2]
  exact Nat.min_le_right _ _

theorem mem_spawnRange {p : ParticlePoolComponent} {n i : Nat} (h : i ∈ spawnRange p n) :
    p.count_alive ≤ i ∧ i < endIndex p n := by
  simp only [spawnRange, List.mem_range'_1] at h
  omega

/-- On a well-formed pool of at least one slot the two loops of lines 197-204 complete for
every value of `new_particles`: the generator has written the slots of the spawn range and
`count_alive` has moved up to `end_index`, unless it was already beyond it. -/
theorem spawnParticles_wellFormed (g : ParticleGenerator) (pos : Vector)
    (p : ParticlePoolComponent) (n : Nat)
    (hwf : p.WellFormed) (h1 : 1 ≤ p.pool_size) (h2 : p.pool_size < U32) :
    ∃ generated : ParticlePoolComponent,
      (spawnRange p n).foldlM (generateAt g pos) p = some generated
      ∧ spawnParticles g pos p n
        = some { generated with count_alive := max p.count_alive (endIndex p n) }
      ∧ generated.WellFormed ∧ generated.pool_size = p.pool_size
      ∧ generated.count_alive = p.count_alive := by
  have hE := endIndex_le h1 h2 n
  obtain ⟨q, hq, hqwf, hqc, hqs⟩ := generate_loop g pos (spawnRange p n) p hwf
    (fun i hi => by have := mem_spawnRange hi; omega)
  have hwake := wake_loop (endIndex p n - p.count_alive) q hqwf
    (fun hk => by rw [hqc, hqs]; omega)
  refine ⟨q, hq, ?_, hqwf, hqs, hqc⟩
  simp only [spawnParticles, hq, bind, Option.bind]
  have hrange : spawnRange p n = List.range' q.count_alive (endIndex p n - p.count_alive) := by
    rw [hqc]; rfl
  rw [hrange, hwake]
  have hmax : q.count_alive + (endIndex p n - p.count_alive)
      = max p.count_alive (endIndex p n) := by
    rw [hqc]; omega
  simp only [hmax]

/-- `UpdateEmitter` on an emitter that is not done, when lines 178-192 have computed the
emitter `updated` and the count `n`: it returns the queue as it was, `updated`, and the pool
that lines 194-204 leave for `n`. -/
theorem UpdateEmitter_of_computed (d : List DeferredReleasEmitter) (handle pool_id : Nat)
    {e updated : ParticleEmitterComponent} (p : ParticlePoolComponent) {ctx : UpdateContext}
    {n : Nat} (hdone : IsDone e = false) (hupdated : emitterAfter e ctx = some updated)
    (hn : newParticles e ctx = some n) :
    UpdateEmitter d handle e p pool_id ctx
      = (spawnParticles e.generator e.position p n).map (fun woken => ⟨d, updated, woken⟩) := by
  simp only [UpdateEmitter, hdone, Bool.false_eq_true, if_false, hupdated, hn, bind,
    Option.bind, pure]
  cases spawnParticles e.generator e.position p n <;> rfl

/-! ## C5 -/

theorem poolOfLives_wellFormed (lives : List ℚ) (count_alive : Nat) :
    (poolOfLives lives count_alive).WellFormed := by
  constructor <;>
    simp only [poolOfLives, List.length_map, List.length_range, List.length_replicate]

/-- On a well-formed pool with `1 ≤ pool_size` the clip of line 195 works for every value of
`new_particles`: the two loops complete, every slot they visit lies in
`[count_alive, pool_size - 1)`, and a pool with `count_alive ≤ pool_size - 1` before the batch
has `count_alive ≤ pool_size - 1` after it. -/
theorem spawnParticles_clips (g : ParticleGenerator) (pos : Vector)
    (p : ParticlePoolComponent) (n : Nat)
    (hwf : p.WellFormed) (h1 : 1 ≤ p.pool_size) (h2 : p.pool_size < U32) :
    ∃ q, spawnParticles g pos p n = some q
      ∧ (∀ index ∈ spawnRange p n, p.count_alive ≤ index ∧ index < p.pool_size - 1)
      ∧ q.pool_size = p.pool_size
      ∧ q.count_alive ≤ max p.count_alive (p.pool_size - 1)
      ∧ (p.count_alive ≤ p.pool_size - 1 → q.count_alive ≤ p.pool_size - 1) := by
  have hE := endIndex_le h1 h2 n
  obtain ⟨generated, -, hspawn, -, hsize, -⟩ := spawnParticles_wellFormed g pos p n hwf h1 h2
  refine ⟨_, hspawn, fun index hi => by have := mem_spawnRange hi; omega, hsize, ?_,
    fun h => ?_⟩
  · show max p.count_alive (endIndex p n) ≤ _
    omega
  · show max p.count_alive (endIndex p n) ≤ _
    omega

/-- C5, a fault of the code: the clip of line 195 computes `pool_size - 1` in `uint32_t`, and
`AllocatePool` accepts `pool_size = 0`. On the pool that `AllocatePool(0, 0, f)` leaves,
`pool_size - 1` is `2 ^ 32 - 1`, so `end_index` is the requested count itself, whatever it
is: a Continuous emitter of rate 3 updated with a step of one second requests 3 particles,
the batch targets the slots 0, 1 and 2 of arrays of length 0, and the `Update` call reads
outside the arrays. On every well-formed pool with `1 ≤ pool_size` the batch stays within
`[count_alive, pool_size - 1)` and leaves `count_alive ≤ pool_size - 1`. -/
theorem UpdateEmitter_clip_wraps_on_empty_pool :
    ((ParticleSystem.create 1 1).run
        [.allocatePool 0 0 keepView,
          .attachEmitter 0 ZeroVec 0 3 .CONTINOUS (fixedGenerator 1 1 1 1)]).map
        (fun system => system.m_particle_pools.map
          (fun pool => (pool.pool_size, pool.count_alive, pool.size.length,
            subU32 pool.pool_size 1, spawnRange pool 3)))
      = some [(0, 0, 0, 4294967295, [0, 1, 2])]
    ∧ (∀ (p : ParticlePoolComponent) (n : Nat), p.pool_size = 0 → p.count_alive = 0 →
        n < U32 → endIndex p n = n ∧ spawnRange p n = List.range' 0 n)
    ∧ newParticles (emitterOf .CONTINOUS 0 3) (contextOf 1) = some 3
    ∧ (spawnParticles (fixedGenerator 1 1 1 1) ZeroVec (resetPool emptyPool 0 keepView 0)
        3).isSome = false
    ∧ ((ParticleSystem.create 1 1).run
        [.allocatePool 0 0 keepView,
          .attachEmitter 0 ZeroVec 0 3 .CONTINOUS (fixedGenerator 1 1 1 1),
          .update (contextOf 1)]).isSome = false
    ∧ ((ParticleSystem.create 1 1).run
        [.allocatePool 0 1 keepView,
          .attachEmitter 0 ZeroVec 0 3 .CONTINOUS (fixedGenerator 1 1 1 1),
          .update (contextOf 1)]).map
        (fun system => system.m_particle_pools.map
          (fun pool => (pool.pool_size, pool.count_alive)))
      = some [(1, 0)]
    ∧ (∀ (g : ParticleGenerator) (pos : Vector) (p : ParticlePoolComponent) (n : Nat),
        p.WellFormed → 1 ≤ p.pool_size → p.pool_size < U32 →
        ∃ q, spawnParticles g pos p n = some q
          ∧ (∀ index ∈ spawnRange p n, p.count_alive ≤ index ∧ index < p.pool_size - 1)
          ∧ q.pool_size = p.pool_size
          ∧ (p.count_alive ≤ p.pool_size - 1 → q.count_alive ≤ p.pool_size - 1)) := by
  refine ⟨by decide!, ?_, by decide!, by decide!, by decide!, by decide!, ?_⟩
  · intro p n hsize hcount hn
    have hend : endIndex p n = n := by
      unfold endIndex addU32 subU32 U32 at *
      rw [hsize, hcount]
      omega
    refine ⟨hend, ?_⟩
    unfold spawnRange
    rw [hend, hcount]
    rfl
  · intro g pos p n hwf h1 h2
    obtain ⟨q, hq, hrange, hsize, -, hclip⟩ := spawnParticles_clips g pos p n hwf h1 h2
    exact ⟨q, hq, hrange, hsize, hclip⟩

/-! ## C6 -/

theorem toUint32_of_range {x : ℚ} (h1 : -1 < x) (h2 : x < (U32 : ℚ)) :
    toUint32 x = some ⌊x⌋.toNat := by
  simp only [toUint32, h1, h2, and_self, if_true]

theorem toUint32_eq_some {x : ℚ} {n : Nat} (h : toUint32 x = some n) :
    -1 < x ∧ x < (U32 : ℚ) ∧ n = ⌊x⌋.toNat := by
  unfold toUint32 at h
  split at h
  · rename_i hx
    rw [Option.some.injEq] at h
    exact ⟨hx.1, hx.2, h.symm⟩
  · exact absurd h (by simp)

theorem toNat_floor_le {x : ℚ} (hx : 0 ≤ x) : ((⌊x⌋.toNat : Nat) : ℚ) ≤ x := by
  have h2 : ((⌊x⌋.toNat : Nat) : ℤ) = ⌊x⌋ := Int.toNat_of_nonneg (Int.floor_nonneg.mpr hx)
  have h3 : ((⌊x⌋.toNat : Nat) : ℚ) = ((⌊x⌋ : ℤ) : ℚ) := by exact_mod_cast h2
  rw [h3]
  exact Int.floor_le x

/-- What `emitterAfter` keeps and what it writes. -/
theorem emitterAfter_frame {e updated : ParticleEmitterComponent} {ctx : UpdateContext}
    (h : emitterAfter e ctx = some updated) :
    updated.type = e.type ∧ updated.burst_emitted = true ∧ updated.position = e.position
      ∧ updated.duration = e.duration ∧ updated.emit_rate = e.emit_rate
      ∧ updated.generator = e.generator
      ∧ fadd e.elapsed_time ctx.delta_s = some updated.elapsed_time
      ∧ ∃ n, newParticles e ctx = some n ∧ nextCarryOver e n = some updated.carry_over := by
  simp only [emitterAfter, bind, Option.bind_eq_some, pure, Option.some.injEq] at h
  obtain ⟨elapsed, helapsed, n, hn, carry, hcarry, rfl⟩ := h
  exact ⟨rfl, rfl, rfl, rfl, rfl, rfl, helapsed, n, hn, hcarry⟩

theorem emitterAfter_of {e : ParticleEmitterComponent} {ctx : UpdateContext}
    {elapsed carry : ℚ} {n : Nat} (helapsed : fadd e.elapsed_time ctx.delta_s = some elapsed)
    (hn : newParticles e ctx = some n) (hcarry : nextCarryOver e n = some carry) :
    emitterAfter e ctx
      = some { e with elapsed_time := elapsed, carry_over := carry, burst_emitted := true } := by
  simp only [emitterAfter, helapsed, hn, hcarry, bind, Option.bind, pure]

theorem IsDone_of_burst {e : ParticleEmitterComponent}
    (hty : e.type = EmitterType.BURST ∨ e.type = EmitterType.BURST_REMOVE_ON_FINISH) :
    IsDone e = e.burst_emitted := by
  simp only [IsDone, if_pos hty]

theorem UpdateEmitter_done {e : ParticleEmitterComponent} (hdone : IsDone e = true)
    (d : List DeferredReleasEmitter) (handle pool_id : Nat) (p : ParticlePoolComponent)
    (ctx : UpdateContext) :
    ∃ later, UpdateEmitter d handle e p pool_id ctx = some later
      ∧ later.pool = p ∧ later.emitter = e
      ∧ later.deferred
          = if e.type = EmitterType.BURST_REMOVE_ON_FINISH then d ++ [⟨pool_id, handle⟩]
            else d := by
  by_cases hty : e.type = EmitterType.BURST_REMOVE_ON_FINISH
  · exact ⟨⟨d ++ [⟨pool_id, handle⟩], e, p⟩,
      by simp only [UpdateEmitter, hdone, if_true, if_pos hty], rfl, rfl, by rw [if_pos hty]⟩
  · exact ⟨⟨d, e, p⟩,
      by simp only [UpdateEmitter, hdone, if_true, if_neg hty], rfl, rfl, by rw [if_neg hty]⟩

/-- C6, the claim as stated fails: a BURST emitter with `emit_rate = 5/2` and `duration = 1`
on an empty well-formed pool of sixteen slots has room (`0 + 5/2 ≤ 16 - 1`), and its first
`UpdateEmitter` admits 2 particles, which is not `emit_rate * duration = 5/2`. The count is
the integer part of the binary32 product: with `emit_rate = 11744051 / 16777216`, the
binary32 value of `0.7`, and `duration = 10` the product of line 183 rounds to 7 and the
emitter admits 7 particles, while the integer part of the exact product is 6. -/
theorem UpdateEmitter_burst_truncates :
    (UpdateEmitter [] 0 (emitterOf .BURST 1 (5 / 2)) (poolOfLives (List.replicate 16 0) 0) 0
        (contextOf 1)).map (fun step => step.pool.count_alive) = some 2
    ∧ ((poolOfLives (List.replicate 16 0) 0).count_alive : ℚ)
        + (emitterOf .BURST 1 (5 / 2)).emit_rate * (emitterOf .BURST 1 (5 / 2)).duration
      ≤ ((poolOfLives (List.replicate 16 0) 0).pool_size : ℚ) - 1
    ∧ ((2 : Nat) : ℚ)
      ≠ (emitterOf .BURST 1 (5 / 2)).emit_rate * (emitterOf .BURST 1 (5 / 2)).duration
    ∧ roundF32 (7 / 10) = some (11744051 / 16777216)
    ∧ (UpdateEmitter [] 0 (emitterOf .BURST 10 (11744051 / 16777216))
        (poolOfLives (List.replicate 16 0) 0) 0 (contextOf 1)).map
        (fun step => step.pool.count_alive) = some 7
    ∧ ⌊(11744051 / 16777216 : ℚ) * 10⌋ = 6 := by
  decide!

/-- C6 as amended: for a Burst or BurstRemoveOnFinish emitter that has not emitted, on a
well-formed pool, let `product` be the `float` product `emit_rate * duration` of line 183 and
let the `float` sum of line 178 be finite. When the conversion of `product` to `uint32_t` is
defined (`-1 < product`) and `count_alive + product ≤ pool_size - 1`, the first
`UpdateEmitter` completes, admits exactly the integer part of `product` (10 for
`emit_rate = 5`, `duration = 2`), sets `burst_emitted = true` and queues nothing; and every
later `UpdateEmitter` on the emitter it leaves behind, on any pool, leaves that pool and the
emitter unchanged, so it admits nothing. -/
theorem UpdateEmitter_burst_admits_truncated (d : List DeferredReleasEmitter)
    (handle pool_id : Nat) (e : ParticleEmitterComponent) (p : ParticlePoolComponent)
    (ctx : UpdateContext) (elapsed product : ℚ)
    (hty : e.type = EmitterType.BURST ∨ e.type = EmitterType.BURST_REMOVE_ON_FINISH)
    (hnot : e.burst_emitted = false) (hwf : p.WellFormed) (h2 : p.pool_size < U32)
    (helapsed : fadd e.elapsed_time ctx.delta_s = some elapsed)
    (hproduct : fmul e.emit_rate e.duration = some product)
    (hdefined : -1 < product)
    (hroom : (p.count_alive : ℚ) + product ≤ (p.pool_size : ℚ) - 1) :
    ∃ step, UpdateEmitter d handle e p pool_id ctx = some step
      ∧ newParticles e ctx = some ⌊product⌋.toNat
      ∧ step.pool.count_alive = p.count_alive + ⌊product⌋.toNat
      ∧ step.emitter.burst_emitted = true
      ∧ step.deferred = d
      ∧ ∀ (d' : List DeferredReleasEmitter) (handle' pool_id' : Nat)
          (p' : ParticlePoolComponent) (ctx' : UpdateContext),
          ∃ later, UpdateEmitter d' handle' step.emitter p' pool_id' ctx' = some later
            ∧ later.pool = p' ∧ later.emitter = step.emitter := by
  have hdone : IsDone e = false := by rw [IsDone_of_burst hty, hnot]
  have hcount : (0 : ℚ) ≤ (p.count_alive : ℚ) := Nat.cast_nonneg _
  have hU : ((p.pool_size : Nat) : ℚ) < ((U32 : Nat) : ℚ) := by exact_mod_cast h2
  have hlt : product < (U32 : ℚ) := by linarith
  have hn : newParticles e ctx = some ⌊product⌋.toNat := by
    simp only [newParticles, if_pos hty, hproduct, Option.some_bind]
    exact toUint32_of_range hdefined hlt
  have hsum : p.count_alive + ⌊product⌋.toNat + 1 ≤ p.pool_size := by
    by_cases h0 : 0 ≤ product
    · have hnQ := toNat_floor_le h0
      have : ((p.count_alive + ⌊product⌋.toNat + 1 : Nat) : ℚ) ≤ (p.pool_size : ℚ) := by
        push_cast; linarith
      exact_mod_cast this
    · have hneg : ⌊product⌋ < 0 := by
        have : product < ((0 : ℤ) : ℚ) := by simpa using not_le.mp h0
        exact Int.floor_lt.mpr this
      have hz : ⌊product⌋.toNat = 0 := Int.toNat_eq_zero.mpr hneg.le
      have hq : ((p.count_alive : Nat) : ℚ) < ((p.pool_size : Nat) : ℚ) := by linarith
      have hnat : p.count_alive < p.pool_size := by exact_mod_cast hq
      omega
  have h1 : 1 ≤ p.pool_size := by omega
  have hend : endIndex p ⌊product⌋.toNat = p.count_alive + ⌊product⌋.toNat := by
    unfold endIndex addU32
    rw [subU32_one h1 h2, Nat.mod_eq_of_lt (by omega)]
    omega
  have hcarry : nextCarryOver e ⌊product⌋.toNat = some e.carry_over := by
    simp only [nextCarryOver, if_pos hty]
  have hupdated := emitterAfter_of helapsed hn hcarry
  obtain ⟨generated, -, hspawn, -, -, -⟩ :=
    spawnParticles_wellFormed e.generator e.position p ⌊product⌋.toNat hwf h1 h2
  have hstep := UpdateEmitter_of_computed d handle pool_id p hdone hupdated hn
  rw [hspawn] at hstep
  refine ⟨_, hstep, hn, ?_, rfl, rfl, ?_⟩
  · show max p.count_alive (endIndex p ⌊product⌋.toNat) = _
    rw [hend]
    omega
  · intro d' handle' pool_id' p' ctx'
    have hdone' : ∀ u, emitterAfter e ctx = some u → IsDone u = true := fun u hu => by
      obtain ⟨ht, hb, -⟩ := emitterAfter_frame hu
      rw [IsDone_of_burst (by rw [ht]; exact hty)]
      exact hb
    obtain ⟨later, h, hp, he, -⟩ :=
      UpdateEmitter_done (hdone' _ hupdated) d' handle' pool_id' p' ctx'
    exact ⟨later, h, hp, he⟩

theorem UpdateEmitter_burst_admits_truncated_witness :
    (UpdateEmitter [] 0 (emitterOf .BURST 2 5) (poolOfLives (List.replicate 16 0) 0) 0
        (contextOf 1)).map (fun step => (step.pool.count_alive, step.emitter.burst_emitted))
      = some (10, true)
    ∧ ∃ step, UpdateEmitter [] 0 (emitterOf .BURST 2 5) (poolOfLives (List.replicate 16 0) 0)
          0 (contextOf 1) = some step
        ∧ newParticles (emitterOf .BURST 2 5) (contextOf 1) = some ⌊(10 : ℚ)⌋.toNat
        ∧ step.pool.count_alive
            = (poolOfLives (List.replicate 16 0) 0).count_alive + ⌊(10 : ℚ)⌋.toNat
        ∧ step.emitter.burst_emitted = true
        ∧ step.deferred = []
        ∧ ∀ (d' : List DeferredReleasEmitter) (handle' pool_id' : Nat)
            (p' : ParticlePoolComponent) (ctx' : UpdateContext),
            ∃ later, UpdateEmitter d' handle' step.emitter p' pool_id' ctx' = some later
              ∧ later.pool = p' ∧ later.emitter = step.emitter :=
  ⟨by decide!,
    UpdateEmitter_burst_admits_truncated [] 0 0 (emitterOf .BURST 2 5)
      (poolOfLives (List.replicate 16 0) 0) (contextOf 1) 1 10 (Or.inl rfl) rfl
      (poolOfLives_wellFormed _ _) (by decide) (by decide!) (by decide!) (by decide!)
      (by decide!)⟩

/-! ## C7 -/

theorem IsDone_continuous {e : ParticleEmitterComponent} (hty : e.type = EmitterType.CONTINOUS)
    (hdur : e.duration ≤ 0) : IsDone e = false := by
  have h1 : ¬ (e.type = EmitterType.BURST ∨ e.type = EmitterType.BURST_REMOVE_ON_FINISH) := by
    rw [hty]; decide
  have h2 : ¬ (e.duration > 0 ∧ e.elapsed_time > e.duration) := fun h => absurd h.1 (not_lt.mpr hdur)
  simp only [IsDone, if_neg h1, decide_eq_false_iff_not]
  exact h2

theorem newParticles_continuous {e : ParticleEmitterComponent} (ctx : UpdateContext)
    (hty : e.type = EmitterType.CONTINOUS) :
    newParticles e ctx
      = ((fadd e.emit_rate e.carry_over).bind (fmul ctx.delta_s)).bind toUint32 := by
  have h1 : ¬ (e.type = EmitterType.BURST ∨ e.type = EmitterType.BURST_REMOVE_ON_FINISH) := by
    rw [hty]; decide
  simp only [newParticles, if_neg h1]

theorem nextCarryOver_continuous {e : ParticleEmitterComponent} (n : Nat)
    (hty : e.type = EmitterType.CONTINOUS) :
    nextCarryOver e n = if n = 0 then fadd e.carry_over e.emit_rate else some 0 := by
  have h1 : ¬ (e.type = EmitterType.BURST ∨ e.type = EmitterType.BURST_REMOVE_ON_FINISH) := by
    rw [hty]; decide
  simp only [nextCarryOver, if_neg h1]

/-- One update of a Continuous emitter whose carry-over is `k * emit_rate`, when the sum and
the product of line 187 do not round: the count is the integer part of
`(k + 1) * (delta_s * emit_rate)`, and the carry-over becomes `(k + 1) * emit_rate` when the
count is 0 and 0 otherwise. -/
theorem exact_frame {e updated : ParticleEmitterComponent} {ctx : UpdateContext} {k c : Nat}
    (hty : e.type = EmitterType.CONTINOUS) (hcarry : e.carry_over = (k : ℚ) * e.emit_rate)
    (hsum : roundF32 (((k + 1 : Nat) : ℚ) * e.emit_rate)
      = some (((k + 1 : Nat) : ℚ) * e.emit_rate))
    (hprod : roundF32 (ctx.delta_s * (((k + 1 : Nat) : ℚ) * e.emit_rate))
      = some (ctx.delta_s * (((k + 1 : Nat) : ℚ) * e.emit_rate)))
    (hc : newParticles e ctx = some c) (hupdated : emitterAfter e ctx = some updated) :
    c = ⌊ctx.delta_s * (((k + 1 : Nat) : ℚ) * e.emit_rate)⌋.toNat
      ∧ -1 < ctx.delta_s * (((k + 1 : Nat) : ℚ) * e.emit_rate)
      ∧ updated.type = EmitterType.CONTINOUS ∧ updated.duration = e.duration
      ∧ updated.emit_rate = e.emit_rate
      ∧ updated.carry_over = if c = 0 then ((k + 1 : Nat) : ℚ) * e.emit_rate else 0 := by
  have hadd : e.emit_rate + e.carry_over = ((k + 1 : Nat) : ℚ) * e.emit_rate := by
    rw [hcarry]; push_cast; ring
  have hadd' : e.carry_over + e.emit_rate = ((k + 1 : Nat) : ℚ) * e.emit_rate := by
    rw [hcarry]; push_cast; ring
  have hnew := hc
  rw [newParticles_continuous ctx hty] at hnew
  simp only [fadd, fmul, hadd, hsum, hprod, Option.some_bind] at hnew
  obtain ⟨hlow, -, hfloor⟩ := toUint32_eq_some hnew
  obtain ⟨ht, -, -, hdur, hrate, -, -, c', hc', hnext⟩ := emitterAfter_frame hupdated
  rw [hc, Option.some.injEq] at hc'
  subst hc'
  rw [nextCarryOver_continuous c hty] at hnext
  refine ⟨hfloor, hlow, ht.trans hty, hdur, hrate, ?_⟩
  by_cases hzero : c = 0
  · rw [if_pos hzero] at hnext ⊢
    simp only [fadd, hadd', hsum, Option.some.injEq] at hnext
    exact hnext.symm
  · rw [if_neg hzero] at hnext ⊢
    rw [Option.some.injEq] at hnext
    exact hnext.symm

/-- With `k` frames of carry-over accumulated and `k * (delta_s * emit_rate) < 1`, the next
`n` frames spawn at most `(n + k) * (delta_s * emit_rate)` particles, and more than half of
that number less one half, when no sum or product rounds. -/
theorem totalSpawned_bounds_aux (ctx : UpdateContext) (hd : 0 < ctx.delta_s) (r : ℚ)
    (hr : 0 < r) (N : Nat) (hexact : ExactCarry r ctx.delta_s N) :
    ∀ (n k : Nat) (e : ParticleEmitterComponent) (S : Nat), n + k ≤ N →
      e.type = EmitterType.CONTINOUS → e.duration ≤ 0 → e.emit_rate = r →
      e.carry_over = (k : ℚ) * e.emit_rate → (k : ℚ) * (ctx.delta_s * r) < 1 →
      totalSpawned ctx n e = some S →
      (S : ℚ) ≤ ((n : ℚ) + (k : ℚ)) * (ctx.delta_s * r)
        ∧ ((n : ℚ) + (k : ℚ)) * (ctx.delta_s * r) < 2 * (S : ℚ) + 1 := by
  intro n
  induction n with
  | zero =>
    intro k e S _ _ _ _ _ hinv hS
    simp only [totalSpawned, Option.some.injEq] at hS
    subst hS
    have hq : 0 < ctx.delta_s * r := mul_pos hd hr
    constructor
    · simp only [Nat.cast_zero, zero_add]
      positivity
    · simpa using hinv
  | succ n ih =>
    intro k e S hN hty hdur hrate hcarry hinv hS
    have hq : 0 < ctx.delta_s * r := mul_pos hd hr
    simp only [totalSpawned, IsDone_continuous hty hdur, Bool.false_eq_true, if_false, bind,
      Option.bind_eq_some, pure, Option.some.injEq] at hS
    obtain ⟨c, hc, updated, hupdated, S', hS', rfl⟩ := hS
    obtain ⟨-, hsum, hprod⟩ := hexact (k + 1) (by omega)
    obtain ⟨hfloor, hlow, hty', hdur', hrate', hcarry'⟩ :=
      exact_frame hty hcarry (hrate ▸ hsum) (hrate ▸ hprod) hc hupdated
    rw [hrate] at hfloor hlow hcarry'
    have hx : ctx.delta_s * (((k + 1 : Nat) : ℚ) * r) = ((k : ℚ) + 1) * (ctx.delta_s * r) := by
      push_cast; ring
    rw [hx] at hfloor hlow
    have hx0 : 0 ≤ ((k : ℚ) + 1) * (ctx.delta_s * r) := by positivity
    have hcQ : (c : ℚ) ≤ ((k : ℚ) + 1) * (ctx.delta_s * r) := by
      rw [hfloor]; exact toNat_floor_le hx0
    have hcZ : ((c : Nat) : ℤ) = ⌊((k : ℚ) + 1) * (ctx.delta_s * r)⌋ := by
      rw [hfloor]; exact Int.toNat_of_nonneg (Int.floor_nonneg.mpr hx0)
    have hlt : ((k : ℚ) + 1) * (ctx.delta_s * r) < (c : ℚ) + 1 := by
      have := Int.lt_floor_add_one (((k : ℚ) + 1) * (ctx.delta_s * r))
      rw [← hcZ] at this
      exact_mod_cast this
    by_cases hzero : c = 0
    · rw [if_pos hzero] at hcarry'
      have hinv' : ((k + 1 : Nat) : ℚ) * (ctx.delta_s * r) < 1 := by
        rw [hzero] at hlt
        push_cast
        simpa using hlt
      have hcarry'' : updated.carry_over = ((k + 1 : Nat) : ℚ) * updated.emit_rate := by
        rw [hcarry', hrate', hrate]
      obtain ⟨h1, h2⟩ := ih (k + 1) updated S' (by omega) hty' (hdur'.trans_le hdur)
        (hrate'.trans hrate) hcarry'' hinv' hS'
      rw [hzero]
      push_cast at h1 h2 ⊢
      constructor <;> linarith
    · rw [if_neg hzero] at hcarry'
      have hcarry'' : updated.carry_over = ((0 : Nat) : ℚ) * updated.emit_rate := by
        rw [hcarry']; simp
      obtain ⟨h1, h2⟩ := ih 0 updated S' (by omega) hty' (hdur'.trans_le hdur)
        (hrate'.trans hrate) hcarry'' (by simp) hS'
      have hc1 : (1 : ℚ) ≤ (c : ℚ) := by
        have : 1 ≤ c := Nat.one_le_iff_ne_zero.mpr hzero
        exact_mod_cast this
      push_cast at h1 h2 ⊢
      constructor <;> linarith

/-- While no sum or product rounds, every one of the next `n` updates computes a spawn
count: the products stay below `2 ^ 32`, the range on which the conversion is defined. -/
theorem totalSpawned_isSome (ctx : UpdateContext) (hd : 0 < ctx.delta_s) (r : ℚ)
    (hr : 0 < r) (hfit : ctx.delta_s * r < (U32 : ℚ)) (N : Nat)
    (hexact : ExactCarry r ctx.delta_s N) :
    ∀ (n k t : Nat) (e : ParticleEmitterComponent), n + k ≤ N → n + t ≤ N →
      e.type = EmitterType.CONTINOUS → e.duration ≤ 0 → e.emit_rate = r →
      e.carry_over = (k : ℚ) * e.emit_rate → e.elapsed_time = (t : ℚ) * ctx.delta_s →
      (k : ℚ) * (ctx.delta_s * r) < 1 →
      ∃ S, totalSpawned ctx n e = some S := by
  intro n
  induction n with
  | zero =>
    intro k t e _ _ _ _ _ _ _ _
    exact ⟨0, rfl⟩
  | succ n ih =>
    intro k t e hk ht hty hdur hrate hcarry helapsed hinv
    have hq : 0 < ctx.delta_s * r := mul_pos hd hr
    obtain ⟨hstep, hsum, hprod⟩ := hexact (k + 1) (by omega)
    obtain ⟨hstep', -, -⟩ := hexact (t + 1) (by omega)
    have hadd : e.emit_rate + e.carry_over = ((k + 1 : Nat) : ℚ) * r := by
      rw [hcarry, hrate]; push_cast; ring
    have hadd' : e.carry_over + e.emit_rate = ((k + 1 : Nat) : ℚ) * r := by
      rw [hcarry, hrate]; push_cast; ring
    have hx : ctx.delta_s * (((k + 1 : Nat) : ℚ) * r)
        = (k : ℚ) * (ctx.delta_s * r) + ctx.delta_s * r := by push_cast; ring
    have hk0 : (0 : ℚ) ≤ (k : ℚ) * (ctx.delta_s * r) := by positivity
    have hx0 : 0 ≤ ctx.delta_s * (((k + 1 : Nat) : ℚ) * r) := by rw [hx]; linarith
    have hnew : newParticles e ctx
        = some ⌊ctx.delta_s * (((k + 1 : Nat) : ℚ) * r)⌋.toNat := by
      rw [newParticles_continuous ctx hty]
      simp only [fadd, fmul, hadd, hsum, hprod, Option.some_bind]
      apply toUint32_of_range
      · linarith
      · rw [hx]
        rcases Nat.eq_zero_or_pos k with h0 | hpos
        · rw [h0]; simpa using hfit
        · have hk1 : (1 : ℚ) ≤ (k : ℚ) := by exact_mod_cast hpos
          have hq1 : ctx.delta_s * r < 1 := by nlinarith
          have hU : (2 : ℚ) ≤ (U32 : ℚ) := by norm_num [U32]
          linarith
    have hel : fadd e.elapsed_time ctx.delta_s = some (((t + 1 : Nat) : ℚ) * ctx.delta_s) := by
      have heq : e.elapsed_time + ctx.delta_s = ((t + 1 : Nat) : ℚ) * ctx.delta_s := by
        rw [helapsed]; push_cast; ring
      simp only [fadd, heq]
      exact hstep'
    by_cases hzero : ⌊ctx.delta_s * (((k + 1 : Nat) : ℚ) * r)⌋.toNat = 0
    · have hnext : nextCarryOver e ⌊ctx.delta_s * (((k + 1 : Nat) : ℚ) * r)⌋.toNat
          = some (((k + 1 : Nat) : ℚ) * r) := by
        rw [nextCarryOver_continuous _ hty, if_pos hzero]
        simp only [fadd, hadd']
        exact hsum
      have hupdated := emitterAfter_of hel hnew hnext
      have hlt : ((k + 1 : Nat) : ℚ) * (ctx.delta_s * r) < 1 := by
        have hfl : ⌊ctx.delta_s * (((k + 1 : Nat) : ℚ) * r)⌋ ≤ 0 := Int.toNat_eq_zero.mp hzero
        have := Int.lt_floor_add_one (ctx.delta_s * (((k + 1 : Nat) : ℚ) * r))
        have hcast : ((⌊ctx.delta_s * (((k + 1 : Nat) : ℚ) * r)⌋ : ℤ) : ℚ) ≤ 0 := by
          exact_mod_cast hfl
        have hre : ((k + 1 : Nat) : ℚ) * (ctx.delta_s * r)
            = ctx.delta_s * (((k + 1 : Nat) : ℚ) * r) := by ring
        rw [hre]
        linarith
      obtain ⟨S, hS⟩ := ih (k + 1) (t + 1)
        { e with
          elapsed_time := ((t + 1 : Nat) : ℚ) * ctx.delta_s
          carry_over := ((k + 1 : Nat) : ℚ) * r
          burst_emitted := true }
        (by omega) (by omega) hty hdur hrate (by rw [hrate]) rfl hlt
      refine ⟨⌊ctx.delta_s * (((k + 1 : Nat) : ℚ) * r)⌋.toNat + S, ?_⟩
      simp only [totalSpawned, IsDone_continuous hty hdur, Bool.false_eq_true, if_false, hnew,
        hupdated, hS, bind, Option.bind, pure]
    · have hnext : nextCarryOver e ⌊ctx.delta_s * (((k + 1 : Nat) : ℚ) * r)⌋.toNat
          = some 0 := by
        rw [nextCarryOver_continuous _ hty, if_neg hzero]
      have hupdated := emitterAfter_of hel hnew hnext
      obtain ⟨S, hS⟩ := ih 0 (t + 1)
        { e with
          elapsed_time := ((t + 1 : Nat) : ℚ) * ctx.delta_s
          carry_over := 0
          burst_emitted := true }
        (by omega) (by omega) hty hdur hrate (by simp) rfl (by simp)
      refine ⟨⌊ctx.delta_s * (((k + 1 : Nat) : ℚ) * r)⌋.toNat + S, ?_⟩
      simp only [totalSpawned, IsDone_continuous hty hdur, Bool.false_eq_true, if_false, hnew,
        hupdated, hS, bind, Option.bind, pure]

/-- C7, the claim as stated fails. With `emit_rate = 12` and step `1/16` (every value of the
run is a binary32 value and no operation rounds) the frames spawn 0, 1, 0, 1, ...: eight
frames spawn 4 particles while `floor (12 * 8 * (1/16)) = 6`. With the claim's own numbers,
`emit_rate = 10` and the binary32 value `8589935 / 536870912` of `0.016`, one particle is
spawned every seventh frame: 62 frames spawn 8 and 63 frames spawn 9, not "9 or 10". With
`emit_rate = 100` and the binary32 value `5368709 / 1073741824` of `0.005` the product of
line 187 rounds up to 1 at every second frame: 60 frames spawn 30 particles, one more than
`floor (100 * 60 * delta_s) = 29`. -/
theorem totalSpawned_falls_short :
    totalSpawned (contextOf (1 / 16)) 8 (emitterOf .CONTINOUS 0 12) = some 4
    ∧ ⌊(12 : ℚ) * 8 * (1 / 16)⌋ = 6
    ∧ roundF32 (16 / 1000) = some (8589935 / 536870912)
    ∧ totalSpawned (contextOf (8589935 / 536870912)) 62 (emitterOf .CONTINOUS 0 10) = some 8
    ∧ totalSpawned (contextOf (8589935 / 536870912)) 63 (emitterOf .CONTINOUS 0 10) = some 9
    ∧ roundF32 (5 / 1000) = some (5368709 / 1073741824)
    ∧ totalSpawned (contextOf (5368709 / 1073741824)) 60 (emitterOf .CONTINOUS 0 100)
        = some 30
    ∧ ⌊(100 : ℚ) * 60 * (5368709 / 1073741824)⌋ = 29 := by
  decide!

/-- C7 as amended: for a Continuous emitter with `emit_rate = r > 0` that never finishes
(`duration ≤ 0`), attached with `carry_over = 0` and `elapsed_time = 0` and updated for `n`
frames of constant step `d > 0` with `d * r < 2 ^ 32` (the range on which the conversion of
line 187 is defined), when no `float` sum or product of lines 178-189 rounds during the `n`
updates (`ExactCarry`), the updates compute the per-frame spawn counts, and their sum `S`
satisfies `S ≤ floor (r * n * d)` and `r * n * d < 2 * S + 1`: the sum is at most the floor
and more than half of `r * n * d - 1`. -/
theorem totalSpawned_bounds (r d : ℚ) (n : Nat) (e : ParticleEmitterComponent)
    (ctx : UpdateContext) (hr : 0 < r) (hd : 0 < d) (hty : e.type = EmitterType.CONTINOUS)
    (hdur : e.duration ≤ 0) (hrate : e.emit_rate = r) (hcarry : e.carry_over = 0)
    (helapsed : e.elapsed_time = 0) (hctx : ctx.delta_s = d) (hfit : d * r < (U32 : ℚ))
    (hexact : ExactCarry r d n) :
    ∃ S : Nat, totalSpawned ctx n e = some S
      ∧ (S : ℤ) ≤ ⌊r * (n : ℚ) * d⌋ ∧ r * (n : ℚ) * d < 2 * (S : ℚ) + 1 := by
  subst hctx
  obtain ⟨S, hS⟩ := totalSpawned_isSome ctx hd r hr hfit n hexact n 0 0 e (by omega) (by omega)
    hty hdur hrate (by rw [hcarry]; simp) (by rw [helapsed]; simp) (by simp)
  obtain ⟨h1, h2⟩ := totalSpawned_bounds_aux ctx hd r hr n hexact n 0 e S (by omega) hty hdur
    hrate (by rw [hcarry]; simp) (by simp) hS
  push_cast at h1 h2
  refine ⟨S, hS, ?_, ?_⟩
  · rw [Int.le_floor]
    push_cast
    linarith
  · linarith

theorem totalSpawned_bounds_witness :
    ExactCarry 12 (1 / 16) 8
    ∧ totalSpawned (contextOf (1 / 16)) 8 (emitterOf .CONTINOUS 0 12) = some 4
    ∧ ∃ S : Nat, totalSpawned (contextOf (1 / 16)) 8 (emitterOf .CONTINOUS 0 12) = some S
        ∧ (S : ℤ) ≤ ⌊(12 : ℚ) * ((8 : Nat) : ℚ) * (1 / 16)⌋
        ∧ (12 : ℚ) * ((8 : Nat) : ℚ) * (1 / 16) < 2 * (S : ℚ) + 1 :=
  have hexact : ExactCarry 12 (1 / 16) 8 := by unfold ExactCarry; decide!
  ⟨hexact, by decide!,
    totalSpawned_bounds 12 (1 / 16) 8 (emitterOf .CONTINOUS 0 12) (contextOf (1 / 16))
      (by decide!) (by decide!) rfl (by decide!) rfl rfl rfl rfl (by decide!) hexact⟩

/-! ## C8: lemmas on folds -/

theorem foldlM_preserves_of_mem {α β : Type} (P : β → Prop) (f : β → α → Option β) :
    ∀ (l : List α), (∀ b a b', a ∈ l → P b → f b a = some b' → P b') →
      ∀ (b b' : β), P b → l.foldlM f b = some b' → P b' := by
  intro l
  induction l with
  | nil =>
    intro _ b b' hb h
    simp only [List.foldlM_nil, Option.pure_def, Option.some.injEq] at h
    exact h ▸ hb
  | cons a l ih =>
    intro hf b b' hb h
    simp only [List.foldlM_cons, Option.bind_eq_bind, Option.bind_eq_some] at h
    obtain ⟨c, hc, hrest⟩ := h
    exact ih (fun b a' b' ha' => hf b a' b' (List.mem_cons_of_mem a ha')) c b'
      (hf b a c (List.mem_cons_self a l) hb hc) hrest

/-- A fold in which the element `x` occurs once: the steps on other elements keep `Pre` and
keep `Post`, the step on `x` leads from `Pre` to `Post`. -/
theorem foldlM_once {α β : Type} [DecidableEq α] (Pre Post : β → Prop)
    (f : β → α → Option β) (x : α)
    (hpre : ∀ b a b', a ≠ x → Pre b → f b a = some b' → Pre b')
    (hpost : ∀ b a b', a ≠ x → Post b → f b a = some b' → Post b')
    (hx : ∀ b b', Pre b → f b x = some b' → Post b') :
    ∀ (l : List α) (b b' : β), l.count x = 1 → Pre b → l.foldlM f b = some b' → Post b' := by
  intro l
  induction l with
  | nil => intro b b' hcount; simp at hcount
  | cons a l ih =>
    intro b b' hcount hb h
    simp only [List.foldlM_cons, Option.bind_eq_bind, Option.bind_eq_some] at h
    obtain ⟨c, hc, hrest⟩ := h
    by_cases hax : a = x
    · subst hax
      have hnot : a ∉ l := by
        rw [List.count_cons_self] at hcount
        exact List.count_eq_zero.mp (by omega)
      exact foldlM_preserves_of_mem Post f l
        (fun b a' b' ha' => hpost b a' b' (fun h => hnot (h ▸ ha'))) c b' (hx b c hb hc) hrest
    · rw [List.count_cons_of_ne (Ne.symm hax)] at hcount
      exact ih c b' hcount (hpre b a c hax hb hc) hrest

/-- A fold in which the element `x` occurs: every step keeps `Pre` and keeps `Post`, the step
on `x` leads from `Pre` to `Post`. -/
theorem foldlM_reaches {α β : Type} [DecidableEq α] (Pre Post : β → Prop)
    (f : β → α → Option β) (x : α)
    (hpre : ∀ b a b', Pre b → f b a = some b' → Pre b')
    (hpost : ∀ b a b', Post b → f b a = some b' → Post b')
    (hx : ∀ b b', Pre b → f b x = some b' → Post b') :
    ∀ (l : List α) (b b' : β), x ∈ l → Pre b → l.foldlM f b = some b' → Post b' := by
  intro l
  induction l with
  | nil => intro b b' hmem; simp at hmem
  | cons a l ih =>
    intro b b' hmem hb h
    simp only [List.foldlM_cons, Option.bind_eq_bind, Option.bind_eq_some] at h
    obtain ⟨c, hc, hrest⟩ := h
    by_cases hax : a = x
    · subst hax
      exact foldlM_preserves Post f hpost l c b' (hx b c hb hc) hrest
    · have hmem' : x ∈ l := by
        rcases List.mem_cons.mp hmem with h | h
        · exact absurd h.symm hax
        · exact h
      exact ih c b' hmem' (hpre b a c hb hc) hrest

/-! ## C8: what `UpdateEmitter` does to the emitter and to the queue -/

theorem UpdateEmitter_not_done {d : List DeferredReleasEmitter} {handle pool_id : Nat}
    {e : ParticleEmitterComponent} {p : ParticlePoolComponent} {ctx : UpdateContext}
    {step : EmitterStep} (hdone : IsDone e = false)
    (h : UpdateEmitter d handle e p pool_id ctx = some step) :
    step.deferred = d ∧ emitterAfter e ctx = some step.emitter := by
  obtain ⟨n, hupdated, -, -, hd⟩ := UpdateEmitter_some hdone h
  exact ⟨hd, hupdated⟩

theorem UpdateEmitter_of_done {d : List DeferredReleasEmitter} {handle pool_id : Nat}
    {e : ParticleEmitterComponent} {p : ParticlePoolComponent} {ctx : UpdateContext}
    {step : EmitterStep} (hdone : IsDone e = true)
    (h : UpdateEmitter d handle e p pool_id ctx = some step) :
    step.emitter = e ∧ step.pool = p
      ∧ step.deferred
          = if e.type = EmitterType.BURST_REMOVE_ON_FINISH then d ++ [⟨pool_id, handle⟩]
            else d := by
  obtain ⟨later, hl, hp, he, hd⟩ := UpdateEmitter_done hdone d handle pool_id p ctx
  rw [hl, Option.some.injEq] at h
  subst h
  exact ⟨he, hp, hd⟩

/-- Whatever the emitter, the queue is kept or extended by the entry of this emitter. -/
theorem UpdateEmitter_deferred {d : List DeferredReleasEmitter} {handle pool_id : Nat}
    {e : ParticleEmitterComponent} {p : ParticlePoolComponent} {ctx : UpdateContext}
    {step : EmitterStep} (h : UpdateEmitter d handle e p pool_id ctx = some step) :
    step.deferred = d ∨ step.deferred = d ++ [⟨pool_id, handle⟩] := by
  cases hdone : IsDone e with
  | false => exact Or.inl (UpdateEmitter_not_done hdone h).1
  | true =>
    have := (UpdateEmitter_of_done hdone h).2.2
    split at this
    · exact Or.inr this
    · exact Or.inl this

/-! ## C8: one attached emitter through `Update` -/

theorem updateAttached_shape {pool_id : Nat} {ctx : UpdateContext}
    {st st' : ParticleSystem × ParticlePoolComponent} {h : Nat} {s : ParticleSystem}
    (hstep : ParticleSystem.updateAttached pool_id ctx st h = some st')
    (hs : SameShape s st.1) : SameShape s st'.1 := by
  simp only [ParticleSystem.updateAttached, bind, Option.bind_eq_some, pure,
    Option.some.injEq] at hstep
  obtain ⟨component, _, step, _, rfl⟩ := hstep
  exact hs

theorem updateAttached_other {pool_id : Nat} {ctx : UpdateContext}
    {st st' : ParticleSystem × ParticlePoolComponent} {h e : Nat} (hne : h ≠ e)
    (hstep : ParticleSystem.updateAttached pool_id ctx st h = some st') (flag : Bool) :
    (HoldsBurstRemove st.1 e flag → HoldsBurstRemove st'.1 e flag)
      ∧ (NotQueued st.1 e → NotQueued st'.1 e) := by
  simp only [ParticleSystem.updateAttached, bind, Option.bind_eq_some, pure,
    Option.some.injEq] at hstep
  obtain ⟨component, _, step, hue, rfl⟩ := hstep
  refine ⟨?_, ?_⟩
  · rintro ⟨c, hc, hty, hflag⟩
    refine ⟨c, ?_, hty, hflag⟩
    show (st.1.m_particle_emitters.m_data.set h step.emitter)[e]? = some c
    rw [getElem?_set_of_ne _ _ (Ne.symm hne)]
    exact hc
  · intro hq entry hentry
    have hentry' : entry ∈ step.deferred := hentry
    rcases UpdateEmitter_deferred hue with hd | hd
    · rw [hd] at hentry'
      exact hq entry hentry'
    · rw [hd, List.mem_append, List.mem_singleton] at hentry'
      rcases hentry' with hold | rfl
      · exact hq entry hold
      · exact hne

theorem IsDone_of_burstRemove {c : ParticleEmitterComponent}
    (hty : c.type = EmitterType.BURST_REMOVE_ON_FINISH) : IsDone c = c.burst_emitted :=
  IsDone_of_burst (Or.inr hty)

/-- The call on the emitter itself while it has not emitted: it emits and is not queued. -/
theorem updateAttached_fresh {pool_id : Nat} {ctx : UpdateContext}
    {st st' : ParticleSystem × ParticlePoolComponent} {e : Nat}
    (hstep : ParticleSystem.updateAttached pool_id ctx st e = some st')
    (hpre : HoldsBurstRemove st.1 e false) (hq : NotQueued st.1 e) :
    HoldsBurstRemove st'.1 e true ∧ NotQueued st'.1 e := by
  simp only [ParticleSystem.updateAttached, bind, Option.bind_eq_some, pure,
    Option.some.injEq] at hstep
  obtain ⟨component, hcomp, step, hue, rfl⟩ := hstep
  obtain ⟨c, hc, hty, hflag⟩ := hpre
  rw [hcomp, Option.some.injEq] at hc
  subst hc
  have hdone : IsDone component = false := by rw [IsDone_of_burstRemove hty, hflag]
  obtain ⟨hd, he⟩ := UpdateEmitter_not_done hdone hue
  refine ⟨⟨step.emitter, getElem?_set_self_of_some _ hcomp, ?_, ?_⟩, ?_⟩
  · rw [(emitterAfter_frame he).1]; exact hty
  · exact (emitterAfter_frame he).2.1
  · intro entry hentry
    have hentry' : entry ∈ step.deferred := hentry
    rw [hd] at hentry'
    exact hq entry hentry'

/-- A call on any emitter while the emitter `e` is done: `e` stays as it is and the queue
keeps its entries; the call on `e` itself appends the entry of `e`. -/
theorem updateAttached_done {pool_id : Nat} {ctx : UpdateContext}
    {st st' : ParticleSystem × ParticlePoolComponent} {h e : Nat}
    (hstep : ParticleSystem.updateAttached pool_id ctx st h = some st')
    (hpre : HoldsBurstRemove st.1 e true) :
    HoldsBurstRemove st'.1 e true
      ∧ (∀ entry ∈ st.1.m_deferred_release_emitter, entry ∈ st'.1.m_deferred_release_emitter)
      ∧ (h = e → (⟨pool_id, e⟩ : DeferredReleasEmitter) ∈ st'.1.m_deferred_release_emitter) := by
  simp only [ParticleSystem.updateAttached, bind, Option.bind_eq_some, pure,
    Option.some.injEq] at hstep
  obtain ⟨component, hcomp, step, hue, rfl⟩ := hstep
  obtain ⟨c, hc, hty, hflag⟩ := hpre
  have hkeep : ∀ entry ∈ st.1.m_deferred_release_emitter, entry ∈ step.deferred := by
    intro entry hentry
    rcases UpdateEmitter_deferred hue with hd | hd
    · rw [hd]; exact hentry
    · rw [hd]; exact List.mem_append_left _ hentry
  by_cases hhe : h = e
  · subst hhe
    rw [hcomp, Option.some.injEq] at hc
    subst hc
    have hdone : IsDone component = true := by rw [IsDone_of_burstRemove hty, hflag]
    obtain ⟨he, -, hd⟩ := UpdateEmitter_of_done hdone hue
    rw [if_pos hty] at hd
    refine ⟨⟨component, ?_, hty, hflag⟩, hkeep, fun _ => ?_⟩
    · show (st.1.m_particle_emitters.m_data.set h step.emitter)[h]? = some component
      rw [he]
      exact getElem?_set_self_of_some _ hcomp
    · show (⟨pool_id, h⟩ : DeferredReleasEmitter) ∈ step.deferred
      rw [hd]
      exact List.mem_append_right _ (List.mem_singleton_self _)
  · refine ⟨⟨c, ?_, hty, hflag⟩, hkeep, fun h' => absurd h' hhe⟩
    show (st.1.m_particle_emitters.m_data.set h step.emitter)[e]? = some c
    rw [getElem?_set_of_ne _ _ (Ne.symm hhe)]
    exact hc

/-- The shape of `updatePool` on an active pool. -/
theorem updatePool_active {ctx : UpdateContext} {t t' : ParticleSystem} {i : Nat}
    (hact : t.m_active_pools[i]? = some true)
    (h : ParticleSystem.updatePool ctx t i = some t') :
    ∃ pool emitters emitted reaped, t.m_particle_pools_emitters[i]? = some emitters
      ∧ emitters.foldlM (ParticleSystem.updateAttached i ctx) (t, pool) = some emitted
      ∧ t' = { emitted.1 with m_particle_pools := emitted.1.m_particle_pools.set i reaped } := by
  simp only [ParticleSystem.updatePool, bind, Option.bind_eq_some] at h
  obtain ⟨flag, hflag, h⟩ := h
  rw [hact, Option.some.injEq] at hflag
  subst hflag
  simp only [if_true, Option.bind_eq_some, pure, Option.some.injEq] at h
  obtain ⟨pool, _, emitters, hem, emitted, hfold, advanced, _, reaped, _, rfl⟩ := h
  exact ⟨pool, emitters, emitted, reaped, hem, hfold, rfl⟩

theorem updatePool_inactive {ctx : UpdateContext} {t t' : ParticleSystem} {i : Nat}
    (hact : t.m_active_pools[i]? = some false)
    (h : ParticleSystem.updatePool ctx t i = some t') : t' = t := by
  simp only [ParticleSystem.updatePool, bind, Option.bind_eq_some] at h
  obtain ⟨flag, hflag, h⟩ := h
  rw [hact, Option.some.injEq] at hflag
  subst hflag
  simp only [Bool.false_eq_true, if_false, pure, Option.some.injEq] at h
  exact h.symm

theorem active_cases {t t' : ParticleSystem} {ctx : UpdateContext} {i : Nat}
    (h : ParticleSystem.updatePool ctx t i = some t') :
    t.m_active_pools[i]? = some true ∨ t.m_active_pools[i]? = some false := by
  simp only [ParticleSystem.updatePool, bind, Option.bind_eq_some] at h
  obtain ⟨flag, hflag, -⟩ := h
  cases flag
  · exact Or.inr hflag
  · exact Or.inl hflag

/-! ## C8: the pool loop of `Update` -/

theorem not_mem_of_attachedOnce {s : ParticleSystem} {pid e i : Nat} {emitters : List Nat}
    (honce : AttachedOnce s.m_particle_pools_emitters pid e) (hne : i ≠ pid)
    (hem : s.m_particle_pools_emitters[i]? = some emitters) : e ∉ emitters := by
  have := honce i emitters hem
  rw [if_neg hne] at this
  exact List.count_eq_zero.mp this

/-- The turn of another pool leaves the emitter `e` as it is and does not queue it. -/
theorem updatePool_other {s t t' : ParticleSystem} {pid e i : Nat} {ctx : UpdateContext}
    (flag : Bool) (honce : AttachedOnce s.m_particle_pools_emitters pid e) (hne : i ≠ pid)
    (h : ParticleSystem.updatePool ctx t i = some t')
    (ht : SameShape s t ∧ NotQueued t e ∧ HoldsBurstRemove t e flag) :
    SameShape s t' ∧ NotQueued t' e ∧ HoldsBurstRemove t' e flag := by
  rcases active_cases h with hact | hact
  · obtain ⟨pool, emitters, emitted, reaped, hem, hfold, rfl⟩ := updatePool_active hact h
    rw [ht.1.1] at hem
    have hnot := not_mem_of_attachedOnce honce hne hem
    exact foldlM_preserves_of_mem
      (fun st : ParticleSystem × ParticlePoolComponent =>
        SameShape s st.1 ∧ NotQueued st.1 e ∧ HoldsBurstRemove st.1 e flag)
      _ emitters
      (fun b a b' ha hb hba =>
        have hae : a ≠ e := fun hae => hnot (hae ▸ ha)
        ⟨updateAttached_shape hba hb.1, (updateAttached_other hae hba flag).2 hb.2.1,
          (updateAttached_other hae hba flag).1 hb.2.2⟩)
      _ _ ht hfold
  · rw [updatePool_inactive hact h]
    exact ht

/-- The turn of the pool of `e` while `e` has not emitted: afterwards it has emitted, and it is
still not queued. -/
theorem updatePool_fresh {s t t' : ParticleSystem} {pid e : Nat} {ctx : UpdateContext}
    (honce : AttachedOnce s.m_particle_pools_emitters pid e)
    (hact : s.m_active_pools[pid]? = some true)
    (h : ParticleSystem.updatePool ctx t pid = some t')
    (ht : SameShape s t ∧ NotQueued t e ∧ HoldsBurstRemove t e false) :
    SameShape s t' ∧ NotQueued t' e ∧ HoldsBurstRemove t' e true := by
  have hact' : t.m_active_pools[pid]? = some true := by rw [ht.1.2.1]; exact hact
  obtain ⟨pool, emitters, emitted, reaped, hem, hfold, rfl⟩ := updatePool_active hact' h
  rw [ht.1.1] at hem
  have hcount : emitters.count e = 1 := by
    have := honce pid emitters hem
    rwa [if_pos rfl] at this
  exact foldlM_once
    (fun st : ParticleSystem × ParticlePoolComponent =>
      SameShape s st.1 ∧ NotQueued st.1 e ∧ HoldsBurstRemove st.1 e false)
    (fun st : ParticleSystem × ParticlePoolComponent =>
      SameShape s st.1 ∧ NotQueued st.1 e ∧ HoldsBurstRemove st.1 e true)
    (ParticleSystem.updateAttached pid ctx) e
    (fun b a b' hae hb hba =>
      ⟨updateAttached_shape hba hb.1, (updateAttached_other hae hba false).2 hb.2.1,
        (updateAttached_other hae hba false).1 hb.2.2⟩)
    (fun b a b' hae hb hba =>
      ⟨updateAttached_shape hba hb.1, (updateAttached_other hae hba true).2 hb.2.1,
        (updateAttached_other hae hba true).1 hb.2.2⟩)
    (fun b b' hb hba =>
      ⟨updateAttached_shape hba hb.1, (updateAttached_fresh hba hb.2.2 hb.2.1).2,
        (updateAttached_fresh hba hb.2.2 hb.2.1).1⟩)
    emitters _ _ hcount ht hfold

/-- The `Update` in which a BurstRemoveOnFinish emitter, attached once, performs its emission:
the attached lists, active flags and free list are kept, the emitter has emitted, and it is
not in the deferred-release queue. -/
theorem Update_fresh {s s1 : ParticleSystem} {pid e : Nat} {ctx : UpdateContext}
    (honce : AttachedOnce s.m_particle_pools_emitters pid e)
    (hact : s.m_active_pools[pid]? = some true)
    (hholds : HoldsBurstRemove s e false) (hq : NotQueued s e)
    (h : s.Update ctx = some s1) :
    SameShape s s1 ∧ NotQueued s1 e ∧ HoldsBurstRemove s1 e true := by
  have hcount : (List.range s.m_active_pools.length).count pid = 1 :=
    List.count_eq_one_of_mem (List.nodup_range _)
      (List.mem_range.mpr (lt_of_getElem?_eq_some hact))
  exact foldlM_once
    (fun t : ParticleSystem => SameShape s t ∧ NotQueued t e ∧ HoldsBurstRemove t e false)
    (fun t : ParticleSystem => SameShape s t ∧ NotQueued t e ∧ HoldsBurstRemove t e true)
    (ParticleSystem.updatePool ctx) pid
    (fun b a b' hne hb hba => updatePool_other false honce hne hba hb)
    (fun b a b' hne hb hba => updatePool_other true honce hne hba hb)
    (fun b b' hb hba => updatePool_fresh honce hact hba hb)
    _ _ _ hcount ⟨⟨rfl, rfl, rfl⟩, hq, hholds⟩ h

/-- Any turn while `e` is done keeps it done and keeps the queue entries. -/
theorem updatePool_done {s t t' : ParticleSystem} {e i : Nat} {ctx : UpdateContext}
    (h : ParticleSystem.updatePool ctx t i = some t')
    (ht : SameShape s t ∧ HoldsBurstRemove t e true) :
    (SameShape s t' ∧ HoldsBurstRemove t' e true)
      ∧ ∀ entry ∈ t.m_deferred_release_emitter, entry ∈ t'.m_deferred_release_emitter := by
  rcases active_cases h with hact | hact
  · obtain ⟨pool, emitters, emitted, reaped, hem, hfold, rfl⟩ := updatePool_active hact h
    have := foldlM_preserves
      (fun st : ParticleSystem × ParticlePoolComponent =>
        (SameShape s st.1 ∧ HoldsBurstRemove st.1 e true)
          ∧ ∀ entry ∈ t.m_deferred_release_emitter, entry ∈ st.1.m_deferred_release_emitter)
      _
      (fun b a b' hb hba =>
        ⟨⟨updateAttached_shape hba hb.1.1, (updateAttached_done hba hb.1.2).1⟩,
          fun entry hentry => (updateAttached_done hba hb.1.2).2.1 entry (hb.2 entry hentry)⟩)
      emitters _ _ ⟨ht, fun _ hentry => hentry⟩ hfold
    exact this
  · rw [updatePool_inactive hact h]
    exact ⟨ht, fun _ hentry => hentry⟩

/-- The turn of the pool of `e` while `e` is done queues `(pid, e)`. -/
theorem updatePool_queues {s t t' : ParticleSystem} {pid e : Nat} {ctx : UpdateContext}
    {emitters : List Nat} (hact : s.m_active_pools[pid]? = some true)
    (hem : s.m_particle_pools_emitters[pid]? = some emitters) (hmem : e ∈ emitters)
    (h : ParticleSystem.updatePool ctx t pid = some t')
    (ht : SameShape s t ∧ HoldsBurstRemove t e true) :
    (SameShape s t' ∧ HoldsBurstRemove t' e true)
      ∧ (⟨pid, e⟩ : DeferredReleasEmitter) ∈ t'.m_deferred_release_emitter := by
  have hact' : t.m_active_pools[pid]? = some true := by rw [ht.1.2.1]; exact hact
  obtain ⟨pool, emitters', emitted, reaped, hem', hfold, rfl⟩ := updatePool_active hact' h
  rw [ht.1.1, hem, Option.some.injEq] at hem'
  subst hem'
  exact foldlM_reaches
    (fun st : ParticleSystem × ParticlePoolComponent =>
      SameShape s st.1 ∧ HoldsBurstRemove st.1 e true)
    (fun st : ParticleSystem × ParticlePoolComponent =>
      (SameShape s st.1 ∧ HoldsBurstRemove st.1 e true)
        ∧ (⟨pid, e⟩ : DeferredReleasEmitter) ∈ st.1.m_deferred_release_emitter)
    (ParticleSystem.updateAttached pid ctx) e
    (fun b a b' hb hba => ⟨updateAttached_shape hba hb.1, (updateAttached_done hba hb.2).1⟩)
    (fun b a b' hb hba =>
      ⟨⟨updateAttached_shape hba hb.1.1, (updateAttached_done hba hb.1.2).1⟩,
        (updateAttached_done hba hb.1.2).2.1 _ hb.2⟩)
    (fun b b' hb hba =>
      ⟨⟨updateAttached_shape hba hb.1, (updateAttached_done hba hb.2).1⟩,
        (updateAttached_done hba hb.2).2.2 rfl⟩)
    emitters _ _ hmem ht hfold

/-- The `Update` that finds a BurstRemoveOnFinish emitter done: the attached lists are kept
and `(pid, e)` is in the deferred-release queue afterwards. -/
theorem Update_queues {s s1 : ParticleSystem} {pid e : Nat} {ctx : UpdateContext}
    {emitters : List Nat} (hact : s.m_active_pools[pid]? = some true)
    (hem : s.m_particle_pools_emitters[pid]? = some emitters) (hmem : e ∈ emitters)
    (hholds : HoldsBurstRemove s e true) (h : s.Update ctx = some s1) :
    SameShape s s1 ∧ (⟨pid, e⟩ : DeferredReleasEmitter) ∈ s1.m_deferred_release_emitter := by
  have := foldlM_reaches
    (fun t : ParticleSystem => SameShape s t ∧ HoldsBurstRemove t e true)
    (fun t : ParticleSystem =>
      (SameShape s t ∧ HoldsBurstRemove t e true)
        ∧ (⟨pid, e⟩ : DeferredReleasEmitter) ∈ t.m_deferred_release_emitter)
    (ParticleSystem.updatePool ctx) pid
    (fun b a b' hb hba => (updatePool_done hba hb).1)
    (fun b a b' hb hba => ⟨(updatePool_done hba hb.1).1, (updatePool_done hba hb.1).2 _ hb.2⟩)
    (fun b b' hb hba => updatePool_queues hact hem hmem hba hb)
    _ _ _ (List.mem_range.mpr (lt_of_getElem?_eq_some hact)) ⟨⟨rfl, rfl, rfl⟩, hholds⟩ h
  exact ⟨this.1.1, this.2⟩

/-! ## C8: `Sync` -/

theorem ReleaseEmitter_eq {t t' : ParticleSystem} {pool_id emitter : Nat}
    (h : t.ReleaseEmitter pool_id emitter = some t') :
    ∃ attached, t.m_particle_pools_emitters[pool_id]? = some attached
      ∧ t' = { t with
          m_particle_emitters := t.m_particle_emitters.ReleasePoolData emitter
          m_particle_pools_emitters :=
            t.m_particle_pools_emitters.set pool_id (remove attached emitter) } := by
  simp only [ParticleSystem.ReleaseEmitter, bind, Option.bind_eq_some, pure,
    Option.some.injEq] at h
  obtain ⟨attached, hatt, rfl⟩ := h
  exact ⟨attached, hatt, rfl⟩

theorem count_remove_of_ne {attached : List Nat} {e h : Nat} (hne : h ≠ e) :
    (remove attached h).count e = attached.count e := by
  unfold remove
  exact List.count_filter (by simpa using Ne.symm hne)

theorem not_mem_remove (attached : List Nat) (e : Nat) : e ∉ remove attached e := by
  simp [remove]

theorem mem_of_mem_remove {attached : List Nat} {e h : Nat} (hmem : e ∈ remove attached h) :
    e ∈ attached := by
  unfold remove at hmem
  exact (List.mem_filter.mp hmem).1

/-- Releasing another emitter keeps the emitter storage, the active flags, the number of
occurrences of `e` in every attached list, and keeps `e` off the free list. -/
theorem ReleaseEmitter_other {t t' : ParticleSystem} {pool_id h e : Nat} (hne : h ≠ e)
    (hrel : t.ReleaseEmitter pool_id h = some t') :
    t'.m_particle_emitters.m_data = t.m_particle_emitters.m_data
      ∧ t'.m_active_pools = t.m_active_pools
      ∧ t'.m_particle_pools_emitters.map (List.count e)
          = t.m_particle_pools_emitters.map (List.count e)
      ∧ (e ∉ t.m_particle_emitters.m_free_indices →
          e ∉ t'.m_particle_emitters.m_free_indices) := by
  obtain ⟨attached, hatt, rfl⟩ := ReleaseEmitter_eq hrel
  refine ⟨rfl, rfl, ?_, ?_⟩
  · show (t.m_particle_pools_emitters.set pool_id (remove attached h)).map (List.count e) = _
    rw [List.map_set, count_remove_of_ne hne]
    apply set_eq_self_of_getElem?
    rw [List.getElem?_map, hatt]
    rfl
  · intro hfree hmem
    have hmem' : e ∈ h :: t.m_particle_emitters.m_free_indices := hmem
    rcases List.mem_cons.mp hmem' with heq | hin
    · exact hne heq.symm
    · exact hfree hin

/-- A `Sync` whose queue does not name `e` keeps `e` attached as it was and off the free
list, keeps the emitter storage and the active flags, and empties the queue. -/
theorem Sync_other {s s' : ParticleSystem} {e : Nat} (hq : NotQueued s e)
    (hsync : s.Sync = some s') :
    s'.m_particle_emitters.m_data = s.m_particle_emitters.m_data
      ∧ s'.m_active_pools = s.m_active_pools
      ∧ s'.m_particle_pools_emitters.map (List.count e)
          = s.m_particle_pools_emitters.map (List.count e)
      ∧ (e ∉ s.m_particle_emitters.m_free_indices →
          e ∉ s'.m_particle_emitters.m_free_indices)
      ∧ s'.m_deferred_release_emitter = [] := by
  simp only [ParticleSystem.Sync, bind, Option.bind_eq_some, pure, Option.some.injEq] at hsync
  obtain ⟨released, hrel, rfl⟩ := hsync
  have hinv := foldlM_preserves_of_mem
    (fun t : ParticleSystem =>
      t.m_particle_emitters.m_data = s.m_particle_emitters.m_data
        ∧ t.m_active_pools = s.m_active_pools
        ∧ t.m_particle_pools_emitters.map (List.count e)
            = s.m_particle_pools_emitters.map (List.count e)
        ∧ (e ∉ s.m_particle_emitters.m_free_indices →
            e ∉ t.m_particle_emitters.m_free_indices))
    (fun (current : ParticleSystem) (deferred_release : DeferredReleasEmitter) =>
      current.ReleaseEmitter deferred_release.pool_id deferred_release.emitter)
    s.m_deferred_release_emitter
    (fun b a b' ha hb hba => by
      obtain ⟨h1, h2, h3, h4⟩ := ReleaseEmitter_other (hq a ha) hba
      exact ⟨h1.trans hb.1, h2.trans hb.2.1, h3.trans hb.2.2.1, fun hf => h4 (hb.2.2.2 hf)⟩)
    s released ⟨rfl, rfl, rfl, fun hf => hf⟩ hrel
  exact ⟨hinv.1, hinv.2.1, hinv.2.2.1, hinv.2.2.2, rfl⟩

/-- The emitter `e` is not in the attached list of `pid` and its slot is on the free list. -/
theorem ReleaseEmitter_released {t t' : ParticleSystem} {pool_id h pid e : Nat}
    (hrel : t.ReleaseEmitter pool_id h = some t') :
    ((pool_id = pid ∧ h = e) ∨
        ((∃ emitters, t.m_particle_pools_emitters[pid]? = some emitters ∧ e ∉ emitters)
          ∧ e ∈ t.m_particle_emitters.m_free_indices)) →
      (∃ emitters, t'.m_particle_pools_emitters[pid]? = some emitters ∧ e ∉ emitters)
        ∧ e ∈ t'.m_particle_emitters.m_free_indices := by
  obtain ⟨attached, hatt, rfl⟩ := ReleaseEmitter_eq hrel
  rintro (⟨rfl, rfl⟩ | ⟨⟨emitters, hem, hnot⟩, hfree⟩)
  · exact ⟨⟨remove attached h, getElem?_set_self_of_some _ hatt, not_mem_remove _ _⟩,
      List.mem_cons_self _ _⟩
  · refine ⟨?_, List.mem_cons_of_mem _ hfree⟩
    by_cases hp : pool_id = pid
    · subst hp
      rw [hatt, Option.some.injEq] at hem
      subst hem
      exact ⟨remove attached h, getElem?_set_self_of_some _ hatt,
        fun hmem => hnot (mem_of_mem_remove hmem)⟩
    · refine ⟨emitters, ?_, hnot⟩
      show (t.m_particle_pools_emitters.set pool_id (remove attached h))[pid]? = some emitters
      rw [getElem?_set_of_ne _ _ (Ne.symm hp)]
      exact hem

/-- A `Sync` whose queue holds `(pid, e)` detaches `e` from `pid`, returns its slot to the
free list and empties the queue. -/
theorem Sync_releases {s s' : ParticleSystem} {pid e : Nat}
    (hq : (⟨pid, e⟩ : DeferredReleasEmitter) ∈ s.m_deferred_release_emitter)
    (hsync : s.Sync = some s') :
    (∃ emitters, s'.m_particle_pools_emitters[pid]? = some emitters ∧ e ∉ emitters)
      ∧ e ∈ s'.m_particle_emitters.m_free_indices
      ∧ s'.m_deferred_release_emitter = [] := by
  simp only [ParticleSystem.Sync, bind, Option.bind_eq_some, pure, Option.some.injEq] at hsync
  obtain ⟨released, hrel, rfl⟩ := hsync
  have hinv := foldlM_reaches (fun _ : ParticleSystem => True)
    (fun t : ParticleSystem =>
      (∃ emitters, t.m_particle_pools_emitters[pid]? = some emitters ∧ e ∉ emitters)
        ∧ e ∈ t.m_particle_emitters.m_free_indices)
    (fun (current : ParticleSystem) (deferred_release : DeferredReleasEmitter) =>
      current.ReleaseEmitter deferred_release.pool_id deferred_release.emitter)
    (⟨pid, e⟩ : DeferredReleasEmitter)
    (fun _ _ _ _ _ => trivial)
    (fun b a b' hb hba => ReleaseEmitter_released hba (Or.inr hb))
    (fun b b' _ hba => ReleaseEmitter_released hba (Or.inl ⟨rfl, rfl⟩))
    s.m_deferred_release_emitter s released hq trivial hrel
  exact ⟨hinv.1, hinv.2, rfl⟩

theorem attachedOnce_of_counts {lists lists' : List (List Nat)} {pid e : Nat}
    (hcounts : lists'.map (List.count e) = lists.map (List.count e))
    (honce : AttachedOnce lists pid e) : AttachedOnce lists' pid e := by
  intro id emitters' hem'
  have h1 : (lists'.map (List.count e))[id]? = some (emitters'.count e) := by
    rw [List.getElem?_map, hem']; rfl
  rw [hcounts, List.getElem?_map] at h1
  cases hl : lists[id]? with
  | none => rw [hl] at h1; exact absurd h1 (by simp)
  | some emitters =>
    rw [hl] at h1
    simp only [Option.map_some', Option.some.injEq] at h1
    rw [← h1]
    exact honce id emitters hl

theorem attached_of_counts {lists lists' : List (List Nat)} {pid e : Nat} {emitters : List Nat}
    (hcounts : lists'.map (List.count e) = lists.map (List.count e))
    (hem : lists[pid]? = some emitters) (hmem : e ∈ emitters) :
    ∃ emitters', lists'[pid]? = some emitters' ∧ e ∈ emitters' := by
  have h1 : (lists.map (List.count e))[pid]? = some (emitters.count e) := by
    rw [List.getElem?_map, hem]; rfl
  rw [← hcounts, List.getElem?_map] at h1
  cases hl : lists'[pid]? with
  | none => rw [hl] at h1; exact absurd h1 (by simp)
  | some emitters' =>
    rw [hl] at h1
    simp only [Option.map_some', Option.some.injEq] at h1
    refine ⟨emitters', rfl, ?_⟩
    have hpos : 0 < emitters.count e := List.count_pos_iff.mpr hmem
    exact List.count_pos_iff.mp (by omega)

/-! ## C8 -/

/-- C8, the claim as stated fails. After `AllocatePool` and `AttachEmitter` of a
BurstRemoveOnFinish emitter, the first `Update` admits its ten particles and leaves it
attached and not queued; the `Sync` that follows finds an empty queue, so the emitter is still
attached, no slot is free and a further `AttachEmitter` returns no handle. Only the second
`Update` queues it and the second `Sync` detaches it and frees slot 0. -/
theorem Sync_after_emission_keeps_emitter :
    ((ParticleSystem.create 1 1).run (burstRemoveCalls ++ [.update (contextOf 1)])).map
        (fun s => (observeEmitters s, s.m_particle_pools.map (fun pool => pool.count_alive)))
      = some (([[0]], [], []), [10])
    ∧ ((ParticleSystem.create 1 1).run
          (burstRemoveCalls ++ [.update (contextOf 1), .sync])).map observeEmitters
      = some ([[0]], [], [])
    ∧ (((ParticleSystem.create 1 1).run
          (burstRemoveCalls ++ [.update (contextOf 1), .sync])).bind
        (fun s => s.AttachEmitter 0 ZeroVec 2 5 .BURST (fixedGenerator 1 1 1 1))).map Prod.snd
      = some none
    ∧ ((ParticleSystem.create 1 1).run
          (burstRemoveCalls ++ [.update (contextOf 1), .sync, .update (contextOf 1)])).map
        observeEmitters
      = some ([[0]], [], [⟨0, 0⟩])
    ∧ ((ParticleSystem.create 1 1).run
          (burstRemoveCalls
            ++ [.update (contextOf 1), .sync, .update (contextOf 1), .sync])).map
        observeEmitters
      = some ([[]], [0], []) :=
  ⟨by decide!, by decide!, by decide!, by decide!, by decide!⟩

/-- C8 as amended: for a BurstRemoveOnFinish emitter `e` that has not emitted, attached once
to the active pool `pid`, not queued and not free: after the `Update` in which it emits it is
still attached; after the `Sync` that follows it is still attached and its slot is not free;
after the next `Update` and the `Sync` that follows that one it is no longer in the attached
list of `pid`, its slot is on the free list of the emitter object pool, and a subsequent
`AttachEmitter` does not return a null handle. -/
theorem BurstRemoveOnFinish_released_one_frame_later (s s1 s2 s3 s4 : ParticleSystem)
    (pid e : Nat) (emitters : List Nat) (ctx1 ctx2 : UpdateContext)
    (hact : s.m_active_pools[pid]? = some true)
    (hatt : s.GetAttachedEmitters pid = some emitters)
    (honce : AttachedOnce s.m_particle_pools_emitters pid e)
    (hholds : HoldsBurstRemove s e false) (hq : NotQueued s e)
    (hfree : e ∉ s.m_particle_emitters.m_free_indices)
    (h1 : s.Update ctx1 = some s1) (h2 : s1.Sync = some s2)
    (h3 : s2.Update ctx2 = some s3) (h4 : s3.Sync = some s4) :
    (∃ l, s1.GetAttachedEmitters pid = some l ∧ e ∈ l) ∧ HoldsBurstRemove s1 e true
    ∧ (∃ l, s2.GetAttachedEmitters pid = some l ∧ e ∈ l)
    ∧ e ∉ s2.m_particle_emitters.m_free_indices
    ∧ (∃ l, s4.GetAttachedEmitters pid = some l ∧ e ∉ l)
    ∧ e ∈ s4.m_particle_emitters.m_free_indices
    ∧ ∀ (pool_id : Nat) (position : Vector) (duration emit_rate : ℚ)
        (emitter_type : EmitterType) (generator : ParticleGenerator) (s5 : ParticleSystem),
        s4.AttachEmitter pool_id position duration emit_rate emitter_type generator
          ≠ some (s5, none) := by
  have hmem : e ∈ emitters := by
    have := honce pid emitters hatt
    rw [if_pos rfl] at this
    exact List.count_pos_iff.mp (by omega)
  obtain ⟨hshape1, hq1, hholds1⟩ := Update_fresh honce hact hholds hq h1
  obtain ⟨hdata2, hact2, hcounts2, hfree2, -⟩ := Sync_other hq1 h2
  have hatt1 : s1.m_particle_pools_emitters[pid]? = some emitters := by
    rw [hshape1.1]; exact hatt
  obtain ⟨l2, hl2, hmem2⟩ := attached_of_counts hcounts2 hatt1 hmem
  have hholds2 : HoldsBurstRemove s2 e true := by
    obtain ⟨c, hc, hty, hflag⟩ := hholds1
    exact ⟨c, by rw [hdata2]; exact hc, hty, hflag⟩
  have hact2' : s2.m_active_pools[pid]? = some true := by
    rw [hact2, hshape1.2.1]; exact hact
  obtain ⟨-, hq3⟩ := Update_queues hact2' hl2 hmem2 hholds2 h3
  obtain ⟨hgone, hfree4, -⟩ := Sync_releases hq3 h4
  refine ⟨⟨emitters, hatt1, hmem⟩, hholds1, ⟨l2, hl2, hmem2⟩,
    hfree2 (by rw [hshape1.2.2]; exact hfree), hgone, hfree4, ?_⟩
  intro pool_id position duration emit_rate emitter_type generator s5 hnull
  unfold ParticleSystem.AttachEmitter at hnull
  cases hget : s4.m_particle_emitters.GetPoolData with
  | none =>
    unfold ObjectPool.GetPoolData at hget
    cases hlist : s4.m_particle_emitters.m_free_indices with
    | nil => rw [hlist] at hfree4; exact absurd hfree4 (List.not_mem_nil _)
    | cons slot rest => rw [hlist] at hget; exact absurd hget (by simp)
  | some found =>
    rw [hget] at hnull
    simp only [bind, Option.bind_eq_some, pure, Option.some.injEq, Prod.mk.injEq] at hnull
    obtain ⟨_, _, _, _, _, hbad⟩ := hnull
    exact absurd hbad (by simp)

theorem BurstRemoveOnFinish_released_one_frame_later_witness :
    ∃ s1 s2 s3 s4,
      (systemOfEmitter .BURST_REMOVE_ON_FINISH).Update (contextOf 1) = some s1
      ∧ s1.Sync = some s2 ∧ s2.Update (contextOf 1) = some s3 ∧ s3.Sync = some s4
      ∧ observeEmitters s4 = ([[]], [0], [])
      ∧ (∃ l, s1.GetAttachedEmitters 0 = some l ∧ 0 ∈ l) ∧ HoldsBurstRemove s1 0 true
      ∧ (∃ l, s2.GetAttachedEmitters 0 = some l ∧ 0 ∈ l)
      ∧ 0 ∉ s2.m_particle_emitters.m_free_indices
      ∧ (∃ l, s4.GetAttachedEmitters 0 = some l ∧ 0 ∉ l)
      ∧ 0 ∈ s4.m_particle_emitters.m_free_indices := by
  have hrun : ((systemOfEmitter .BURST_REMOVE_ON_FINISH).Update (contextOf 1)).bind
      (fun s1 => s1.Sync.bind (fun s2 => (s2.Update (contextOf 1)).bind
        (fun s3 => s3.Sync.map observeEmitters))) = some ([[]], [0], []) := by decide!
  simp only [Option.bind_eq_some, Option.map_eq_some'] at hrun
  obtain ⟨s1, h1, s2, h2, s3, h3, s4, h4, hobs⟩ := hrun
  have honce : AttachedOnce (systemOfEmitter .BURST_REMOVE_ON_FINISH).m_particle_pools_emitters
      0 0 := by
    intro id emitters hem
    cases id with
    | zero =>
      simp only [systemOfEmitter, List.getElem?_cons_zero, Option.some.injEq] at hem
      subst hem
      rfl
    | succ id => simp [systemOfEmitter] at hem
  have hmain := BurstRemoveOnFinish_released_one_frame_later
    (systemOfEmitter .BURST_REMOVE_ON_FINISH) s1 s2 s3 s4 0 0 [0] (contextOf 1) (contextOf 1)
    rfl rfl honce ⟨emitterOf .BURST_REMOVE_ON_FINISH 2 5, rfl, rfl, rfl⟩
    (fun _ hentry => absurd hentry (List.not_mem_nil _)) (List.not_mem_nil _) h1 h2 h3 h4
  exact ⟨s1, s2, s3, s4, h1, h2, h3, h4, hobs, hmain.1, hmain.2.1, hmain.2.2.1, hmain.2.2.2.1,
    hmain.2.2.2.2.1, hmain.2.2.2.2.2.1⟩

/-! ## C9 and C10 -/

theorem length_resize {α : Type} (v : List α) (n : Nat) (value : α) :
    (resize v n value).length = n := by
  simp only [resize, List.length_append, List.length_take, List.length_replicate]
  omega

theorem resetPool_wellFormed (old : ParticlePoolComponent) (n : Nat) (f : ParticleUpdater)
    (damping : ℚ) : (resetPool old n f damping).WellFormed := by
  constructor <;> exact length_resize _ _ _

/-- What `AllocatePool` does on a pool id that is not active. -/
theorem AllocatePool_of_inactive {s : ParticleSystem} {id : Nat}
    {old : ParticlePoolComponent} (n : Nat) (f : ParticleUpdater)
    (hact : s.m_active_pools[id]? = some false) (hold : s.m_particle_pools[id]? = some old) :
    s.AllocatePool id n f
      = some { s with
          m_particle_pools := s.m_particle_pools.set id (resetPool old n f 0)
          m_active_pools := s.m_active_pools.set id true } := by
  simp only [ParticleSystem.AllocatePool, hact, hold, bind, Option.bind, pure]
  rfl

/-- C9: for every system whose per-pool vectors have one length and every active pool id,
`ReleasePool(id)` completes and the `AllocatePool(id, c2, f)` that follows completes too (the
pool is not active any more), leaving the pool active with `pool_size = c2`, all eleven
arrays of length `c2` and `count_alive = 0`, whatever the pool held before. -/
theorem ReleasePool_then_AllocatePool (s : ParticleSystem) (id c2 : Nat) (f : ParticleUpdater)
    (hs : s.Sized) (hact : s.m_active_pools[id]? = some true) :
    ∃ s1 s2 pool, s.ReleasePool id = some s1 ∧ s1.AllocatePool id c2 f = some s2
      ∧ s2.m_active_pools[id]? = some true ∧ s2.m_particle_pools[id]? = some pool
      ∧ pool.pool_size = c2 ∧ pool.WellFormed ∧ pool.count_alive = 0 := by
  have hlt : id < s.m_active_pools.length := by
    by_contra hge
    rw [List.getElem?_eq_none (Nat.le_of_not_lt hge)] at hact
    exact absurd hact (by simp)
  obtain ⟨old, hold⟩ := getElem?_isSome_of_lt (l := s.m_particle_pools) (hs.active ▸ hlt)
  obtain ⟨attached, hatt⟩ := getElem?_isSome_of_lt (l := s.m_particle_pools_emitters)
    (by rw [hs.emitters, ← hs.active]; exact hlt)
  obtain ⟨drawer, hdraw⟩ := getElem?_isSome_of_lt (l := s.m_particle_drawers)
    (by rw [hs.drawers, ← hs.active]; exact hlt)
  have hrel : s.ReleasePool id
      = some { s with
          m_particle_emitters := attached.foldl ObjectPool.ReleasePoolData s.m_particle_emitters
          m_particle_pools_emitters := s.m_particle_pools_emitters.set id []
          m_particle_drawers := s.m_particle_drawers.set id { drawer with texture := none }
          m_active_pools := s.m_active_pools.set id false } := by
    simp only [ParticleSystem.ReleasePool, hact, hatt, hdraw, bind, Option.bind, pure]
    rfl
  refine ⟨_, _, resetPool old c2 f 0, hrel,
    AllocatePool_of_inactive c2 f (getElem?_set_self_of_some false hact) hold, ?_, ?_, rfl,
    resetPool_wellFormed _ _ _ _, rfl⟩
  · show ((s.m_active_pools.set id false).set id true)[id]? = some true
    exact getElem?_set_self_of_some true (getElem?_set_self_of_some false hact)
  · exact getElem?_set_self_of_some _ hold

theorem systemOfPool_sized (pool : ParticlePoolComponent) : (systemOfPool pool).Sized :=
  ⟨rfl, rfl, rfl⟩

theorem ReleasePool_then_AllocatePool_witness :
    (systemOfPool (poolOfLives [1, 2, 3] 2)).Sized
      ∧ (systemOfPool (poolOfLives [1, 2, 3] 2)).m_active_pools[0]? = some true
      ∧ ∃ s1 s2 pool, (systemOfPool (poolOfLives [1, 2, 3] 2)).ReleasePool 0 = some s1
          ∧ s1.AllocatePool 0 5 keepView = some s2
          ∧ s2.m_active_pools[0]? = some true ∧ s2.m_particle_pools[0]? = some pool
          ∧ pool.pool_size = 5 ∧ pool.WellFormed ∧ pool.count_alive = 0 :=
  ⟨systemOfPool_sized _, rfl,
    ReleasePool_then_AllocatePool (systemOfPool (poolOfLives [1, 2, 3] 2)) 0 5 keepView
      (systemOfPool_sized _) rfl⟩

/-- C10: for a pool id of the system, `AllocatePool(id, pool_size, update_function)` stops at
its assertion, before any write, exactly when the id is already active. Otherwise it
completes: the pool of `id` has its eleven arrays resized to `pool_size`, `pool_size` set,
`count_alive = 0` and the update function stored, `id` is active, and every other pool, every
other active flag, the drawers, the emitters and the deferred queue are as before.
`AllocatePool(id)` is this call with `pool_size = 10` and `DefaultUpdater`. -/
theorem AllocatePool_contract (s : ParticleSystem) (id pool_size : Nat)
    (update_function : ParticleUpdater) (color_from_gradient : Gradient → ℚ → RGBA)
    (hs : s.Sized) (hid : id < s.m_particle_pools.length) :
    (s.AllocatePool id pool_size update_function = none ↔ s.m_active_pools[id]? = some true)
    ∧ (s.m_active_pools[id]? = some false →
        ∃ s' old pool, s.m_particle_pools[id]? = some old
          ∧ s.AllocatePool id pool_size update_function = some s'
          ∧ s'.m_particle_pools[id]? = some pool
          ∧ pool = resetPool old pool_size update_function 0
          ∧ pool.WellFormed ∧ pool.pool_size = pool_size ∧ pool.count_alive = 0
          ∧ pool.update_function = update_function
          ∧ s'.m_active_pools[id]? = some true
          ∧ (∀ j, j ≠ id → s'.m_particle_pools[j]? = s.m_particle_pools[j]?
              ∧ s'.m_active_pools[j]? = s.m_active_pools[j]?)
          ∧ s'.m_particle_drawers = s.m_particle_drawers
          ∧ s'.m_particle_emitters = s.m_particle_emitters
          ∧ s'.m_particle_pools_emitters = s.m_particle_pools_emitters
          ∧ s'.m_deferred_release_emitter = s.m_deferred_release_emitter)
    ∧ ParticleSystem.AllocatePoolDefault color_from_gradient s id
        = s.AllocatePool id 10 (DefaultUpdater color_from_gradient) := by
  obtain ⟨old, hold⟩ := getElem?_isSome_of_lt hid
  obtain ⟨flag, hflag⟩ := getElem?_isSome_of_lt (l := s.m_active_pools) (hs.active ▸ hid)
  have hinactive : s.m_active_pools[id]? = some false →
      s.AllocatePool id pool_size update_function
        = some { s with
            m_particle_pools :=
              s.m_particle_pools.set id (resetPool old pool_size update_function 0)
            m_active_pools := s.m_active_pools.set id true } :=
    fun h => AllocatePool_of_inactive pool_size update_function h hold
  refine ⟨?_, ?_, rfl⟩
  · cases flag with
    | true =>
      refine ⟨fun _ => hflag, fun _ => ?_⟩
      simp only [ParticleSystem.AllocatePool, hflag, bind, Option.bind, if_true]
    | false =>
      rw [hinactive hflag, hflag]
      simp
  · intro hfalse
    refine ⟨_, old, resetPool old pool_size update_function 0, hold, hinactive hfalse,
      getElem?_set_self_of_some _ hold, rfl, resetPool_wellFormed _ _ _ _, rfl, rfl, rfl,
      getElem?_set_self_of_some _ hfalse,
      fun j hj => ⟨getElem?_set_of_ne _ _ hj, getElem?_set_of_ne _ _ hj⟩, rfl, rfl, rfl, rfl⟩

theorem AllocatePool_contract_witness :
    (ParticleSystem.create 2 1).Sized ∧ 1 < (ParticleSystem.create 2 1).m_particle_pools.length
    ∧ ((ParticleSystem.create 2 1).AllocatePool 1 3 keepView).isSome = true
    ∧ (((ParticleSystem.create 2 1).AllocatePool 1 3 keepView).bind
        (fun s => s.AllocatePool 1 7 keepView)).isNone = true
    ∧ ((ParticleSystem.create 2 1).AllocatePool 1 3 keepView = none
        ↔ (ParticleSystem.create 2 1).m_active_pools[1]? = some true) :=
  ⟨⟨rfl, rfl, rfl⟩, by decide, by decide!, by decide!,
    (AllocatePool_contract (ParticleSystem.create 2 1) 1 3 keepView (fun _ _ => ⟨0, 0, 0, 0⟩)
      ⟨rfl, rfl, rfl⟩ (by decide)).1⟩

/-! ## C11 -/

theorem foldl_ReleasePoolData (attached : List Nat) :
    ∀ (object_pool : ObjectPool),
      attached.foldl ObjectPool.ReleasePoolData object_pool
        = { object_pool with
            m_free_indices := attached.reverse ++ object_pool.m_free_indices } := by
  induction attached with
  | nil => intro object_pool; rfl
  | cons a rest ih =>
    intro object_pool
    rw [List.foldl_cons, ih]
    simp [ObjectPool.ReleasePoolData]

/-- What `ReleasePool` does on an active pool id. -/
theorem ReleasePool_of_active {s : ParticleSystem} {id : Nat} {attached : List Nat}
    {drawer : ParticleDrawerComponent} (hact : s.m_active_pools[id]? = some true)
    (hatt : s.m_particle_pools_emitters[id]? = some attached)
    (hdraw : s.m_particle_drawers[id]? = some drawer) :
    s.ReleasePool id
      = some { s with
          m_particle_emitters :=
            attached.foldl ObjectPool.ReleasePoolData s.m_particle_emitters
          m_particle_pools_emitters := s.m_particle_pools_emitters.set id []
          m_particle_drawers := s.m_particle_drawers.set id { drawer with texture := none }
          m_active_pools := s.m_active_pools.set id false } := by
  simp only [ParticleSystem.ReleasePool, hact, hatt, hdraw, bind, Option.bind, pure]
  rfl

/-- C11: for a pool id of the system, `ReleasePool(id)` stops at its assertion exactly when
the id is not active. On an active id it completes: the slot of every emitter of the attached
list is on the free list of the emitter object pool afterwards (the free list is the
reversed attached list in front of the old free list), the attached list of `id` is empty,
the texture of the drawer of `id` is null, `id` is inactive, and the particle pools, with all
their arrays, are unchanged; the other attached lists, drawers and flags, the emitter storage
and the deferred-release queue are unchanged too. -/
theorem ReleasePool_contract (s : ParticleSystem) (id : Nat) (hs : s.Sized)
    (hid : id < s.m_particle_pools.length) :
    (s.ReleasePool id = none ↔ s.m_active_pools[id]? = some false)
    ∧ (s.m_active_pools[id]? = some true →
        ∃ s' attached drawer, s.m_particle_pools_emitters[id]? = some attached
          ∧ s.m_particle_drawers[id]? = some drawer
          ∧ s.ReleasePool id = some s'
          ∧ (∀ e ∈ attached, e ∈ s'.m_particle_emitters.m_free_indices)
          ∧ s'.m_particle_emitters.m_free_indices
              = attached.reverse ++ s.m_particle_emitters.m_free_indices
          ∧ s'.m_particle_emitters.m_data = s.m_particle_emitters.m_data
          ∧ s'.m_particle_pools_emitters[id]? = some []
          ∧ s'.m_particle_drawers[id]? = some { drawer with texture := none }
          ∧ s'.m_active_pools[id]? = some false
          ∧ s'.m_particle_pools = s.m_particle_pools
          ∧ (∀ j, j ≠ id →
              s'.m_particle_pools_emitters[j]? = s.m_particle_pools_emitters[j]?
              ∧ s'.m_particle_drawers[j]? = s.m_particle_drawers[j]?
              ∧ s'.m_active_pools[j]? = s.m_active_pools[j]?)
          ∧ s'.m_deferred_release_emitter = s.m_deferred_release_emitter) := by
  obtain ⟨flag, hflag⟩ := getElem?_isSome_of_lt (l := s.m_active_pools) (hs.active ▸ hid)
  obtain ⟨attached, hatt⟩ := getElem?_isSome_of_lt (l := s.m_particle_pools_emitters)
    (hs.emitters ▸ hid)
  obtain ⟨drawer, hdraw⟩ := getElem?_isSome_of_lt (l := s.m_particle_drawers)
    (hs.drawers ▸ hid)
  refine ⟨?_, ?_⟩
  · cases flag with
    | true =>
      rw [ReleasePool_of_active hflag hatt hdraw, hflag]
      simp
    | false =>
      refine ⟨fun _ => hflag, fun _ => ?_⟩
      simp only [ParticleSystem.ReleasePool, hflag, bind, Option.bind, Bool.false_eq_true,
        if_false]
  · intro hact
    have hfree : (attached.foldl ObjectPool.ReleasePoolData
        s.m_particle_emitters).m_free_indices
        = attached.reverse ++ s.m_particle_emitters.m_free_indices := by
      rw [foldl_ReleasePoolData]
    refine ⟨_, attached, drawer, hatt, hdraw, ReleasePool_of_active hact hatt hdraw, ?_,
      hfree, ?_, getElem?_set_self_of_some _ hatt, getElem?_set_self_of_some _ hdraw,
      getElem?_set_self_of_some _ hact, rfl,
      fun j hj => ⟨getElem?_set_of_ne _ _ hj, getElem?_set_of_ne _ _ hj,
        getElem?_set_of_ne _ _ hj⟩, rfl⟩
    · intro e he
      show e ∈ (attached.foldl ObjectPool.ReleasePoolData
        s.m_particle_emitters).m_free_indices
      rw [hfree]
      exact List.mem_append_left _ (List.mem_reverse.mpr he)
    · show (attached.foldl ObjectPool.ReleasePoolData s.m_particle_emitters).m_data = _
      rw [foldl_ReleasePoolData]

theorem systemOfEmitter_sized (emitter_type : EmitterType) :
    (systemOfEmitter emitter_type).Sized :=
  ⟨rfl, rfl, rfl⟩

theorem ReleasePool_contract_witness :
    (systemOfEmitter .BURST).Sized ∧ 0 < (systemOfEmitter .BURST).m_particle_pools.length
    ∧ ((systemOfEmitter .BURST).ReleasePool 0).map
        (fun s => (observeEmitters s, s.m_active_pools,
          s.m_particle_drawers.map (fun drawer => drawer.texture)))
      = some (([[]], [0], []), [false], [none])
    ∧ ((systemOfEmitter .BURST).ReleasePool 0 = none
        ↔ (systemOfEmitter .BURST).m_active_pools[0]? = some false) :=
  ⟨systemOfEmitter_sized _, by decide, by decide!,
    (ReleasePool_contract (systemOfEmitter .BURST) 0 (systemOfEmitter_sized _)
      (by decide)).1⟩

/-! ## C12 -/

/-- What `AttachEmitter` does when the free list has a first slot. -/
theorem AttachEmitter_of_free {s : ParticleSystem} {pool_id slot : Nat} {rest attached : List Nat}
    {old : ParticleEmitterComponent} (position : Vector) (duration emit_rate : ℚ)
    (emitter_type : EmitterType) (generator : ParticleGenerator)
    (hlist : s.m_particle_emitters.m_free_indices = slot :: rest)
    (hold : s.m_particle_emitters.m_data[slot]? = some old)
    (hatt : s.m_particle_pools_emitters[pool_id]? = some attached) :
    s.AttachEmitter pool_id position duration emit_rate emitter_type generator
      = some ({ s with
          m_particle_emitters :=
            { m_data := s.m_particle_emitters.m_data.set slot
                { position := position, duration := duration, elapsed_time := 0,
                  carry_over := 0, emit_rate := emit_rate, burst_emitted := false,
                  type := emitter_type, generator := generator }
              m_free_indices := rest }
          m_particle_pools_emitters :=
            s.m_particle_pools_emitters.set pool_id (attached ++ [slot]) }, some slot) := by
  simp only [ParticleSystem.AttachEmitter, ObjectPool.GetPoolData, hlist, hold, hatt,
    bind, Option.bind, pure]

/-- C12: when `pool_id` is a pool id of the system and the free slots are slots of the emitter
storage, `AttachEmitter` completes. It returns the null handle exactly when the emitter object
pool has no free slot, and then the system is unchanged. Otherwise it returns the first free
slot, which holds an emitter with the given position, duration, rate, type and generator and
with `elapsed_time = 0`, `carry_over = 0`, `burst_emitted = false`; the handle is appended as
the last element of the attached list of `pool_id`, and every other attached list and emitter
slot, the pools, flags, drawers and the queue are unchanged. -/
theorem AttachEmitter_contract (s : ParticleSystem) (pool_id : Nat) (position : Vector)
    (duration emit_rate : ℚ) (emitter_type : EmitterType) (generator : ParticleGenerator)
    (hpool : pool_id < s.m_particle_pools_emitters.length)
    (hfree : ∀ slot ∈ s.m_particle_emitters.m_free_indices,
      slot < s.m_particle_emitters.m_data.length) :
    ∃ s' handle,
      s.AttachEmitter pool_id position duration emit_rate emitter_type generator
        = some (s', handle)
      ∧ (handle = none ↔ s.m_particle_emitters.m_free_indices = [])
      ∧ (handle = none → s' = s)
      ∧ (∀ e, handle = some e →
          ∃ attached rest, s.m_particle_emitters.m_free_indices = e :: rest
            ∧ s'.m_particle_emitters.m_free_indices = rest
            ∧ s.m_particle_pools_emitters[pool_id]? = some attached
            ∧ s'.m_particle_pools_emitters[pool_id]? = some (attached ++ [e])
            ∧ s'.m_particle_emitters.m_data[e]?
                = some { position := position, duration := duration, elapsed_time := 0,
                         carry_over := 0, emit_rate := emit_rate, burst_emitted := false,
                         type := emitter_type, generator := generator }
            ∧ (∀ j, j ≠ pool_id →
                s'.m_particle_pools_emitters[j]? = s.m_particle_pools_emitters[j]?)
            ∧ (∀ j, j ≠ e →
                s'.m_particle_emitters.m_data[j]? = s.m_particle_emitters.m_data[j]?)
            ∧ s'.m_particle_pools = s.m_particle_pools
            ∧ s'.m_active_pools = s.m_active_pools
            ∧ s'.m_particle_drawers = s.m_particle_drawers
            ∧ s'.m_deferred_release_emitter = s.m_deferred_release_emitter) := by
  obtain ⟨attached, hatt⟩ := getElem?_isSome_of_lt hpool
  cases hlist : s.m_particle_emitters.m_free_indices with
  | nil =>
    refine ⟨s, none, ?_, by simp, fun _ => rfl, fun e he => absurd he (by simp)⟩
    simp only [ParticleSystem.AttachEmitter, ObjectPool.GetPoolData, hlist]
  | cons slot rest =>
    have hslot : slot < s.m_particle_emitters.m_data.length :=
      hfree slot (by rw [hlist]; exact List.mem_cons_self _ _)
    obtain ⟨old, hold⟩ := getElem?_isSome_of_lt hslot
    refine ⟨_, some slot,
      AttachEmitter_of_free position duration emit_rate emitter_type generator hlist hold hatt,
      by simp, fun h => absurd h (by simp), ?_⟩
    · intro e he
      rw [Option.some.injEq] at he
      subst he
      exact ⟨attached, rest, rfl, rfl, hatt, getElem?_set_self_of_some _ hatt,
        getElem?_set_self_of_some _ hold, fun j hj => getElem?_set_of_ne _ _ hj,
        fun j hj => getElem?_set_of_ne _ _ hj, rfl, rfl, rfl, rfl⟩

theorem AttachEmitter_contract_witness :
    ((ParticleSystem.create 1 1).AttachEmitter 0 ZeroVec 2 5 .BURST
        (fixedGenerator 1 1 1 1)).map (fun result => (observeEmitters result.1, result.2))
      = some (([[0]], [], []), some 0)
    ∧ (((ParticleSystem.create 1 1).AttachEmitter 0 ZeroVec 2 5 .BURST
          (fixedGenerator 1 1 1 1)).bind
        (fun result => result.1.AttachEmitter 0 ZeroVec 2 5 .BURST
          (fixedGenerator 1 1 1 1))).map (fun result => (observeEmitters result.1, result.2))
      = some (([[0]], [], []), none)
    ∧ ∃ s' handle,
        (ParticleSystem.create 1 1).AttachEmitter 0 ZeroVec 2 5 .BURST (fixedGenerator 1 1 1 1)
          = some (s', handle)
        ∧ (handle = none
            ↔ (ParticleSystem.create 1 1).m_particle_emitters.m_free_indices = []) := by
  refine ⟨by decide!, by decide!, ?_⟩
  obtain ⟨s', handle, h, hiff, -⟩ := AttachEmitter_contract (ParticleSystem.create 1 1) 0
    ZeroVec 2 5 .BURST (fixedGenerator 1 1 1 1) (by decide) (by decide)
  exact ⟨s', handle, h, hiff⟩

/-! ## C13 -/

/-- With no free emitter slot, `AttachEmitter` returns the null handle and
`SetGeneratorProperties` dereferences it: `AttachAreaEmitter` faults. -/
theorem AttachAreaEmitter_of_exhausted (library : GeneratorLibrary) (s : ParticleSystem)
    (pool_id : Nat) (duration_seconds emit_rate : ℚ) (emitter_type : EmitterType)
    (generator_properties : ParticleGeneratorProperties)
    (hfree : s.m_particle_emitters.m_free_indices = []) :
    s.AttachEmitter pool_id ZeroVec duration_seconds emit_rate emitter_type
        (DefaultGenerator library) = some (s, none)
    ∧ s.AttachAreaEmitter library pool_id duration_seconds emit_rate emitter_type
        generator_properties = none := by
  have hattach : s.AttachEmitter pool_id ZeroVec duration_seconds emit_rate emitter_type
      (DefaultGenerator library) = some (s, none) := by
    simp only [ParticleSystem.AttachEmitter, ObjectPool.GetPoolData, hfree]
  refine ⟨hattach, ?_⟩
  simp only [ParticleSystem.AttachAreaEmitter, hattach, ParticleSystem.SetGeneratorProperties,
    bind, Option.bind]

/-- C13: after `AllocatePool` and one `AttachEmitter` on a system with one emitter slot, no
slot is free. `AttachEmitter` then returns the null handle and leaves the system as it is,
but `AttachAreaEmitter` passes the null handle to `SetGeneratorProperties`, which writes
`emitter->generator` through it at line 369: the call faults instead of returning. With a
free slot the same call returns the handle. -/
theorem AttachAreaEmitter_faults_without_free_slot :
    (((ParticleSystem.create 1 1).run burstRemoveCalls).map observeEmitters)
      = some ([[0]], [], [])
    ∧ (((ParticleSystem.create 1 1).run burstRemoveCalls).bind
        (fun s => s.AttachEmitter 0 ZeroVec 2 5 .BURST (DefaultGenerator sampleLibrary))).map
          (fun result => (observeEmitters result.1, result.2))
      = some (([[0]], [], []), none)
    ∧ (((ParticleSystem.create 1 1).run burstRemoveCalls).bind
        (fun s => s.AttachAreaEmitter sampleLibrary 0 2 5 .BURST sampleProperties)).isNone
      = true
    ∧ (((ParticleSystem.create 1 2).run burstRemoveCalls).bind
        (fun s => s.AttachAreaEmitter sampleLibrary 0 2 5 .BURST sampleProperties)).map
          (fun result => (observeEmitters result.1, result.2))
      = some (([[0, 1]], [], []), some 1) := by
  refine ⟨by decide!, by decide!, by decide!, by decide!⟩

/-! ## C14 -/

/-- C14: `IsDone` is true exactly when the type is BURST or BURST_REMOVE_ON_FINISH and
`burst_emitted` is set, or the type is Continuous, `duration > 0` and
`elapsed_time > duration`. A Continuous emitter with `duration ≤ 0` is never done, whatever
its `elapsed_time` and `burst_emitted`. -/
theorem IsDone_iff (e : ParticleEmitterComponent) :
    (IsDone e = true ↔
      ((e.type = EmitterType.BURST ∨ e.type = EmitterType.BURST_REMOVE_ON_FINISH)
          ∧ e.burst_emitted = true)
        ∨ (e.type = EmitterType.CONTINOUS ∧ e.duration > 0 ∧ e.elapsed_time > e.duration))
    ∧ (e.type = EmitterType.CONTINOUS → e.duration ≤ 0 →
        ∀ (elapsed_time : ℚ) (burst_emitted : Bool),
          IsDone { e with elapsed_time := elapsed_time, burst_emitted := burst_emitted }
            = false) := by
  refine ⟨?_, fun hty hdur elapsed_time burst_emitted => IsDone_continuous hty hdur⟩
  by_cases hb : e.type = EmitterType.BURST ∨ e.type = EmitterType.BURST_REMOVE_ON_FINISH
  · simp only [IsDone, if_pos hb]
    constructor
    · exact fun h => Or.inl ⟨hb, h⟩
    · rintro (⟨-, h⟩ | ⟨hc, -⟩)
      · exact h
      · rcases hb with hb | hb <;> rw [hc] at hb <;> exact absurd hb (by decide)
  · have hc : e.type = EmitterType.CONTINOUS := by
      cases hty : e.type with
      | CONTINOUS => rfl
      | BURST => exact absurd (Or.inl hty) hb
      | BURST_REMOVE_ON_FINISH => exact absurd (Or.inr hty) hb
    simp only [IsDone, if_neg hb, decide_eq_true_eq]
    constructor
    · exact fun h => Or.inr ⟨hc, h⟩
    · rintro (⟨hb', -⟩ | ⟨-, h⟩)
      · exact absurd hb' hb
      · exact h

theorem IsDone_iff_witness :
    IsDone (emitterOf .CONTINOUS 2 5) = false
    ∧ IsDone { emitterOf .CONTINOUS 2 5 with elapsed_time := 3 } = true
    ∧ IsDone { emitterOf .CONTINOUS 0 5 with elapsed_time := 3, burst_emitted := true } = false
    ∧ IsDone { emitterOf .BURST 2 5 with burst_emitted := true } = true
    ∧ (IsDone { emitterOf .BURST 2 5 with burst_emitted := true } = true ↔
        (((emitterOf .BURST 2 5).type = EmitterType.BURST
              ∨ (emitterOf .BURST 2 5).type = EmitterType.BURST_REMOVE_ON_FINISH)
            ∧ true = true)
          ∨ ((emitterOf .BURST 2 5).type = EmitterType.CONTINOUS
              ∧ (emitterOf .BURST 2 5).duration > 0
              ∧ (0 : ℚ) > (emitterOf .BURST 2 5).duration)) :=
  ⟨by decide!, by decide!, by decide!, by decide!,
    (IsDone_iff { emitterOf .BURST 2 5 with burst_emitted := true }).1⟩

/-! ## C15 -/

/-- The releases of a queue, one after the other: the emitters of the queue are pushed on the
free list, last released first, and nothing but the free list and the attached lists
changes. -/
theorem release_fold :
    ∀ (queue : List DeferredReleasEmitter) (s s' : ParticleSystem),
      queue.foldlM
          (fun (current : ParticleSystem) (deferred_release : DeferredReleasEmitter) =>
            current.ReleaseEmitter deferred_release.pool_id deferred_release.emitter) s
        = some s' →
      s'.m_particle_emitters.m_free_indices
          = (queue.map (fun entry => entry.emitter)).reverse
            ++ s.m_particle_emitters.m_free_indices
        ∧ s'.m_particle_emitters.m_data = s.m_particle_emitters.m_data
        ∧ s'.m_particle_pools = s.m_particle_pools
        ∧ s'.m_active_pools = s.m_active_pools
        ∧ s'.m_particle_drawers = s.m_particle_drawers
        ∧ s'.m_deferred_release_emitter = s.m_deferred_release_emitter := by
  intro queue
  induction queue with
  | nil =>
    intro s s' h
    simp only [List.foldlM_nil, Option.pure_def, Option.some.injEq] at h
    subst h
    simp
  | cons entry queue ih =>
    intro s s' h
    simp only [List.foldlM_cons, Option.bind_eq_bind, Option.bind_eq_some] at h
    obtain ⟨s1, h1, hrest⟩ := h
    obtain ⟨attached, -, rfl⟩ := ReleaseEmitter_eq h1
    obtain ⟨hfree, hdata, hpools, hact, hdraw, hq⟩ := ih _ s' hrest
    refine ⟨?_, hdata, hpools, hact, hdraw, hq⟩
    rw [hfree]
    simp [ObjectPool.ReleasePoolData]

/-- The releases of a queue complete when every queued pool id is a pool id of the system. -/
theorem release_fold_isSome :
    ∀ (queue : List DeferredReleasEmitter) (s : ParticleSystem),
      (∀ entry ∈ queue, entry.pool_id < s.m_particle_pools_emitters.length) →
      ∃ s', queue.foldlM
          (fun (current : ParticleSystem) (deferred_release : DeferredReleasEmitter) =>
            current.ReleaseEmitter deferred_release.pool_id deferred_release.emitter) s
        = some s' := by
  intro queue
  induction queue with
  | nil => intro s _; exact ⟨s, rfl⟩
  | cons entry queue ih =>
    intro s hq
    obtain ⟨attached, hatt⟩ := getElem?_isSome_of_lt (hq entry (List.mem_cons_self _ _))
    have hstep : s.ReleaseEmitter entry.pool_id entry.emitter
        = some { s with
            m_particle_emitters := s.m_particle_emitters.ReleasePoolData entry.emitter
            m_particle_pools_emitters :=
              s.m_particle_pools_emitters.set entry.pool_id (remove attached entry.emitter) } := by
      simp only [ParticleSystem.ReleaseEmitter, hatt, bind, Option.bind, pure]
    obtain ⟨s', hs'⟩ := ih
      { s with
        m_particle_emitters := s.m_particle_emitters.ReleasePoolData entry.emitter
        m_particle_pools_emitters :=
          s.m_particle_pools_emitters.set entry.pool_id (remove attached entry.emitter) }
      (fun e he => by
        show e.pool_id
          < (s.m_particle_pools_emitters.set entry.pool_id
              (remove attached entry.emitter)).length
        rw [List.length_set]
        exact hq e (List.mem_cons_of_mem _ he))
    refine ⟨s', ?_⟩
    simp only [List.foldlM_cons, hstep, Option.bind_eq_bind, Option.some_bind]
    exact hs'

/-- C15: a `Sync` that completes leaves the deferred-release queue empty; every entry of the
queue has its emitter removed from the attached list of the pool id it was queued with and
its slot on the free list of the emitter object pool (the free list is the reversed queue
in front of the old free list); pools, flags, drawers and emitter storage are unchanged.
`Sync` completes whenever the queued pool ids are pool ids of the system. With an empty queue
it changes nothing, and `Sync` followed by `Sync` is `Sync`. -/
theorem Sync_contract (s : ParticleSystem) :
    (∀ s', s.Sync = some s' →
        s'.m_deferred_release_emitter = []
        ∧ (∀ entry ∈ s.m_deferred_release_emitter,
            (∃ emitters, s'.m_particle_pools_emitters[entry.pool_id]? = some emitters
                ∧ entry.emitter ∉ emitters)
              ∧ entry.emitter ∈ s'.m_particle_emitters.m_free_indices)
        ∧ s'.m_particle_emitters.m_free_indices
            = (s.m_deferred_release_emitter.map (fun entry => entry.emitter)).reverse
              ++ s.m_particle_emitters.m_free_indices
        ∧ s'.m_particle_emitters.m_data = s.m_particle_emitters.m_data
        ∧ s'.m_particle_pools = s.m_particle_pools
        ∧ s'.m_active_pools = s.m_active_pools
        ∧ s'.m_particle_drawers = s.m_particle_drawers)
    ∧ ((∀ entry ∈ s.m_deferred_release_emitter,
          entry.pool_id < s.m_particle_pools_emitters.length) → ∃ s', s.Sync = some s')
    ∧ (s.m_deferred_release_emitter = [] → s.Sync = some s)
    ∧ s.Sync.bind ParticleSystem.Sync = s.Sync := by
  have hempty : ∀ t : ParticleSystem, t.m_deferred_release_emitter = [] → t.Sync = some t := by
    intro t ht
    simp only [ParticleSystem.Sync, ht, List.foldlM_nil, bind, Option.bind, pure]
    rw [← ht]
  refine ⟨?_, ?_, hempty s, ?_⟩
  · intro s' hsync
    have hall : ∀ entry ∈ s.m_deferred_release_emitter,
        (∃ emitters, s'.m_particle_pools_emitters[entry.pool_id]? = some emitters
            ∧ entry.emitter ∉ emitters)
          ∧ entry.emitter ∈ s'.m_particle_emitters.m_free_indices := by
      intro entry hentry
      have := @Sync_releases s s' entry.pool_id entry.emitter hentry hsync
      exact ⟨this.1, this.2.1⟩
    simp only [ParticleSystem.Sync, bind, Option.bind_eq_some, pure, Option.some.injEq] at hsync
    obtain ⟨released, hrel, rfl⟩ := hsync
    obtain ⟨hfree, hdata, hpools, hact, hdraw, -⟩ := release_fold _ _ _ hrel
    exact ⟨rfl, hall, hfree, hdata, hpools, hact, hdraw⟩
  · intro hq
    obtain ⟨released, hrel⟩ := release_fold_isSome _ s hq
    exact ⟨{ released with m_deferred_release_emitter := [] }, by
      simp only [ParticleSystem.Sync, hrel, bind, Option.bind, pure]⟩
  · cases hsync : s.Sync with
    | none => rfl
    | some s' =>
      have hq : s'.m_deferred_release_emitter = [] := by
        simp only [ParticleSystem.Sync, bind, Option.bind_eq_some, pure,
          Option.some.injEq] at hsync
        obtain ⟨released, -, rfl⟩ := hsync
        rfl
      rw [Option.some_bind]
      exact hempty s' hq

theorem Sync_contract_witness :
    (((ParticleSystem.create 1 1).run
        (burstRemoveCalls ++ [.update (contextOf 1), .sync, .update (contextOf 1)])).map
      observeEmitters) = some ([[0]], [], [⟨0, 0⟩])
    ∧ (((ParticleSystem.create 1 1).run
        (burstRemoveCalls ++ [.update (contextOf 1), .sync, .update (contextOf 1)])).bind
      ParticleSystem.Sync).map observeEmitters = some ([[]], [0], [])
    ∧ ((systemOfEmitter .BURST).m_deferred_release_emitter = [] →
        (systemOfEmitter .BURST).Sync = some (systemOfEmitter .BURST)) :=
  ⟨by decide!, by decide!, (Sync_contract (systemOfEmitter .BURST)).2.2.1⟩

/-! ## C18 -/

/-- C18, the claim as stated fails: the sum and the product of line 187 and the sum of line
178 are `float` operations. With the binary32 value `5368709 / 1073741824` of `0.005` as
step, `emit_rate = 100` and `carry_over = 100`, the exact product is below 1
(`floor (delta * (emit_rate + carry_over)) = 0`), but its binary32 value is 1: the update
computes the spawn count 1, admits one particle and resets `carry_over` to 0, where the claim
gives the count 0 and `carry_over = 200`. With `elapsed_time = 1` the same update leaves
`elapsed_time = 8430551 / 8388608`, which is not `1 + delta`. -/
theorem UpdateEmitter_rounds_product :
    roundF32 (5 / 1000) = some (5368709 / 1073741824)
    ∧ ⌊(5368709 / 1073741824 : ℚ) * (100 + 100)⌋ = 0
    ∧ newParticles { emitterOf .CONTINOUS 0 100 with carry_over := 100 }
        (contextOf (5368709 / 1073741824)) = some 1
    ∧ (UpdateEmitter [] 0 { emitterOf .CONTINOUS 0 100 with carry_over := 100, elapsed_time := 1 }
        (poolOfLives (List.replicate 4 0) 0) 0 (contextOf (5368709 / 1073741824))).map
        (fun step => (step.emitter.carry_over, step.pool.count_alive,
          step.emitter.elapsed_time))
      = some (0, 1, 8430551 / 8388608)
    ∧ (8430551 / 8388608 : ℚ) ≠ 1 + 5368709 / 1073741824 := by
  decide!

/-- C18 as amended: for a Continuous emitter that is not done, one `UpdateEmitter` with step
`delta` that completes has computed the `float` sum `sum` of `emit_rate` and `carry_over` and
the `float` product `product` of `delta` and `sum`, with `-1 < product < 2 ^ 32` (the range
on which the conversion of line 187 is defined); the spawn count is the integer part of
`product`, `elapsed_time` is the `float` sum of `elapsed_time` and `delta`, and `carry_over`
is `sum` (the `float` sum of `carry_over` and `emit_rate`) if the count is 0 and 0 otherwise;
position, duration, rate, type and generator are kept and the queue is unchanged. On a
well-formed pool of at least one slot the update completes whenever the two sums and the
product are finite and the product lies in that range. -/
theorem UpdateEmitter_continuous (d : List DeferredReleasEmitter) (handle pool_id : Nat)
    (e : ParticleEmitterComponent) (p : ParticlePoolComponent) (ctx : UpdateContext)
    (hty : e.type = EmitterType.CONTINOUS) (hdone : IsDone e = false) :
    (∀ step, UpdateEmitter d handle e p pool_id ctx = some step →
      ∃ sum product, fadd e.emit_rate e.carry_over = some sum
        ∧ fmul ctx.delta_s sum = some product
        ∧ -1 < product ∧ product < (U32 : ℚ)
        ∧ newParticles e ctx = some ⌊product⌋.toNat
        ∧ fadd e.elapsed_time ctx.delta_s = some step.emitter.elapsed_time
        ∧ fadd e.carry_over e.emit_rate = some sum
        ∧ step.emitter.carry_over = (if ⌊product⌋.toNat = 0 then sum else 0)
        ∧ step.emitter.position = e.position ∧ step.emitter.duration = e.duration
        ∧ step.emitter.emit_rate = e.emit_rate ∧ step.emitter.type = e.type
        ∧ step.emitter.generator = e.generator
        ∧ step.deferred = d)
    ∧ (∀ elapsed sum product, fadd e.elapsed_time ctx.delta_s = some elapsed →
        fadd e.emit_rate e.carry_over = some sum → fmul ctx.delta_s sum = some product →
        -1 < product → product < (U32 : ℚ) →
        p.WellFormed → 1 ≤ p.pool_size → p.pool_size < U32 →
        ∃ step, UpdateEmitter d handle e p pool_id ctx = some step
          ∧ step.emitter.elapsed_time = elapsed
          ∧ step.emitter.carry_over = (if ⌊product⌋.toNat = 0 then sum else 0)) := by
  have hcomm : fadd e.carry_over e.emit_rate = fadd e.emit_rate e.carry_over := by
    simp only [fadd, add_comm]
  constructor
  · intro step h
    obtain ⟨hd, he⟩ := UpdateEmitter_not_done hdone h
    obtain ⟨ht, -, hpos, hdur, hrate, hgen, helapsed, n, hn, hnext⟩ := emitterAfter_frame he
    have hnew := hn
    rw [newParticles_continuous ctx hty] at hnew
    simp only [Option.bind_eq_some] at hnew
    obtain ⟨product, ⟨sum, hsum, hproduct⟩, hconv⟩ := hnew
    obtain ⟨hlow, hhigh, hfloor⟩ := toUint32_eq_some hconv
    subst hfloor
    refine ⟨sum, product, hsum, hproduct, hlow, hhigh, hn, helapsed, hcomm.trans hsum, ?_,
      hpos, hdur, hrate, ht, hgen, hd⟩
    rw [nextCarryOver_continuous _ hty, hcomm, hsum] at hnext
    by_cases hzero : ⌊product⌋.toNat = 0
    · rw [if_pos hzero, Option.some.injEq] at hnext
      rw [if_pos hzero]
      exact hnext.symm
    · rw [if_neg hzero, Option.some.injEq] at hnext
      rw [if_neg hzero]
      exact hnext.symm
  · intro elapsed sum product helapsed hsum hproduct hlow hhigh hwf h1 h2
    have hn : newParticles e ctx = some ⌊product⌋.toNat := by
      rw [newParticles_continuous ctx hty]
      simp only [hsum, hproduct, Option.some_bind]
      exact toUint32_of_range hlow hhigh
    have hnext : nextCarryOver e ⌊product⌋.toNat
        = some (if ⌊product⌋.toNat = 0 then sum else 0) := by
      rw [nextCarryOver_continuous _ hty, hcomm, hsum]
      by_cases hzero : ⌊product⌋.toNat = 0
      · rw [if_pos hzero, if_pos hzero]
      · rw [if_neg hzero, if_neg hzero]
    have hupdated := emitterAfter_of helapsed hn hnext
    obtain ⟨generated, -, hspawn, -, -, -⟩ :=
      spawnParticles_wellFormed e.generator e.position p ⌊product⌋.toNat hwf h1 h2
    have hstep := UpdateEmitter_of_computed d handle pool_id p hdone hupdated hn
    rw [hspawn] at hstep
    exact ⟨_, hstep, rfl, rfl⟩

theorem UpdateEmitter_continuous_witness :
    (UpdateEmitter [] 0 { emitterOf .CONTINOUS 0 12 with carry_over := 12 }
        (poolOfLives (List.replicate 4 0) 0) 0 (contextOf (1 / 16))).map
      (fun step => (step.emitter.elapsed_time, step.emitter.carry_over,
        step.pool.count_alive)) = some (1 / 16, 0, 1)
    ∧ ∃ step, UpdateEmitter [] 0 { emitterOf .CONTINOUS 0 12 with carry_over := 12 }
          (poolOfLives (List.replicate 4 0) 0) 0 (contextOf (1 / 16)) = some step
        ∧ step.emitter.elapsed_time = 1 / 16
        ∧ step.emitter.carry_over = (if ⌊(3 / 2 : ℚ)⌋.toNat = 0 then 24 else 0) :=
  ⟨by decide!,
    (UpdateEmitter_continuous [] 0 0 { emitterOf .CONTINOUS 0 12 with carry_over := 12 }
      (poolOfLives (List.replicate 4 0) 0) (contextOf (1 / 16)) rfl (by decide!)).2
      (1 / 16) 24 (3 / 2) (by decide!) (by decide!) (by decide!) (by decide!) (by decide!)
      (poolOfLives_wellFormed _ _) (by decide) (by decide)⟩

/-! ## C19 -/

theorem emitterAfterFrames_first (ctx : UpdateContext) (k : Nat)
    (e : ParticleEmitterComponent) :
    emitterAfterFrames ctx (k + 1) e
      = (if IsDone e then some e else emitterAfter e ctx).bind
          (emitterAfterFrames ctx k) := by
  rw [emitterAfterFrames]
  split <;> rfl

theorem emitterAfterFrames_succ (ctx : UpdateContext) :
    ∀ (k : Nat) (e : ParticleEmitterComponent),
      emitterAfterFrames ctx (k + 1) e
        = (emitterAfterFrames ctx k e).bind
            (fun later => if IsDone later then some later else emitterAfter later ctx) := by
  intro k
  induction k with
  | zero =>
    intro e
    rw [emitterAfterFrames_first]
    simp only [emitterAfterFrames, Option.some_bind]
    cases (if IsDone e then some e else emitterAfter e ctx) <;> rfl
  | succ k ih =>
    intro e
    rw [emitterAfterFrames_first ctx (k + 1) e, emitterAfterFrames_first ctx k e]
    cases (if IsDone e then some e else emitterAfter e ctx) with
    | none => rfl
    | some first =>
      simp only [Option.some_bind]
      exact ih first

/-- While no sum or product rounds and every frame so far has computed the count 0, the
emitter after `k` frames carries `k * emit_rate` and has `elapsed_time = k * delta_s`. -/
theorem frames_without_spawn (ctx : UpdateContext) (r : ℚ) (N : Nat) (hd : 0 < ctx.delta_s)
    (hr : 0 < r) (hfit : ctx.delta_s * r < (U32 : ℚ))
    (hN : ∀ k : Nat, k < N → (k : ℚ) * (ctx.delta_s * r) < 1)
    (hexact : ExactCarry r ctx.delta_s N)
    (e : ParticleEmitterComponent) (hty : e.type = EmitterType.CONTINOUS)
    (hdur : e.duration ≤ 0) (hrate : e.emit_rate = r) (hcarry : e.carry_over = 0)
    (helapsed : e.elapsed_time = 0) :
    ∀ k : Nat, k < N →
      (∃ j : Nat, j < k ∧ ∃ later c, emitterAfterFrames ctx j e = some later
          ∧ newParticles later ctx = some c ∧ 1 ≤ c)
      ∨ ∃ later, emitterAfterFrames ctx k e = some later
          ∧ later.type = EmitterType.CONTINOUS ∧ later.duration ≤ 0 ∧ later.emit_rate = r
          ∧ later.carry_over = (k : ℚ) * r ∧ later.elapsed_time = (k : ℚ) * ctx.delta_s
          ∧ newParticles later ctx
              = some ⌊ctx.delta_s * (((k + 1 : Nat) : ℚ) * r)⌋.toNat := by
  have hq : 0 < ctx.delta_s * r := mul_pos hd hr
  have hcount : ∀ (k : Nat) (later : ParticleEmitterComponent), k < N →
      later.type = EmitterType.CONTINOUS → later.emit_rate = r →
      later.carry_over = (k : ℚ) * r →
      newParticles later ctx = some ⌊ctx.delta_s * (((k + 1 : Nat) : ℚ) * r)⌋.toNat := by
    intro k later hk hty' hrate' hcarry'
    obtain ⟨-, hsum, hprod⟩ := hexact (k + 1) (by omega)
    have hadd : later.emit_rate + later.carry_over = ((k + 1 : Nat) : ℚ) * r := by
      rw [hrate', hcarry']; push_cast; ring
    rw [newParticles_continuous ctx hty']
    simp only [fadd, fmul, hadd, hsum, hprod, Option.some_bind]
    have hx : ctx.delta_s * (((k + 1 : Nat) : ℚ) * r)
        = (k : ℚ) * (ctx.delta_s * r) + ctx.delta_s * r := by push_cast; ring
    have hk0 : (0 : ℚ) ≤ (k : ℚ) * (ctx.delta_s * r) := by positivity
    apply toUint32_of_range
    · rw [hx]; linarith
    · rw [hx]
      rcases Nat.eq_zero_or_pos k with h0 | hpos
      · rw [h0]; simpa using hfit
      · have hlt := hN k hk
        have hk1 : (1 : ℚ) ≤ (k : ℚ) := by exact_mod_cast hpos
        have hq1 : ctx.delta_s * r < 1 := by nlinarith
        have hU : (2 : ℚ) ≤ (U32 : ℚ) := by norm_num [U32]
        linarith
  intro k
  induction k with
  | zero =>
    intro h0
    right
    refine ⟨e, rfl, hty, hdur, hrate, by rw [hcarry]; simp, by rw [helapsed]; simp, ?_⟩
    exact hcount 0 e h0 hty hrate (by rw [hcarry]; simp)
  | succ k ih =>
    intro hk
    rcases ih (by omega) with ⟨j, hj, hspawn⟩ | ⟨later, hlater, hty', hdur', hrate', hcarry',
      helapsed', hnew⟩
    · exact Or.inl ⟨j, by omega, hspawn⟩
    · by_cases hzero : ⌊ctx.delta_s * (((k + 1 : Nat) : ℚ) * r)⌋.toNat = 0
      · right
        obtain ⟨hstep, hsum, -⟩ := hexact (k + 1) (by omega)
        have hel : fadd later.elapsed_time ctx.delta_s
            = some (((k + 1 : Nat) : ℚ) * ctx.delta_s) := by
          have heq : later.elapsed_time + ctx.delta_s = ((k + 1 : Nat) : ℚ) * ctx.delta_s := by
            rw [helapsed']; push_cast; ring
          simp only [fadd, heq]
          exact hstep
        have hnext : nextCarryOver later ⌊ctx.delta_s * (((k + 1 : Nat) : ℚ) * r)⌋.toNat
            = some (((k + 1 : Nat) : ℚ) * r) := by
          have heq : later.carry_over + later.emit_rate = ((k + 1 : Nat) : ℚ) * r := by
            rw [hrate', hcarry']; push_cast; ring
          rw [nextCarryOver_continuous _ hty', if_pos hzero]
          simp only [fadd, heq]
          exact hsum
        have hupdated := emitterAfter_of hel hnew hnext
        refine ⟨{ later with
            elapsed_time := ((k + 1 : Nat) : ℚ) * ctx.delta_s
            carry_over := ((k + 1 : Nat) : ℚ) * r
            burst_emitted := true },
          ?_, hty', hdur', hrate', rfl, rfl, ?_⟩
        · rw [emitterAfterFrames_succ, hlater, Option.some_bind,
            IsDone_continuous hty' hdur']
          simpa using hupdated
        · exact hcount (k + 1) _ hk hty' hrate' rfl
      · left
        exact ⟨k, by omega, later, _, hlater, hnew, Nat.one_le_iff_ne_zero.mpr hzero⟩

/-- C19, the claim as stated fails. The carry-over is accumulated in binary32. With
`emit_rate = 11184811 / 134217728`, the binary32 value of `1/12`, and a step of one second,
`ceil (1 / (d * r)) = 12`, yet each of the first twelve updates computes the spawn count 0:
the accumulated sums round down and the twelfth product is `8388607 / 8388608`. The
thirteenth update is the first to compute 1. And with `d * r = 2 ^ 32` the product of line
187 is outside the range on which its conversion is defined, so the first update computes
no spawn count. -/
theorem carry_over_rounds_below_one :
    roundF32 (1 / 12) = some (11184811 / 134217728)
    ∧ ⌈1 / ((1 : ℚ) * (11184811 / 134217728))⌉ = 12
    ∧ (List.range 13).map
        (fun k => (emitterAfterFrames (contextOf 1) k
          (emitterOf .CONTINOUS 0 (11184811 / 134217728))).bind
            (fun later => newParticles later (contextOf 1)))
      = [some 0, some 0, some 0, some 0, some 0, some 0, some 0, some 0, some 0, some 0,
          some 0, some 0, some 1]
    ∧ ((emitterAfterFrames (contextOf 1) 11
          (emitterOf .CONTINOUS 0 (11184811 / 134217728))).bind
        (fun later => fadd later.emit_rate later.carry_over)) = some (8388607 / 8388608)
    ∧ ⌈1 / ((1 : ℚ) * 4294967296)⌉ = 1
    ∧ newParticles (emitterOf .CONTINOUS 0 4294967296) (contextOf 1) = none := by
  decide!

/-- C19 as amended: for a Continuous emitter with `duration ≤ 0`, `emit_rate = r > 0`,
`carry_over = 0` and `elapsed_time = 0`, updated with a constant step `d > 0` such that
`d * r < 2 ^ 32` (the range on which the conversion of line 187 is defined), when no `float`
sum or product of lines 178-189 rounds during the first `ceil (1 / (d * r))` updates, one of
these updates computes a spawn count of at least 1. -/
theorem spawn_within_ceil (r d : ℚ) (e : ParticleEmitterComponent) (ctx : UpdateContext)
    (hty : e.type = EmitterType.CONTINOUS) (hdur : e.duration ≤ 0) (hrate : e.emit_rate = r)
    (hr : 0 < r) (hcarry : e.carry_over = 0) (helapsed : e.elapsed_time = 0)
    (hctx : ctx.delta_s = d) (hd : 0 < d) (hfit : d * r < (U32 : ℚ))
    (hexact : ExactCarry r d ⌈1 / (d * r)⌉.toNat) :
    ∃ k : Nat, (k : ℤ) < ⌈1 / (d * r)⌉
      ∧ ∃ later c, emitterAfterFrames ctx k e = some later
          ∧ newParticles later ctx = some c ∧ 1 ≤ c := by
  subst hctx
  have hq : 0 < ctx.delta_s * r := mul_pos hd hr
  have hceil_pos : 0 < ⌈1 / (ctx.delta_s * r)⌉ := Int.ceil_pos.mpr (by positivity)
  have hm : ((⌈1 / (ctx.delta_s * r)⌉.toNat : Nat) : ℤ) = ⌈1 / (ctx.delta_s * r)⌉ :=
    Int.toNat_of_nonneg hceil_pos.le
  generalize ⌈1 / (ctx.delta_s * r)⌉.toNat = m at hm hexact
  have hm1 : 1 ≤ m := by omega
  have hN : ∀ k : Nat, k < m → (k : ℚ) * (ctx.delta_s * r) < 1 := by
    intro k hk
    have hkz : (k : ℤ) < ⌈1 / (ctx.delta_s * r)⌉ := by omega
    have hlt : ((k : ℤ) : ℚ) < 1 / (ctx.delta_s * r) := Int.lt_ceil.mp hkz
    have := mul_lt_mul_of_pos_right hlt hq
    rw [one_div, inv_mul_cancel₀ hq.ne'] at this
    simpa using this
  rcases frames_without_spawn ctx r m hd hr hfit hN hexact e hty hdur hrate hcarry
    helapsed (m - 1) (by omega) with ⟨j, hj, later, c, hlater, hc, h1⟩ | ⟨later, hlater, -, -,
      -, -, -, hnew⟩
  · exact ⟨j, by omega, later, c, hlater, hc, h1⟩
  · refine ⟨m - 1, by omega, later, _, hlater, hnew, ?_⟩
    have hcast : ((m - 1 + 1 : Nat) : ℚ) = (m : ℚ) := by
      rw [Nat.sub_add_cancel hm1]
    rw [hcast]
    have hmQ : (m : ℚ) = ((⌈1 / (ctx.delta_s * r)⌉ : ℤ) : ℚ) := by exact_mod_cast congrArg Int.cast hm
    have hge : 1 / (ctx.delta_s * r) ≤ (m : ℚ) := by rw [hmQ]; exact Int.le_ceil _
    have h1 : 1 ≤ ctx.delta_s * ((m : ℚ) * r) := by
      have := mul_le_mul_of_nonneg_right hge hq.le
      rw [one_div, inv_mul_cancel₀ hq.ne'] at this
      linarith
    have hfloor : (1 : ℤ) ≤ ⌊ctx.delta_s * ((m : ℚ) * r)⌋ :=
      Int.le_floor.mpr (by exact_mod_cast h1)
    omega

theorem spawn_within_ceil_witness :
    ⌈1 / ((1 / 2 : ℚ) * (1 / 4))⌉ = 8
    ∧ ExactCarry (1 / 4) (1 / 2) 8
    ∧ (List.range 8).map
        (fun k => (emitterAfterFrames (contextOf (1 / 2)) k
          (emitterOf .CONTINOUS 0 (1 / 4))).bind
            (fun later => newParticles later (contextOf (1 / 2))))
      = [some 0, some 0, some 0, some 0, some 0, some 0, some 0, some 1]
    ∧ ∃ k : Nat, (k : ℤ) < ⌈1 / ((1 / 2 : ℚ) * (1 / 4))⌉
        ∧ ∃ later c, emitterAfterFrames (contextOf (1 / 2)) k (emitterOf .CONTINOUS 0 (1 / 4))
              = some later
            ∧ newParticles later (contextOf (1 / 2)) = some c ∧ 1 ≤ c :=
  have hceil : ⌈1 / ((1 / 2 : ℚ) * (1 / 4))⌉ = 8 := by decide!
  have hexact : ExactCarry (1 / 4) (1 / 2) 8 := by unfold ExactCarry; decide!
  ⟨hceil, hexact, by decide!,
    spawn_within_ceil (1 / 4) (1 / 2) (emitterOf .CONTINOUS 0 (1 / 4)) (contextOf (1 / 2)) rfl
      (by decide!) rfl (by decide!) rfl rfl rfl (by decide!) (by decide!)
      (by rw [hceil]; exact hexact)⟩

/-! ## C20 -/

theorem updateAttached_length {pool_id : Nat} {ctx : UpdateContext}
    {st st' : ParticleSystem × ParticlePoolComponent} {h : Nat}
    (hstep : ParticleSystem.updateAttached pool_id ctx st h = some st') :
    st'.1.m_particle_emitters.m_data.length = st.1.m_particle_emitters.m_data.length := by
  simp only [ParticleSystem.updateAttached, bind, Option.bind_eq_some, pure,
    Option.some.injEq] at hstep
  obtain ⟨component, _, step, _, rfl⟩ := hstep
  exact List.length_set _ _ _

theorem updatePool_shape {s t t' : ParticleSystem} {i : Nat} {ctx : UpdateContext}
    (h : ParticleSystem.updatePool ctx t i = some t')
    (ht : SameShape s t
      ∧ t.m_particle_emitters.m_data.length = s.m_particle_emitters.m_data.length) :
    SameShape s t'
      ∧ t'.m_particle_emitters.m_data.length = s.m_particle_emitters.m_data.length := by
  rcases active_cases h with hact | hact
  · obtain ⟨pool, emitters, emitted, reaped, hem, hfold, rfl⟩ := updatePool_active hact h
    exact foldlM_preserves
      (fun st : ParticleSystem × ParticlePoolComponent =>
        SameShape s st.1
          ∧ st.1.m_particle_emitters.m_data.length = s.m_particle_emitters.m_data.length)
      (ParticleSystem.updateAttached i ctx)
      (fun b a b' hb hba =>
        ⟨updateAttached_shape hba hb.1, (updateAttached_length hba).trans hb.2⟩)
      emitters _ _ ht hfold
  · rw [updatePool_inactive hact h]
    exact ht

/-- C20: an `Update` that completes changes no attached-emitter list and does not change the
free list or the size of the emitter object pool, so the set of allocated emitter slots is
the same. `UpdateEmitter` on an emitter that is already done returns the emitter and the
particle pool unchanged; the queue is unchanged too, except that for type
BURST_REMOVE_ON_FINISH the entry `(pool_id, emitter)` is appended to it. -/
theorem Update_keeps_emitter_lists (s s' : ParticleSystem) (ctx : UpdateContext)
    (h : s.Update ctx = some s') :
    s'.m_particle_pools_emitters = s.m_particle_pools_emitters
    ∧ s'.m_particle_emitters.m_free_indices = s.m_particle_emitters.m_free_indices
    ∧ s'.m_particle_emitters.m_data.length = s.m_particle_emitters.m_data.length
    ∧ s'.m_particle_emitters.Used = s.m_particle_emitters.Used
    ∧ ∀ (e : ParticleEmitterComponent) (d : List DeferredReleasEmitter)
        (handle pool_id : Nat) (p : ParticlePoolComponent) (ctx' : UpdateContext),
        IsDone e = true →
          UpdateEmitter d handle e p pool_id ctx'
            = some ⟨if e.type = EmitterType.BURST_REMOVE_ON_FINISH then
                      d ++ [⟨pool_id, handle⟩]
                    else d, e, p⟩ := by
  have hshape := foldlM_preserves
    (fun t : ParticleSystem =>
      SameShape s t
        ∧ t.m_particle_emitters.m_data.length = s.m_particle_emitters.m_data.length)
    (ParticleSystem.updatePool ctx)
    (fun b a b' hb hba => updatePool_shape hba hb)
    _ s s' ⟨⟨rfl, rfl, rfl⟩, rfl⟩ h
  obtain ⟨⟨hlists, -, hfree⟩, hlen⟩ := hshape
  refine ⟨hlists, hfree, hlen, by simp only [ObjectPool.Used, hfree, hlen], ?_⟩
  intro e d handle pool_id p ctx' hdone
  by_cases hty : e.type = EmitterType.BURST_REMOVE_ON_FINISH
  · simp only [UpdateEmitter, hdone, if_true, if_pos hty]
  · simp only [UpdateEmitter, hdone, if_true, if_neg hty]

theorem Update_keeps_emitter_lists_witness :
    ((systemOfEmitter .BURST_REMOVE_ON_FINISH).Update (contextOf 1)).map
        (fun s => (observeEmitters s, s.m_particle_pools.map (fun pool => pool.count_alive)))
      = some (([[0]], [], []), [5])
    ∧ ∃ s', (systemOfEmitter .BURST_REMOVE_ON_FINISH).Update (contextOf 1) = some s'
        ∧ s'.m_particle_pools_emitters
            = (systemOfEmitter .BURST_REMOVE_ON_FINISH).m_particle_pools_emitters
        ∧ s'.m_particle_emitters.m_free_indices
            = (systemOfEmitter .BURST_REMOVE_ON_FINISH).m_particle_emitters.m_free_indices := by
  refine ⟨by decide!, ?_⟩
  have hsome : ((systemOfEmitter .BURST_REMOVE_ON_FINISH).Update (contextOf 1)).isSome
      = true := by decide!
  obtain ⟨s', hs'⟩ := Option.isSome_iff_exists.mp hsome
  have hmain := Update_keeps_emitter_lists (systemOfEmitter .BURST_REMOVE_ON_FINISH) s'
    (contextOf 1) hs'
  exact ⟨s', hs', hmain.1, hmain.2.1⟩

/-! ## The frame driver: calls, trace and flags -/

theorem performAll_nil (state : RunState) (events : EngineCall → List EngineEvent) :
    state.performAll events [] = state := rfl

theorem performAll_cons (state : RunState) (events : EngineCall → List EngineEvent)
    (call : EngineCall) (calls : List EngineCall) :
    state.performAll events (call :: calls)
      = (state.perform events call).performAll events calls := rfl

/-- Calls add themselves to the trace and touch neither the update context nor
`last_time`. -/
theorem performAll_frame (events : EngineCall → List EngineEvent) :
    ∀ (calls : List EngineCall) (state : RunState),
      (state.performAll events calls).trace = state.trace ++ calls
        ∧ (state.performAll events calls).update_context = state.update_context
        ∧ (state.performAll events calls).last_time = state.last_time := by
  intro calls
  induction calls with
  | nil => intro state; simp [performAll_nil]
  | cons call calls ih =>
    intro state
    rw [performAll_cons]
    obtain ⟨h1, h2, h3⟩ := ih (state.perform events call)
    refine ⟨?_, h2, h3⟩
    rw [h1]
    simp [RunState.perform]

theorem handle_quit (engine : Engine) (event : EngineEvent)
    (h : engine.m_quit = true ∨ event = EngineEvent.QuitEvent) :
    (engine.handle event).m_quit = true := by
  cases event with
  | PauseEvent pause =>
    rcases h with h | h
    · exact h
    · exact absurd h (by simp)
  | QuitEvent => rfl
  | ApplicationEvent state =>
    rcases h with h | h
    · simp only [Engine.handle, Engine.OnApplication]
      split
      · exact h
      · split <;> exact h
    · exact absurd h (by simp)
  | ActivatedEvent gain =>
    rcases h with h | h
    · exact h
    · exact absurd h (by simp)
  | TimeScaleEvent time_scale =>
    rcases h with h | h
    · exact h
    · exact absurd h (by simp)

/-- No handler clears `m_quit`, and a `QuitEvent` sets it. -/
theorem handleAll_quit :
    ∀ (events : List EngineEvent) (engine : Engine),
      engine.m_quit = true ∨ EngineEvent.QuitEvent ∈ events →
      (events.foldl Engine.handle engine).m_quit = true := by
  intro events
  induction events with
  | nil =>
    intro engine h
    rcases h with h | h
    · exact h
    · exact absurd h (List.not_mem_nil _)
  | cons event events ih =>
    intro engine h
    rw [List.foldl_cons]
    apply ih
    rcases h with h | h
    · exact Or.inl (handle_quit engine event (Or.inl h))
    · rcases List.mem_cons.mp h with h | h
      · exact Or.inl (handle_quit engine event (Or.inr h.symm))
      · exact Or.inr h

theorem perform_quit (state : RunState) (events : EngineCall → List EngineEvent)
    (call : EngineCall)
    (h : state.engine.m_quit = true ∨ EngineEvent.QuitEvent ∈ events call) :
    (state.perform events call).engine.m_quit = true :=
  handleAll_quit (events call) state.engine h

theorem performAll_quit (events : EngineCall → List EngineEvent) :
    ∀ (calls : List EngineCall) (state : RunState),
      (state.engine.m_quit = true ∨ ∃ call ∈ calls, EngineEvent.QuitEvent ∈ events call) →
      (state.performAll events calls).engine.m_quit = true := by
  intro calls
  induction calls with
  | nil =>
    intro state h
    rcases h with h | ⟨call, hcall, -⟩
    · exact h
    · exact absurd hcall (List.not_mem_nil _)
  | cons call calls ih =>
    intro state h
    rw [performAll_cons]
    apply ih
    rcases h with h | ⟨c, hc, hq⟩
    · exact Or.inl (perform_quit state events call (Or.inl h))
    · rcases List.mem_cons.mp hc with hc | hc
      · exact Or.inl (perform_quit state events call (Or.inr (hc ▸ hq)))
      · exact Or.inr ⟨c, hc, hq⟩

/-- The calls of one pass, in order. -/
theorem iteration_trace (state : RunState) (input : FrameInput) :
    (state.iteration input).trace
      = state.trace ++ preludeCalls
        ++ (if (state.checked input).engine.m_pause then []
            else bodyCalls ((state.checked input).frameContext (state.frameDelta input)))
        ++ [EngineCall.Sleep] := by
  have hchecked : (state.checked input).trace = state.trace ++ preludeCalls := by
    simp only [RunState.checked]
    rw [(performAll_frame input.events preludeCalls _).1]
    simp only [RunState.restart]
    split <;> rfl
  simp only [RunState.iteration, RunState.perform]
  split
  · rw [hchecked]; simp
  · simp only [RunState.body]
    rw [(performAll_frame input.events _ _).1, hchecked]

/-- The time stamp after one pass. -/
theorem iteration_timestamp (state : RunState) (input : FrameInput) :
    (state.iteration input).update_context.timestamp
      = addU32 state.update_context.timestamp (state.frameDelta input) := by
  have hchecked : (state.checked input).update_context.timestamp
      = addU32 state.update_context.timestamp (state.frameDelta input) := by
    simp only [RunState.checked]
    rw [(performAll_frame input.events preludeCalls _).2.1]
    simp only [RunState.restart]
    split <;> rfl
  simp only [RunState.iteration, RunState.perform]
  split
  · exact hchecked
  · simp only [RunState.body]
    rw [(performAll_frame input.events _ _).2.1]
    exact hchecked

theorem one_le_deltaMs (before_time last_time : Nat) (time_scale : ℚ)
    (undefined_delta : Nat) :
    1 ≤ deltaMs before_time last_time time_scale undefined_delta
      ∧ deltaMs before_time last_time time_scale undefined_delta < U32 := by
  unfold deltaMs clampU32
  generalize (scaledDelta before_time last_time time_scale).getD (undefined_delta % U32) = v
  unfold U32
  split
  · omega
  · split <;> omega

theorem loop_of_quit (inputs : List FrameInput) (state : RunState)
    (h : state.engine.m_quit = true) : RunState.loop inputs state = some state := by
  cases inputs with
  | nil => simp only [RunState.loop, h, if_true]
  | cons input rest => simp only [RunState.loop, h, if_true]

/-- A property of the trace that the start has and every pass keeps holds when the loop has
ended. -/
theorem loop_invariant (P : RunState → Prop)
    (hstep : ∀ state input, P state → P (state.iteration input)) :
    ∀ (inputs : List FrameInput) (state stopped : RunState), P state →
      RunState.loop inputs state = some stopped → P stopped := by
  intro inputs
  induction inputs with
  | nil =>
    intro state stopped hP h
    simp only [RunState.loop] at h
    split at h
    · rw [Option.some.injEq] at h; exact h ▸ hP
    · exact absurd h (by simp)
  | cons input rest ih =>
    intro state stopped hP h
    simp only [RunState.loop] at h
    split at h
    · rw [Option.some.injEq] at h; exact h ▸ hP
    · exact ih _ _ (hstep state input hP) h

/-! ## Binary32 rounding stays close to the real value -/

theorem pow2_eq_zpow (k : ℤ) : pow2 k = (2 : ℚ) ^ k := by
  unfold pow2
  split
  · rename_i h
    have hk : ((k.toNat : Nat) : ℤ) = k := Int.toNat_of_nonneg h
    calc ((2 ^ k.toNat : Nat) : ℚ) = (2 : ℚ) ^ k.toNat := by push_cast; rfl
      _ = (2 : ℚ) ^ ((k.toNat : Nat) : ℤ) := (zpow_natCast _ _).symm
      _ = (2 : ℚ) ^ k := by rw [hk]
  · rename_i h
    have hk : (((-k).toNat : Nat) : ℤ) = -k := Int.toNat_of_nonneg (by omega)
    calc (((2 ^ (-k).toNat : Nat) : ℚ))⁻¹ = ((2 : ℚ) ^ (-k).toNat)⁻¹ := by push_cast; rfl
      _ = ((2 : ℚ) ^ (((-k).toNat : Nat) : ℤ))⁻¹ := by rw [zpow_natCast]
      _ = ((2 : ℚ) ^ (-k))⁻¹ := by rw [hk]
      _ = (2 : ℚ) ^ k := by rw [zpow_neg, inv_inv]

theorem log2Upto_spec : ∀ (fuel n : Nat), n ≤ fuel → 1 ≤ n →
    2 ^ log2Upto fuel n ≤ n ∧ n < 2 ^ (log2Upto fuel n + 1) := by
  intro fuel
  induction fuel with
  | zero => intro n h0 h1; omega
  | succ fuel ih =>
    intro n hn h1
    unfold log2Upto
    split
    · rename_i h2
      have : n = 1 := by omega
      subst this
      simp
    · rename_i h2
      obtain ⟨hlo, hhi⟩ := ih (n / 2) (by omega) (by omega)
      rw [pow_succ, pow_succ]
      constructor <;> omega


theorem binade_spec {x : ℚ} (hx : 0 < x) :
    (2 : ℚ) ^ binade x ≤ x ∧ x < (2 : ℚ) ^ (binade x + 1) := by
  have hnum : 0 < x.num := Rat.num_pos.mpr hx
  have hden : 0 < x.den := x.den_pos
  have habs : ((x.num.natAbs : Nat) : ℤ) = x.num := Int.natAbs_of_nonneg hnum.le
  have hn1 : 1 ≤ x.num.natAbs := by omega
  obtain ⟨hnlo, hnhi⟩ := log2Upto_spec x.num.natAbs x.num.natAbs le_rfl hn1
  obtain ⟨hdlo, hdhi⟩ := log2Upto_spec x.den x.den le_rfl hden
  have hxeq : x = (x.num.natAbs : ℚ) / (x.den : ℚ) := by
    have h := (Rat.num_div_den x).symm
    rw [← Int.cast_natCast, habs]
    exact h
  have hdenQ : (0 : ℚ) < (x.den : ℚ) := by exact_mod_cast hden
  have hnloQ : (2 : ℚ) ^ log2Upto x.num.natAbs x.num.natAbs ≤ (x.num.natAbs : ℚ) := by
    exact_mod_cast hnlo
  have hnhiQ : (x.num.natAbs : ℚ) < (2 : ℚ) ^ (log2Upto x.num.natAbs x.num.natAbs + 1) := by
    exact_mod_cast hnhi
  have hdloQ : (2 : ℚ) ^ log2Upto x.den x.den ≤ (x.den : ℚ) := by exact_mod_cast hdlo
  have hdhiQ : (x.den : ℚ) < (2 : ℚ) ^ (log2Upto x.den x.den + 1) := by exact_mod_cast hdhi
  simp only [binade, abs_of_pos hx, pow2_eq_zpow]
  generalize log2Upto x.num.natAbs x.num.natAbs = a at hnloQ hnhiQ
  generalize log2Upto x.den x.den = b at hdloQ hdhiQ
  generalize (x.num.natAbs : ℚ) = p at hxeq hnloQ hnhiQ
  generalize (x.den : ℚ) = q at hxeq hdenQ hdloQ hdhiQ
  have h2a : (0 : ℚ) < (2 : ℚ) ^ a := by positivity
  have h2b : (0 : ℚ) < (2 : ℚ) ^ b := by positivity
  have hup : x < (2 : ℚ) ^ ((a : ℤ) - (b : ℤ) + 1) := by
    have : (2 : ℚ) ^ ((a : ℤ) - (b : ℤ) + 1) = (2 : ℚ) ^ (a + 1) / (2 : ℚ) ^ b := by
      rw [show (a : ℤ) - (b : ℤ) + 1 = ((a + 1 : Nat) : ℤ) - ((b : Nat) : ℤ) by push_cast; ring,
        zpow_sub₀ (by norm_num), zpow_natCast, zpow_natCast]
    rw [this, hxeq, div_lt_div_iff₀ hdenQ h2b]
    calc p * (2 : ℚ) ^ b < (2 : ℚ) ^ (a + 1) * (2 : ℚ) ^ b :=
          mul_lt_mul_of_pos_right hnhiQ h2b
      _ ≤ (2 : ℚ) ^ (a + 1) * q := mul_le_mul_of_nonneg_left hdloQ (by positivity)
  have hlow : (2 : ℚ) ^ ((a : ℤ) - (b : ℤ) - 1) ≤ x := by
    have : (2 : ℚ) ^ ((a : ℤ) - (b : ℤ) - 1) = (2 : ℚ) ^ a / (2 : ℚ) ^ (b + 1) := by
      rw [show (a : ℤ) - (b : ℤ) - 1 = ((a : Nat) : ℤ) - ((b + 1 : Nat) : ℤ) by push_cast; ring,
        zpow_sub₀ (by norm_num), zpow_natCast, zpow_natCast]
    have h2b1 : (0 : ℚ) < (2 : ℚ) ^ (b + 1) := by positivity
    have hp : (0 : ℚ) ≤ p := le_trans h2a.le hnloQ
    rw [this, hxeq, div_le_div_iff₀ h2b1 hdenQ]
    calc (2 : ℚ) ^ a * q ≤ p * q := mul_le_mul_of_nonneg_right hnloQ hdenQ.le
      _ ≤ p * (2 : ℚ) ^ (b + 1) := mul_le_mul_of_nonneg_left hdhiQ.le hp
  split
  · rename_i h
    exact ⟨h, hup⟩
  · rename_i h
    refine ⟨hlow, ?_⟩
    rw [show (a : ℤ) - (b : ℤ) - 1 + 1 = (a : ℤ) - (b : ℤ) by ring]
    exact not_le.mp h

theorem roundHalfEven_bounds (x : ℚ) : ⌊x⌋ ≤ roundHalfEven x ∧ roundHalfEven x ≤ ⌊x⌋ + 1 := by
  unfold roundHalfEven
  split
  · omega
  · split
    · omega
    · split <;> omega

/-- The binary32 value of a positive real in the range of the normal values is finite and
within the factor `1 ± 2 ^ (-23)` of it. -/
theorem roundF32_near {x : ℚ} (hlo : (2 : ℚ) ^ (-126 : ℤ) ≤ x) (hhi : x ≤ (2 : ℚ) ^ (127 : ℤ)) :
    ∃ y, roundF32 x = some y ∧ x * (1 - (2 : ℚ) ^ (-23 : ℤ)) ≤ y
      ∧ y ≤ x * (1 + (2 : ℚ) ^ (-23 : ℤ)) := by
  have hx : 0 < x := lt_of_lt_of_le (by positivity) hlo
  obtain ⟨hb1, hb2⟩ := binade_spec hx
  have hb : -126 ≤ binade x := by
    have hlt : (2 : ℚ) ^ (-126 : ℤ) < (2 : ℚ) ^ (binade x + 1) := lt_of_le_of_lt hlo hb2
    have := (zpow_lt_zpow_iff_right₀ (by norm_num : (1 : ℚ) < 2)).mp hlt
    omega
  have hmax : max (binade x) (-126) = binade x := max_eq_left hb
  have hs : pow2 (max (binade x) (-126) - 23) = (2 : ℚ) ^ binade x * (2 : ℚ) ^ (-23 : ℤ) := by
    rw [hmax, pow2_eq_zpow, sub_eq_add_neg, zpow_add₀ (by norm_num)]
  have hspos : 0 < (2 : ℚ) ^ binade x * (2 : ℚ) ^ (-23 : ℤ) := by positivity
  have hsle : (2 : ℚ) ^ binade x * (2 : ℚ) ^ (-23 : ℤ) ≤ x * (2 : ℚ) ^ (-23 : ℤ) :=
    mul_le_mul_of_nonneg_right hb1 (by positivity)
  obtain ⟨hr1, hr2⟩ := roundHalfEven_bounds (x / ((2 : ℚ) ^ binade x * (2 : ℚ) ^ (-23 : ℤ)))
  have hfl1 := Int.floor_le (x / ((2 : ℚ) ^ binade x * (2 : ℚ) ^ (-23 : ℤ)))
  have hfl2 := Int.lt_floor_add_one (x / ((2 : ℚ) ^ binade x * (2 : ℚ) ^ (-23 : ℤ)))
  have hr1Q : ((⌊x / ((2 : ℚ) ^ binade x * (2 : ℚ) ^ (-23 : ℤ))⌋ : ℤ) : ℚ)
      ≤ (roundHalfEven (x / ((2 : ℚ) ^ binade x * (2 : ℚ) ^ (-23 : ℤ))) : ℚ) := by
    exact_mod_cast hr1
  have hr2Q : (roundHalfEven (x / ((2 : ℚ) ^ binade x * (2 : ℚ) ^ (-23 : ℤ))) : ℚ)
      ≤ ((⌊x / ((2 : ℚ) ^ binade x * (2 : ℚ) ^ (-23 : ℤ))⌋ : ℤ) : ℚ) + 1 := by
    exact_mod_cast hr2
  have hround : roundF32 x
      = if |(roundHalfEven (x / ((2 : ℚ) ^ binade x * (2 : ℚ) ^ (-23 : ℤ))) : ℚ)
            * ((2 : ℚ) ^ binade x * (2 : ℚ) ^ (-23 : ℤ))| < (2 : ℚ) ^ (128 : ℤ) then
          some ((roundHalfEven (x / ((2 : ℚ) ^ binade x * (2 : ℚ) ^ (-23 : ℤ))) : ℚ)
            * ((2 : ℚ) ^ binade x * (2 : ℚ) ^ (-23 : ℤ)))
        else none := by
    unfold roundF32
    rw [if_neg hx.ne']
    simp only [hs, pow2_eq_zpow]
  clear hs
  generalize (2 : ℚ) ^ binade x * (2 : ℚ) ^ (-23 : ℤ) = s at *
  generalize (roundHalfEven (x / s) : ℚ) = R at *
  generalize ((⌊x / s⌋ : ℤ) : ℚ) = fl at *
  have hxs : x / s * s = x := div_mul_cancel₀ x hspos.ne'
  have hlow : x - s ≤ R * s := by
    have : (x / s - 1) * s ≤ R * s := mul_le_mul_of_nonneg_right (by linarith) hspos.le
    rw [sub_mul, hxs, one_mul] at this
    exact this
  have hupp : R * s ≤ x + s := by
    have : R * s ≤ (x / s + 1) * s := mul_le_mul_of_nonneg_right (by linarith) hspos.le
    rw [add_mul, hxs, one_mul] at this
    exact this
  have hRpos : 0 ≤ R * s := by
    have h23 : (2 : ℚ) ^ (-23 : ℤ) ≤ 1 := by norm_num
    nlinarith
  refine ⟨R * s, ?_, by linarith, by linarith⟩
  rw [hround, if_pos]
  rw [abs_of_nonneg hRpos]
  have h23 : (2 : ℚ) ^ (-23 : ℤ) ≤ 1 := by norm_num
  have h128 : (2 : ℚ) ^ (128 : ℤ) = 2 * (2 : ℚ) ^ (127 : ℤ) := by norm_num
  have hxs' : s ≤ x := by nlinarith
  rw [h128]
  have h127 : (0 : ℚ) < (2 : ℚ) ^ (127 : ℤ) := by positivity
  have h23' : (2 : ℚ) ^ (-23 : ℤ) < 1 := by norm_num
  nlinarith

/-- The `float` value of `float(delta_ms) / 1000.0f` (`Engine.cpp` line 123) for a `delta_ms`
of at least 1: both operations have a finite result, and the quotient is strictly positive
and within the factor `(1 ± 2 ^ (-23)) ^ 2` of `delta_ms / 1000`. -/
theorem float_delta_s (delta_ms : Nat) (h1 : 1 ≤ delta_ms) (h2 : delta_ms < U32) :
    ∃ whole delta_s, roundF32 (delta_ms : ℚ) = some whole ∧ fdiv whole 1000 = some delta_s
      ∧ 0 < delta_s
      ∧ (delta_ms : ℚ) / 1000 * (1 - (2 : ℚ) ^ (-23 : ℤ)) ^ 2 ≤ delta_s
      ∧ delta_s ≤ (delta_ms : ℚ) / 1000 * (1 + (2 : ℚ) ^ (-23 : ℤ)) ^ 2 := by
  have hn1 : (1 : ℚ) ≤ (delta_ms : ℚ) := by exact_mod_cast h1
  have hn2 : (delta_ms : ℚ) < 4294967296 := by
    have : delta_ms < 4294967296 := h2
    exact_mod_cast this
  have he : (2 : ℚ) ^ (-23 : ℤ) = 1 / 8388608 := by norm_num
  have hmin : (2 : ℚ) ^ (-126 : ℤ) ≤ 1 / 4000 := by
    rw [zpow_neg, ← one_div]
    apply one_div_le_one_div_of_le (by norm_num)
    norm_num
  have hmax : (8589934592 : ℚ) ≤ (2 : ℚ) ^ (127 : ℤ) := by norm_num
  obtain ⟨whole, hwhole, hw1, hw2⟩ := roundF32_near (x := (delta_ms : ℚ))
    (le_trans hmin (by linarith)) (le_trans (by linarith) hmax)
  rw [he] at hw1 hw2
  have hwlo : (1 : ℚ) / 2 ≤ whole := by nlinarith
  have hwhi : whole ≤ 8589934592 := by nlinarith
  obtain ⟨delta_s, hdelta, hd1, hd2⟩ := roundF32_near (x := whole / 1000)
    (le_trans hmin (by linarith)) (le_trans (by linarith) hmax)
  rw [he] at hd1 hd2
  refine ⟨whole, delta_s, hwhole, ?_, ?_, ?_, ?_⟩
  · simp only [fdiv]
    rw [if_neg (by norm_num)]
    exact hdelta
  · nlinarith
  · rw [he]
    nlinarith
  · rw [he]
    nlinarith

/-! ## C16 -/

theorem update_mem_bodyCalls {ctx ctx' : UpdateContext}
    (h : EngineCall.SystemContextUpdate ctx' ∈ bodyCalls ctx) : ctx' = ctx := by
  simp only [bodyCalls, List.mem_cons, List.mem_singleton, EngineCall.SystemContextUpdate.injEq,
    List.not_mem_nil, or_false, false_or] at h
  simpa using h

theorem update_not_mem_preludeCalls (ctx : UpdateContext) :
    EngineCall.SystemContextUpdate ctx ∉ preludeCalls := by
  simp [preludeCalls]

/-- The update contexts handed to the simulation pass in one pass of the loop. -/
theorem update_of_iteration (state : RunState) (input : FrameInput) (ctx : UpdateContext)
    (h : EngineCall.SystemContextUpdate ctx ∈ (state.iteration input).trace) :
    EngineCall.SystemContextUpdate ctx ∈ state.trace
      ∨ ctx = (state.checked input).frameContext (state.frameDelta input) := by
  rw [iteration_trace] at h
  simp only [List.mem_append, List.mem_singleton] at h
  rcases h with ((h | h) | h) | h
  · exact Or.inl h
  · exact absurd h (update_not_mem_preludeCalls ctx)
  · split at h
    · exact absurd h (List.not_mem_nil _)
    · exact Or.inr (update_mem_bodyCalls h)
  · exact absurd h (by simp)

theorem frameContext_positive (state : RunState) (input : FrameInput) (checked : RunState) :
    1 ≤ (checked.frameContext (state.frameDelta input)).delta_ms
      ∧ (checked.frameContext (state.frameDelta input)).delta_s
          = ((checked.frameContext (state.frameDelta input)).delta_ms : ℚ) / 1000
      ∧ 0 < (checked.frameContext (state.frameDelta input)).delta_s := by
  have h1 : 1 ≤ state.frameDelta input := (one_le_deltaMs _ _ _ _).1
  refine ⟨h1, rfl, ?_⟩
  show 0 < ((state.frameDelta input : Nat) : ℚ) / 1000
  have : (0 : ℚ) < ((state.frameDelta input : Nat) : ℚ) := by exact_mod_cast h1
  positivity

/-- C16: for every `before_time`, `last_time` and time scale the `delta_ms` of line 98 is at
least 1, whatever the conversion of line 98 yields where the language does not define it;
where it is defined, `delta_ms` is the clamped integer part of the `float` product of the
`float` value of `before_time - last_time` and the time scale. In every pass of the loop the
`delta_s` handed to the simulation pass is `delta_ms / 1000` with that `delta_ms`, hence
strictly positive, and so is every `delta_s` handed to it during a whole run. Every pass,
paused or not, advances `update_context.timestamp` by exactly `delta_ms` in `uint32_t`
arithmetic: the new value is `(timestamp + delta_ms) mod 2 ^ 32`, the difference of the new
and the old value is `delta_ms`, and the new value is `timestamp + delta_ms` whenever that
fits 32 bits. The binary32 value of `float(delta_ms) / 1000.0f` of line 123 is finite,
strictly positive as well, and within the factor `(1 ± 2 ^ (-23)) ^ 2` of
`delta_ms / 1000`. -/
theorem frame_delta_positive :
    (∀ (before_time last_time : Nat) (time_scale : ℚ) (undefined_delta : Nat),
        1 ≤ deltaMs before_time last_time time_scale undefined_delta
        ∧ (∀ elapsed product : ℚ,
            roundF32 ((subU32 before_time last_time : Nat) : ℚ) = some elapsed →
            fmul elapsed time_scale = some product → -1 < product → product < (U32 : ℚ) →
            deltaMs before_time last_time time_scale undefined_delta
              = clampU32 ⌊product⌋.toNat 1 (U32 - 1)))
    ∧ (∀ (state : RunState) (input : FrameInput),
        1 ≤ state.frameDelta input
        ∧ (∀ ctx, EngineCall.SystemContextUpdate ctx ∈ (state.iteration input).trace →
            EngineCall.SystemContextUpdate ctx ∈ state.trace
              ∨ (ctx.delta_ms = state.frameDelta input
                  ∧ ctx.delta_s = (state.frameDelta input : ℚ) / 1000 ∧ 0 < ctx.delta_s))
        ∧ (state.iteration input).update_context.timestamp
            = addU32 state.update_context.timestamp (state.frameDelta input)
        ∧ (state.update_context.timestamp < U32 →
            subU32 (state.iteration input).update_context.timestamp
              state.update_context.timestamp = state.frameDelta input)
        ∧ (state.update_context.timestamp + state.frameDelta input < U32 →
            (state.iteration input).update_context.timestamp
              = state.update_context.timestamp + state.frameDelta input))
    ∧ (∀ (engine : Engine) (load_events : List EngineEvent) (first_time : Nat)
        (inputs : List FrameInput) (unload_events : List EngineEvent) (exit_code : Int)
        (result : RunResult),
        engine.Run load_events first_time inputs unload_events exit_code = some result →
        ∀ ctx, EngineCall.SystemContextUpdate ctx ∈ result.trace →
          1 ≤ ctx.delta_ms ∧ ctx.delta_s = (ctx.delta_ms : ℚ) / 1000 ∧ 0 < ctx.delta_s)
    ∧ (∀ (state : RunState) (input : FrameInput),
        ∃ whole delta_s, roundF32 ((state.frameDelta input : Nat) : ℚ) = some whole
          ∧ fdiv whole 1000 = some delta_s ∧ 0 < delta_s
          ∧ (state.frameDelta input : ℚ) / 1000 * (1 - (2 : ℚ) ^ (-23 : ℤ)) ^ 2 ≤ delta_s
          ∧ delta_s ≤ (state.frameDelta input : ℚ) / 1000 * (1 + (2 : ℚ) ^ (-23 : ℤ)) ^ 2) := by
  refine ⟨fun b l t w => ⟨(one_le_deltaMs b l t w).1, ?_⟩, ?_, ?_, fun state input =>
    float_delta_s (state.frameDelta input)
      (one_le_deltaMs input.before_time (state.restart input).last_time
        (state.restart input).engine.m_time_scale input.undefined_delta).1
      (one_le_deltaMs input.before_time (state.restart input).last_time
        (state.restart input).engine.m_time_scale input.undefined_delta).2⟩
  · intro elapsed product helapsed hproduct hlow hhigh
    simp only [deltaMs, scaledDelta, helapsed, hproduct, Option.some_bind,
      toUint32_of_range hlow hhigh, Option.getD_some]
  · intro state input
    obtain ⟨h1, hU⟩ := one_le_deltaMs input.before_time (state.restart input).last_time
      (state.restart input).engine.m_time_scale input.undefined_delta
    have h1' : 1 ≤ state.frameDelta input := h1
    have hU' : state.frameDelta input < U32 := hU
    refine ⟨h1', ?_, iteration_timestamp state input, ?_, ?_⟩
    · intro ctx hctx
      rcases update_of_iteration state input ctx hctx with h | h
      · exact Or.inl h
      · right
        obtain ⟨-, -, hpos⟩ := frameContext_positive state input (state.checked input)
        rw [h]
        exact ⟨rfl, rfl, hpos⟩
    · intro ht
      rw [iteration_timestamp]
      unfold subU32 addU32 U32 at *
      omega
    · intro ht
      rw [iteration_timestamp]
      unfold addU32
      exact Nat.mod_eq_of_lt ht
  · intro engine load_events first_time inputs unload_events exit_code result hrun
    simp only [Engine.Run, bind, Option.bind_eq_some, pure, Option.some.injEq] at hrun
    obtain ⟨stopped, hloop, rfl⟩ := hrun
    have hinv := loop_invariant
      (fun st : RunState => ∀ ctx, EngineCall.SystemContextUpdate ctx ∈ st.trace →
        1 ≤ ctx.delta_ms ∧ ctx.delta_s = (ctx.delta_ms : ℚ) / 1000 ∧ 0 < ctx.delta_s)
      (fun state input hP ctx hctx => by
        rcases update_of_iteration state input ctx hctx with h | h
        · exact hP ctx h
        · rw [h]; exact frameContext_positive state input (state.checked input))
      inputs (engine.enter load_events first_time) stopped
      (fun ctx hctx => by
        simp [Engine.enter, RunState.perform] at hctx)
      hloop
    intro ctx hctx
    apply hinv ctx
    simp only [RunState.perform, List.mem_append, List.mem_singleton] at hctx
    rcases hctx with h | h
    · exact h
    · exact absurd h (by simp)

theorem frame_delta_positive_witness :
    deltaMs 116 100 1 0 = 16 ∧ deltaMs 100 100 1 0 = 1 ∧ deltaMs 116 100 (1 / 100) 0 = 1
    ∧ scaledDelta 16777317 100 1 = some 16777216 ∧ deltaMs 16777317 100 1 0 = 16777216
    ∧ scaledDelta 116 100 (-1) = none
    ∧ deltaMs 116 100 (-1) 4294967280 = 4294967280 ∧ deltaMs 116 100 (-1) 0 = 1
    ∧ (runningEngine.Run [] 100 [quitOnSwap 116] [] 0).map
        (fun result => result.trace.filterMap
          (fun call => match call with
            | EngineCall.SystemContextUpdate ctx => some (ctx.delta_ms, ctx.delta_s, ctx.timestamp)
            | _ => none))
      = some [(16, 2 / 125, 16)]
    ∧ (roundF32 16).bind (fun whole => fdiv whole 1000) = some (8589935 / 536870912)
    ∧ ∀ (before_time last_time : Nat) (time_scale : ℚ) (undefined_delta : Nat),
        1 ≤ deltaMs before_time last_time time_scale undefined_delta :=
  ⟨by decide!, by decide!, by decide!, by decide!, by decide!, by decide!, by decide!,
    by decide!, by decide!, by decide!, fun b l t w => (frame_delta_positive.1 b l t w).1⟩

/-! ## C17 -/

theorem not_load_unload_of_mem_preludeCalls {call : EngineCall} (h : call ∈ preludeCalls) :
    call ≠ EngineCall.ZoneOnLoad ∧ call ≠ EngineCall.ZoneOnUnload := by
  simp only [preludeCalls, List.mem_cons, List.mem_singleton, List.not_mem_nil, or_false] at h
  rcases h with h | h | h | h | h | h | h | h | h <;> subst h <;> exact ⟨by simp, by simp⟩

theorem not_load_unload_of_mem_bodyCalls {call : EngineCall} {ctx : UpdateContext}
    (h : call ∈ bodyCalls ctx) :
    call ≠ EngineCall.ZoneOnLoad ∧ call ≠ EngineCall.ZoneOnUnload := by
  simp only [bodyCalls, List.mem_cons, List.mem_singleton, List.not_mem_nil, or_false] at h
  rcases h with h | h | h | h | h | h | h | h | h | h | h <;> subst h <;>
    exact ⟨by simp, by simp⟩

/-- A pass of the loop calls neither `OnLoad` nor `OnUnload`. -/
theorem iteration_middle (state : RunState) (input : FrameInput) :
    ∃ added, (state.iteration input).trace = state.trace ++ added
      ∧ EngineCall.ZoneOnLoad ∉ added ∧ EngineCall.ZoneOnUnload ∉ added := by
  refine ⟨preludeCalls
    ++ (if (state.checked input).engine.m_pause then []
        else bodyCalls ((state.checked input).frameContext (state.frameDelta input)))
    ++ [EngineCall.Sleep], ?_, ?_, ?_⟩
  · rw [iteration_trace]; simp only [List.append_assoc]
  all_goals
    simp only [List.mem_append, List.mem_singleton, not_or]
    refine ⟨⟨fun h => ?_, fun h => ?_⟩, by simp⟩
    · have := not_load_unload_of_mem_preludeCalls h
      simp at this
    · split at h
      · exact absurd h (List.not_mem_nil _)
      · have := not_load_unload_of_mem_bodyCalls h
        simp at this

/-- C17: `Engine::Run` calls `zone->OnLoad` first and only once. A pass of the loop that is
not paused calls, after the nine calls of lines 101-117, `SetDeltaAndTimestamp`, window
`MakeCurrent`, system context `Update`, `Accept(updater)`, `AddUpdatable`, updater `Update`,
`Accept(renderer)`, `DrawFrame`, window `SwapBuffers`, `PostUpdate` and system context `Sync`,
each once and in this order, then `Sleep`; a paused pass calls only the nine calls and
`Sleep`, so neither `Update` nor `Sync`. A run that returns has called `OnUnload` last and
only once, returns its exit code and leaves quit, pause and time scale reset. When the loop
is entered, the first pass is not paused and a `QuitEvent` is dispatched during its
`SwapBuffers`, the run returns after that one pass, whatever passes would follow. -/
theorem Run_call_order :
    (∀ (state : RunState) (input : FrameInput),
        (state.iteration input).trace
          = state.trace
            ++ [EngineCall.WindowSize, EngineCall.CameraSetWindowSize,
                EngineCall.WindowDrawableSize, EngineCall.RendererSetWindowSize,
                EngineCall.RendererSetDrawableSize, EngineCall.CameraGetViewport,
                EngineCall.RendererSetViewport, EngineCall.ProcessSystemEvents,
                EngineCall.MixSounds]
            ++ (if (state.checked input).engine.m_pause then []
                else
                  [EngineCall.RendererSetDeltaAndTimestamp (state.frameDelta input)
                      ((state.frameDelta input : ℚ) / 1000)
                      (state.checked input).update_context.timestamp,
                    EngineCall.WindowMakeCurrent,
                    EngineCall.SystemContextUpdate
                      ((state.checked input).frameContext (state.frameDelta input)),
                    EngineCall.ZoneAcceptUpdater, EngineCall.UpdaterAddUpdatable,
                    EngineCall.UpdaterUpdate
                      ((state.checked input).frameContext (state.frameDelta input)),
                    EngineCall.ZoneAcceptRenderer, EngineCall.RendererDrawFrame,
                    EngineCall.WindowSwapBuffers, EngineCall.ZonePostUpdate,
                    EngineCall.SystemContextSync])
            ++ [EngineCall.Sleep])
    ∧ (∀ (engine : Engine) (load_events : List EngineEvent) (first_time : Nat)
        (inputs : List FrameInput) (unload_events : List EngineEvent) (exit_code : Int)
        (result : RunResult),
        engine.Run load_events first_time inputs unload_events exit_code = some result →
        result.exit_code = exit_code
        ∧ result.engine = { m_quit := false, m_pause := false, m_update_last_time := false,
                            m_time_scale := 1 }
        ∧ ∃ middle, result.trace
              = [EngineCall.ZoneOnLoad] ++ middle ++ [EngineCall.ZoneOnUnload]
            ∧ EngineCall.ZoneOnLoad ∉ middle ∧ EngineCall.ZoneOnUnload ∉ middle)
    ∧ (∀ (engine : Engine) (load_events : List EngineEvent) (first_time : Nat)
        (input : FrameInput) (rest : List FrameInput) (unload_events : List EngineEvent)
        (exit_code : Int),
        (engine.enter load_events first_time).engine.m_quit = false →
        ((engine.enter load_events first_time).checked input).engine.m_pause = false →
        EngineEvent.QuitEvent ∈ input.events EngineCall.WindowSwapBuffers →
        ∃ result,
          engine.Run load_events first_time (input :: rest) unload_events exit_code
            = some result
          ∧ result.exit_code = exit_code
          ∧ result.engine = { m_quit := false, m_pause := false,
                              m_update_last_time := false, m_time_scale := 1 }
          ∧ result.trace
            = [EngineCall.ZoneOnLoad] ++ preludeCalls
              ++ bodyCalls (((engine.enter load_events first_time).checked input).frameContext
                  ((engine.enter load_events first_time).frameDelta input))
              ++ [EngineCall.Sleep, EngineCall.ZoneOnUnload]) := by
  refine ⟨?_, ?_, ?_⟩
  · intro state input
    rw [iteration_trace]
    rfl
  · intro engine load_events first_time inputs unload_events exit_code result hrun
    simp only [Engine.Run, bind, Option.bind_eq_some, pure, Option.some.injEq] at hrun
    obtain ⟨stopped, hloop, rfl⟩ := hrun
    refine ⟨rfl, rfl, ?_⟩
    obtain ⟨middle, hmid, h1, h2⟩ := loop_invariant
      (fun st : RunState => ∃ middle, st.trace = [EngineCall.ZoneOnLoad] ++ middle
        ∧ EngineCall.ZoneOnLoad ∉ middle ∧ EngineCall.ZoneOnUnload ∉ middle)
      (fun state input hP => by
        obtain ⟨middle, hmid, h1, h2⟩ := hP
        obtain ⟨added, hadd, h3, h4⟩ := iteration_middle state input
        refine ⟨middle ++ added, ?_, ?_, ?_⟩
        · rw [hadd, hmid, List.append_assoc]
        · simp only [List.mem_append, not_or]; exact ⟨h1, h3⟩
        · simp only [List.mem_append, not_or]; exact ⟨h2, h4⟩)
      inputs (engine.enter load_events first_time) stopped
      ⟨[], rfl, List.not_mem_nil _, List.not_mem_nil _⟩ hloop
    exact ⟨middle, by simp only [RunState.perform, hmid], h1, h2⟩
  · intro engine load_events first_time input rest unload_events exit_code hquit hpause hswap
    have hbody : (((engine.enter load_events first_time).checked input).body input
        ((engine.enter load_events first_time).frameDelta input)).engine.m_quit = true := by
      simp only [RunState.body]
      exact performAll_quit input.events _ _
        (Or.inr ⟨EngineCall.WindowSwapBuffers, by simp [bodyCalls], hswap⟩)
    have hafter : ((engine.enter load_events first_time).iteration input).engine.m_quit
        = true := by
      simp only [RunState.iteration, hpause, Bool.false_eq_true, if_false]
      exact perform_quit _ input.events EngineCall.Sleep (Or.inl hbody)
    have hloop : RunState.loop (input :: rest) (engine.enter load_events first_time)
        = some ((engine.enter load_events first_time).iteration input) := by
      simp only [RunState.loop, hquit, Bool.false_eq_true, if_false]
      exact loop_of_quit rest _ hafter
    refine ⟨{ exit_code := exit_code
              engine := { m_quit := false, m_pause := false, m_update_last_time := false,
                          m_time_scale := 1 }
              trace := (((engine.enter load_events first_time).iteration input).perform
                (fun _ => unload_events) EngineCall.ZoneOnUnload).trace },
      by simp only [Engine.Run, hloop, bind, Option.bind, pure], rfl, rfl, ?_⟩
    simp only [RunState.perform]
    rw [iteration_trace, hpause]
    simp [Engine.enter, RunState.perform]

theorem Run_call_order_witness :
    (runningEngine.Run [] 100 [quitOnSwap 116, quitOnSwap 130] [] 7).map
        (fun result => (result.exit_code, result.engine, result.trace))
      = some (7, runningEngine,
          [EngineCall.ZoneOnLoad, EngineCall.WindowSize, EngineCall.CameraSetWindowSize,
            EngineCall.WindowDrawableSize, EngineCall.RendererSetWindowSize,
            EngineCall.RendererSetDrawableSize, EngineCall.CameraGetViewport,
            EngineCall.RendererSetViewport, EngineCall.ProcessSystemEvents,
            EngineCall.MixSounds, EngineCall.RendererSetDeltaAndTimestamp 16 (2 / 125) 16,
            EngineCall.WindowMakeCurrent,
            EngineCall.SystemContextUpdate ⟨1, 16, 2 / 125, 16⟩,
            EngineCall.ZoneAcceptUpdater, EngineCall.UpdaterAddUpdatable,
            EngineCall.UpdaterUpdate ⟨1, 16, 2 / 125, 16⟩, EngineCall.ZoneAcceptRenderer,
            EngineCall.RendererDrawFrame, EngineCall.WindowSwapBuffers,
            EngineCall.ZonePostUpdate, EngineCall.SystemContextSync, EngineCall.Sleep,
            EngineCall.ZoneOnUnload])
    ∧ (runningEngine.Run [] 100
          [eventsOnProcess 116 [.PauseEvent true], eventsOnProcess 130 [.QuitEvent]] [] 7).map
        (fun result => result.trace.filter
          (fun call => decide (call ∉ preludeCalls)))
      = some [EngineCall.ZoneOnLoad, EngineCall.Sleep, EngineCall.Sleep,
          EngineCall.ZoneOnUnload]
    ∧ ∃ result, runningEngine.Run [] 100 [quitOnSwap 116, quitOnSwap 130] [] 7 = some result
        ∧ result.exit_code = 7 :=
  ⟨by decide!, by decide!, by
    obtain ⟨result, h, hcode, -⟩ := Run_call_order.2.2 runningEngine [] 100 (quitOnSwap 116)
      [quitOnSwap 130] [] 7 rfl (by decide!) (by decide!)
    exact ⟨result, h, hcode⟩⟩

/-! ## C21 -/

/-- C21: four alive particles with lives 1/10, 5, 1/10 and 7 (sizes 10, 11, 12, 13) and a step
of 1/5. The pass reaps slot 0 and swaps the particle of slot 3 into it, then goes on at
index 1: the particle now in slot 0 (size 13) is not examined, and ends the pass alive with
its life still 7, not decremented once. -/
theorem reapPass_skips_swapped_in :
    (reapAt (1 / 5) (poolOfLives [1 / 10, 5, 1 / 10, 7] 4) 0).map
        (fun pool => (pool.count_alive, pool.life, pool.size))
      = some (3, [7, 5, 1 / 10, -1 / 10], [13, 11, 12, 10])
    ∧ reapPass (1 / 5) (poolOfLives [1 / 10, 5, 1 / 10, 7] 4)
      = (reapAt (1 / 5) (poolOfLives [1 / 10, 5, 1 / 10, 7] 4) 0).bind
          (reapFrom (1 / 5) 3 1)
    ∧ (reapPass (1 / 5) (poolOfLives [1 / 10, 5, 1 / 10, 7] 4)).map
        (fun pool => (pool.count_alive, pool.life, pool.size))
      = some (2, [7, 24 / 5, -1 / 10, -1 / 10], [13, 11, 12, 10]) := by
  refine ⟨by decide!, rfl, by decide!⟩

/-! ## C25 -/

/-- C25: `AllocatePool(0, 0, ...)` leaves a pool with `pool_size = 0` and empty arrays. For a
spawn count of 10, `pool_size - 1` wraps to `2 ^ 32 - 1`, `end_index` is 10 and the loop at
line 197 passes the slots 0 to 9 to `MakeViewFromPool`, none of which is below `pool_size`:
the first access leaves the empty arrays, and `Update` faults. With `pool_size = 1` the same
calls complete. -/
theorem UpdateEmitter_empty_pool_out_of_range :
    ((ParticleSystem.create 1 1).run
        [.allocatePool 0 0 keepView,
          .attachEmitter 0 ZeroVec 2 5 .BURST (fixedGenerator 1 1 1 1)]).map
        (fun system => system.m_particle_pools.map
          (fun pool => (pool.pool_size, pool.count_alive, pool.position.length,
            endIndex pool 10)))
      = some [(0, 0, 0, 10)]
    ∧ newParticles (emitterOf .BURST 2 5) (contextOf 1) = some 10
    ∧ ((ParticleSystem.create 1 1).run
        [.allocatePool 0 0 keepView,
          .attachEmitter 0 ZeroVec 2 5 .BURST (fixedGenerator 1 1 1 1)]).map
        (fun system => system.m_particle_pools.map
          (fun pool => (spawnRange pool 10, (MakeViewFromPool pool 0).isSome)))
      = some [([0, 1, 2, 3, 4, 5, 6, 7, 8, 9], false)]
    ∧ ((ParticleSystem.create 1 1).run
        [.allocatePool 0 0 keepView,
          .attachEmitter 0 ZeroVec 2 5 .BURST (fixedGenerator 1 1 1 1),
          .update (contextOf 1)]).isSome = false
    ∧ ((ParticleSystem.create 1 1).run
        [.allocatePool 0 1 keepView,
          .attachEmitter 0 ZeroVec 2 5 .BURST (fixedGenerator 1 1 1 1),
          .update (contextOf 1)]).isSome = true := by
  refine ⟨by decide!, by decide!, by decide!, by decide!, by decide!⟩

/-! ## Views of a pool after a write through a view -/

theorem MakeViewFromPool_storeView_same {p : ParticlePoolComponent} (h : p.WellFormed)
    {i : Nat} (hi : i < p.pool_size) (view : ParticlePoolComponentView) :
    MakeViewFromPool (storeView p i view) i = some view := by
  have h1 : i < p.position.length := by rw [h.position]; exact hi
  have h2 : i < p.velocity.length := by rw [h.velocity]; exact hi
  have h3 : i < p.rotation.length := by rw [h.rotation]; exact hi
  have h4 : i < p.angular_velocity.length := by rw [h.angular_velocity]; exact hi
  have h5 : i < p.color.length := by rw [h.color]; exact hi
  have h6 : i < p.gradient.length := by rw [h.gradient]; exact hi
  have h7 : i < p.size.length := by rw [h.size]; exact hi
  have h8 : i < p.start_size.length := by rw [h.start_size]; exact hi
  have h9 : i < p.end_size.length := by rw [h.end_size]; exact hi
  have h10 : i < p.life.length := by rw [h.life]; exact hi
  have h11 : i < p.start_life.length := by rw [h.start_life]; exact hi
  simp only [MakeViewFromPool, storeView, List.getElem?_set, if_true, if_pos h1, if_pos h2,
    if_pos h3, if_pos h4, if_pos h5, if_pos h6, if_pos h7, if_pos h8, if_pos h9, if_pos h10,
    if_pos h11, bind, Option.bind, pure]

theorem MakeViewFromPool_storeView_of_ne (p : ParticlePoolComponent) {i j : Nat} (hij : j ≠ i)
    (view : ParticlePoolComponentView) :
    MakeViewFromPool (storeView p i view) j = MakeViewFromPool p j := by
  simp only [MakeViewFromPool, storeView, getElem?_set_of_ne _ _ hij]

theorem storeView_set_velocity (p : ParticlePoolComponent) (i : Nat) (v : Vector)
    (view : ParticlePoolComponentView) :
    storeView { p with velocity := p.velocity.set i v } i view = storeView p i view := by
  simp only [storeView, List.set_set]

theorem MakeViewFromPool_set_velocity {p : ParticlePoolComponent} {i : Nat}
    {view : ParticlePoolComponentView} (h : MakeViewFromPool p i = some view) (v : Vector) :
    MakeViewFromPool { p with velocity := p.velocity.set i v } i
      = some { view with velocity := v } := by
  simp only [MakeViewFromPool, bind, Option.bind_eq_some, pure, Option.some.injEq] at h
  obtain ⟨a1, h1, a2, h2, a3, h3, a4, h4, a5, h5, a6, h6, a7, h7, a8, h8, a9, h9, a10, h10,
    a11, h11, rfl⟩ := h
  simp only [MakeViewFromPool, h1, h3, h4, h5, h6, h7, h8, h9, h10, h11,
    getElem?_set_self_of_some v h2, bind, Option.bind, pure]

/-- One iteration of the advance loop on a slot that has a view: the velocity is scaled by
the `float` difference `1 - particle_damping`, then the update function writes the view. -/
theorem advanceAt_eq {p : ParticlePoolComponent} {i : Nat}
    {view updated : ParticlePoolComponentView} {factor : ℚ}
    (delta_s : ℚ) (h : MakeViewFromPool p i = some view)
    (hfactor : fsub 1 p.particle_damping = some factor)
    (hupdated : p.update_function
      { view with velocity := view.velocity.scale factor } delta_s = some updated) :
    advanceAt delta_s p i = some (storeView p i updated) := by
  have hv : p.velocity[i]? = some view.velocity := by
    simp only [MakeViewFromPool, bind, Option.bind_eq_some, pure, Option.some.injEq] at h
    obtain ⟨a1, h1, a2, h2, a3, h3, a4, h4, a5, h5, a6, h6, a7, h7, a8, h8, a9, h9, a10, h10,
      a11, h11, rfl⟩ := h
    exact h2
  simp only [advanceAt, hv, hfactor, MakeViewFromPool_set_velocity h, hupdated,
    storeView_set_velocity, bind, Option.bind, pure]

/-- A loop that rewrites the view of each slot of a duplicate-free list, one slot at a time,
rewrites exactly the views of those slots, when the rewriting has a result on each of them. -/
theorem slotwise_loop (step : ParticlePoolComponent → Nat → Option ParticlePoolComponent)
    (F : ParticlePoolComponentView → Option ParticlePoolComponentView)
    (Q : ParticlePoolComponent → Prop)
    (hstep : ∀ p i view updated, Q p → MakeViewFromPool p i = some view →
      F view = some updated → step p i = some (storeView p i updated))
    (hQ : ∀ p i view, Q p → Q (storeView p i view)) :
    ∀ (l : List Nat) (p : ParticlePoolComponent), l.Nodup → p.WellFormed → Q p →
      (∀ i ∈ l, i < p.pool_size) →
      (∀ i ∈ l, ∀ view, MakeViewFromPool p i = some view → ∃ updated, F view = some updated) →
      ∃ q, l.foldlM step p = some q ∧ q.WellFormed ∧ Q q
        ∧ q.count_alive = p.count_alive ∧ q.pool_size = p.pool_size
        ∧ q.particle_damping = p.particle_damping ∧ q.update_function = p.update_function
        ∧ ∀ j, MakeViewFromPool q j
            = if j ∈ l then (MakeViewFromPool p j).bind F else MakeViewFromPool p j := by
  intro l
  induction l with
  | nil =>
    intro p _ hwf hq _ _
    exact ⟨p, rfl, hwf, hq, rfl, rfl, rfl, rfl, fun j => by simp⟩
  | cons a l ih =>
    intro p hnd hwf hq hl hdef
    have ha : a < p.pool_size := hl a (List.mem_cons_self a l)
    obtain ⟨view, hview⟩ := MakeViewFromPool_isSome hwf ha
    obtain ⟨updated, hupdated⟩ := hdef a (List.mem_cons_self a l) view hview
    have hs := hstep p a view updated hq hview hupdated
    obtain ⟨hal, hnd'⟩ := List.nodup_cons.mp hnd
    obtain ⟨q, hfold, hqwf, hqQ, hqc, hqs, hqd, hqu, hviews⟩ :=
      ih (storeView p a updated) hnd' (storeView_wellFormed hwf _ _) (hQ p a _ hq)
        (fun i hi => hl i (List.mem_cons_of_mem a hi))
        (fun i hi other hother => by
          have hia : i ≠ a := fun h => hal (h ▸ hi)
          rw [MakeViewFromPool_storeView_of_ne p hia] at hother
          exact hdef i (List.mem_cons_of_mem a hi) other hother)
    refine ⟨q, ?_, hqwf, hqQ, hqc, hqs, hqd, hqu, ?_⟩
    · simp only [List.foldlM_cons, hs, Option.bind_eq_bind, Option.some_bind]
      exact hfold
    · intro j
      rw [hviews j]
      by_cases hja : j = a
      · subst hja
        rw [if_neg hal, if_pos (List.mem_cons_self _ _),
          MakeViewFromPool_storeView_same hwf ha, hview, Option.some_bind, hupdated]
      · rw [MakeViewFromPool_storeView_of_ne p hja]
        by_cases hjl : j ∈ l
        · rw [if_pos hjl, if_pos (List.mem_cons_of_mem _ hjl)]
        · rw [if_neg hjl, if_neg (by simp [hja, hjl])]

/-- The advance pass on a well-formed pool, when the damping factor is finite and the update
function has a result on every alive slot: every alive slot gets the view that the update
function returns for the view with the damped velocity; the other slots keep theirs. -/
theorem advancePass_views (delta_s factor : ℚ) (p : ParticlePoolComponent)
    (hwf : p.WellFormed) (hc : p.count_alive ≤ p.pool_size)
    (hfactor : fsub 1 p.particle_damping = some factor)
    (hdef : ∀ j view, j < p.count_alive → MakeViewFromPool p j = some view →
      ∃ updated, p.update_function
        { view with velocity := view.velocity.scale factor } delta_s = some updated) :
    ∃ q, advancePass delta_s p = some q ∧ q.WellFormed
      ∧ q.count_alive = p.count_alive ∧ q.pool_size = p.pool_size
      ∧ q.particle_damping = p.particle_damping ∧ q.update_function = p.update_function
      ∧ ∀ j, MakeViewFromPool q j
          = if j < p.count_alive then
              (MakeViewFromPool p j).bind (fun view =>
                p.update_function
                  { view with velocity := view.velocity.scale factor } delta_s)
            else MakeViewFromPool p j := by
  obtain ⟨q, hfold, hqwf, -, hqc, hqs, hqd, hqu, hviews⟩ := slotwise_loop (advanceAt delta_s)
    (fun view => p.update_function
      { view with velocity := view.velocity.scale factor } delta_s)
    (fun q => q.update_function = p.update_function
      ∧ q.particle_damping = p.particle_damping)
    (fun q i view updated hq hview hupdated =>
      advanceAt_eq delta_s hview (by rw [hq.2]; exact hfactor) (by rw [hq.1]; exact hupdated))
    (fun q i view hq => hq)
    (List.range p.count_alive) p (List.nodup_range _) hwf ⟨rfl, rfl⟩
    (fun i hi => by have := List.mem_range.mp hi; omega)
    (fun i hi view hview => hdef i view (List.mem_range.mp hi) hview)
  refine ⟨q, hfold, hqwf, hqc, hqs, hqd, hqu, fun j => ?_⟩
  rw [hviews j]
  simp only [List.mem_range]

theorem roundF32_zero : roundF32 0 = some 0 := by decide!

theorem roundF32_one : roundF32 1 = some 1 := by decide!

/-- What a completed `DefaultUpdater` call has computed, one `float` operation at a time. -/
theorem DefaultUpdater_some {color_from_gradient : Gradient → ℚ → RGBA}
    {view updated : ParticlePoolComponentView} {delta_s : ℚ}
    (h : DefaultUpdater color_from_gradient view delta_s = some updated) :
    ∃ ratio t remaining from_start to_end turned,
      fdiv view.life view.start_life = some ratio ∧ fsub 1 ratio = some t
      ∧ fsub 1 t = some remaining ∧ fmul remaining view.start_size = some from_start
      ∧ fmul t view.end_size = some to_end ∧ fadd from_start to_end = some updated.size
      ∧ fmul view.angular_velocity delta_s = some turned
      ∧ fadd view.rotation turned = some updated.rotation
      ∧ updated.position = view.position.add (view.velocity.scale delta_s)
      ∧ updated.color = color_from_gradient view.gradient t
      ∧ updated.life = view.life ∧ updated.start_life = view.start_life
      ∧ updated.velocity = view.velocity ∧ updated.angular_velocity = view.angular_velocity
      ∧ updated.gradient = view.gradient ∧ updated.start_size = view.start_size
      ∧ updated.end_size = view.end_size := by
  simp only [DefaultUpdater, bind, Option.bind_eq_some, pure, Option.some.injEq] at h
  obtain ⟨ratio, h1, t, h2, remaining, h3, from_start, h4, to_end, h5, size, h6, turned, h7,
    rotation, h8, rfl⟩ := h
  exact ⟨ratio, t, remaining, from_start, to_end, turned, h1, h2, h3, h4, h5, h6, h7, h8, rfl,
    rfl, rfl, rfl, rfl, rfl, rfl, rfl, rfl⟩

/-! ## C22 -/

/-- C22, the claim as stated fails: the size is computed in binary32, and the rounded
interpolation can leave the interval between `start_size` and `end_size`. For a particle with
`life = 13421773 / 67108864` (the binary32 value of `0.2`), `start_life = 1` and
`start_size = end_size = 13421773 / 134217728` (the binary32 value of `0.1`),
`DefaultUpdater` computes `t = 13421773 / 16777216` and the size `6710887 / 67108864`, which
is greater than both `start_size` and `end_size`, although `0 ≤ life ≤ start_life`. -/
theorem DefaultUpdater_size_leaves_interval :
    roundF32 (2 / 10) = some (13421773 / 67108864)
    ∧ roundF32 (1 / 10) = some (13421773 / 134217728)
    ∧ (DefaultUpdater (fun _ _ => ⟨0, 0, 0, 0⟩)
        ⟨ZeroVec, ZeroVec, 0, 0, ⟨0, 0, 0, 0⟩, ⟨[], []⟩, 13421773 / 134217728,
          13421773 / 134217728, 13421773 / 134217728, 13421773 / 67108864, 1⟩ (1 / 64)).map
        (fun updated => (updated.size, updated.start_size, updated.end_size, updated.life,
          updated.start_life))
      = some (6710887 / 67108864, 13421773 / 134217728, 13421773 / 134217728,
          13421773 / 67108864, 1)
    ∧ (fdiv (13421773 / 67108864) 1).bind (fsub 1) = some (13421773 / 16777216)
    ∧ max (13421773 / 134217728 : ℚ) (13421773 / 134217728) < 6710887 / 67108864
    ∧ (advancePass (1 / 64)
        { poolOfLives [13421773 / 67108864] 1 with
          size := [13421773 / 134217728], start_size := [13421773 / 134217728],
          end_size := [13421773 / 134217728], start_life := [1],
          update_function := DefaultUpdater (fun _ _ => ⟨0, 0, 0, 0⟩) }).map
        (fun q => (q.size, q.start_size, q.end_size))
      = some ([6710887 / 67108864], [13421773 / 134217728], [13421773 / 134217728]) := by
  decide!

/-- C22 as amended: the advance pass on a well-formed pool completes when the `float`
difference `1 - particle_damping` is finite and the update function has a result on every
alive slot; each alive particle's velocity is first multiplied by that difference (with
damping 0 it is 1 and the view is the same) and the update function is then applied to it
with `delta_s`; slots that are not alive keep their view. A `DefaultUpdater` call that
completes has `start_life ≠ 0`; with the `float` value `t` of `1 - life / start_life` it sets
the position to `position + velocity * delta_s`, the rotation to the `float` value of
`rotation + angular_velocity * delta_s`, the colour to the gradient's colour at `t` and the
size to the `float` value of `(1 - t) * start_size + t * end_size`, every operation rounded;
it does not modify velocity, angular velocity, gradient, size bounds, `life` and
`start_life`. The size is `start_size` when `life = start_life` and `end_size` when
`life = 0` (the sizes being binary32 values). -/
theorem advancePass_DefaultUpdater (color_from_gradient : Gradient → ℚ → RGBA) :
    (∀ (delta_s factor : ℚ) (p : ParticlePoolComponent), p.WellFormed →
        p.count_alive ≤ p.pool_size → fsub 1 p.particle_damping = some factor →
        (∀ j view, j < p.count_alive → MakeViewFromPool p j = some view →
          ∃ updated, p.update_function
            { view with velocity := view.velocity.scale factor } delta_s = some updated) →
        ∃ q, advancePass delta_s p = some q ∧ q.count_alive = p.count_alive
          ∧ ∀ j, MakeViewFromPool q j
              = if j < p.count_alive then
                  (MakeViewFromPool p j).bind (fun view =>
                    p.update_function
                      { view with velocity := view.velocity.scale factor } delta_s)
                else MakeViewFromPool p j)
    ∧ (fsub 1 0 = some 1
        ∧ ∀ (view : ParticlePoolComponentView),
          ({ view with velocity := view.velocity.scale 1 } : ParticlePoolComponentView) = view)
    ∧ (∀ (view updated : ParticlePoolComponentView) (delta_s : ℚ),
        DefaultUpdater color_from_gradient view delta_s = some updated →
        view.start_life ≠ 0
        ∧ (∃ ratio t remaining from_start to_end turned,
            fdiv view.life view.start_life = some ratio ∧ fsub 1 ratio = some t
            ∧ fsub 1 t = some remaining ∧ fmul remaining view.start_size = some from_start
            ∧ fmul t view.end_size = some to_end ∧ fadd from_start to_end = some updated.size
            ∧ fmul view.angular_velocity delta_s = some turned
            ∧ fadd view.rotation turned = some updated.rotation
            ∧ updated.color = color_from_gradient view.gradient t)
        ∧ updated.position = view.position.add (view.velocity.scale delta_s)
        ∧ updated.life = view.life ∧ updated.start_life = view.start_life
        ∧ updated.velocity = view.velocity
        ∧ updated.angular_velocity = view.angular_velocity
        ∧ updated.gradient = view.gradient ∧ updated.start_size = view.start_size
        ∧ updated.end_size = view.end_size
        ∧ (view.life = view.start_life → roundF32 view.start_size = some view.start_size →
            updated.size = view.start_size)
        ∧ (view.life = 0 → roundF32 view.end_size = some view.end_size →
            updated.size = view.end_size)) := by
  refine ⟨?_, ⟨by decide!, ?_⟩, ?_⟩
  · intro delta_s factor p hwf hc hfactor hdef
    obtain ⟨q, h, -, hqc, -, -, -, hviews⟩ := advancePass_views delta_s factor p hwf hc hfactor
      hdef
    exact ⟨q, h, hqc, hviews⟩
  · intro view
    simp [Vector.scale]
  · intro view updated delta_s h
    obtain ⟨ratio, t, remaining, from_start, to_end, turned, h1, h2, h3, h4, h5, h6, h7, h8,
      hpos, hcolor, hlife, hstart, hvel, hang, hgrad, hss, hes⟩ := DefaultUpdater_some h
    have h0 : view.start_life ≠ 0 := by
      intro hzero
      simp [fdiv, hzero] at h1
    refine ⟨h0, ⟨ratio, t, remaining, from_start, to_end, turned, h1, h2, h3, h4, h5, h6, h7,
      h8, hcolor⟩, hpos, hlife, hstart, hvel, hang, hgrad, hss, hes, ?_, ?_⟩
    · intro heq hrep
      have hratio : ratio = 1 := by
        simp only [fdiv, if_neg h0, heq, div_self h0, roundF32_one, Option.some.injEq] at h1
        exact h1.symm
      subst hratio
      have ht : t = 0 := by
        simp only [fsub, sub_self, roundF32_zero, Option.some.injEq] at h2
        exact h2.symm
      subst ht
      have hrem : remaining = 1 := by
        simp only [fsub, sub_zero, roundF32_one, Option.some.injEq] at h3
        exact h3.symm
      subst hrem
      simp only [fmul, one_mul, hrep, Option.some.injEq] at h4
      simp only [fmul, zero_mul, roundF32_zero, Option.some.injEq] at h5
      subst h4 h5
      simp only [fadd, add_zero, hrep, Option.some.injEq] at h6
      exact h6.symm
    · intro heq hrep
      have hratio : ratio = 0 := by
        simp only [fdiv, if_neg h0, heq, zero_div, roundF32_zero, Option.some.injEq] at h1
        exact h1.symm
      subst hratio
      have ht : t = 1 := by
        simp only [fsub, sub_zero, roundF32_one, Option.some.injEq] at h2
        exact h2.symm
      subst ht
      have hrem : remaining = 0 := by
        simp only [fsub, sub_self, roundF32_zero, Option.some.injEq] at h3
        exact h3.symm
      subst hrem
      simp only [fmul, zero_mul, roundF32_zero, Option.some.injEq] at h4
      simp only [fmul, one_mul, hrep, Option.some.injEq] at h5
      subst h4 h5
      simp only [fadd, zero_add, hrep, Option.some.injEq] at h6
      exact h6.symm

theorem advancePass_DefaultUpdater_witness :
    (advancePass (1 / 2)
        { poolOfLives [1, 4] 1 with
          velocity := [⟨2, 4⟩, ⟨1, 1⟩], start_life := [2, 4], particle_damping := 1 / 2,
          update_function := DefaultUpdater (fun _ _ => ⟨0, 0, 0, 0⟩) }).map
        (fun q => (q.count_alive, q.position, q.velocity))
      = some (1, [⟨1 / 2, 1⟩, ⟨1, 1⟩], [⟨1, 2⟩, ⟨1, 1⟩])
    ∧ (advancePass (1 / 2)
        { poolOfLives [1, 4] 1 with
          velocity := [⟨2, 4⟩, ⟨1, 1⟩], start_life := [2, 4], particle_damping := 1 / 2,
          update_function := DefaultUpdater (fun _ _ => ⟨0, 0, 0, 0⟩) }).map
        (fun q => (q.size, q.life, q.start_life))
      = some ([25, 11], [1, 4], [2, 4])
    ∧ (DefaultUpdater (fun _ _ => ⟨0, 0, 0, 0⟩)
        ⟨ZeroVec, ⟨1, 2⟩, 0, 3, ⟨0, 0, 0, 0⟩, ⟨[], []⟩, 20, 20, 30, 2, 2⟩ (1 / 2)).map
        (fun updated => (updated.size, updated.rotation)) = some (20, 3 / 2)
    ∧ ∀ updated, DefaultUpdater (fun _ _ => ⟨0, 0, 0, 0⟩)
        ⟨ZeroVec, ⟨1, 2⟩, 0, 3, ⟨0, 0, 0, 0⟩, ⟨[], []⟩, 20, 20, 30, 2, 2⟩ (1 / 2)
          = some updated → updated.size = 20 :=
  ⟨by decide!, by decide!, by decide!, fun updated h =>
    ((advancePass_DefaultUpdater (fun _ _ => ⟨0, 0, 0, 0⟩)).2.2
      ⟨ZeroVec, ⟨1, 2⟩, 0, 3, ⟨0, 0, 0, 0⟩, ⟨[], []⟩, 20, 20, 30, 2, 2⟩ updated
      (1 / 2) h).2.2.2.2.2.2.2.2.2.2.1 rfl (by decide!)⟩

/-! ## C24 -/

theorem range'_split (s m k : Nat) (hk : k < m) :
    List.range' s m = List.range' s k ++ (s + k) :: List.range' (s + k + 1) (m - k - 1) := by
  have h1 : List.range' s m = List.range' s k ++ List.range' (s + k) (m - k) := by
    rw [List.range'_append_1]
    congr 1
    omega
  have h2 : List.range' (s + k) (m - k)
      = (s + k) :: List.range' (s + k + 1) (m - k - 1) := by
    have : m - k = (m - k - 1) + 1 := by omega
    rw [this, List.range'_succ]
    simp
  rw [h1, h2]

theorem endIndex_eq {p : ParticlePoolComponent} {n : Nat} (h1 : 1 ≤ p.pool_size)
    (h2 : p.pool_size < U32) (hfit : p.count_alive + n < U32) :
    endIndex p n = min (p.count_alive + n) (p.pool_size - 1) := by
  unfold endIndex
  rw [subU32_one h1 h2]
  unfold addU32
  rw [Nat.mod_eq_of_lt hfit]

/-- C24: on a well-formed pool with `pool_size ≥ 1` and `count_alive ≤ pool_size - 1`, for
every value `n` of `new_particles` with `count_alive + n` below `2 ^ 32`, lines 194-204
complete and leave `count_alive = min (count_alive + n) (pool_size - 1)`. The slots from the
old to the new `count_alive` hold what the generator wrote for them, all eleven entries, and
every other slot keeps its view. The `k`-th `WakeParticle` call is made at index
`count_alive + k` on a pool whose `count_alive` is that index: its `Swap` is a self-swap that
returns the pool as it is, and the call only increments `count_alive`. An `UpdateEmitter`
call on an emitter that is not done, whose lines 178-192 compute the spawn count `n`,
returns this pool. -/
theorem UpdateEmitter_admits_in_place (d : List DeferredReleasEmitter) (handle pool_id : Nat)
    (e : ParticleEmitterComponent) (p : ParticlePoolComponent) (ctx : UpdateContext) (n : Nat)
    (hwf : p.WellFormed) (h1 : 1 ≤ p.pool_size) (h2 : p.pool_size < U32)
    (hc : p.count_alive ≤ p.pool_size - 1) (hfit : p.count_alive + n < U32) :
    ∃ woken generated,
      spawnParticles e.generator e.position p n = some woken
      ∧ (∀ updated, IsDone e = false → emitterAfter e ctx = some updated →
          newParticles e ctx = some n →
          UpdateEmitter d handle e p pool_id ctx = some ⟨d, updated, woken⟩)
      ∧ woken.count_alive = min (p.count_alive + n) (p.pool_size - 1)
      ∧ woken.pool_size = p.pool_size
      ∧ (∀ j, MakeViewFromPool woken j
          = if p.count_alive ≤ j ∧ j < woken.count_alive then
              (MakeViewFromPool p j).map (e.generator e.position)
            else MakeViewFromPool p j)
      ∧ (spawnRange p n).foldlM (generateAt e.generator e.position) p = some generated
      ∧ woken = { generated with count_alive := woken.count_alive }
      ∧ ∀ k, p.count_alive + k < woken.count_alive →
          spawnRange p n
            = List.range' p.count_alive k
              ++ (p.count_alive + k)
                :: List.range' (p.count_alive + k + 1)
                    (woken.count_alive - p.count_alive - k - 1)
          ∧ (List.range' p.count_alive k).foldlM WakeParticle generated
            = some { generated with count_alive := p.count_alive + k }
          ∧ Swap { generated with count_alive := p.count_alive + k }
              (p.count_alive + k) (p.count_alive + k)
            = some { generated with count_alive := p.count_alive + k }
          ∧ WakeParticle { generated with count_alive := p.count_alive + k }
              (p.count_alive + k)
            = some { generated with count_alive := p.count_alive + k + 1 } := by
  have hend := endIndex_eq (n := n) h1 h2 hfit
  have hge : p.count_alive ≤ endIndex p n := by rw [hend]; omega
  have hle : endIndex p n ≤ p.pool_size - 1 := by rw [hend]; omega
  obtain ⟨q, hq, hqwf, -, hqc, hqs, -, -, hviews⟩ := slotwise_loop
    (generateAt e.generator e.position) (fun view => some (e.generator e.position view))
    (fun _ => True)
    (fun q i view updated _ hview hupdated => by
      rw [Option.some.injEq] at hupdated
      subst hupdated
      simp only [generateAt, hview, bind, Option.bind, pure])
    (fun _ _ _ _ => trivial)
    (spawnRange p n) p (List.nodup_range' _ _) hwf trivial
    (fun i hi => by have := mem_spawnRange hi; omega)
    (fun _ _ view _ => ⟨_, rfl⟩)
  have hwake : ∀ k, p.count_alive + k ≤ endIndex p n →
      (List.range' p.count_alive k).foldlM WakeParticle q
        = some { q with count_alive := p.count_alive + k } := by
    intro k hk
    have := wake_loop k q hqwf (fun _ => by rw [hqc, hqs]; omega)
    rw [hqc] at this
    exact this
  have hall := hwake (endIndex p n - p.count_alive) (by omega)
  have hsum : p.count_alive + (endIndex p n - p.count_alive) = endIndex p n := by omega
  rw [hsum] at hall
  have hspawn : spawnParticles e.generator e.position p n
      = some { q with count_alive := endIndex p n } := by
    simp only [spawnParticles, hq, bind, Option.bind]
    have hrange : spawnRange p n
        = List.range' p.count_alive (endIndex p n - p.count_alive) := rfl
    rw [hrange, hall]
  refine ⟨{ q with count_alive := endIndex p n }, q, hspawn, ?_, hend, hqs, ?_, hq, rfl, ?_⟩
  · intro updated hdone hupdated hn
    rw [UpdateEmitter_of_computed d handle pool_id p hdone hupdated hn, hspawn]
    rfl
  · intro j
    have hview : MakeViewFromPool
        ({ q with count_alive := endIndex p n } : ParticlePoolComponent) j
        = MakeViewFromPool q j := rfl
    show MakeViewFromPool
        ({ q with count_alive := endIndex p n } : ParticlePoolComponent) j
      = if p.count_alive ≤ j ∧ j < endIndex p n then _ else _
    rw [hview, hviews j]
    have hmem : j ∈ spawnRange p n ↔ p.count_alive ≤ j ∧ j < endIndex p n := by
      simp only [spawnRange, List.mem_range'_1]
      omega
    simp only [hmem]
    split
    · cases MakeViewFromPool p j <;> rfl
    · rfl
  · intro k hk
    have hk' : p.count_alive + k < endIndex p n := hk
    have hwfk : ({ q with count_alive := p.count_alive + k }
        : ParticlePoolComponent).WellFormed := hqwf.withCount _
    have hlt : p.count_alive + k < q.pool_size := by rw [hqs]; omega
    have hswap := Swap_self hwfk (i := p.count_alive + k) hlt
    refine ⟨?_, hwake k (by omega), hswap, ?_⟩
    · show List.range' p.count_alive (endIndex p n - p.count_alive) = _
      exact range'_split _ _ _ (by omega)
    · have hlt' : ({ q with count_alive := p.count_alive + k }
          : ParticlePoolComponent).count_alive
            < ({ q with count_alive := p.count_alive + k }
              : ParticlePoolComponent).pool_size := hlt
      simp only [WakeParticle, if_pos hlt', hswap, bind, Option.bind, pure]

theorem UpdateEmitter_admits_in_place_witness :
    (UpdateEmitter [] 0 (emitterOf .BURST 2 5) (poolOfLives (List.replicate 16 0) 3) 0
        (contextOf 1)).map (fun step => (step.pool.count_alive, step.pool.start_size))
      = some (13, [20, 21, 22, 1, 1, 1, 1, 1, 1, 1, 1, 1, 1, 33, 34, 35])
    ∧ (UpdateEmitter [] 0 (emitterOf .BURST 2 5) (poolOfLives (List.replicate 16 0) 10) 0
        (contextOf 1)).map (fun step => (step.pool.count_alive, step.pool.start_size))
      = some (15, [20, 21, 22, 23, 24, 25, 26, 27, 28, 29, 1, 1, 1, 1, 1, 35])
    ∧ newParticles (emitterOf .BURST 2 5) (contextOf 1) = some 10
    ∧ ∃ woken, spawnParticles (emitterOf .BURST 2 5).generator (emitterOf .BURST 2 5).position
          (poolOfLives (List.replicate 16 0) 3) 10 = some woken
        ∧ woken.count_alive
          = min ((poolOfLives (List.replicate 16 0) 3).count_alive + 10)
            ((poolOfLives (List.replicate 16 0) 3).pool_size - 1) := by
  refine ⟨by decide!, by decide!, by decide!, ?_⟩
  obtain ⟨woken, -, h, -, hcount, -⟩ := UpdateEmitter_admits_in_place [] 0 0
    (emitterOf .BURST 2 5) (poolOfLives (List.replicate 16 0) 3) (contextOf 1) 10
    (poolOfLives_wellFormed _ _) (by decide) (by decide) (by decide) (by decide)
  exact ⟨woken, h, hcount⟩

/-! ## C27 -/

/-- A burst emitter that has not emitted admits the integer part of the `float` product
`emit_rate * duration` into a well-formed pool that has room for it below `pool_size - 1`,
when that product and the `float` sum of line 178 are finite. -/
theorem UpdateEmitter_burst_count (d : List DeferredReleasEmitter) (handle pool_id : Nat)
    (e : ParticleEmitterComponent) (p : ParticlePoolComponent) (ctx : UpdateContext)
    (elapsed product : ℚ)
    (hty : e.type = EmitterType.BURST ∨ e.type = EmitterType.BURST_REMOVE_ON_FINISH)
    (hnot : e.burst_emitted = false) (hwf : p.WellFormed) (h2 : p.pool_size < U32)
    (helapsed : fadd e.elapsed_time ctx.delta_s = some elapsed)
    (hproduct : fmul e.emit_rate e.duration = some product)
    (hdefined : -1 < product)
    (hroom : (p.count_alive : ℚ) + product ≤ (p.pool_size : ℚ) - 1) :
    ∃ step, UpdateEmitter d handle e p pool_id ctx = some step
      ∧ newParticles e ctx = some ⌊product⌋.toNat
      ∧ step.pool.count_alive = p.count_alive + ⌊product⌋.toNat
      ∧ emitterAfter e ctx = some step.emitter := by
  have hdone : IsDone e = false := by rw [IsDone_of_burst hty, hnot]
  have hcount : (0 : ℚ) ≤ (p.count_alive : ℚ) := Nat.cast_nonneg _
  have hU : ((p.pool_size : Nat) : ℚ) < ((U32 : Nat) : ℚ) := by exact_mod_cast h2
  have hlt : product < (U32 : ℚ) := by linarith
  have hn : newParticles e ctx = some ⌊product⌋.toNat := by
    simp only [newParticles, if_pos hty, hproduct, Option.some_bind]
    exact toUint32_of_range hdefined hlt
  have hsum : p.count_alive + ⌊product⌋.toNat + 1 ≤ p.pool_size := by
    by_cases h0 : 0 ≤ product
    · have hnQ := toNat_floor_le h0
      have : ((p.count_alive + ⌊product⌋.toNat + 1 : Nat) : ℚ) ≤ (p.pool_size : ℚ) := by
        push_cast; linarith
      exact_mod_cast this
    · have hneg : ⌊product⌋ < 0 := by
        have : product < ((0 : ℤ) : ℚ) := by simpa using not_le.mp h0
        exact Int.floor_lt.mpr this
      have hz : ⌊product⌋.toNat = 0 := Int.toNat_eq_zero.mpr hneg.le
      have hq : ((p.count_alive : Nat) : ℚ) < ((p.pool_size : Nat) : ℚ) := by linarith
      have hnat : p.count_alive < p.pool_size := by exact_mod_cast hq
      omega
  have h1 : 1 ≤ p.pool_size := by omega
  have hend : endIndex p ⌊product⌋.toNat = p.count_alive + ⌊product⌋.toNat := by
    rw [endIndex_eq h1 h2 (by omega)]
    omega
  have hcarry : nextCarryOver e ⌊product⌋.toNat = some e.carry_over := by
    simp only [nextCarryOver, if_pos hty]
  have hupdated := emitterAfter_of helapsed hn hcarry
  obtain ⟨generated, -, hspawn, -, -, -⟩ :=
    spawnParticles_wellFormed e.generator e.position p ⌊product⌋.toNat hwf h1 h2
  have hstep := UpdateEmitter_of_computed d handle pool_id p hdone hupdated hn
  rw [hspawn] at hstep
  refine ⟨_, hstep, hn, ?_, hupdated⟩
  show max p.count_alive (endIndex p ⌊product⌋.toNat) = _
  rw [hend]
  omega

/-- C27: for every emitter, of every type, the emitter that `RestartEmitter` leaves is not
done and has `elapsed_time = 0`, `carry_over = 0` and `burst_emitted = false`, while position,
duration, rate, type and generator are unchanged; it is the emitter that `AttachEmitter`
writes for these five values. A Burst or BurstRemoveOnFinish emitter, finished or not, that
has been restarted emits its burst again in the next `UpdateEmitter`: with `product` the
`float` product `emit_rate * duration` of line 183, in the range on which its conversion is
defined, the call computes the spawn count that this product gives for an emitter that has
not emitted, the integer part of `product`, admits that many particles into a well-formed
pool with room for them, and leaves the emitter finished again. -/
theorem RestartEmitter_contract (e : ParticleEmitterComponent) :
    IsDone (RestartEmitter e) = false
    ∧ (RestartEmitter e).elapsed_time = 0
    ∧ (RestartEmitter e).carry_over = 0
    ∧ (RestartEmitter e).burst_emitted = false
    ∧ (RestartEmitter e).position = e.position
    ∧ (RestartEmitter e).duration = e.duration
    ∧ (RestartEmitter e).emit_rate = e.emit_rate
    ∧ (RestartEmitter e).type = e.type
    ∧ (RestartEmitter e).generator = e.generator
    ∧ RestartEmitter e
        = { position := e.position, duration := e.duration, elapsed_time := 0,
            carry_over := 0, emit_rate := e.emit_rate, burst_emitted := false,
            type := e.type, generator := e.generator }
    ∧ ∀ (d : List DeferredReleasEmitter) (handle pool_id : Nat) (p : ParticlePoolComponent)
        (ctx : UpdateContext) (elapsed product : ℚ),
        (e.type = EmitterType.BURST ∨ e.type = EmitterType.BURST_REMOVE_ON_FINISH) →
        p.WellFormed → p.pool_size < U32 →
        fadd 0 ctx.delta_s = some elapsed → fmul e.emit_rate e.duration = some product →
        -1 < product → (p.count_alive : ℚ) + product ≤ (p.pool_size : ℚ) - 1 →
        ∃ step, UpdateEmitter d handle (RestartEmitter e) p pool_id ctx = some step
          ∧ newParticles (RestartEmitter e) ctx = some ⌊product⌋.toNat
          ∧ newParticles { e with burst_emitted := false } ctx = some ⌊product⌋.toNat
          ∧ step.pool.count_alive = p.count_alive + ⌊product⌋.toNat
          ∧ step.emitter.burst_emitted = true
          ∧ IsDone step.emitter = true := by
  have hnot : IsDone (RestartEmitter e) = false := by
    simp only [IsDone, RestartEmitter]
    split
    · rfl
    · simp only [decide_eq_false_iff_not, not_and, not_lt]
      exact fun h => h.le
  refine ⟨hnot, rfl, rfl, rfl, rfl, rfl, rfl, rfl, rfl, rfl, ?_⟩
  intro d handle pool_id p ctx elapsed product hty hwf h2 helapsed hproduct hdefined hroom
  obtain ⟨step, hstep, hn, hcount, hem⟩ := UpdateEmitter_burst_count d handle pool_id
    (RestartEmitter e) p ctx elapsed product hty rfl hwf h2 helapsed hproduct hdefined hroom
  obtain ⟨hty', hb, -⟩ := emitterAfter_frame hem
  refine ⟨step, hstep, hn, ?_, hcount, hb, ?_⟩
  · have hsame : newParticles ({ e with burst_emitted := false } : ParticleEmitterComponent)
        ctx = newParticles (RestartEmitter e) ctx := by
      simp only [newParticles, RestartEmitter, if_pos hty]
    rw [hsame]
    exact hn
  · rw [IsDone_of_burst (by rw [hty']; exact hty)]
    exact hb

theorem RestartEmitter_contract_witness :
    ((ParticleSystem.create 1 1).run burstCalls).map
        (fun system => (system.m_particle_pools.map (fun pool => pool.count_alive),
          system.m_particle_emitters.m_data.map IsDone))
      = some ([10], [true])
    ∧ (((ParticleSystem.create 1 1).run burstCalls).bind
        (fun system => system.Update (contextOf 1))).map
        (fun system => system.m_particle_pools.map (fun pool => pool.count_alive))
      = some [10]
    ∧ ((((ParticleSystem.create 1 1).run burstCalls).bind
        (fun system => system.RestartEmitter 0)).bind
        (fun system => system.Update (contextOf 1))).map
        (fun system => (system.m_particle_pools.map (fun pool => pool.count_alive),
          system.m_particle_emitters.m_data.map IsDone))
      = some ([20], [true])
    ∧ IsDone (RestartEmitter { emitterOf .BURST 2 5 with burst_emitted := true }) = false
    ∧ ∃ step, UpdateEmitter [] 0
          (RestartEmitter { emitterOf .BURST 2 5 with burst_emitted := true })
          (poolOfLives (List.replicate 16 0) 0) 0 (contextOf 1) = some step
        ∧ step.pool.count_alive
            = (poolOfLives (List.replicate 16 0) 0).count_alive + ⌊(10 : ℚ)⌋.toNat
        ∧ IsDone step.emitter = true := by
  refine ⟨by decide!, by decide!, by decide!,
    (RestartEmitter_contract { emitterOf .BURST 2 5 with burst_emitted := true }).1, ?_⟩
  obtain ⟨step, hstep, -, -, hcount, -, hdone⟩ :=
    (RestartEmitter_contract { emitterOf .BURST 2 5 with burst_emitted := true }).2.2.2.2.2.2.2.2.2.2
      [] 0 0 (poolOfLives (List.replicate 16 0) 0) (contextOf 1) 1 10 (Or.inl rfl)
      (poolOfLives_wellFormed _ _) (by decide) (by decide!) (by decide!) (by decide!)
      (by decide!)
  exact ⟨step, hstep, hcount, hdone⟩

/-! ## C23 -/

theorem updateAttached_pools {pool_id : Nat} {ctx : UpdateContext}
    {st st' : ParticleSystem × ParticlePoolComponent} {h : Nat}
    (hstep : ParticleSystem.updateAttached pool_id ctx st h = some st') :
    st'.1.m_particle_pools = st.1.m_particle_pools
      ∧ ∀ e, e ≠ h →
        st'.1.m_particle_emitters.m_data[e]? = st.1.m_particle_emitters.m_data[e]? := by
  simp only [ParticleSystem.updateAttached, bind, Option.bind_eq_some, pure,
    Option.some.injEq] at hstep
  obtain ⟨component, _, step, _, rfl⟩ := hstep
  exact ⟨rfl, fun e he => getElem?_set_of_ne _ _ he⟩

theorem updatePool_untouched {s t t' : ParticleSystem} {i : Nat} {ctx : UpdateContext}
    (h : ParticleSystem.updatePool ctx t i = some t') (ht : UntouchedBy s t) :
    UntouchedBy s t' := by
  rcases active_cases h with hact | hact
  · obtain ⟨pool, emitters, emitted, reaped, hem, hfold, rfl⟩ := updatePool_active hact h
    have hacts : s.m_active_pools[i]? = some true := by rw [← ht.1.2.1]; exact hact
    have hems : s.m_particle_pools_emitters[i]? = some emitters := by rw [← ht.1.1]; exact hem
    have hinv := foldlM_preserves_of_mem
      (fun st : ParticleSystem × ParticlePoolComponent =>
        SameShape s st.1 ∧ st.1.m_particle_pools = t.m_particle_pools
          ∧ ∀ e, e ∉ emitters →
            st.1.m_particle_emitters.m_data[e]? = t.m_particle_emitters.m_data[e]?)
      (ParticleSystem.updateAttached i ctx) emitters
      (fun b a b' ha hb hba =>
        ⟨updateAttached_shape hba hb.1, (updateAttached_pools hba).1.trans hb.2.1,
          fun e he => ((updateAttached_pools hba).2 e (fun hea => he (hea ▸ ha))).trans
            (hb.2.2 e he)⟩)
      (t, pool) emitted ⟨ht.1, rfl, fun _ _ => rfl⟩ hfold
    obtain ⟨hshape, hpools, hdata⟩ := hinv
    refine ⟨hshape, ?_, ?_⟩
    · intro id hid
      have hne : id ≠ i := by
        intro hidi
        rw [hidi, hacts] at hid
        exact absurd hid (by simp)
      show (emitted.1.m_particle_pools.set i reaped)[id]? = _
      rw [getElem?_set_of_ne _ _ hne, hpools]
      exact ht.2.1 id hid
    · intro e he
      show emitted.1.m_particle_emitters.m_data[e]? = _
      rw [hdata e (he i emitters hacts hems)]
      exact ht.2.2 e he
  · rw [updatePool_inactive hact h]
    exact ht

/-- The loop over the pool ids is the loop over the active ids, in the same order. -/
theorem foldlM_updatePool_filter (s : ParticleSystem) (ctx : UpdateContext) :
    ∀ (l : List Nat) (t : ParticleSystem), t.m_active_pools = s.m_active_pools →
      (∀ id ∈ l, id < s.m_active_pools.length) →
      l.foldlM (ParticleSystem.updatePool ctx) t
        = (l.filter (fun id => s.m_active_pools[id]? = some true)).foldlM
            (ParticleSystem.updatePool ctx) t := by
  intro l
  induction l with
  | nil => intro t _ _; rfl
  | cons a l ih =>
    intro t ht hl
    have hlt : a < s.m_active_pools.length := hl a (List.mem_cons_self a l)
    have hl' : ∀ id ∈ l, id < s.m_active_pools.length :=
      fun id hid => hl id (List.mem_cons_of_mem a hid)
    obtain ⟨flag, hflag⟩ := getElem?_isSome_of_lt hlt
    cases flag with
    | true =>
      rw [List.filter_cons_of_pos (by simp [hflag])]
      simp only [List.foldlM_cons, Option.bind_eq_bind]
      cases hstep : ParticleSystem.updatePool ctx t a with
      | none => rfl
      | some t' =>
        have hshape : SameShape t t' ∧ _ :=
          updatePool_shape (s := t) hstep ⟨⟨rfl, rfl, rfl⟩, rfl⟩
        simp only [Option.some_bind]
        exact ih t' (hshape.1.2.1.trans ht) hl'
    | false =>
      rw [List.filter_cons_of_neg (by simp [hflag])]
      have hstep : ParticleSystem.updatePool ctx t a = some t := by
        simp only [ParticleSystem.updatePool, ht, hflag, bind, Option.bind, pure,
          Bool.false_eq_true, if_false]
      simp only [List.foldlM_cons, hstep, Option.bind_eq_bind, Option.some_bind]
      exact ih t ht hl'

/-- C23, the claim as stated fails: an emitter of the attached list of an inactive pool can
also be in the attached list of an active pool, and `Update` then changes it. In a system of
two pools and one emitter slot, pool 1 is allocated, an emitter is attached to the inactive
pool 0 (handle 0), the handle is released through pool id 1, which puts the slot back on the
free list and leaves the list of pool 0 as it is, and the next `AttachEmitter` on pool 1
hands out handle 0 again. The handle is then in both lists; the `Update` that follows leaves
pool 0 inactive and its arrays as they are, and takes the emitter of its attached list from
`elapsed_time = 0`, `burst_emitted = false` to `elapsed_time = 1`, `burst_emitted = true`. -/
theorem Update_changes_shared_emitter :
    ((ParticleSystem.create 2 1).run
        [.allocatePool 1 4 keepView,
          .attachEmitter 0 ZeroVec 2 1 .BURST (fixedGenerator 8 1 1 1),
          .releaseEmitter 1 0,
          .attachEmitter 1 ZeroVec 2 1 .BURST (fixedGenerator 8 1 1 1)]).map
        (fun system => (system.m_active_pools, system.m_particle_pools_emitters))
      = some ([false, true], [[0], [0]])
    ∧ ((ParticleSystem.create 2 1).run
        [.allocatePool 1 4 keepView,
          .attachEmitter 0 ZeroVec 2 1 .BURST (fixedGenerator 8 1 1 1),
          .releaseEmitter 1 0,
          .attachEmitter 1 ZeroVec 2 1 .BURST (fixedGenerator 8 1 1 1)]).map
        (fun system => system.m_particle_emitters.m_data.map
          (fun emitter => (emitter.elapsed_time, emitter.burst_emitted)))
      = some [(0, false)]
    ∧ ((ParticleSystem.create 2 1).run
        [.allocatePool 1 4 keepView,
          .attachEmitter 0 ZeroVec 2 1 .BURST (fixedGenerator 8 1 1 1),
          .releaseEmitter 1 0,
          .attachEmitter 1 ZeroVec 2 1 .BURST (fixedGenerator 8 1 1 1),
          .update (contextOf 1)]).map
        (fun system => (system.m_active_pools, system.m_particle_pools_emitters))
      = some ([false, true], [[0], [0]])
    ∧ ((ParticleSystem.create 2 1).run
        [.allocatePool 1 4 keepView,
          .attachEmitter 0 ZeroVec 2 1 .BURST (fixedGenerator 8 1 1 1),
          .releaseEmitter 1 0,
          .attachEmitter 1 ZeroVec 2 1 .BURST (fixedGenerator 8 1 1 1),
          .update (contextOf 1)]).map
        (fun system => system.m_particle_emitters.m_data.map
          (fun emitter => (emitter.elapsed_time, emitter.burst_emitted)))
      = some [(1, true)] := by
  decide!

/-- C23 as amended: an `Update` that completes leaves the pool of every inactive pool id as
it is, with its arrays and its `count_alive`, and leaves every emitter of the attached list
of an inactive pool that is attached to no active pool as it is. The attached lists and the
active flags are the same afterwards. `Update` is the sequence of the turns of the active
pool ids in increasing order. -/
theorem Update_skips_inactive_pools (s s' : ParticleSystem) (ctx : UpdateContext)
    (h : s.Update ctx = some s') :
    (∀ (id : Nat), s.m_active_pools[id]? = some false →
        s'.m_particle_pools[id]? = s.m_particle_pools[id]?)
    ∧ (∀ (id : Nat) (attached : List Nat) (e : Nat), s.m_active_pools[id]? = some false →
        s.m_particle_pools_emitters[id]? = some attached → e ∈ attached →
        (∀ (j : Nat) (emitters : List Nat), s.m_active_pools[j]? = some true →
          s.m_particle_pools_emitters[j]? = some emitters → e ∉ emitters) →
        s'.m_particle_emitters.m_data[e]? = s.m_particle_emitters.m_data[e]?)
    ∧ s'.m_particle_pools_emitters = s.m_particle_pools_emitters
    ∧ s'.m_active_pools = s.m_active_pools
    ∧ s.Update ctx
        = ((List.range s.m_active_pools.length).filter
            (fun id => s.m_active_pools[id]? = some true)).foldlM
            (ParticleSystem.updatePool ctx) s
    ∧ List.Pairwise (fun a b => a < b)
        ((List.range s.m_active_pools.length).filter
          (fun id => s.m_active_pools[id]? = some true)) := by
  have hinv := foldlM_preserves (UntouchedBy s) (ParticleSystem.updatePool ctx)
    (fun b a b' hb hba => updatePool_untouched hba hb)
    _ s s' ⟨⟨rfl, rfl, rfl⟩, fun _ _ => rfl, fun _ _ => rfl⟩ h
  obtain ⟨⟨hlists, hactive, -⟩, hpools, hdata⟩ := hinv
  refine ⟨hpools, fun id attached e _ _ _ he => hdata e he, hlists, hactive, ?_, ?_⟩
  · exact foldlM_updatePool_filter s ctx _ s rfl (fun id hid => List.mem_range.mp hid)
  · exact List.Pairwise.sublist (List.filter_sublist _) (List.pairwise_lt_range _)

theorem Update_skips_inactive_pools_witness :
    ((twoPoolSystem).Update (contextOf 1)).map
        (fun system => (system.m_particle_pools.map (fun pool => (pool.count_alive, pool.life)),
          system.m_particle_emitters.m_data.map (fun emitter => emitter.burst_emitted)))
      = some ([(0, [0, 0, 0, 0]), (2, [7, 7, 0, 0])], [false, true])
    ∧ ∃ s', twoPoolSystem.Update (contextOf 1) = some s'
        ∧ s'.m_particle_pools[0]? = twoPoolSystem.m_particle_pools[0]?
        ∧ s'.m_particle_emitters.m_data[0]? = twoPoolSystem.m_particle_emitters.m_data[0]? := by
  refine ⟨by decide!, ?_⟩
  have hsome : (twoPoolSystem.Update (contextOf 1)).isSome = true := by decide!
  obtain ⟨s', hs'⟩ := Option.isSome_iff_exists.mp hsome
  have hmain := Update_skips_inactive_pools twoPoolSystem s' (contextOf 1) hs'
  refine ⟨s', hs', hmain.1 0 rfl, hmain.2.1 0 [0] 0 rfl rfl (List.mem_singleton.mpr rfl) ?_⟩
  intro j emitters hact hem
  have hj : j = 1 := by
    match j, hact with
    | 1, _ => rfl
  subst hj
  have : emitters = [1] := by
    have h1 : twoPoolSystem.m_particle_pools_emitters[1]? = some [1] := rfl
    rw [h1] at hem
    exact (Option.some.inj hem).symm
  rw [this]
  decide

/-! ## The reap loop keeps the particles that are still alive -/

theorem swapElems_of_lt {α : Type} (v : List α) {a b : Nat} (ha : a < v.length)
    (hb : b < v.length) :
    ∃ w, swapElems v a b = some w ∧ w.length = v.length
      ∧ ∀ j, w[j]? = v[exchanged a b j]? := by
  refine ⟨(v.set a v[b]).set b v[a], ?_, by simp, ?_⟩
  · simp only [swapElems, List.getElem?_eq_getElem ha, List.getElem?_eq_getElem hb]
  · intro j
    unfold exchanged
    by_cases hja : j = a
    · subst hja
      rw [if_pos rfl]
      by_cases hjb : b = j
      · subst hjb
        rw [List.getElem?_set, if_pos rfl, if_pos (by simpa using ha),
          List.getElem?_eq_getElem ha]
      · rw [List.getElem?_set, if_neg hjb, List.getElem?_set, if_pos rfl, if_pos ha,
          List.getElem?_eq_getElem hb]
    · rw [if_neg hja]
      by_cases hjb : j = b
      · subst hjb
        rw [if_pos rfl, List.getElem?_set, if_pos rfl, if_pos (by simpa using hb),
          List.getElem?_eq_getElem ha]
      · rw [if_neg hjb, List.getElem?_set, if_neg (Ne.symm hjb), List.getElem?_set,
          if_neg (Ne.symm hja)]

/-- `Swap` on two slots of a well-formed pool completes: slot `j` receives the nine exchanged
entries of slot `exchanged first second j`. -/
theorem Swap_entries {p : ParticlePoolComponent} (hwf : p.WellFormed) {a b : Nat}
    (ha : a < p.pool_size) (hb : b < p.pool_size) :
    ∃ q, Swap p a b = some q ∧ q.WellFormed ∧ q.pool_size = p.pool_size
      ∧ q.count_alive = p.count_alive
      ∧ (∀ j, SameParticle p (exchanged a b j) q j)
      ∧ ∀ j, q.life[j]? = p.life[exchanged a b j]? := by
  obtain ⟨w1, h1, l1, e1⟩ := swapElems_of_lt p.position (a := a) (b := b)
    (by rw [hwf.position]; exact ha) (by rw [hwf.position]; exact hb)
  obtain ⟨w2, h2, l2, e2⟩ := swapElems_of_lt p.velocity (a := a) (b := b)
    (by rw [hwf.velocity]; exact ha) (by rw [hwf.velocity]; exact hb)
  obtain ⟨w3, h3, l3, e3⟩ := swapElems_of_lt p.rotation (a := a) (b := b)
    (by rw [hwf.rotation]; exact ha) (by rw [hwf.rotation]; exact hb)
  obtain ⟨w4, h4, l4, e4⟩ := swapElems_of_lt p.angular_velocity (a := a) (b := b)
    (by rw [hwf.angular_velocity]; exact ha) (by rw [hwf.angular_velocity]; exact hb)
  obtain ⟨w5, h5, l5, e5⟩ := swapElems_of_lt p.color (a := a) (b := b)
    (by rw [hwf.color]; exact ha) (by rw [hwf.color]; exact hb)
  obtain ⟨w6, h6, l6, e6⟩ := swapElems_of_lt p.gradient (a := a) (b := b)
    (by rw [hwf.gradient]; exact ha) (by rw [hwf.gradient]; exact hb)
  obtain ⟨w7, h7, l7, e7⟩ := swapElems_of_lt p.start_life (a := a) (b := b)
    (by rw [hwf.start_life]; exact ha) (by rw [hwf.start_life]; exact hb)
  obtain ⟨w8, h8, l8, e8⟩ := swapElems_of_lt p.life (a := a) (b := b)
    (by rw [hwf.life]; exact ha) (by rw [hwf.life]; exact hb)
  obtain ⟨w9, h9, l9, e9⟩ := swapElems_of_lt p.size (a := a) (b := b)
    (by rw [hwf.size]; exact ha) (by rw [hwf.size]; exact hb)
  refine ⟨{ p with
      position := w1, velocity := w2, rotation := w3, angular_velocity := w4, color := w5,
      gradient := w6, start_life := w7, life := w8, size := w9 }, ?_, ?_, rfl, rfl, ?_, e8⟩
  · simp only [Swap, h1, h2, h3, h4, h5, h6, h7, h8, h9, bind, Option.bind, pure]
  · exact ⟨l1.trans hwf.position, l2.trans hwf.velocity, l3.trans hwf.rotation,
      l4.trans hwf.angular_velocity, l5.trans hwf.color, l6.trans hwf.gradient,
      l9.trans hwf.size, hwf.start_size, hwf.end_size, l8.trans hwf.life,
      l7.trans hwf.start_life⟩
  · exact fun j => ⟨e1 j, e2 j, e3 j, e4 j, e5 j, e6 j, e9 j, e7 j⟩

theorem exchanged_exchanged (a b j : Nat) : exchanged a b (exchanged a b j) = j := by
  unfold exchanged
  by_cases hja : j = a
  · subst hja
    by_cases hab : b = j
    · subst hab; simp
    · simp [hab]
  · by_cases hjb : j = b
    · subst hjb
      simp [hja]
    · simp [hja, hjb]

theorem exchanged_of_ne {a b j : Nat} (hja : j ≠ a) (hjb : j ≠ b) : exchanged a b j = j := by
  simp [exchanged, hja, hjb]

/-- The pool of `reapAt` after the decrement of line 150. -/
theorem aged_wellFormed {q : ParticlePoolComponent} (h : q.WellFormed) (index count : Nat)
    (life : ℚ) :
    ({ q with life := q.life.set index life, count_alive := count }
      : ParticlePoolComponent).WellFormed :=
  ⟨h.position, h.velocity, h.rotation, h.angular_velocity, h.color, h.gradient, h.size,
    h.start_size, h.end_size, (List.length_set _ _ _).trans h.life, h.start_life⟩

/-- The reap loop from position `index` on completes and keeps track of every particle: the
slots from `index` to `count_alive` have not been visited yet. -/
theorem reapFrom_tracks (delta_s : ℚ) (p : ParticlePoolComponent) (hwf : p.WellFormed)
    (hc0 : p.count_alive ≤ p.pool_size) :
    ∀ (fuel index : Nat) (q : ParticlePoolComponent) (origin slot : Nat → Nat),
      q.count_alive - index ≤ fuel →
      ReapTracked delta_s p q origin slot →
      (∀ j, index ≤ j → j < q.count_alive → origin j = j ∧ q.life[j]? = p.life[j]?) →
      ∃ r origin' slot', reapFrom delta_s fuel index q = some r
        ∧ ReapTracked delta_s p r origin' slot' := by
  intro fuel
  induction fuel with
  | zero =>
    intro index q origin slot _ hq _
    exact ⟨q, origin, slot, rfl, hq⟩
  | succ fuel ih =>
    intro index q origin slot hfuel hq hun
    by_cases hlt : index < q.count_alive
    · have hcq := hq.count_alive
      have hsize : index < p.pool_size := by omega
      obtain ⟨life, hlife⟩ := getElem?_isSome_of_lt (l := p.life)
        (by rw [hwf.life]; exact hsize)
      have hqlife : q.life[index]? = some life := by
        rw [(hun index (Nat.le_refl _) hlt).2]; exact hlife
      have horigin : origin index = index := (hun index (Nat.le_refl _) hlt).1
      by_cases hdead : life - delta_s ≤ 0
      · -- the particle of slot `index` is reaped
        have hwf' := aged_wellFormed hq.wellFormed index (q.count_alive - 1) (life - delta_s)
        obtain ⟨r, hswap, hrwf, hrs, hrc, hrp, hrl⟩ := Swap_entries hwf'
          (a := index) (b := q.count_alive - 1)
          (by show index < q.pool_size; rw [hq.pool_size]; exact hsize)
          (by show q.count_alive - 1 < q.pool_size; rw [hq.pool_size]; omega)
        have hrc' : r.count_alive = q.count_alive - 1 := hrc
        have hstep : reapAt delta_s q index = some r := by
          have hcond : life - delta_s ≤ 0 ∧ q.count_alive > 0 := ⟨hdead, by omega⟩
          simp only [reapAt, hqlife, bind, Option.bind, if_pos hcond]
          exact hswap
        have htracked : ReapTracked delta_s p r
            (fun j => origin (exchanged index (q.count_alive - 1) j))
            (fun i => exchanged index (q.count_alive - 1) (slot i)) := by
          refine ⟨hrwf, hrs.trans hq.pool_size, by omega, ?_, ?_, ?_, ?_⟩
          · intro j
            obtain ⟨a1, a2, a3, a4, a5, a6, a7, a8⟩ := hrp j
            obtain ⟨b1, b2, b3, b4, b5, b6, b7, b8⟩ :=
              hq.particle (exchanged index (q.count_alive - 1) j)
            exact ⟨a1.trans b1, a2.trans b2, a3.trans b3, a4.trans b4, a5.trans b5,
              a6.trans b6, a7.trans b7, a8.trans b8⟩
          · intro j hj1 hj2
            by_cases hjc : j = q.count_alive - 1
            · have hex : exchanged index (q.count_alive - 1) j = index := by
                subst hjc
                unfold exchanged
                by_cases hi : q.count_alive - 1 = index
                · rw [if_pos hi]; exact hi
                · rw [if_neg hi, if_pos rfl]
              show ∃ life, p.life[origin (exchanged index (q.count_alive - 1) j)]? = some life
                ∧ life ≤ delta_s
              rw [hex, horigin]
              exact ⟨life, hlife, by linarith⟩
            · have hex : exchanged index (q.count_alive - 1) j = j :=
                exchanged_of_ne (by omega) hjc
              show ∃ life, p.life[origin (exchanged index (q.count_alive - 1) j)]? = some life
                ∧ life ≤ delta_s
              rw [hex]
              exact hq.reaped j (by omega) hj2
          · intro j hj
            show origin (exchanged index (q.count_alive - 1) j) = j
            rw [exchanged_of_ne (by omega) (by omega)]
            exact hq.outside j hj
          · intro i
            show origin (exchanged index (q.count_alive - 1)
              (exchanged index (q.count_alive - 1) (slot i))) = i
            rw [exchanged_exchanged]
            exact hq.inverse i
        have huntouched : ∀ j, index + 1 ≤ j → j < r.count_alive →
            origin (exchanged index (q.count_alive - 1) j) = j ∧ r.life[j]? = p.life[j]? := by
          intro j hj1 hj2
          have hex : exchanged index (q.count_alive - 1) j = j :=
            exchanged_of_ne (by omega) (by omega)
          obtain ⟨ho, hl⟩ := hun j (by omega) (by omega)
          refine ⟨by rw [hex]; exact ho, ?_⟩
          rw [hrl j, hex]
          show (q.life.set index (life - delta_s))[j]? = p.life[j]?
          rw [getElem?_set_of_ne _ _ (by omega)]
          exact hl
        obtain ⟨r', origin', slot', hrest, hfinal⟩ := ih (index + 1) r _ _ (by omega)
          htracked huntouched
        refine ⟨r', origin', slot', ?_, hfinal⟩
        simp only [reapFrom, if_pos hlt, hstep, Option.some_bind]
        exact hrest
      · -- the particle of slot `index` stays
        have hstep : reapAt delta_s q index
            = some { q with life := q.life.set index (life - delta_s) } := by
          have hcond : ¬ (life - delta_s ≤ 0 ∧ q.count_alive > 0) := fun h => hdead h.1
          simp only [reapAt, hqlife, bind, Option.bind, if_neg hcond, pure]
        have htracked : ReapTracked delta_s p
            { q with life := q.life.set index (life - delta_s) } origin slot :=
          ⟨aged_wellFormed hq.wellFormed index q.count_alive (life - delta_s), hq.pool_size,
            hq.count_alive, hq.particle, hq.reaped, hq.outside, hq.inverse⟩
        have huntouched : ∀ j, index + 1 ≤ j → j < q.count_alive →
            origin j = j ∧ (q.life.set index (life - delta_s))[j]? = p.life[j]? := by
          intro j hj1 hj2
          obtain ⟨ho, hl⟩ := hun j (by omega) hj2
          exact ⟨ho, by rw [getElem?_set_of_ne _ _ (by omega)]; exact hl⟩
        obtain ⟨r', origin', slot', hrest, hfinal⟩ := ih (index + 1)
          { q with life := q.life.set index (life - delta_s) } origin slot
          (by show q.count_alive - (index + 1) ≤ fuel; omega) htracked huntouched
        refine ⟨r', origin', slot', ?_, hfinal⟩
        simp only [reapFrom, if_pos hlt, hstep, Option.some_bind]
        exact hrest
    · refine ⟨q, origin, slot, ?_, hq⟩
      simp only [reapFrom, if_neg hlt]

theorem MakeViewFromPool_entries {p : ParticlePoolComponent} {i : Nat}
    {view : ParticlePoolComponentView} (h : MakeViewFromPool p i = some view) :
    p.position[i]? = some view.position ∧ p.velocity[i]? = some view.velocity
      ∧ p.rotation[i]? = some view.rotation
      ∧ p.angular_velocity[i]? = some view.angular_velocity
      ∧ p.color[i]? = some view.color ∧ p.gradient[i]? = some view.gradient
      ∧ p.size[i]? = some view.size ∧ p.start_life[i]? = some view.start_life
      ∧ p.life[i]? = some view.life := by
  simp only [MakeViewFromPool, bind, Option.bind_eq_some, pure, Option.some.injEq] at h
  obtain ⟨a1, h1, a2, h2, a3, h3, a4, h4, a5, h5, a6, h6, a7, h7, a8, h8, a9, h9, a10, h10,
    a11, h11, rfl⟩ := h
  exact ⟨h1, h2, h3, h4, h5, h6, h7, h11, h10⟩

/-! ## C26 -/

/-- C26: on a well-formed pool the reap pass completes and does not increase `count_alive`,
and no step of it does. Every particle of the alive prefix whose life is greater than the
step is afterwards in a slot of the alive prefix `[0, count_alive)`, with its position,
velocity, rotation, angular velocity, colour, gradient, size and start life; different
particles are in different slots. -/
theorem reapPass_keeps_alive (delta_s : ℚ) (p : ParticlePoolComponent) (hwf : p.WellFormed)
    (hc : p.count_alive ≤ p.pool_size) :
    ∃ (q : ParticlePoolComponent) (slot : Nat → Nat),
      reapPass delta_s p = some q
      ∧ q.count_alive ≤ p.count_alive
      ∧ (∀ (i : Nat) (view : ParticlePoolComponentView), i < p.count_alive →
          MakeViewFromPool p i = some view → delta_s < view.life →
          slot i < q.count_alive
          ∧ ∃ kept, MakeViewFromPool q (slot i) = some kept
            ∧ kept.position = view.position ∧ kept.velocity = view.velocity
            ∧ kept.rotation = view.rotation
            ∧ kept.angular_velocity = view.angular_velocity
            ∧ kept.color = view.color ∧ kept.gradient = view.gradient
            ∧ kept.size = view.size ∧ kept.start_life = view.start_life)
      ∧ (∀ i j, slot i = slot j → i = j)
      ∧ ∀ (r r' : ParticlePoolComponent) (index : Nat),
          reapAt delta_s r index = some r' → r'.count_alive ≤ r.count_alive := by
  obtain ⟨q, origin, slot, hq, htracked⟩ := reapFrom_tracks delta_s p hwf hc p.count_alive 0 p
    id id (by omega)
    ⟨hwf, rfl, Nat.le_refl _, fun j => ⟨rfl, rfl, rfl, rfl, rfl, rfl, rfl, rfl⟩,
      fun j h1 h2 => absurd h2 (by omega), fun _ _ => rfl, fun _ => rfl⟩
    (fun j _ _ => ⟨rfl, rfl⟩)
  refine ⟨q, slot, hq, htracked.count_alive, ?_, ?_, fun r r' index h => (reapAt_frame h).2.1⟩
  · intro i view hi hview hlife
    obtain ⟨e1, e2, e3, e4, e5, e6, e7, e8, e9⟩ := MakeViewFromPool_entries hview
    have hinv := htracked.inverse i
    have hslot : slot i < q.count_alive := by
      by_contra hge
      by_cases hlt : slot i < p.count_alive
      · obtain ⟨life, hl, hle⟩ := htracked.reaped (slot i) (by omega) hlt
        rw [hinv, e9, Option.some.injEq] at hl
        rw [hl] at hlife
        exact absurd hlife (not_lt.mpr hle)
      · have := htracked.outside (slot i) (by omega)
        omega
    refine ⟨hslot, ?_⟩
    have hq_size : slot i < q.pool_size := by
      have := htracked.pool_size
      have := htracked.count_alive
      omega
    obtain ⟨kept, hkept⟩ := MakeViewFromPool_isSome htracked.wellFormed hq_size
    obtain ⟨k1, k2, k3, k4, k5, k6, k7, k8, -⟩ := MakeViewFromPool_entries hkept
    obtain ⟨s1, s2, s3, s4, s5, s6, s7, s8⟩ := htracked.particle (slot i)
    rw [hinv] at s1 s2 s3 s4 s5 s6 s7 s8
    refine ⟨kept, hkept, ?_, ?_, ?_, ?_, ?_, ?_, ?_, ?_⟩
    · exact Option.some.inj (k1.symm.trans (s1.trans e1))
    · exact Option.some.inj (k2.symm.trans (s2.trans e2))
    · exact Option.some.inj (k3.symm.trans (s3.trans e3))
    · exact Option.some.inj (k4.symm.trans (s4.trans e4))
    · exact Option.some.inj (k5.symm.trans (s5.trans e5))
    · exact Option.some.inj (k6.symm.trans (s6.trans e6))
    · exact Option.some.inj (k7.symm.trans (s7.trans e7))
    · exact Option.some.inj (k8.symm.trans (s8.trans e8))
  · intro i j hij
    have h1 := htracked.inverse i
    rw [hij, htracked.inverse j] at h1
    exact h1.symm

theorem reapPass_keeps_alive_witness :
    (reapPass (1 / 5) (poolOfLives [1 / 10, 5, 1 / 10, 7] 4)).map
        (fun pool => (pool.count_alive, pool.size, pool.start_life))
      = some (2, [13, 11, 12, 10], [7, 5, 1 / 10, 1 / 10])
    ∧ ∃ q, reapPass (1 / 5) (poolOfLives [1 / 10, 5, 1 / 10, 7] 4) = some q
        ∧ q.count_alive ≤ (poolOfLives [1 / 10, 5, 1 / 10, 7] 4).count_alive := by
  refine ⟨by decide!, ?_⟩
  obtain ⟨q, -, h, hle, -⟩ := reapPass_keeps_alive (1 / 5)
    (poolOfLives [1 / 10, 5, 1 / 10, 7] 4) (poolOfLives_wellFormed _ _) (by decide)
  exact ⟨q, h, hle⟩

/-! ## The deferred-release queue under `Update` and `Sync` -/

/-- A fold over a duplicate-free list with an invariant that knows the elements already
visited. -/
theorem foldlM_prefix {α β : Type} (P : List α → β → Prop) (f : β → α → Option β)
    (hstep : ∀ pre a b b', a ∉ pre → P pre b → f b a = some b' → P (pre ++ [a]) b') :
    ∀ (l pre : List α) (b b' : β), (pre ++ l).Nodup → P pre b →
      l.foldlM f b = some b' → P (pre ++ l) b' := by
  intro l
  induction l with
  | nil =>
    intro pre b b' _ hb h
    simp only [List.foldlM_nil, Option.pure_def, Option.some.injEq] at h
    rw [List.append_nil]
    exact h ▸ hb
  | cons a l ih =>
    intro pre b b' hnd hb h
    simp only [List.foldlM_cons, Option.bind_eq_bind, Option.bind_eq_some] at h
    obtain ⟨c, hc, hrest⟩ := h
    have ha : a ∉ pre := by
      intro hmem
      have := List.nodup_append.mp hnd
      exact this.2.2 hmem (List.mem_cons_self a l) 
    have hnd' : ((pre ++ [a]) ++ l).Nodup := by
      rw [List.append_assoc]; exact hnd
    have := ih (pre ++ [a]) c b' hnd' (hstep pre a b c ha hb hc) hrest
    rw [List.append_assoc] at this
    exact this

/-- The turn of one attached emitter keeps the queue or appends the entry of this emitter. -/
theorem updateAttached_queue {pool_id : Nat} {ctx : UpdateContext}
    {st st' : ParticleSystem × ParticlePoolComponent} {h : Nat}
    (hstep : ParticleSystem.updateAttached pool_id ctx st h = some st') :
    st'.1.m_deferred_release_emitter = st.1.m_deferred_release_emitter
      ∨ st'.1.m_deferred_release_emitter
          = st.1.m_deferred_release_emitter ++ [⟨pool_id, h⟩] := by
  simp only [ParticleSystem.updateAttached, bind, Option.bind_eq_some, pure,
    Option.some.injEq] at hstep
  obtain ⟨component, _, step, hue, rfl⟩ := hstep
  exact UpdateEmitter_deferred hue

/-- The turn of one pool id appends to the queue entries of this pool id only, one for each
of some emitters of its attached list. -/
theorem updatePool_queue {t t' : ParticleSystem} {k : Nat} {ctx : UpdateContext}
    (h : ParticleSystem.updatePool ctx t k = some t')
    (hnd : ∀ attached, t.m_particle_pools_emitters[k]? = some attached → attached.Nodup) :
    ∃ extra, t'.m_deferred_release_emitter = t.m_deferred_release_emitter ++ extra
      ∧ (∀ entry ∈ extra, entry.pool_id = k
          ∧ ∃ attached, t.m_particle_pools_emitters[k]? = some attached
            ∧ entry.emitter ∈ attached)
      ∧ (extra.map (fun entry => entry.emitter)).Nodup := by
  rcases active_cases h with hact | hact
  · obtain ⟨pool, emitters, emitted, reaped, hem, hfold, rfl⟩ := updatePool_active hact h
    have hinv := foldlM_prefix
      (fun (pre : List Nat) (st : ParticleSystem × ParticlePoolComponent) =>
        ∃ extra, st.1.m_deferred_release_emitter = t.m_deferred_release_emitter ++ extra
          ∧ (∀ entry ∈ extra, entry.pool_id = k ∧ entry.emitter ∈ pre)
          ∧ (extra.map (fun entry => entry.emitter)).Nodup)
      (ParticleSystem.updateAttached k ctx)
      (fun pre a b b' ha hb hba => by
        obtain ⟨extra, hq, hmem, hnodup⟩ := hb
        rcases updateAttached_queue hba with hsame | hpush
        · exact ⟨extra, hsame.trans hq,
            fun entry he => ⟨(hmem entry he).1, List.mem_append_left _ (hmem entry he).2⟩,
            hnodup⟩
        · refine ⟨extra ++ [⟨k, a⟩], ?_, ?_, ?_⟩
          · rw [hpush, hq, List.append_assoc]
          · intro entry he
            rcases List.mem_append.mp he with hold | hnew
            · exact ⟨(hmem entry hold).1, List.mem_append_left _ (hmem entry hold).2⟩
            · rw [List.mem_singleton] at hnew
              subst hnew
              exact ⟨rfl, List.mem_append_right _ (List.mem_singleton.mpr rfl)⟩
          · rw [List.map_append, List.nodup_append]
            refine ⟨hnodup, List.nodup_singleton _, ?_⟩
            intro x hx hx'
            rw [List.map_singleton, List.mem_singleton] at hx'
            obtain ⟨entry, hentry, rfl⟩ := List.mem_map.mp hx
            have hxa : entry.emitter = a := hx'
            exact ha (hxa ▸ (hmem entry hentry).2))
      emitters [] (t, pool) emitted (by simpa using hnd emitters hem)
      ⟨[], by simp, fun _ h => absurd h (List.not_mem_nil _), List.nodup_nil⟩ hfold
    obtain ⟨extra, hq, hmem, hnodup⟩ := hinv
    rw [List.nil_append] at hmem
    exact ⟨extra, hq, fun entry he => ⟨(hmem entry he).1, emitters, hem, (hmem entry he).2⟩,
      hnodup⟩
  · rw [updatePool_inactive hact h]
    exact ⟨[], by simp, fun _ h => absurd h (List.not_mem_nil _), List.nodup_nil⟩

/-- `Update` appends to the queue at most one entry for each attached emitter, when every
handle is in at most one attached list. -/
theorem Update_queue {s s' : ParticleSystem} {ctx : UpdateContext}
    (hs : s.HandlesDistinct) (h : s.Update ctx = some s') :
    SameShape s s'
      ∧ ∃ extra, s'.m_deferred_release_emitter = s.m_deferred_release_emitter ++ extra
        ∧ (extra.map (fun entry => entry.emitter)).Nodup
        ∧ s.QueuedAttached extra := by
  have hinv := foldlM_prefix
    (fun (pre : List Nat) (t : ParticleSystem) =>
      (SameShape s t
        ∧ t.m_particle_emitters.m_data.length = s.m_particle_emitters.m_data.length)
      ∧ ∃ extra, t.m_deferred_release_emitter = s.m_deferred_release_emitter ++ extra
        ∧ (extra.map (fun entry => entry.emitter)).Nodup
        ∧ ∀ entry ∈ extra, entry.pool_id ∈ pre
          ∧ ∃ attached, s.m_particle_pools_emitters[entry.pool_id]? = some attached
            ∧ entry.emitter ∈ attached)
    (ParticleSystem.updatePool ctx)
    (fun pre k t t' hk ht htk => by
      obtain ⟨hshape, extra, hq, hnodup, hmem⟩ := ht
      have hlists : t.m_particle_pools_emitters = s.m_particle_pools_emitters := hshape.1.1
      obtain ⟨more, hq', hmore, hnodup'⟩ := updatePool_queue htk
        (fun attached hatt => hs.nodup k attached (by rw [← hlists]; exact hatt))
      refine ⟨updatePool_shape htk hshape, extra ++ more, ?_, ?_, ?_⟩
      · rw [hq', hq, List.append_assoc]
      · rw [List.map_append, List.nodup_append]
        refine ⟨hnodup, hnodup', ?_⟩
        intro x hx hx'
        obtain ⟨entry, hentry, rfl⟩ := List.mem_map.mp hx
        obtain ⟨entry', hentry', heq⟩ := List.mem_map.mp hx'
        obtain ⟨hpre, attached, hatt, hin⟩ := hmem entry hentry
        obtain ⟨hpool, attached', hatt', hin'⟩ := hmore entry' hentry'
        rw [hlists] at hatt'
        have hne : entry.pool_id ≠ k := fun hek => hk (hek ▸ hpre)
        exact hs.disjoint entry.pool_id k attached attached' hne hatt hatt' entry.emitter hin
          (heq ▸ hin')
      · intro entry he
        rcases List.mem_append.mp he with hold | hnew
        · obtain ⟨hpre, hrest⟩ := hmem entry hold
          exact ⟨List.mem_append_left _ hpre, hrest⟩
        · obtain ⟨hpool, attached, hatt, hin⟩ := hmore entry hnew
          rw [hlists] at hatt
          exact ⟨List.mem_append_right _ (List.mem_singleton.mpr hpool),
            attached, hpool ▸ hatt, hin⟩)
    (List.range s.m_active_pools.length) [] s s' (by simpa using List.nodup_range _)
    ⟨⟨⟨rfl, rfl, rfl⟩, rfl⟩, [], by simp, List.nodup_nil,
      fun _ h => absurd h (List.not_mem_nil _)⟩ h
  obtain ⟨⟨hshape, -⟩, extra, hq, hnodup, hmem⟩ := hinv
  exact ⟨hshape, extra, hq, hnodup, fun entry he => (hmem entry he).2⟩

theorem mem_remove_iff {attached : List Nat} {e h : Nat} :
    e ∈ remove attached h ↔ e ∈ attached ∧ e ≠ h := by
  simp [remove, List.mem_filter]

/-- Releasing an attached emitter keeps the handles distinct, and every other attached
emitter stays attached. -/
theorem ReleaseEmitter_distinct {t t' : ParticleSystem} {pool_id e : Nat}
    {attached : List Nat} (ht : t.HandlesDistinct)
    (hatt : t.m_particle_pools_emitters[pool_id]? = some attached) (he : e ∈ attached)
    (h : t.ReleaseEmitter pool_id e = some t') :
    t'.HandlesDistinct
      ∧ ∀ (entry : DeferredReleasEmitter), entry.emitter ≠ e →
        (∃ list, t.m_particle_pools_emitters[entry.pool_id]? = some list
          ∧ entry.emitter ∈ list) →
        ∃ list, t'.m_particle_pools_emitters[entry.pool_id]? = some list
          ∧ entry.emitter ∈ list := by
  obtain ⟨attached', hatt', rfl⟩ := ReleaseEmitter_eq h
  rw [hatt, Option.some.injEq] at hatt'
  subst hatt'
  have hget : ∀ (id : Nat) (list : List Nat),
      (t.m_particle_pools_emitters.set pool_id (remove attached e))[id]? = some list →
      (id = pool_id ∧ list = remove attached e)
        ∨ (id ≠ pool_id ∧ t.m_particle_pools_emitters[id]? = some list) := by
    intro id list hl
    by_cases hid : id = pool_id
    · subst hid
      rw [getElem?_set_self_of_some _ hatt, Option.some.injEq] at hl
      exact Or.inl ⟨rfl, hl.symm⟩
    · rw [getElem?_set_of_ne _ _ hid] at hl
      exact Or.inr ⟨hid, hl⟩
  refine ⟨⟨?_, ?_, ?_, ?_⟩, ?_⟩
  · intro id list hl
    rcases hget id list hl with ⟨-, rfl⟩ | ⟨-, hl'⟩
    · exact (ht.nodup pool_id attached hatt).filter _
    · exact ht.nodup id list hl'
  · intro first second left right hne hl hr x hx
    rcases hget first left hl with ⟨hf, rfl⟩ | ⟨hf, hl'⟩
    · rcases hget second right hr with ⟨hs, -⟩ | ⟨-, hr'⟩
      · exact absurd (hf.trans hs.symm) hne
      · exact ht.disjoint pool_id second attached right (hf ▸ hne) hatt hr' x
          (mem_remove_iff.mp hx).1
    · rcases hget second right hr with ⟨hs, rfl⟩ | ⟨-, hr'⟩
      · intro hx'
        exact ht.disjoint first pool_id left attached hf hl' hatt x hx
          (mem_remove_iff.mp hx').1
      · exact ht.disjoint first second left right hne hl' hr' x hx
  · show (e :: t.m_particle_emitters.m_free_indices).Nodup
    exact List.nodup_cons.mpr ⟨ht.not_free pool_id attached hatt e he, ht.free_nodup⟩
  · intro id list hl x hx
    show x ∉ e :: t.m_particle_emitters.m_free_indices
    rcases hget id list hl with ⟨-, rfl⟩ | ⟨hid, hl'⟩
    · obtain ⟨hxa, hxe⟩ := mem_remove_iff.mp hx
      simp only [List.mem_cons, not_or]
      exact ⟨hxe, ht.not_free pool_id attached hatt x hxa⟩
    · simp only [List.mem_cons, not_or]
      refine ⟨?_, ht.not_free id list hl' x hx⟩
      intro hxe
      exact ht.disjoint id pool_id list attached hid hl' hatt x hx (hxe ▸ he)
  · intro entry hne hex
    obtain ⟨list, hl, hin⟩ := hex
    by_cases hid : entry.pool_id = pool_id
    · rw [hid, hatt, Option.some.injEq] at hl
      subst hl
      refine ⟨remove attached e, ?_, mem_remove_iff.mpr ⟨hin, hne⟩⟩
      show (t.m_particle_pools_emitters.set pool_id (remove attached e))[entry.pool_id]? = _
      rw [hid]
      exact getElem?_set_self_of_some _ hatt
    · refine ⟨list, ?_, hin⟩
      show (t.m_particle_pools_emitters.set pool_id (remove attached e))[entry.pool_id]? = _
      rw [getElem?_set_of_ne _ _ hid]
      exact hl

/-- The releases of a queue that names every emitter once, each in the attached list of its
pool id, keep the handles distinct. -/
theorem release_fold_distinct :
    ∀ (queue : List DeferredReleasEmitter) (t t' : ParticleSystem), t.HandlesDistinct →
      (queue.map (fun entry => entry.emitter)).Nodup → t.QueuedAttached queue →
      queue.foldlM
          (fun (current : ParticleSystem) (deferred_release : DeferredReleasEmitter) =>
            current.ReleaseEmitter deferred_release.pool_id deferred_release.emitter) t
        = some t' →
      t'.HandlesDistinct := by
  intro queue
  induction queue with
  | nil =>
    intro t t' ht _ _ h
    simp only [List.foldlM_nil, Option.pure_def, Option.some.injEq] at h
    exact h ▸ ht
  | cons entry queue ih =>
    intro t t' ht hnd hq h
    simp only [List.foldlM_cons, Option.bind_eq_bind, Option.bind_eq_some] at h
    obtain ⟨t1, h1, hrest⟩ := h
    obtain ⟨attached, hatt, hin⟩ := hq entry (List.mem_cons_self _ _)
    obtain ⟨ht1, hkeep⟩ := ReleaseEmitter_distinct ht hatt hin h1
    rw [List.map_cons, List.nodup_cons] at hnd
    refine ih t1 t' ht1 hnd.2 ?_ hrest
    intro other hother
    refine hkeep other ?_ (hq other (List.mem_cons_of_mem _ hother))
    intro heq
    exact hnd.1 (heq ▸ List.mem_map_of_mem (fun entry => entry.emitter) hother)

/-! ## C28 -/

/-- `AttachEmitter` either returns the null handle and leaves the system as it is, or moves
the first free slot to the end of one attached list. -/
theorem AttachEmitter_cases {s s' : ParticleSystem} {pool_id : Nat} {position : Vector}
    {duration emit_rate : ℚ} {emitter_type : EmitterType} {generator : ParticleGenerator}
    {handle : Option Nat}
    (h : s.AttachEmitter pool_id position duration emit_rate emitter_type generator
      = some (s', handle)) :
    s' = s
      ∨ ∃ slot rest attached, s.m_particle_emitters.m_free_indices = slot :: rest
        ∧ s.m_particle_pools_emitters[pool_id]? = some attached
        ∧ s'.m_particle_emitters.m_free_indices = rest
        ∧ s'.m_particle_pools_emitters
            = s.m_particle_pools_emitters.set pool_id (attached ++ [slot])
        ∧ s'.m_deferred_release_emitter = s.m_deferred_release_emitter := by
  unfold ParticleSystem.AttachEmitter at h
  cases hfree : s.m_particle_emitters.m_free_indices with
  | nil =>
    simp only [ObjectPool.GetPoolData, hfree, Option.some.injEq, Prod.mk.injEq] at h
    exact Or.inl h.1.symm
  | cons slot rest =>
    simp only [ObjectPool.GetPoolData, hfree, bind, Option.bind_eq_some, pure,
      Option.some.injEq, Prod.mk.injEq] at h
    obtain ⟨_, _, attached, hatt, rfl, -⟩ := h
    exact Or.inr ⟨slot, rest, attached, rfl, hatt, rfl, rfl, rfl⟩

theorem AttachEmitter_distinct {s s' : ParticleSystem} {pool_id : Nat} {position : Vector}
    {duration emit_rate : ℚ} {emitter_type : EmitterType} {generator : ParticleGenerator}
    {handle : Option Nat} (hs : s.HandlesDistinct)
    (h : s.AttachEmitter pool_id position duration emit_rate emitter_type generator
      = some (s', handle)) :
    s'.HandlesDistinct
      ∧ s'.m_deferred_release_emitter = s.m_deferred_release_emitter
      ∧ ∀ queue, s.QueuedAttached queue → s'.QueuedAttached queue := by
  rcases AttachEmitter_cases h with rfl | ⟨slot, rest, attached, hfree, hatt, hfree', hlists, hq⟩
  · exact ⟨hs, rfl, fun _ hq => hq⟩
  have hslot : slot ∈ s.m_particle_emitters.m_free_indices := by
    rw [hfree]; exact List.mem_cons_self _ _
  have hnd := hs.free_nodup
  rw [hfree, List.nodup_cons] at hnd
  have hget : ∀ (id : Nat) (list : List Nat),
      s'.m_particle_pools_emitters[id]? = some list →
      (id = pool_id ∧ list = attached ++ [slot])
        ∨ (id ≠ pool_id ∧ s.m_particle_pools_emitters[id]? = some list) := by
    intro id list hl
    rw [hlists] at hl
    by_cases hid : id = pool_id
    · subst hid
      rw [getElem?_set_self_of_some _ hatt, Option.some.injEq] at hl
      exact Or.inl ⟨rfl, hl.symm⟩
    · rw [getElem?_set_of_ne _ _ hid] at hl
      exact Or.inr ⟨hid, hl⟩
  have hrest : ∀ x, x ∉ s.m_particle_emitters.m_free_indices →
      x ∉ s'.m_particle_emitters.m_free_indices := by
    intro x hx hx'
    rw [hfree'] at hx'
    exact hx (by rw [hfree]; exact List.mem_cons_of_mem _ hx')
  refine ⟨⟨?_, ?_, by rw [hfree']; exact hnd.2, ?_⟩, hq, ?_⟩
  · intro id list hl
    rcases hget id list hl with ⟨-, rfl⟩ | ⟨-, hl'⟩
    · rw [List.nodup_append]
      refine ⟨hs.nodup pool_id attached hatt, List.nodup_singleton _, ?_⟩
      intro x hx hx'
      rw [List.mem_singleton] at hx'
      exact hs.not_free pool_id attached hatt x hx (hx' ▸ hslot)
    · exact hs.nodup id list hl'
  · intro first second left right hne hl hr x hx
    rcases hget first left hl with ⟨hf, rfl⟩ | ⟨hf, hl'⟩
    · rcases hget second right hr with ⟨hs', -⟩ | ⟨hsn, hr'⟩
      · exact absurd (hf.trans hs'.symm) hne
      · rcases List.mem_append.mp hx with hxa | hxs
        · exact hs.disjoint pool_id second attached right (Ne.symm hsn) hatt hr' x hxa
        · rw [List.mem_singleton] at hxs
          intro hxr
          exact hs.not_free second right hr' x hxr (hxs ▸ hslot)
    · rcases hget second right hr with ⟨-, rfl⟩ | ⟨-, hr'⟩
      · intro hx'
        rcases List.mem_append.mp hx' with hxa | hxs
        · exact hs.disjoint first pool_id left attached hf hl' hatt x hx hxa
        · rw [List.mem_singleton] at hxs
          exact hs.not_free first left hl' x hx (hxs ▸ hslot)
      · exact hs.disjoint first second left right hne hl' hr' x hx
  · intro id list hl x hx
    rcases hget id list hl with ⟨-, rfl⟩ | ⟨-, hl'⟩
    · rcases List.mem_append.mp hx with hxa | hxs
      · exact hrest x (hs.not_free pool_id attached hatt x hxa)
      · rw [List.mem_singleton] at hxs
        rw [hfree', hxs]
        exact hnd.1
    · exact hrest x (hs.not_free id list hl' x hx)
  · intro queue hqueue entry hentry
    obtain ⟨list, hl, hin⟩ := hqueue entry hentry
    by_cases hid : entry.pool_id = pool_id
    · rw [hid, hatt, Option.some.injEq] at hl
      subst hl
      refine ⟨attached ++ [slot], ?_, List.mem_append_left _ hin⟩
      rw [hlists, hid]
      exact getElem?_set_self_of_some _ hatt
    · refine ⟨list, ?_, hin⟩
      rw [hlists, getElem?_set_of_ne _ _ hid]
      exact hl

theorem AllocatePool_emitters {s s' : ParticleSystem} {id pool_size : Nat}
    {update_function : ParticleUpdater}
    (h : s.AllocatePool id pool_size update_function = some s') :
    s'.m_particle_pools_emitters = s.m_particle_pools_emitters
      ∧ s'.m_particle_emitters = s.m_particle_emitters
      ∧ s'.m_deferred_release_emitter = s.m_deferred_release_emitter := by
  simp only [ParticleSystem.AllocatePool, bind, Option.bind_eq_some] at h
  obtain ⟨flag, _, h⟩ := h
  split at h
  · exact absurd h (by simp)
  · simp only [Option.bind_eq_some, pure, Option.some.injEq] at h
    obtain ⟨_, _, rfl⟩ := h
    exact ⟨rfl, rfl, rfl⟩

theorem create_distinct (count n_emitters : Nat) :
    (ParticleSystem.create count n_emitters).HandlesDistinct := by
  have hget : ∀ (id : Nat) (list : List Nat),
      (ParticleSystem.create count n_emitters).m_particle_pools_emitters[id]? = some list →
      list = [] := by
    intro id list hl
    have hmem := List.getElem?_mem hl
    exact List.eq_of_mem_replicate hmem
  refine ⟨?_, ?_, List.nodup_range _, ?_⟩
  · intro id list hl
    rw [hget id list hl]
    exact List.nodup_nil
  · intro first second left right _ hl _ x hx
    rw [hget first left hl] at hx
    exact absurd hx (List.not_mem_nil _)
  · intro id list hl x hx
    rw [hget id list hl] at hx
    exact absurd hx (List.not_mem_nil _)

theorem HandlesDistinct_of_eq {s s' : ParticleSystem}
    (hl : s'.m_particle_pools_emitters = s.m_particle_pools_emitters)
    (hf : s'.m_particle_emitters.m_free_indices = s.m_particle_emitters.m_free_indices)
    (hs : s.HandlesDistinct) : s'.HandlesDistinct := by
  refine ⟨?_, ?_, ?_, ?_⟩
  · intro id list h
    exact hs.nodup id list (hl ▸ h)
  · intro first second left right hne h1 h2
    exact hs.disjoint first second left right hne (hl ▸ h1) (hl ▸ h2)
  · rw [hf]; exact hs.free_nodup
  · intro id list h
    rw [hf]
    exact hs.not_free id list (hl ▸ h)

theorem QueuedAttached_of_eq {s s' : ParticleSystem}
    (hl : s'.m_particle_pools_emitters = s.m_particle_pools_emitters)
    {queue : List DeferredReleasEmitter} (hq : s.QueuedAttached queue) :
    s'.QueuedAttached queue := by
  intro entry hentry
  obtain ⟨list, h, hin⟩ := hq entry hentry
  exact ⟨list, by rw [hl]; exact h, hin⟩

/-- A sequence of calls in which a `Sync` is called between any two `Update` calls keeps the
handles distinct and the queue free of duplicates. -/
theorem run_synced :
    ∀ (calls : List Call) (s s' : ParticleSystem) (pending : Bool),
      syncedCalls pending calls = true →
      s.HandlesDistinct → s.QueuedAttached s.m_deferred_release_emitter →
      (s.m_deferred_release_emitter.map (fun entry => entry.emitter)).Nodup →
      (pending = false → s.m_deferred_release_emitter = []) →
      s.run calls = some s' →
      s'.HandlesDistinct ∧ s'.QueuedAttached s'.m_deferred_release_emitter
        ∧ (s'.m_deferred_release_emitter.map (fun entry => entry.emitter)).Nodup := by
  intro calls
  induction calls with
  | nil =>
    intro s s' pending _ hd hq hn _ hrun
    simp only [ParticleSystem.run, List.foldlM_nil, Option.pure_def, Option.some.injEq] at hrun
    subst hrun
    exact ⟨hd, hq, hn⟩
  | cons c rest ih =>
    intro s s' pending hcalls hd hq hn hp hrun
    simp only [ParticleSystem.run, List.foldlM_cons, Option.bind_eq_bind,
      Option.bind_eq_some] at hrun
    obtain ⟨s1, hcall, hrest⟩ := hrun
    cases c with
    | allocatePool id pool_size update_function =>
      obtain ⟨hl, he, hqueue⟩ := AllocatePool_emitters hcall
      refine ih s1 s' pending hcalls (HandlesDistinct_of_eq hl (by rw [he]) hd) ?_ ?_ ?_ hrest
      · rw [hqueue]; exact QueuedAttached_of_eq hl hq
      · rw [hqueue]; exact hn
      · intro h; rw [hqueue]; exact hp h
    | attachEmitter pool_id position duration emit_rate emitter_type generator =>
      simp only [ParticleSystem.call, Option.map_eq_some', Prod.exists, exists_and_right,
        exists_eq_right] at hcall
      obtain ⟨handle, hattach⟩ := hcall
      obtain ⟨hd1, hqueue, hkeep⟩ := AttachEmitter_distinct hd hattach
      refine ih s1 s' pending hcalls hd1 ?_ ?_ ?_ hrest
      · rw [hqueue]; exact hkeep _ hq
      · rw [hqueue]; exact hn
      · intro h; rw [hqueue]; exact hp h
    | update update_context =>
      simp only [syncedCalls, Bool.and_eq_true, Bool.not_eq_true'] at hcalls
      obtain ⟨hpending, hcalls'⟩ := hcalls
      have hempty := hp hpending
      obtain ⟨hshape, extra, hqueue, hnodup, hattached⟩ := Update_queue hd hcall
      rw [hempty, List.nil_append] at hqueue
      refine ih s1 s' true hcalls' (HandlesDistinct_of_eq hshape.1 hshape.2.2 hd) ?_ ?_ ?_
        hrest
      · rw [hqueue]; exact QueuedAttached_of_eq hshape.1 hattached
      · rw [hqueue]; exact hnodup
      · intro h; exact absurd h (by simp)
    | sync =>
      have hcalls' : syncedCalls false rest = true := hcalls
      have hsync : s.Sync = some s1 := hcall
      simp only [ParticleSystem.Sync, bind, Option.bind_eq_some, pure,
        Option.some.injEq] at hsync
      obtain ⟨released, hrel, rfl⟩ := hsync
      have hd1 := release_fold_distinct _ s released hd hn hq hrel
      refine ih { released with m_deferred_release_emitter := [] } s' false hcalls'
        (HandlesDistinct_of_eq (s := released) rfl rfl hd1) ?_ ?_ ?_ hrest
      · intro entry hentry
        exact absurd hentry (List.not_mem_nil _)
      · exact List.nodup_nil
      · intro _; rfl
    | setPoolData _ _ _ _ _ _ _ => exact absurd hcalls (by simp [syncedCalls])
    | releasePool _ => exact absurd hcalls (by simp [syncedCalls])
    | releaseEmitter _ _ => exact absurd hcalls (by simp [syncedCalls])

/-- C28, for the call order of the frame driver: after construction and any sequence of
`AllocatePool`, `AttachEmitter`, `Update` and `Sync` calls in which a `Sync` is called between
any two `Update` calls, the deferred-release queue names no emitter twice and the free list of
the emitter object pool holds no slot twice; the `Sync` that follows pushes each queued slot
on the free list once and leaves a free list without duplicates. -/
theorem queue_names_each_emitter_once (count n_emitters : Nat) (calls : List Call)
    (s : ParticleSystem) (hcalls : syncedCalls false calls = true)
    (hrun : (ParticleSystem.create count n_emitters).run calls = some s) :
    (s.m_deferred_release_emitter.map (fun entry => entry.emitter)).Nodup
    ∧ s.m_particle_emitters.m_free_indices.Nodup
    ∧ ∀ s', s.Sync = some s' →
        s'.m_particle_emitters.m_free_indices
          = (s.m_deferred_release_emitter.map (fun entry => entry.emitter)).reverse
            ++ s.m_particle_emitters.m_free_indices
        ∧ s'.m_particle_emitters.m_free_indices.Nodup := by
  obtain ⟨hd, hq, hn⟩ := run_synced calls (ParticleSystem.create count n_emitters) s false
    hcalls (create_distinct count n_emitters)
    (fun entry hentry => absurd hentry (List.not_mem_nil _)) List.nodup_nil (fun _ => rfl) hrun
  refine ⟨hn, hd.free_nodup, ?_⟩
  intro s' hsync
  simp only [ParticleSystem.Sync, bind, Option.bind_eq_some, pure, Option.some.injEq] at hsync
  obtain ⟨released, hrel, rfl⟩ := hsync
  exact ⟨(release_fold _ s released hrel).1,
    (release_fold_distinct _ s released hd hn hq hrel).free_nodup⟩

/-- Three `Update` calls without a `Sync` between them on one BurstRemoveOnFinish emitter:
the first emits, the second and the third each queue the emitter. The queue then names
emitter 0 twice, and the `Sync` that follows puts slot 0 on the free list twice. -/
theorem Update_without_Sync_queues_twice :
    ((ParticleSystem.create 1 1).run
        (burstRemoveCalls
          ++ [.update (contextOf 1), .update (contextOf 1), .update (contextOf 1)])).map
        observeEmitters
      = some ([[0]], [], [⟨0, 0⟩, ⟨0, 0⟩])
    ∧ ((ParticleSystem.create 1 1).run
        (burstRemoveCalls
          ++ [.update (contextOf 1), .update (contextOf 1), .update (contextOf 1),
            .sync])).map observeEmitters
      = some ([[]], [0, 0], []) := by
  refine ⟨by decide!, by decide!⟩

theorem queue_names_each_emitter_once_witness :
    ((ParticleSystem.create 1 1).run
        (burstRemoveCalls
          ++ [.update (contextOf 1), .sync, .update (contextOf 1)])).map observeEmitters
      = some ([[0]], [], [⟨0, 0⟩])
    ∧ ∃ s, (ParticleSystem.create 1 1).run
          (burstRemoveCalls ++ [.update (contextOf 1), .sync, .update (contextOf 1)]) = some s
        ∧ (s.m_deferred_release_emitter.map (fun entry => entry.emitter)).Nodup
        ∧ s.m_particle_emitters.m_free_indices.Nodup := by
  refine ⟨by decide!, ?_⟩
  have hsome : ((ParticleSystem.create 1 1).run
      (burstRemoveCalls ++ [.update (contextOf 1), .sync, .update (contextOf 1)])).isSome
      = true := by decide!
  obtain ⟨s, hs⟩ := Option.isSome_iff_exists.mp hsome
  have hmain := queue_names_each_emitter_once 1 1 _ s (by decide) hs
  exact ⟨s, hs, hmain.1, hmain.2.1⟩

/-! ## The walk of `GetWorld` -/

theorem worldFrom_acc {M : Type} [Monoid M] (s : TransformSystem M) :
    ∀ (fuel id : Nat) (t : M),
      s.worldFrom fuel id t = (s.worldFrom fuel id 1).map (fun world => world * t) := by
  intro fuel
  induction fuel with
  | zero =>
    intro id t
    simp only [TransformSystem.worldFrom]
    split <;> simp
  | succ fuel ih =>
    intro id t
    simp only [TransformSystem.worldFrom]
    split
    · simp
    · cases hc : s.m_transforms[id]? with
      | none => rfl
      | some c =>
        simp only []
        rw [ih c.parent (c.transform * t), ih c.parent (c.transform * 1), mul_one,
          Option.map_map]
        congr 1
        funext world
        simp [mul_assoc]

theorem worldFrom_succ {M : Type} [Monoid M] (s : TransformSystem M) :
    ∀ (fuel id : Nat) (t world : M),
      s.worldFrom fuel id t = some world → s.worldFrom (fuel + 1) id t = some world := by
  intro fuel
  induction fuel with
  | zero =>
    intro id t world h
    simp only [TransformSystem.worldFrom] at h ⊢
    split at h
    · rename_i hid
      rw [if_pos hid]; exact h
    · exact absurd h (by simp)
  | succ fuel ih =>
    intro id t world h
    rw [TransformSystem.worldFrom] at h ⊢
    split at h
    · rename_i hid
      rw [if_pos hid]; exact h
    · rename_i hid
      rw [if_neg hid]
      cases hc : s.m_transforms[id]? with
      | none => rw [hc] at h; exact absurd h (by simp)
      | some c =>
        rw [hc] at h
        exact ih c.parent _ world h

theorem walk_chain {M : Type} (s : TransformSystem M) :
    ∀ (fuel id : Nat) (path : List Nat), s.walk fuel id = some path → s.Chain id path := by
  intro fuel
  induction fuel with
  | zero =>
    intro id path h
    simp only [TransformSystem.walk] at h
    split at h
    · rename_i hid
      rw [Option.some.injEq] at h
      subst h; subst hid
      exact TransformSystem.Chain.root
    · exact absurd h (by simp)
  | succ fuel ih =>
    intro id path h
    rw [TransformSystem.walk] at h
    split at h
    · rename_i hid
      rw [Option.some.injEq] at h
      subst h; subst hid
      exact TransformSystem.Chain.root
    · rename_i hid
      cases hc : s.m_transforms[id]? with
      | none => rw [hc] at h; exact absurd h (by simp)
      | some c =>
        rw [hc] at h
        simp only [Option.map_eq_some'] at h
        obtain ⟨rest, hrest, rfl⟩ := h
        exact TransformSystem.Chain.step id c rest hid hc (ih c.parent rest hrest)

theorem chain_walk {M : Type} {s : TransformSystem M} {id : Nat} {path : List Nat}
    (h : s.Chain id path) : ∀ fuel, path.length ≤ fuel → s.walk fuel id = some path := by
  induction h with
  | root =>
    intro fuel _
    cases fuel <;> simp [TransformSystem.walk]
  | step id c path hid hc _ ih =>
    intro fuel hfuel
    cases fuel with
    | zero => simp at hfuel
    | succ fuel =>
      rw [TransformSystem.walk, if_neg hid, hc]
      simp only []
      rw [ih fuel (by simpa using hfuel)]
      rfl

theorem worldFrom_of_walk {M : Type} [Monoid M] (s : TransformSystem M) :
    ∀ (fuel id : Nat) (path : List Nat) (t : M), s.walk fuel id = some path →
      ∃ world, s.worldFrom fuel id t = some world := by
  intro fuel
  induction fuel with
  | zero =>
    intro id path t h
    simp only [TransformSystem.walk] at h
    split at h
    · rename_i hid
      exact ⟨t, by simp [TransformSystem.worldFrom, hid]⟩
    · exact absurd h (by simp)
  | succ fuel ih =>
    intro id path t h
    rw [TransformSystem.walk] at h
    rw [TransformSystem.worldFrom]
    split at h
    · rename_i hid
      exact ⟨t, by rw [if_pos hid]⟩
    · rename_i hid
      rw [if_neg hid]
      cases hc : s.m_transforms[id]? with
      | none => rw [hc] at h; exact absurd h (by simp)
      | some c =>
        rw [hc] at h
        simp only [Option.map_eq_some'] at h
        obtain ⟨rest, hrest, -⟩ := h
        exact ih c.parent rest _ hrest

theorem walk_of_worldFrom {M : Type} [Monoid M] (s : TransformSystem M) :
    ∀ (fuel id : Nat) (t world : M), s.worldFrom fuel id t = some world →
      ∃ path, s.walk fuel id = some path := by
  intro fuel
  induction fuel with
  | zero =>
    intro id t world h
    simp only [TransformSystem.worldFrom] at h
    split at h
    · rename_i hid
      exact ⟨[], by simp [TransformSystem.walk, hid]⟩
    · exact absurd h (by simp)
  | succ fuel ih =>
    intro id t world h
    rw [TransformSystem.worldFrom] at h
    rw [TransformSystem.walk]
    split at h
    · rename_i hid
      exact ⟨[], by rw [if_pos hid]⟩
    · rename_i hid
      rw [if_neg hid]
      cases hc : s.m_transforms[id]? with
      | none => rw [hc] at h; exact absurd h (by simp)
      | some c =>
        rw [hc] at h
        obtain ⟨rest, hrest⟩ := ih c.parent _ world h
        exact ⟨id :: rest, by simp only [hrest]; rfl⟩

theorem Chain_functional {M : Type} {s : TransformSystem M} {id : Nat} {path : List Nat}
    (h : s.Chain id path) : ∀ other, s.Chain id other → other = path := by
  induction h with
  | root =>
    intro other ho
    cases ho with
    | root => rfl
    | step _ _ _ hid _ _ => exact absurd rfl hid
  | step id c path hid hc _ ih =>
    intro other ho
    cases ho with
    | root => exact absurd rfl hid
    | step _ c' path' _ hc' hrest =>
      rw [hc, Option.some.injEq] at hc'
      subst hc'
      rw [ih path' hrest]

/-- The walk from a component of a path is the rest of the path from that component on. -/
theorem Chain_of_mem {M : Type} {s : TransformSystem M} {id : Nat} {path : List Nat}
    (h : s.Chain id path) :
    ∀ x ∈ path, ∃ sub, s.Chain x sub ∧ sub.length ≤ path.length := by
  induction h with
  | root => intro x hx; exact absurd hx (List.not_mem_nil _)
  | step id c path hid hc hrest ih =>
    intro x hx
    rcases List.mem_cons.mp hx with rfl | hx'
    · exact ⟨x :: path, TransformSystem.Chain.step x c path hid hc hrest, Nat.le_refl _⟩
    · obtain ⟨sub, hsub, hlen⟩ := ih x hx'
      exact ⟨sub, hsub, by simp only [List.length_cons]; omega⟩

theorem Chain_nodup {M : Type} {s : TransformSystem M} {id : Nat} {path : List Nat}
    (h : s.Chain id path) : path.Nodup := by
  induction h with
  | root => exact List.nodup_nil
  | step id c path hid hc hrest ih =>
    refine List.nodup_cons.mpr ⟨?_, ih⟩
    intro hmem
    obtain ⟨sub, hsub, hlen⟩ := Chain_of_mem hrest id hmem
    have := Chain_functional (TransformSystem.Chain.step id c path hid hc hrest) sub hsub
    rw [this] at hlen
    simp at hlen

theorem Chain_lt {M : Type} {s : TransformSystem M} {id : Nat} {path : List Nat}
    (h : s.Chain id path) : ∀ x ∈ path, x < s.m_transforms.length := by
  induction h with
  | root => intro x hx; exact absurd hx (List.not_mem_nil _)
  | step id c path hid hc hrest ih =>
    intro x hx
    rcases List.mem_cons.mp hx with rfl | hx'
    · exact lt_of_getElem?_eq_some hc
    · exact ih x hx'

/-- A walk that reaches `no_parent` passes through every component at most once, so through
at most as many components as the system has. -/
theorem Chain_length_le {M : Type} {s : TransformSystem M} {id : Nat} {path : List Nat}
    (h : s.Chain id path) : path.length ≤ s.m_transforms.length := by
  have hsub : path.toFinset ⊆ Finset.range s.m_transforms.length := by
    intro x hx
    rw [List.mem_toFinset] at hx
    exact Finset.mem_range.mpr (Chain_lt h x hx)
  have hcard := Finset.card_le_card hsub
  rw [List.toFinset_card_of_nodup (Chain_nodup h), Finset.card_range] at hcard
  exact hcard

/-- A loop of `GetWorld` that is over after some number of iterations is over after as many
iterations as the system has components. -/
theorem worldFrom_of_enough {M : Type} [Monoid M] (s : TransformSystem M) (fuel id : Nat)
    (t world : M) (h : s.worldFrom fuel id t = some world) :
    s.worldFrom s.m_transforms.length id t = some world := by
  obtain ⟨path, hpath⟩ := walk_of_worldFrom s fuel id t world h
  have hchain := walk_chain s fuel id path hpath
  have hwalk := chain_walk hchain s.m_transforms.length (Chain_length_le hchain)
  obtain ⟨world', hworld'⟩ := worldFrom_of_walk s s.m_transforms.length id path t hwalk
  have hmono : ∀ (k a : Nat) (w : M), s.worldFrom a id t = some w →
      s.worldFrom (a + k) id t = some w := by
    intro k
    induction k with
    | zero => intro a w hw; exact hw
    | succ k ih => intro a w hw; exact worldFrom_succ s _ id t w (ih a w hw)
  have h1 := hmono s.m_transforms.length fuel world h
  have h2 := hmono fuel s.m_transforms.length world' hworld'
  rw [Nat.add_comm] at h2
  rw [h1, Option.some.injEq] at h2
  rw [hworld', h2]

/-! ## C29 -/

theorem GetWorld_of_reset {M : Type} [Monoid M] (s : TransformSystem M) (id : Nat)
    (h : s.m_transforms[id]? = some (resetComponent M)) : s.GetWorld id = some 1 := by
  have hlen := lt_of_getElem?_eq_some h
  obtain ⟨k, hk⟩ : ∃ k, s.m_transforms.length = k + 1 := ⟨s.m_transforms.length - 1, by omega⟩
  simp only [TransformSystem.GetWorld, hk, TransformSystem.worldFrom]
  split
  · rfl
  · simp only [h]
    have hroot : ∀ (fuel : Nat) (t : M), s.worldFrom fuel no_parent t = some t := by
      intro fuel t
      cases fuel <;> simp [TransformSystem.worldFrom]
    show s.worldFrom k no_parent (1 * 1) = some 1
    rw [hroot, mul_one]

/-- C29: after construction, and after `ResetTransformComponent(id)`, the component has no
parent and `GetWorld(id)` is `GetTransform(id)`, the identity. For a component `id` whose walk
to the root is over after some number of steps, `GetWorld(id)` returns, the walk from its
parent is finite too, and `GetWorld(id) = GetWorld(parent) * GetTransform(id)`.
`ChildTransform(id, p)` sets the parent to `p`, and `UnchildTransform(id)` after it leaves the
component without parent and every transform as it was. -/
theorem GetWorld_composes {M : Type} [Monoid M] :
    (∀ (n_components : Nat) (s : TransformSystem M) (id : Nat),
        TransformSystem.create M n_components = some s → id < n_components →
        s.GetParent id = some no_parent ∧ s.GetTransform id = some 1
          ∧ s.GetWorld id = s.GetTransform id)
    ∧ (∀ (s : TransformSystem M) (id : Nat), id < s.m_transforms.length →
        ∃ s', s.ResetTransformComponent id = some s'
          ∧ s'.GetParent id = some no_parent ∧ s'.GetTransform id = some 1
          ∧ s'.GetWorld id = s'.GetTransform id)
    ∧ (∀ (s : TransformSystem M) (id fuel : Nat) (c : Component M) (world : M),
        id ≠ no_parent → s.m_transforms[id]? = some c →
        s.worldFrom fuel id 1 = some world →
        s.GetWorld id = some world
          ∧ s.GetTransform id = some c.transform
          ∧ ∃ parent_world, s.GetWorld c.parent = some parent_world
            ∧ world = parent_world * c.transform)
    ∧ (∀ (s : TransformSystem M) (id parent_id : Nat), id < s.m_transforms.length →
        ∃ s1 s2, s.ChildTransform id parent_id = some s1
          ∧ s1.GetParent id = some parent_id
          ∧ s1.UnchildTransform id = some s2
          ∧ s2.GetParent id = some no_parent
          ∧ ∀ j, s2.GetTransform j = s.GetTransform j) := by
  refine ⟨?_, ?_, ?_, ?_⟩
  · intro n_components s id hcreate hid
    simp only [TransformSystem.create] at hcreate
    split at hcreate
    · rw [Option.some.injEq] at hcreate
      subst hcreate
      have hget : (List.replicate n_components (resetComponent M))[id]?
          = some (resetComponent M) := List.getElem?_replicate_of_lt hid
      have hparent : (⟨List.replicate n_components (resetComponent M)⟩
          : TransformSystem M).GetParent id = some no_parent := by
        simp only [TransformSystem.GetParent, hget]; rfl
      have htransform : (⟨List.replicate n_components (resetComponent M)⟩
          : TransformSystem M).GetTransform id = some 1 := by
        simp only [TransformSystem.GetTransform, hget]; rfl
      exact ⟨hparent, htransform, by rw [htransform]; exact GetWorld_of_reset _ id hget⟩
    · exact absurd hcreate (by simp)
  · intro s id hid
    obtain ⟨c, hc⟩ := getElem?_isSome_of_lt hid
    have hget : (s.m_transforms.set id (resetComponent M))[id]? = some (resetComponent M) :=
      getElem?_set_self_of_some _ hc
    refine ⟨⟨s.m_transforms.set id (resetComponent M)⟩, ?_, ?_, ?_, ?_⟩
    · simp only [TransformSystem.ResetTransformComponent, hc, bind, Option.bind, pure]
    · simp only [TransformSystem.GetParent, hget]; rfl
    · simp only [TransformSystem.GetTransform, hget]; rfl
    · rw [GetWorld_of_reset _ id hget]
      simp only [TransformSystem.GetTransform, hget]; rfl
  · intro s id fuel c world hid hc hworld
    refine ⟨worldFrom_of_enough s fuel id 1 world hworld, ?_, ?_⟩
    · simp only [TransformSystem.GetTransform, hc]; rfl
    · cases fuel with
      | zero =>
        simp only [TransformSystem.worldFrom, if_neg hid] at hworld
        exact absurd hworld (by simp)
      | succ fuel =>
        rw [TransformSystem.worldFrom, if_neg hid, hc] at hworld
        simp only [] at hworld
        rw [worldFrom_acc, mul_one] at hworld
        simp only [Option.map_eq_some'] at hworld
        obtain ⟨parent_world, hparent, rfl⟩ := hworld
        exact ⟨parent_world, worldFrom_of_enough s fuel c.parent 1 parent_world hparent, rfl⟩
  · intro s id parent_id hid
    obtain ⟨c, hc⟩ := getElem?_isSome_of_lt hid
    have h1 : (s.m_transforms.set id { c with parent := parent_id })[id]?
        = some { c with parent := parent_id } := getElem?_set_self_of_some _ hc
    refine ⟨⟨s.m_transforms.set id { c with parent := parent_id }⟩,
      ⟨(s.m_transforms.set id { c with parent := parent_id }).set id
        { c with parent := no_parent }⟩, ?_, ?_, ?_, ?_, ?_⟩
    · simp only [TransformSystem.ChildTransform, hc, bind, Option.bind, pure]
    · simp only [TransformSystem.GetParent, h1]; rfl
    · simp only [TransformSystem.UnchildTransform, h1, bind, Option.bind, pure]
    · simp only [TransformSystem.GetParent, getElem?_set_self_of_some _ h1]; rfl
    · intro j
      simp only [TransformSystem.GetTransform]
      by_cases hj : j = id
      · subst hj
        rw [getElem?_set_self_of_some _ h1, hc]
        rfl
      · rw [getElem?_set_of_ne _ _ hj, getElem?_set_of_ne _ _ hj]

theorem GetWorld_composes_witness :
    (sampleTransforms.GetWorld 2).map FreeMonoid.toList = some [10, 11, 12]
    ∧ (sampleTransforms.GetWorld 1).map FreeMonoid.toList = some [10, 11]
    ∧ (sampleTransforms.GetTransform 2).map FreeMonoid.toList = some [12]
    ∧ ((sampleTransforms.ChildTransform 0 2).bind
        (fun s => s.GetWorld 2)).isSome = false
    ∧ ∃ s', sampleTransforms.ResetTransformComponent 2 = some s'
        ∧ s'.GetParent 2 = some no_parent ∧ s'.GetTransform 2 = some 1
        ∧ s'.GetWorld 2 = s'.GetTransform 2 :=
  ⟨by decide!, by decide!, by decide!, by decide!,
    GetWorld_composes.2.1 sampleTransforms 2 (by decide)⟩

/-! ## C30 -/

/-- A walk that does not pass through the component `id` is the same walk after a write to
that component. -/
theorem Chain_set_of_not_mem {M : Type} {s : TransformSystem M} (id : Nat)
    (written : Component M) {y : Nat} {path : List Nat} (h : s.Chain y path)
    (hid : id ∉ path) :
    TransformSystem.Chain ⟨s.m_transforms.set id written⟩ y path := by
  induction h with
  | root => exact TransformSystem.Chain.root
  | step x c path hx hc _ ih =>
    have hne : x ≠ id := fun hxi => hid (hxi ▸ List.mem_cons_self _ _)
    refine TransformSystem.Chain.step x c path hx ?_
      (ih (fun hmem => hid (List.mem_cons_of_mem _ hmem)))
    show (s.m_transforms.set id written)[x]? = some c
    rw [getElem?_set_of_ne _ _ hne]
    exact hc

/-- When the walk from the new parent is finite after the write, every walk that was finite
is finite after the write. -/
theorem Chain_reparent {M : Type} {s : TransformSystem M} {id parent_id : Nat}
    {c : Component M} (hc : s.m_transforms[id]? = some c) {parent_path : List Nat}
    (hparent : TransformSystem.Chain
      ⟨s.m_transforms.set id { c with parent := parent_id }⟩ parent_id parent_path)
    {x : Nat} {path : List Nat} (h : s.Chain x path) :
    ∃ path', TransformSystem.Chain
      ⟨s.m_transforms.set id { c with parent := parent_id }⟩ x path' := by
  induction h with
  | root => exact ⟨[], TransformSystem.Chain.root⟩
  | step x cx path hx hcx _ ih =>
    by_cases hxi : x = id
    · subst hxi
      refine ⟨x :: parent_path,
        TransformSystem.Chain.step x { c with parent := parent_id } parent_path hx ?_ hparent⟩
      exact getElem?_set_self_of_some _ hc
    · obtain ⟨rest, hrest⟩ := ih
      refine ⟨x :: rest, TransformSystem.Chain.step x cx rest hx ?_ hrest⟩
      show (s.m_transforms.set id { c with parent := parent_id })[x]? = some cx
      rw [getElem?_set_of_ne _ _ hxi]
      exact hcx

/-- A sequence of admitted calls completes and keeps every walk finite. -/
theorem run_admitted {M : Type} :
    ∀ (calls : List TransformCall) (s : TransformSystem M),
      (∀ id, id < s.m_transforms.length → ∃ path, s.Chain id path) →
      s.admitsAll calls = true →
      ∃ s', s.run calls = some s' ∧ s'.m_transforms.length = s.m_transforms.length
        ∧ ∀ id, id < s'.m_transforms.length → ∃ path, s'.Chain id path := by
  intro calls
  induction calls with
  | nil => intro s hs _; exact ⟨s, rfl, rfl, hs⟩
  | cons call rest ih =>
    intro s hs hadm
    simp only [TransformSystem.admitsAll, Bool.and_eq_true] at hadm
    obtain ⟨hcall, hnext⟩ := hadm
    cases hstep : s.call call with
    | none => rw [hstep] at hnext; exact absurd hnext (by simp)
    | some next =>
      rw [hstep] at hnext
      have hnext' : next.admitsAll rest = true := hnext
      have hkeep : next.m_transforms.length = s.m_transforms.length
          ∧ ∀ id, id < next.m_transforms.length → ∃ path, next.Chain id path := by
        cases call with
        | child id parent_id =>
          simp only [TransformSystem.admits, Bool.and_eq_true, decide_eq_true_eq] at hcall
          obtain ⟨-, hwalk⟩ := hcall
          have hstep' : s.ChildTransform id parent_id = some next := hstep
          simp only [TransformSystem.ChildTransform, bind, Option.bind_eq_some, pure,
            Option.some.injEq] at hstep'
          obtain ⟨c, hc, rfl⟩ := hstep'
          cases hpath : s.walk s.m_transforms.length parent_id with
          | none => rw [hpath] at hwalk; exact absurd hwalk (by simp)
          | some parent_path =>
            rw [hpath] at hwalk
            have hnot : id ∉ parent_path := by simpa using hwalk
            have hchain := Chain_set_of_not_mem id { c with parent := parent_id }
              (walk_chain s _ _ _ hpath) hnot
            refine ⟨List.length_set _ _ _, fun x hx => ?_⟩
            obtain ⟨path, hp⟩ := hs x (by rw [← List.length_set s.m_transforms id]; exact hx)
            exact Chain_reparent hc hchain hp
        | unchild id =>
          have hstep' : s.UnchildTransform id = some next := hstep
          simp only [TransformSystem.UnchildTransform, bind, Option.bind_eq_some, pure,
            Option.some.injEq] at hstep'
          obtain ⟨c, hc, rfl⟩ := hstep'
          refine ⟨List.length_set _ _ _, fun x hx => ?_⟩
          obtain ⟨path, hp⟩ := hs x (by rw [← List.length_set s.m_transforms id]; exact hx)
          exact Chain_reparent hc TransformSystem.Chain.root hp
      obtain ⟨s', hrun, hlen, hfinal⟩ := ih next hkeep.2 hnext'
      refine ⟨s', ?_, hlen.trans hkeep.1, hfinal⟩
      simp only [TransformSystem.run, List.foldlM_cons, hstep, Option.bind_eq_bind,
        Option.some_bind]
      exact hrun

/-- In the cycle of two components no number of iterations ends the loop of `GetWorld`. -/
theorem cyclic_worldFrom :
    ∀ (fuel : Nat) (t : ℤ),
      cyclicTransforms.worldFrom fuel 0 t = none
        ∧ cyclicTransforms.worldFrom fuel 1 t = none := by
  have h0 : (0 : Nat) ≠ no_parent := by decide
  have h1 : (1 : Nat) ≠ no_parent := by decide
  intro fuel
  induction fuel with
  | zero =>
    intro t
    exact ⟨by simp only [TransformSystem.worldFrom, if_neg h0],
      by simp only [TransformSystem.worldFrom, if_neg h1]⟩
  | succ fuel ih =>
    intro t
    refine ⟨?_, ?_⟩
    · rw [TransformSystem.worldFrom, if_neg h0]
      exact (ih _).2
    · rw [TransformSystem.worldFrom, if_neg h1]
      exact (ih _).1

/-- `ChildTransform(0, 1)` and `ChildTransform(1, 0)` on a system of two components, all ids
below `Capacity()`: each component is the parent of the other, and the loop of `GetWorld(0)`
is not over after any number of iterations. -/
theorem GetWorld_cycle_does_not_end :
    ((TransformSystem.create ℤ 2).bind
        (fun s => s.run [.child 0 1, .child 1 0])).map
        (fun s => (s.Capacity, s.GetParent 0, s.GetParent 1, (s.GetWorld 0).isSome))
      = some (2, some 1, some 0, false)
    ∧ ((TransformSystem.create ℤ 2).bind
        (fun s => s.run [.child 0 1, .child 1 0])).map (fun s => s.m_transforms.map
          (fun c => (c.transform, c.parent)))
      = some (cyclicTransforms.m_transforms.map (fun c => (c.transform, c.parent)))
    ∧ ¬ ∃ fuel, (cyclicTransforms.worldFrom fuel 0 1).isSome = true := by
  refine ⟨by decide!, by decide!, ?_⟩
  rintro ⟨fuel, h⟩
  rw [(cyclic_worldFrom fuel 1).1] at h
  exact absurd h (by simp)

/-- C30, for hierarchies without a cycle: after construction and any sequence of
`ChildTransform(id, parent_id)` and `UnchildTransform(id)` calls with ids below `Capacity()`
in which no `ChildTransform(id, parent_id)` is called while the walk from `parent_id` to the
root passes through `id`, the calls complete and `GetWorld(id)` returns for every id below
`Capacity()`, its loop passing only through components below `Capacity()`. -/
theorem GetWorld_terminates {M : Type} [Monoid M] (n_components : Nat)
    (s0 : TransformSystem M) (calls : List TransformCall)
    (hcreate : TransformSystem.create M n_components = some s0)
    (hcalls : s0.admitsAll calls = true) :
    ∃ s, s0.run calls = some s ∧ s.Capacity = n_components
      ∧ ∀ id, id < s.Capacity →
        ∃ world path, s.GetWorld id = some world
          ∧ s.walk s.m_transforms.length id = some path
          ∧ ∀ x ∈ path, x < s.Capacity := by
  simp only [TransformSystem.create] at hcreate
  split at hcreate
  · rename_i hlt
    rw [Option.some.injEq] at hcreate
    subst hcreate
    obtain ⟨s, hrun, hlen, hfinal⟩ := run_admitted calls
      (⟨List.replicate n_components (resetComponent M)⟩ : TransformSystem M)
      (fun id hid => by
        have hid' : id < n_components := by simpa using hid
        have hne : id ≠ no_parent := by
          unfold no_parent
          omega
        exact ⟨[id], TransformSystem.Chain.step id (resetComponent M) [] hne
          (List.getElem?_replicate_of_lt hid') TransformSystem.Chain.root⟩)
      hcalls
    have hlen' : s.m_transforms.length = n_components := by
      rw [hlen]; simp
    have hcap : s.Capacity = n_components := by
      simp only [TransformSystem.Capacity, hlen']
      exact Nat.mod_eq_of_lt hlt
    refine ⟨s, hrun, hcap, fun id hid => ?_⟩
    rw [hcap, ← hlen'] at hid
    obtain ⟨path, hpath⟩ := hfinal id hid
    have hwalk := chain_walk hpath s.m_transforms.length (Chain_length_le hpath)
    obtain ⟨world, hworld⟩ := worldFrom_of_walk s s.m_transforms.length id path 1 hwalk
    refine ⟨world, path, hworld, hwalk, fun x hx => ?_⟩
    rw [hcap, ← hlen']
    exact Chain_lt hpath x hx
  · exact absurd hcreate (by simp)

theorem GetWorld_terminates_witness :
    ((TransformSystem.create ℤ 3).bind
        (fun s => s.run [.child 0 1, .child 1 2, .unchild 1, .child 2 0])).map
        (fun s => (s.GetParent 0, s.GetParent 1, s.GetParent 2,
          s.walk s.m_transforms.length 2))
      = some (some 1, some no_parent, some 0, some [2, 0, 1])
    ∧ ∃ s, (⟨List.replicate 3 (resetComponent ℤ)⟩ : TransformSystem ℤ).run
          [.child 0 1, .child 1 2, .unchild 1, .child 2 0] = some s
        ∧ s.Capacity = 3 :=
  ⟨by decide!, by
    obtain ⟨s, hrun, hcap, -⟩ := GetWorld_terminates 3
      (⟨List.replicate 3 (resetComponent ℤ)⟩ : TransformSystem ℤ)
      [.child 0 1, .child 1 2, .unchild 1, .child 2 0]
      (by simp [TransformSystem.create, U32]) (by decide!)
    exact ⟨s, hrun, hcap⟩⟩

end mono
